import Mathlib

/-!
# Parser and code generator of the scripting-language compiler

A shallow embedding of `src/parser.cpp` (recursive-descent parser over a
two-token cursor) and of `src/codegen.cpp` (lowering of the syntax tree to
instructions of the `main` function), together with the properties of them that
are checked here.

Conventions of the embedding

* The parser object is the record `Parser` (lexer, current token, peek token);
  every parsing function takes the parser state and returns a `Result`
  carrying the node and the state after it, an error message (a C++ `throw`),
  or `outOfFuel`.
* Recursion is bounded by a natural number `fuel`: it bounds the depth of the
  calls between parsing functions and the number of iterations of each loop.
  `outOfFuel` is a third outcome, different from success and from an error.
* `std::unique_ptr` fields that the parser fills with `nullptr` are `Option`s.
* An exception of `std::stoi` (no digits, or a value outside `int`) ends the
  parse like any other throw; it is the error with message `"stoi"`.
-/

namespace Compiler

/-! ## Tokens and the token cursor -/

/-- Token kinds that `parser.cpp` tests for (`Token::Type` of the lexer header). -/
inductive TokenType
  | Eof | Int | StringType | Bool | Float | Char | Array | Ident | Semicolon
  | If | Else | Print | LeftParen | negLeftParen | RightParen | For | Foreach | In
  | Try | Catch | Error | Match | Underscore | Arrow | Comma | Equal
  | LeftBrace | RightBrace | LeftBracket | RightBracket | Dot | Question | Colon
  | Plus | Minus | Star | Slash | Modulo
  | EqualEqual | NotEqual | Less | LessEqual | Greater | GreaterEqual
  | And | Or | Xor | PlusPlus | MinusMinus
  | PlusEqual | MinusEqual | StarEqual | SlashEqual | ModuloEqual
  | IntLiteral | SignedIntLiteral | StrLiteral | BoolLiteral | FloatLiteral | CharLiteral
  | Concat | Abs | Pow | Length | Min | Max | Index
  | Multiply | Add | Subtract | Divide
  deriving DecidableEq, Repr

/-- A token: kind, literal text and source line. -/
structure Token where
  type : TokenType
  lexeme : String
  line : Nat
  deriving DecidableEq, Repr

/-- Modelled from the spec: the lexer (`lexer.h`/`lexer.cpp` are not part of the
sources).  It hands out the tokens of its input one by one and, once they are
used up, keeps yielding the end marker. -/
structure Lexer where
  pending : List Token
  deriving DecidableEq, Repr

/-- Modelled from the spec: the end-of-stream marker the lexer yields. -/
def eofToken : Token := ⟨.Eof, "", 0⟩

/-- Modelled from the spec: `Lexer::nextToken`, the next token and the lexer after it. -/
def Lexer.nextToken (l : Lexer) : Token × Lexer :=
  match l.pending with
  | [] => (eofToken, l)
  | t :: ts => (t, ⟨ts⟩)

/-- The state of a `Parser` object. -/
structure Parser where
  lexer : Lexer
  currentToken : Token
  peekToken : Token
  deriving DecidableEq, Repr

/-- `Parser::Parser(Lexer&)`: pulls the first two tokens. -/
def Parser.new (lexer : Lexer) : Parser :=
  let r1 := lexer.nextToken
  let r2 := r1.2.nextToken
  { lexer := r2.2, currentToken := r1.1, peekToken := r2.1 }

/-- `Parser::advance`. -/
def Parser.advance (p : Parser) : Parser :=
  let r := p.lexer.nextToken
  { lexer := r.2, currentToken := p.peekToken, peekToken := r.1 }

/-- The parser freshly constructed over a list of tokens. -/
def Parser.ofTokens (ts : List Token) : Parser := Parser.new ⟨ts⟩

/-! ## The abstract syntax tree -/

/-- `VarType` of the AST header. -/
inductive VarType
  | INT | BOOL | FLOAT | CHAR | STRING | ARRAY | ERROR
  deriving DecidableEq, Repr

/-- `BinaryOp` of the AST header. -/
inductive BinaryOp
  | ADD | SUBTRACT | MULTIPLY | DIVIDE | MODULO
  | EQUAL | NOT_EQUAL | LESS | LESS_EQUAL | GREATER | GREATER_EQUAL
  | AND | OR | XOR
  | INDEX | METHOD_CALL | ABS | POW
  | ADD_ARRAY | SUBTRACT_ARRAY | MULTIPLY_ARRAY | DIVIDE_ARRAY
  deriving DecidableEq, Repr

/-- `UnaryOp` of the AST header. -/
inductive UnaryOp
  | NEGATE | INCREMENT | DECREMENT | LENGTH | MIN | MAX
  deriving DecidableEq, Repr

/-- A `float` value, kept symbolic: floating-point arithmetic is not computed.
`stof s` is the value `std::stof` yields on the text `s`, `ofInt i` the value
of `static_cast<double>(i)` narrowed to `float`. -/
inductive FloatVal
  | stof (lexeme : String)
  | ofInt (value : Int)
  deriving DecidableEq, Repr

/-- The AST node classes.  A `VarDeclNode` entry of a `MultiVarDeclNode` is the
triple of its fields, a `MatchCaseNode` the pair of its fields. -/
inductive ASTNode
  | IntLiteral (value : Int)
  | FloatLiteral (value : FloatVal)
  | StrLiteral (value : String)
  | BoolLiteral (value : Bool)
  | CharLiteral (value : Char)
  | VarRefNode (name : String)
  | ArrayLiteralNode (elements : List ASTNode)
  | ConcatNode (left right : ASTNode)
  | TernaryExprNode (condition trueBranch falseBranch : ASTNode)
  | UnaryOpNode (op : UnaryOp) (operand : ASTNode)
  | BinaryOpNode (op : BinaryOp) (left : ASTNode) (right : Option ASTNode)
  | VarDeclNode (type : VarType) (name : String) (value : Option ASTNode)
  | MultiVarDeclNode (declarations : List (VarType × String × Option ASTNode))
  | AssignNode (name : String) (value : ASTNode)
  | CompoundAssignNode (name : String) (op : BinaryOp) (value : ASTNode)
  | IfElseNode (condition then_block : ASTNode) (else_block : Option ASTNode)
  | BlockNode (statements : List ASTNode)
  | LoopNode (init condition update : Option ASTNode) (body : ASTNode)
  | ForeachLoopNode (varName : String) (collection body : ASTNode)
  | TryCatchNode (tryBlock catchBlock : ASTNode) (errorVar : String)
  | MatchNode (expr : ASTNode) (cases : List (Option ASTNode × ASTNode))
  | PrintNode (expr : ASTNode)

/-- `ProgramNode`: the ordered top-level statements. -/
structure ProgramNode where
  statements : List ASTNode

namespace ASTNode

/-- `dynamic_cast<IntLiteral*>` succeeds. -/
def isIntLiteral : ASTNode → Bool
  | IntLiteral _ => true
  | _ => false

/-- `dynamic_cast<FloatLiteral*>` succeeds. -/
def isFloatLiteral : ASTNode → Bool
  | FloatLiteral _ => true
  | _ => false

/-- `dynamic_cast<StrLiteral*>` succeeds. -/
def isStrLiteral : ASTNode → Bool
  | StrLiteral _ => true
  | _ => false

/-- `dynamic_cast<BoolLiteral*>` succeeds. -/
def isBoolLiteral : ASTNode → Bool
  | BoolLiteral _ => true
  | _ => false

/-- `dynamic_cast<CharLiteral*>` succeeds. -/
def isCharLiteral : ASTNode → Bool
  | CharLiteral _ => true
  | _ => false

/-- `dynamic_cast<VarRefNode*>` succeeds. -/
def isVarRefNode : ASTNode → Bool
  | VarRefNode _ => true
  | _ => false

/-- `dynamic_cast<ArrayLiteralNode*>` succeeds. -/
def isArrayLiteralNode : ASTNode → Bool
  | ArrayLiteralNode _ => true
  | _ => false

/-- `dynamic_cast<BinaryOpNode*>` succeeds. -/
def isBinaryOpNode : ASTNode → Bool
  | BinaryOpNode _ _ _ => true
  | _ => false

end ASTNode

/-! ## Results and library functions -/

/-- Outcome of a parsing function: the node and the parser state after it, a
thrown error, or exhausted fuel. -/
inductive Result (α : Type)
  | ok (value : α) (next : Parser)
  | error (msg : String)
  | outOfFuel

/-- Sequencing: run `f` on a successful outcome, pass the others on. -/
def Result.bind {α β : Type} (r : Result α) (f : α → Parser → Result β) : Result β :=
  match r with
  | .ok a p => f a p
  | .error m => .error m
  | .outOfFuel => .outOfFuel

/-- `isspace` of the C locale. -/
def isSpaceChar (c : Char) : Bool :=
  c.toNat = 32 || (9 ≤ c.toNat && c.toNat ≤ 13)

/-- Value of a run of leading decimal digits, with the number of digits read. -/
def readDigits : List Char → Nat → Nat → Nat × Nat
  | [], acc, n => (acc, n)
  | c :: cs, acc, n =>
    if 48 ≤ c.toNat ∧ c.toNat ≤ 57 then readDigits cs (acc * 10 + (c.toNat - 48)) (n + 1)
    else (acc, n)

/-- `std::stoi` (base 10): skips leading white space, reads an optional sign and
the leading digits, ignores what follows; `none` stands for the exceptions
`std::invalid_argument` (no digit) and `std::out_of_range` (not a 32-bit `int`). -/
def stoi (s : String) : Option Int :=
  let cs := s.data.dropWhile isSpaceChar
  let (neg, ds) :=
    match cs with
    | '-' :: r => (true, r)
    | '+' :: r => (false, r)
    | r => (false, r)
  let (v, n) := readDigits ds 0 0
  if n = 0 then none
  else
    let i : Int := if neg then -(v : Int) else (v : Int)
    if -2147483648 ≤ i ∧ i ≤ 2147483647 then some i else none

/-- The value of a decimal digit. -/
def decimalDigit (c : Char) : Option Nat :=
  if 48 ≤ c.toNat ∧ c.toNat ≤ 57 then some (c.toNat - 48) else none

/-- The value of a hexadecimal digit, in either case. -/
def hexDigit (c : Char) : Option Nat :=
  if 48 ≤ c.toNat ∧ c.toNat ≤ 57 then some (c.toNat - 48)
  else if 97 ≤ c.toNat ∧ c.toNat ≤ 102 then some (c.toNat - 87)
  else if 65 ≤ c.toNat ∧ c.toNat ≤ 70 then some (c.toNat - 55)
  else none

/-- A run of leading digits: the value they add to `acc` in the given base, the
count of digits added to `n`, and the text after them. -/
def readNumber (digit : Char → Option Nat) (base : Nat) :
    List Char → Nat → Nat → Nat × Nat × List Char
  | [], acc, n => (acc, n, [])
  | c :: cs, acc, n =>
    match digit c with
    | some d => readNumber digit base cs (acc * base + d) (n + 1)
    | none => (acc, n, c :: cs)

/-- The digits of a number with an optional fraction after a `.`: the value of
all its digits read as one integer, their count, the count of those after the
`.`, and the text after them. -/
def readMantissa (digit : Char → Option Nat) (base : Nat) (cs : List Char) :
    Nat × Nat × Nat × List Char :=
  let (a, na, r1) := readNumber digit base cs 0 0
  match r1 with
  | '.' :: r2 =>
    let (m, n, r3) := readNumber digit base r2 a na
    (m, n, n - na, r3)
  | _ => (a, na, 0, r1)

/-- The exponent part of a floating-point number: the marker letter (its lower
case code is `lower`) in either case, an optional sign and at least one decimal
digit; 0 when the text has no such part. -/
def readExponent (lower : Nat) : List Char → Int
  | [] => 0
  | c :: cs =>
    if c.toNat = lower ∨ c.toNat + 32 = lower then
      let (neg, ds) :=
        match cs with
        | '-' :: r => (true, r)
        | '+' :: r => (false, r)
        | r => (false, r)
      let (v, n, _) := readNumber decimalDigit 10 ds 0 0
      if n = 0 then 0 else if neg then -(v : Int) else (v : Int)
    else 0

/-- No range error for the magnitude `m * base ^ x`: it is zero, or it neither
rounds beyond the largest `float` (it is below 2^128 - 2^103) nor lies below the
smallest normalized `float` 2^-126. -/
def floatInRange (m base : Nat) (x : Int) : Bool :=
  if m = 0 then true
  else
    match x with
    | .ofNat k => decide (m * base ^ k < 2 ^ 128 - 2 ^ 103)
    | .negSucc k =>
      decide (m < (2 ^ 128 - 2 ^ 103) * base ^ (k + 1)) && decide (base ^ (k + 1) ≤ m * 2 ^ 126)

/-- The text starts with the letters of a word, given by their lower case codes,
in either case. -/
def startsWithWord : List Nat → List Char → Bool
  | [], _ => true
  | _ :: _, [] => false
  | w :: ws, c :: cs => (c.toNat = w || c.toNat + 32 = w) && startsWithWord ws cs

/-- The conversion `strtof` makes of a text without leading white space and
sign succeeds: the text starts with `inf` or `nan`, with a hexadecimal number
after `0x` (digits with an optional fraction and an optional `p` exponent), or
with a decimal number (at least one digit, with an optional fraction and an
optional `e` exponent), and the number is in range. -/
def stofConverts (body : List Char) : Bool :=
  if startsWithWord [105, 110, 102] body || startsWithWord [110, 97, 110] body then true
  else
    let hex : Option (Nat × Nat × Nat × List Char) :=
      match body with
      | '0' :: x :: r =>
        if x = 'x' ∨ x = 'X' then
          let h := readMantissa hexDigit 16 r
          if h.2.1 = 0 then none else some h
        else none
      | _ => none
    match hex with
    | some (m, _, nf, rest) => floatInRange m 2 (readExponent 112 rest - 4 * (nf : Int))
    | none =>
      let (m, n, nf, rest) := readMantissa decimalDigit 10 body
      if n = 0 then false else floatInRange m 10 (readExponent 101 rest - (nf : Int))

/-- `std::stof`: skips leading white space, reads an optional sign and the number
that follows, ignores what comes after it; `none` stands for the exceptions
`std::invalid_argument` (no number to convert) and `std::out_of_range` (`strtof`
reports a range error: the value is too large for a `float`, or is not zero and
below the smallest normalized `float`).  The converted value is kept symbolic. -/
def stof (s : String) : Option FloatVal :=
  let cs := s.data.dropWhile isSpaceChar
  let body :=
    match cs with
    | '-' :: r => r
    | '+' :: r => r
    | r => r
  if stofConverts body then some (.stof s) else none

/-- `lexeme[0]` of a `std::string`: the first character, the null character for
the empty string. -/
def firstChar (s : String) : Char :=
  match s.data with
  | [] => Char.ofNat 0
  | c :: _ => c

/-- A message followed by the line of the current token (`std::to_string(currentToken.line)`). -/
def atLine (msg : String) (p : Parser) : String :=
  msg ++ toString p.currentToken.line

/-! ## The parser -/

/-- The parsing functions of `Parser` one call level further down: the functions
call each other through such a record, so that `fuel` bounds the call depth. -/
structure Parsers where
  parseStatement : Parser → Result ASTNode
  parseVarDecl : Parser → Result ASTNode
  parseExpression : Parser → Result ASTNode
  parsePrimary : Parser → Result ASTNode
  parseVarDeclMultiVariable : VarType → String → Parser → Result ASTNode
  parseVarDeclMultiBoth : VarType → ASTNode → List String → Parser → Result ASTNode
  parseAssignment : Parser → Result ASTNode
  parseIfStatement : Parser → Result ASTNode
  parseBlock : Parser → Result (List ASTNode)
  parseLoop : Parser → Result ASTNode
  parseTryCatch : Parser → Result ASTNode
  parseTernary : ASTNode → Parser → Result ASTNode
  parseMatch : Parser → Result ASTNode

/-- The type keywords and the `VarType` each selects (`parseVarDecl`, lines 112-119). -/
def varTypeOfToken : TokenType → Option VarType
  | .Int => some .INT
  | .StringType => some .STRING
  | .Bool => some .BOOL
  | .Float => some .FLOAT
  | .Char => some .CHAR
  | .Array => some .ARRAY
  | _ => none

/-- The condition of the operator loop of `parseExpression` (lines 162-169, 252-259). -/
def isChainOperator (t : TokenType) : Bool :=
  t = .Plus || t = .Minus || t = .Star || t = .Slash || t = .EqualEqual || t = .LessEqual ||
  t = .NotEqual || t = .Greater || t = .GreaterEqual || t = .Less || t = .And || t = .Or ||
  t = .SignedIntLiteral || t = .Modulo || t = .Xor

/-- The `switch` of the operator loop (lines 190-207, 280-297); `none` is its
`default` branch. -/
def binaryOpOfToken : TokenType → Option BinaryOp
  | .Plus => some .ADD
  | .Minus => some .SUBTRACT
  | .Star => some .MULTIPLY
  | .Slash => some .DIVIDE
  | .EqualEqual => some .EQUAL
  | .LessEqual => some .LESS_EQUAL
  | .NotEqual => some .NOT_EQUAL
  | .Greater => some .GREATER
  | .GreaterEqual => some .GREATER_EQUAL
  | .Less => some .LESS
  | .And => some .AND
  | .Or => some .OR
  | .Modulo => some .MODULO
  | .Xor => some .XOR
  | _ => none

/-- The test the `+` branch and the `ADD` branch make for string concatenation
(lines 181-182, 212-213, 271-272, 302-303). -/
def isConcatOperands (left right : ASTNode) : Bool :=
  left.isStrLiteral || right.isStrLiteral || left.isVarRefNode || right.isVarRefNode

/-- The operator loop of `parseExpression` (lines 162-231 and, word for word the
same, 252-321).  `uninit` is the value the local `BinaryOp op;` holds where the
`+` branch reads it before any assignment (lines 175, 265): the declaration has no
initializer, so the value is indeterminate and is a parameter of the model.
The first `Nat` is the iteration bound. -/
def exprLoop (uninit : BinaryOp) (rec : Parsers) : Nat → ASTNode → Parser → Result ASTNode
  | 0, _, _ => .outOfFuel
  | n + 1, left, p =>
    if isChainOperator p.currentToken.type then
      if p.currentToken.type = .Plus then
        let p := p.advance
        (rec.parsePrimary p).bind fun right p =>
          if uninit = .XOR ∧ (!left.isBoolLiteral && !left.isVarRefNode &&
              !right.isBoolLiteral && !right.isVarRefNode) = true then
            .error (atLine "XOR requires boolean operands at line " p)
          else if isConcatOperands left right then
            exprLoop uninit rec n (.ConcatNode left right) p
          else
            exprLoop uninit rec n (.BinaryOpNode .ADD left (some right)) p
      else if p.currentToken.type ≠ .SignedIntLiteral then
        match binaryOpOfToken p.currentToken.type with
        | none => .error "Unknown binary operator"
        | some op =>
          let p := p.advance
          (rec.parsePrimary p).bind fun right p =>
            if op = .ADD ∧ p.currentToken.type = .StrLiteral then
              if isConcatOperands left right then
                exprLoop uninit rec n (.ConcatNode left right) p
              else
                exprLoop uninit rec n left p
            else
              exprLoop uninit rec n (.BinaryOpNode op left (some right)) p
      else
        match stoi p.currentToken.lexeme with
        | none => .error "stoi"
        | some v =>
          exprLoop uninit rec n (.BinaryOpNode .ADD left (some (.IntLiteral v))) p.advance
    else
      .ok left p

/-- The postfix `++`/`--` step of `parseExpression` (lines 232-244, 322-334). -/
def exprPostfix (left : ASTNode) (p : Parser) : Result ASTNode :=
  if p.currentToken.type = .PlusPlus ∨ p.currentToken.type = .MinusMinus then
    let op := if p.currentToken.type = .PlusPlus then UnaryOp.INCREMENT else UnaryOp.DECREMENT
    let p := p.advance
    if (!left.isVarRefNode && !left.isBinaryOpNode) = true then
      .error "Increment/decrement can only be applied to variables or array elements"
    else
      match left with
      | .BinaryOpNode bop _ _ =>
        if bop ≠ .INDEX then
          .error "Increment/decrement can only be applied to array elements with index"
        else .ok (.UnaryOpNode op left) p
      | _ => .ok (.UnaryOpNode op left) p
  else
    .ok left p

/-- `Parser::parseExpression` (lines 151-338). -/
def parseExpressionStep (uninit : BinaryOp) (fuel : Nat) (rec : Parsers) (p : Parser) :
    Result ASTNode :=
  if p.currentToken.type = .LeftParen ∨ p.currentToken.type = .negLeftParen then
    let pervType := p.currentToken.type
    let p := p.advance
    (rec.parseExpression p).bind fun left p =>
      if p.currentToken.type ≠ .RightParen then .error (atLine "Expected ')' at line " p)
      else
        let p := p.advance
        if p.currentToken.type ≠ .Semicolon then
          (exprLoop uninit rec fuel left p).bind fun left p =>
            (exprPostfix left p).bind fun left p =>
              rec.parseTernary left p
        else if pervType = .LeftParen then .ok left p
        else .ok (.UnaryOpNode .NEGATE left) p
  else
    (rec.parsePrimary p).bind fun left p =>
      (exprLoop uninit rec fuel left p).bind fun left p =>
        (exprPostfix left p).bind fun left p =>
          rec.parseTernary left p

/-- The test of `parseTernary` on its condition (lines 974-984). -/
def isBooleanCondition : ASTNode → Bool
  | .BinaryOpNode op _ _ =>
    op = .EQUAL || op = .NOT_EQUAL || op = .LESS || op = .LESS_EQUAL ||
    op = .GREATER || op = .GREATER_EQUAL || op = .AND || op = .OR
  | _ => false

/-- `Parser::parseTernary` (lines 964-990). -/
def parseTernaryStep (rec : Parsers) (condition : ASTNode) (p : Parser) : Result ASTNode :=
  if p.currentToken.type = .Question then
    let p := p.advance
    (rec.parseExpression p).bind fun trueBranch p =>
      if p.currentToken.type ≠ .Colon then
        .error (atLine "Expected ':' in ternary expression at line " p)
      else
        let p := p.advance
        (rec.parseExpression p).bind fun falseBranch p =>
          if isBooleanCondition condition then
            .ok (.TernaryExprNode condition trueBranch falseBranch) p
          else
            .error (atLine "Ternary condition must be a boolean expression at line " p)
  else
    .ok condition p

/-- The element loop of an array literal in `parsePrimary` (the `do`/`while` of
lines 414-427), entered with the cursor on the first element. -/
def arrayLoop (rec : Parsers) : Nat → List ASTNode → Parser → Result (List ASTNode)
  | 0, _, _ => .outOfFuel
  | n + 1, elements, p =>
    (rec.parseExpression p).bind fun expr p =>
      if (!expr.isIntLiteral && !expr.isVarRefNode && !expr.isStrLiteral &&
          !expr.isBoolLiteral && !expr.isCharLiteral) = true then
        .error "Array elements must be integers or identifiers"
      else
        let elements := elements ++ [expr]
        if p.currentToken.type = .Comma then
          let p := p.advance
          if p.currentToken.type ≠ .RightBracket then arrayLoop rec n elements p
          else .ok elements p
        else .ok elements p

/-- The builtin forms with one array-like argument: `length`, `min`, `max`
(lines 504-533). -/
def unaryBuiltin (rec : Parsers) (op : UnaryOp) (opName : String) (p : Parser) :
    Result ASTNode :=
  let p := p.advance
  if p.currentToken.type ≠ .LeftParen then
    .error (atLine ("Expected '(' after '" ++ opName ++ "' at line ") p)
  else
    let p := p.advance
    (rec.parseExpression p).bind fun operand p =>
      if (!operand.isVarRefNode && !operand.isArrayLiteralNode) = true then
        .error (atLine (opName ++ " argument must be an array or identifier at line ") p)
      else if p.currentToken.type ≠ .RightParen then
        .error (atLine ("Expected ')' after " ++ opName ++ " argument at line ") p)
      else
        .ok (.UnaryOpNode op operand) p.advance

/-- The element-wise array builtins `multiply`, `add`, `subtract`, `divide`
(lines 563-607). -/
def arrayBuiltin (rec : Parsers) (op : BinaryOp) (opName : String) (p : Parser) :
    Result ASTNode :=
  let p := p.advance
  if p.currentToken.type ≠ .LeftParen then
    .error (atLine ("Expected '(' after '" ++ opName ++ "' at line ") p)
  else
    let p := p.advance
    (rec.parseExpression p).bind fun arr1 p =>
      if (!arr1.isVarRefNode && !arr1.isArrayLiteralNode) = true then
        .error (atLine (opName ++ " first argument must be an array or identifier at line ") p)
      else if p.currentToken.type ≠ .Comma then
        .error (atLine ("Expected ',' after first array in " ++ opName ++ " at line ") p)
      else
        let p := p.advance
        (rec.parseExpression p).bind fun arr2 p =>
          if (!arr2.isVarRefNode && !arr2.isArrayLiteralNode) = true then
            .error (atLine (opName ++ " second argument must be an array or identifier at line ") p)
          else if p.currentToken.type ≠ .RightParen then
            .error (atLine ("Expected ')' after " ++ opName ++ " arguments at line ") p)
          else
            .ok (.BinaryOpNode op arr1 (some arr2)) p.advance

/-- `Parser::parsePrimary` (lines 340-611).  The tests `if (!expr)` of the source
are omitted: no parsing function returns a null node, each returns a node or throws. -/
def parsePrimaryStep (fuel : Nat) (rec : Parsers) (p : Parser) : Result ASTNode :=
  if p.currentToken.type = .LeftParen then
    let p := p.advance
    (rec.parseExpression p).bind fun expr p =>
      if p.currentToken.type ≠ .RightParen then .error (atLine "Expected ')' at line " p)
      else .ok expr p.advance
  else if p.currentToken.type = .IntLiteral ∨ p.currentToken.type = .SignedIntLiteral then
    match stoi p.currentToken.lexeme with
    | none => .error "stoi"
    | some v => .ok (.IntLiteral v) p.advance
  else if p.currentToken.type = .StrLiteral then
    .ok (.StrLiteral p.currentToken.lexeme) p.advance
  else if p.currentToken.type = .BoolLiteral then
    .ok (.BoolLiteral (p.currentToken.lexeme = "true")) p.advance
  else if p.currentToken.type = .FloatLiteral then
    match stof p.currentToken.lexeme with
    | none => .error "stof"
    | some v => .ok (.FloatLiteral v) p.advance
  else if p.currentToken.type = .CharLiteral then
    .ok (.CharLiteral (firstChar p.currentToken.lexeme)) p.advance
  else if p.currentToken.type = .Ident then
    let name := p.currentToken.lexeme
    let p := p.advance
    let varRef := ASTNode.VarRefNode name
    if p.currentToken.type = .LeftBracket then
      let p := p.advance
      (rec.parseExpression p).bind fun index p =>
        if (!index.isIntLiteral && !index.isVarRefNode) = true then
          .error (atLine "Array index must be an integer or identifier at line " p)
        else if p.currentToken.type ≠ .RightBracket then
          .error (atLine "Expected ']' after array index at line " p)
        else
          .ok (.BinaryOpNode .INDEX varRef (some index)) p.advance
    else if p.currentToken.type = .Dot then
      let p := p.advance
      if p.currentToken.type ≠ .Ident then .error "Expected method name after '.'"
      else
        let methodName := p.currentToken.lexeme
        let p := p.advance
        if p.currentToken.type ≠ .LeftParen then .error "Expected '(' after method name"
        else
          let p := p.advance
          if p.currentToken.type ≠ .RightParen then .error "Expected ')' after method call"
          else
            .ok (.BinaryOpNode .METHOD_CALL varRef (some (.StrLiteral methodName))) p.advance
    else
      .ok varRef p
  else if p.currentToken.type = .LeftBracket then
    let p := p.advance
    let elems :=
      if p.currentToken.type ≠ .RightBracket then arrayLoop rec fuel [] p
      else .ok [] p
    elems.bind fun elements p =>
      if p.currentToken.type ≠ .RightBracket then .error "Expected ']' after array literal"
      else .ok (.ArrayLiteralNode elements) p.advance
  else if p.currentToken.type = .Concat then
    let p := p.advance
    if p.currentToken.type ≠ .LeftParen then .error "Expected '(' after 'concat'"
    else
      let p := p.advance
      (rec.parseExpression p).bind fun left p =>
        if p.currentToken.type ≠ .Comma then
          .error "Expected ',' after first argument in concat"
        else
          let p := p.advance
          (rec.parseExpression p).bind fun right p =>
            if p.currentToken.type ≠ .RightParen then
              .error "Expected ')' after concat arguments"
            else
              .ok (.ConcatNode left right) p.advance
  else if p.currentToken.type = .Abs then
    let p := p.advance
    if p.currentToken.type ≠ .LeftParen then .error "Expected '(' after 'abs'"
    else
      let p := p.advance
      (rec.parseExpression p).bind fun expr p =>
        if (!expr.isIntLiteral && !expr.isVarRefNode) = true then
          .error "abs argument must be an integer literal or identifier"
        else if p.currentToken.type ≠ .RightParen then
          .error "Expected ')' after abs argument"
        else
          .ok (.BinaryOpNode .ABS expr none) p.advance
  else if p.currentToken.type = .Pow then
    let p := p.advance
    if p.currentToken.type ≠ .LeftParen then
      .error (atLine "Expected '(' after 'pow' at line " p)
    else
      let p := p.advance
      (rec.parseExpression p).bind fun base p =>
        if (!base.isIntLiteral && !base.isVarRefNode) = true then
          .error (atLine "pow base must be an integer literal or identifier at line " p)
        else if p.currentToken.type ≠ .Comma then
          .error (atLine "Expected ',' after pow base at line " p)
        else
          let p := p.advance
          (rec.parseExpression p).bind fun exp p =>
            if (!exp.isIntLiteral && !exp.isVarRefNode) = true then
              .error (atLine "pow exponent must be an integer literal or identifier at line " p)
            else if p.currentToken.type ≠ .RightParen then
              .error (atLine "Expected ')' after pow arguments at line " p)
            else
              .ok (.BinaryOpNode .POW base (some exp)) p.advance
  else if p.currentToken.type = .Length then unaryBuiltin rec .LENGTH "length" p
  else if p.currentToken.type = .Min then unaryBuiltin rec .MIN "min" p
  else if p.currentToken.type = .Max then unaryBuiltin rec .MAX "max" p
  else if p.currentToken.type = .Index then
    let p := p.advance
    if p.currentToken.type ≠ .LeftParen then
      .error (atLine "Expected '(' after 'index' at line " p)
    else
      let p := p.advance
      (rec.parseExpression p).bind fun arr p =>
        if (!arr.isVarRefNode && !arr.isArrayLiteralNode) = true then
          .error (atLine "index first argument must be an array or identifier at line " p)
        else if p.currentToken.type ≠ .Comma then
          .error (atLine "Expected ',' after index array at line " p)
        else
          let p := p.advance
          (rec.parseExpression p).bind fun idx p =>
            if (!idx.isIntLiteral && !idx.isVarRefNode) = true then
              .error (atLine "index second argument must be an integer or identifier at line " p)
            else if p.currentToken.type ≠ .RightParen then
              .error (atLine "Expected ')' after index arguments at line " p)
            else
              .ok (.BinaryOpNode .INDEX arr (some idx)) p.advance
  else if p.currentToken.type = .Multiply then arrayBuiltin rec .MULTIPLY_ARRAY "multiply" p
  else if p.currentToken.type = .Add then arrayBuiltin rec .ADD_ARRAY "add" p
  else if p.currentToken.type = .Subtract then arrayBuiltin rec .SUBTRACT_ARRAY "subtract" p
  else if p.currentToken.type = .Divide then arrayBuiltin rec .DIVIDE_ARRAY "divide" p
  else
    .error "Expected primary expression"

/-- The identifier loop of `parseVarDeclMultiVariable` (the `while(true)` of lines
617-629), entered with the cursor on a comma; it stops on `=`. -/
def identLoop : Nat → List String → Parser → Result (List String)
  | 0, _, _ => .outOfFuel
  | n + 1, identNames, p =>
    let p := p.advance
    if p.currentToken.type ≠ .Ident then .error "Expected identifier after Comma"
    else
      let identNames := identNames ++ [p.currentToken.lexeme]
      let p := p.advance
      if p.currentToken.type = .Equal then .ok identNames p
      else if p.currentToken.type ≠ .Comma then
        .error "Expected Token::Equal or Token::Comma after Identifier"
      else identLoop n identNames p

/-- The copy of an array literal's elements (lines 683-690): integer literals only. -/
def copyElements : List ASTNode → Except String (List ASTNode)
  | [] => .ok []
  | .IntLiteral v :: rest =>
    match copyElements rest with
    | .ok cs => .ok (.IntLiteral v :: cs)
    | .error m => .error m
  | _ :: _ => .error "Array elements must be integers"

/-- The deep copy of the shared initializer that each declared name receives
(lines 677-700). -/
def copyValue : ASTNode → Except String ASTNode
  | .IntLiteral v => .ok (.IntLiteral v)
  | .StrLiteral v => .ok (.StrLiteral v)
  | .ArrayLiteralNode elements =>
    match copyElements elements with
    | .ok cs => .ok (.ArrayLiteralNode cs)
    | .error m => .error m
  | .FloatLiteral v => .ok (.FloatLiteral v)
  | .BoolLiteral v => .ok (.BoolLiteral v)
  | .CharLiteral v => .ok (.CharLiteral v)
  | _ => .error "Unsupported value type in declaration"

/-- The declaration loop of the shared-initializer form (lines 676-703): one
`VarDeclNode` per name, each with a fresh copy of `value`. -/
def copyDecls (type : VarType) (value : ASTNode) :
    List String → Except String (List (VarType × String × Option ASTNode))
  | [] => .ok []
  | name :: rest =>
    match copyValue value with
    | .error m => .error m
    | .ok valueCopy =>
      match copyDecls type value rest with
      | .error m => .error m
      | .ok ds => .ok ((type, name, some valueCopy) :: ds)

/-- The tail of `parseVarDeclMultiVariable` once the first value is parsed and
its last token consumed (the `if Comma` of each branch, then lines 673-709). -/
def multiVariableTail (rec : Parsers) (type : VarType) (value : ASTNode)
    (identNames : List String) (p : Parser) : Result ASTNode :=
  if p.currentToken.type = .Comma then rec.parseVarDeclMultiBoth type value identNames p
  else
    match copyDecls type value identNames with
    | .error m => .error m
    | .ok declarations =>
      if p.currentToken.type ≠ .Semicolon then
        .error "Expected ';' after variable declaration"
      else .ok (.MultiVarDeclNode declarations) p.advance

/-- `Parser::parseVarDeclMultiVariable` (lines 613-710). -/
def parseVarDeclMultiVariableStep (fuel : Nat) (rec : Parsers) (type : VarType)
    (name : String) (p : Parser) : Result ASTNode :=
  (identLoop fuel [name] p).bind fun identNames p =>
    let p := p.advance
    if type = .INT ∧ p.currentToken.type = .IntLiteral then
      match stoi p.currentToken.lexeme with
      | none => .error "stoi"
      | some v => multiVariableTail rec type (.IntLiteral v) identNames p.advance
    else if type = .STRING ∧ p.currentToken.type = .StrLiteral then
      multiVariableTail rec type (.StrLiteral p.currentToken.lexeme) identNames p.advance
    else if type = .ARRAY ∧ p.currentToken.type = .LeftBracket then
      (rec.parsePrimary p).bind fun value p =>
        if !value.isArrayLiteralNode then .error "Array initializer must be an array literal"
        else multiVariableTail rec type value identNames p.advance
    else if type = .FLOAT ∧
        (p.currentToken.type = .FloatLiteral ∨ p.currentToken.type = .IntLiteral) then
      match stof p.currentToken.lexeme with
      | none => .error "stof"
      | some v => multiVariableTail rec type (.FloatLiteral v) identNames p.advance
    else if type = .BOOL ∧ p.currentToken.type = .BoolLiteral then
      multiVariableTail rec type (.BoolLiteral (p.currentToken.lexeme = "true")) identNames
        p.advance
    else if type = .CHAR ∧ p.currentToken.type = .CharLiteral then
      multiVariableTail rec type (.CharLiteral (firstChar p.currentToken.lexeme)) identNames
        p.advance
    else
      .error "Type mismatch in variable declaration(2)"

/-- The value loop of `parseVarDeclMultiBoth` (lines 716-743) over the names
from the second on. -/
def multiBothLoop (rec : Parsers) (type : VarType) :
    List String → List (VarType × String × Option ASTNode) → Parser →
      Result (List (VarType × String × Option ASTNode))
  | [], declarations, p => .ok declarations p
  | name :: rest, declarations, p =>
    if p.currentToken.type ≠ .Comma then .error "Type mismatch in variable declaration(3)"
    else
      let p := p.advance
      let value : Result ASTNode :=
        if type = .INT ∧ p.currentToken.type = .IntLiteral then
          match stoi p.currentToken.lexeme with
          | none => .error "stoi"
          | some v => .ok (.IntLiteral v) p
        else if type = .STRING ∧ p.currentToken.type = .StrLiteral then
          .ok (.StrLiteral p.currentToken.lexeme) p
        else if type = .ARRAY ∧ p.currentToken.type = .LeftBracket then
          (rec.parsePrimary p).bind fun value p =>
            if !value.isArrayLiteralNode then
              .error "Array initializer must be an array literal"
            else .ok value p
        else if type = .FLOAT ∧
            (p.currentToken.type = .FloatLiteral ∨ p.currentToken.type = .IntLiteral) then
          match stof p.currentToken.lexeme with
          | none => .error "stof"
          | some v => .ok (.FloatLiteral v) p
        else if type = .BOOL ∧ p.currentToken.type = .BoolLiteral then
          .ok (.BoolLiteral (p.currentToken.lexeme = "true")) p
        else if type = .CHAR ∧ p.currentToken.type = .CharLiteral then
          .ok (.CharLiteral (firstChar p.currentToken.lexeme)) p
        else
          .error "Type mismatch in variable declaration(4)"
      value.bind fun value p =>
        multiBothLoop rec type rest (declarations ++ [(type, name, some value)]) p.advance

/-- `Parser::parseVarDeclMultiBoth` (lines 712-749).  `IdentNames` holds at least
two names at its only call sites; `IdentNames[0]` of an empty list is not modelled. -/
def parseVarDeclMultiBothStep (rec : Parsers) (type : VarType) (value : ASTNode)
    (identNames : List String) (p : Parser) : Result ASTNode :=
  match identNames with
  | [] => .error "IdentNames[0]"
  | first :: rest =>
    (multiBothLoop rec type rest [(type, first, some value)] p).bind fun declarations p =>
      if p.currentToken.type ≠ .Semicolon then
        .error "Expected ';' after variable declaration"
      else .ok (.MultiVarDeclNode declarations) p.advance

/-- `Parser::parseVarDecl` (lines 111-149). -/
def parseVarDeclStep (rec : Parsers) (p : Parser) : Result ASTNode :=
  match varTypeOfToken p.currentToken.type with
  | none => .error "Unknown type in variable declaration"
  | some type =>
    let p := p.advance
    if p.currentToken.type ≠ .Ident then .error "Expected identifier after type"
    else
      let name := p.currentToken.lexeme
      let p := p.advance
      if p.currentToken.type = .Comma then rec.parseVarDeclMultiVariable type name p
      else if p.currentToken.type = .Semicolon then
        .ok (.VarDeclNode type name none) p.advance
      else if p.currentToken.type ≠ .Equal then
        .error "Expected '=' in variable declaration"
      else
        let p := p.advance
        (rec.parseExpression p).bind fun value p =>
          if p.currentToken.type ≠ .Semicolon then
            .error "Expected ';' after variable declaration"
          else .ok (.VarDeclNode type name (some value)) p.advance

/-- The assignment operators of `parseAssignment` (lines 787-811): `none` for a
plain `=`, the operator of a compound form otherwise; the outer `none` is the
`else` branch that throws. -/
def assignOpOfToken : TokenType → Option (Option BinaryOp)
  | .Equal => some none
  | .PlusEqual => some (some .ADD)
  | .MinusEqual => some (some .SUBTRACT)
  | .StarEqual => some (some .MULTIPLY)
  | .SlashEqual => some (some .DIVIDE)
  | .ModuloEqual => some (some .MODULO)
  | _ => none

/-- The part of `parseAssignment` after the optional index (lines 776-831). -/
def assignmentTail (rec : Parsers) (name : String) (left : ASTNode) (p : Parser) :
    Result ASTNode :=
  if p.currentToken.type = .PlusPlus ∨ p.currentToken.type = .MinusMinus then
    let op := if p.currentToken.type = .PlusPlus then UnaryOp.INCREMENT else UnaryOp.DECREMENT
    .ok (.UnaryOpNode op left) p.advance
  else
    match assignOpOfToken p.currentToken.type with
    | none => .error "Expected '=' or compound assignment operator"
    | some compound =>
      let p := p.advance
      (rec.parseExpression p).bind fun value p =>
        match compound with
        | some compoundOp =>
          if (!value.isIntLiteral && !value.isFloatLiteral && !value.isVarRefNode) = true then
            .error (atLine
              "Divide-equal (/=) expression must be an int or float literal or variable at line " p)
          else .ok (.CompoundAssignNode name compoundOp value) p
        | none => .ok (.AssignNode name value) p

/-- `Parser::parseAssignment` (lines 751-831). -/
def parseAssignmentStep (rec : Parsers) (p : Parser) : Result ASTNode :=
  let name := p.currentToken.lexeme
  let p := p.advance
  let left := ASTNode.VarRefNode name
  if p.currentToken.type = .LeftBracket then
    let p := p.advance
    (rec.parseExpression p).bind fun index p =>
      if (!index.isIntLiteral && !index.isVarRefNode && !index.isStrLiteral &&
          !index.isBoolLiteral && !index.isCharLiteral) = true then
        .error (atLine "Array index must be an integer or identifier at line " p)
      else if p.currentToken.type ≠ .RightBracket then
        .error (atLine "Expected ']' after array index at line " p)
      else
        assignmentTail rec name (.BinaryOpNode .INDEX left (some index)) p.advance
  else
    assignmentTail rec name left p

/-- The statement loop of `parseBlock` (lines 876-878). -/
def blockLoop (rec : Parsers) : Nat → List ASTNode → Parser → Result (List ASTNode)
  | 0, _, _ => .outOfFuel
  | n + 1, statements, p =>
    if p.currentToken.type ≠ .RightBrace then
      (rec.parseStatement p).bind fun stmt p => blockLoop rec n (statements ++ [stmt]) p
    else .ok statements p

/-- `Parser::parseBlock` (lines 868-882).  The returned `BlockNode` is given by
its statements (the function's return type is `std::unique_ptr<BlockNode>`). -/
def parseBlockStep (fuel : Nat) (rec : Parsers) (p : Parser) : Result (List ASTNode) :=
  if p.currentToken.type ≠ .LeftBrace then .error "Expected '\x7b' to start block"
  else
    (blockLoop rec fuel [] p.advance).bind fun statements p => .ok statements p.advance

/-- `Parser::parseIfStatement` (lines 833-866). -/
def parseIfStatementStep (rec : Parsers) (p : Parser) : Result ASTNode :=
  let p := p.advance
  if p.currentToken.type ≠ .LeftParen then .error "Expected '(' after 'if'"
  else
    let p := p.advance
    (rec.parseExpression p).bind fun condition p =>
      if p.currentToken.type ≠ .RightParen then .error "Expected ')' after condition"
      else
        let p := p.advance
        if p.currentToken.type ≠ .LeftBrace then .error "Expected '\x7b' after if condition"
        else
          (rec.parseBlock p).bind fun thenBlock p =>
            if p.currentToken.type = .Else then
              let p := p.advance
              if p.currentToken.type = .If then
                (rec.parseIfStatement p).bind fun elseBlock p =>
                  .ok (.IfElseNode condition (.BlockNode thenBlock) (some elseBlock)) p
              else if p.currentToken.type = .LeftBrace then
                (rec.parseBlock p).bind fun elseBlock p =>
                  .ok (.IfElseNode condition (.BlockNode thenBlock)
                    (some (.BlockNode elseBlock))) p
              else .error "Expected 'if' or '\x7b' after 'else'"
            else
              .ok (.IfElseNode condition (.BlockNode thenBlock) none) p

/-- `Parser::parseLoop` (lines 884-923). -/
def parseLoopStep (rec : Parsers) (p : Parser) : Result ASTNode :=
  let isForeach := p.currentToken.type = .Foreach
  let p := p.advance
  if p.currentToken.type ≠ .LeftParen then .error "Expected '(' after loop keyword"
  else
    let p := p.advance
    if isForeach then
      if p.currentToken.type ≠ .Ident then .error "Expected identifier in foreach"
      else
        let varName := p.currentToken.lexeme
        let p := p.advance
        if p.currentToken.type ≠ .In then .error "Expected 'in' in foreach"
        else
          let p := p.advance
          (rec.parseExpression p).bind fun collection p =>
            if p.currentToken.type ≠ .RightParen then .error "Expected ')' after foreach"
            else
              (rec.parseBlock p.advance).bind fun body p =>
                .ok (.ForeachLoopNode varName collection (.BlockNode body)) p
    else
      let init : Result (Option ASTNode) :=
        if p.currentToken.type = .Int then
          (rec.parseVarDecl p).bind fun d p => .ok (some d) p
        else if p.currentToken.type = .Ident then
          (rec.parseAssignment p).bind fun a p => .ok (some a) p
        else .ok none p
      init.bind fun init p =>
        let condition : Result (Option ASTNode) :=
          if p.currentToken.type = .Semicolon then .ok none p
          else (rec.parseExpression p).bind fun c p => .ok (some c) p
        condition.bind fun condition p =>
          if p.currentToken.type ≠ .Semicolon then .error "Expected ';' after condition"
          else
            let p := p.advance
            let update : Result (Option ASTNode) :=
              if p.currentToken.type = .RightParen then .ok none p
              else (rec.parseAssignment p).bind fun a p => .ok (some a) p
            update.bind fun update p =>
              if p.currentToken.type ≠ .RightParen then .error "Expected ')' after update"
              else
                (rec.parseBlock p.advance).bind fun body p =>
                  .ok (.LoopNode init condition update (.BlockNode body)) p

/-- The header of a `catch` clause, from the token after the try block up to the
`{` of the catch block: the caught variable's name.  `braceMsg` is the message of
the last check, which differs between the two places that parse a `try`. -/
def catchHeader (braceMsg : String) (p : Parser) : Result String :=
  if p.currentToken.type ≠ .Catch then .error "Expected 'catch' after try block"
  else
    let p := p.advance
    if p.currentToken.type ≠ .LeftParen then .error "Expected '(' after 'catch'"
    else
      let p := p.advance
      if p.currentToken.type ≠ .Error then .error "Expected 'Error' in catch"
      else
        let p := p.advance
        if p.currentToken.type ≠ .Ident then .error "Expected identifier after 'Error'"
        else
          let errorVar := p.currentToken.lexeme
          let p := p.advance
          if p.currentToken.type ≠ .RightParen then .error "Expected ')' after catch variable"
          else
            let p := p.advance
            if p.currentToken.type ≠ .LeftBrace then .error braceMsg
            else .ok errorVar p

/-- `Parser::parseTryCatch` (lines 925-962); `parseStatement` does not call it. -/
def parseTryCatchStep (rec : Parsers) (p : Parser) : Result ASTNode :=
  let p := p.advance
  if p.currentToken.type ≠ .LeftBrace then .error "Expected '\x7b' after 'try'"
  else
    (rec.parseBlock p).bind fun tryBlock p =>
      (catchHeader "Expected '\x7b' after catch variable" p).bind fun errorVar p =>
        (rec.parseBlock p).bind fun catchBlock p =>
          .ok (.TryCatchNode (.BlockNode tryBlock)
            (.BlockNode (.VarDeclNode .ERROR errorVar none :: catchBlock)) errorVar) p

/-- The case loop of `parseMatch` (lines 1003-1036). -/
def matchLoop (rec : Parsers) :
    Nat → List (Option ASTNode × ASTNode) → Bool → Parser →
      Result (List (Option ASTNode × ASTNode))
  | 0, _, _, _ => .outOfFuel
  | n + 1, cases, hasDefault, p =>
    if p.currentToken.type ≠ .RightBrace ∧ p.currentToken.type ≠ .Eof then
      let value : Result (Option ASTNode × Bool) :=
        if p.currentToken.type = .Underscore then
          if hasDefault then .error (atLine "Multiple default cases in match at line " p)
          else .ok (none, true) p.advance
        else
          (rec.parseExpression p).bind fun v p => .ok (some v, hasDefault) p
      value.bind fun vh p =>
        if p.currentToken.type ≠ .Arrow then
          .error (atLine "Expected '->' in match case at line " p)
        else
          let p := p.advance
          let body :=
            if p.currentToken.type = .LeftBrace then
              (rec.parseBlock p).bind fun block p => .ok (.BlockNode block) p
            else rec.parseStatement p
          body.bind fun body p =>
            let cases := cases ++ [(vh.1, body)]
            if p.currentToken.type = .Comma ∧ p.peekToken.type ≠ .RightBrace then
              matchLoop rec n cases vh.2 p.advance
            else
              matchLoop rec n cases vh.2 p
    else .ok cases p

/-- `Parser::parseMatch` (lines 992-1044). -/
def parseMatchStep (fuel : Nat) (rec : Parsers) (p : Parser) : Result ASTNode :=
  let p := p.advance
  (rec.parseExpression p).bind fun expr p =>
    if p.currentToken.type ≠ .LeftBrace then
      .error (atLine "Expected '\x7b' after match expression at line " p)
    else
      (matchLoop rec fuel [] false p.advance).bind fun cases p =>
        if p.currentToken.type ≠ .RightBrace then
          .error (atLine "Expected '\x7d' to close match at line " p)
        else .ok (.MatchNode expr cases) p.advance

/-- `Parser::parseStatement` (lines 29-109). -/
def parseStatementStep (rec : Parsers) (p : Parser) : Result ASTNode :=
  if p.currentToken.type = .Int ∨ p.currentToken.type = .StringType ∨
      p.currentToken.type = .Bool ∨ p.currentToken.type = .Float ∨
      p.currentToken.type = .Char ∨ p.currentToken.type = .Array then
    rec.parseVarDecl p
  else if p.currentToken.type = .Ident then
    (rec.parseAssignment p).bind fun tempreturn p =>
      if p.currentToken.type ≠ .Semicolon then .error "Expected ';' after assignment"
      else .ok tempreturn p.advance
  else if p.currentToken.type = .If then rec.parseIfStatement p
  else if p.currentToken.type = .Print then
    let p := p.advance
    if p.currentToken.type ≠ .LeftParen then .error "Expected '(' after 'print'"
    else
      let p := p.advance
      (rec.parseExpression p).bind fun expr p =>
        if p.currentToken.type ≠ .RightParen then .error "Expected ')' after print expression"
        else
          let p := p.advance
          if p.currentToken.type ≠ .Semicolon then .error "Expected ';' after print statement"
          else .ok (.PrintNode expr) p.advance
  else if p.currentToken.type = .For ∨ p.currentToken.type = .Foreach then rec.parseLoop p
  else if p.currentToken.type = .Try then
    let p := p.advance
    if p.currentToken.type ≠ .LeftBrace then .error "Expected '\x7b' after 'try'"
    else
      (rec.parseBlock p).bind fun tryBlock p =>
        (catchHeader "Expected '\x7b' after 'catch'" p).bind fun errorVar p =>
          (rec.parseBlock p).bind fun catchBlock p =>
            .ok (.TryCatchNode (.BlockNode tryBlock) (.BlockNode catchBlock) errorVar) p
  else if p.currentToken.type = .Match then rec.parseMatch p
  else .error "Unexpected token in statement"

/-- The parsing functions with call depth at most `fuel`; with no fuel left every
one of them reports `outOfFuel`. -/
def parsers (uninit : BinaryOp) : Nat → Parsers
  | 0 =>
    { parseStatement := fun _ => .outOfFuel
      parseVarDecl := fun _ => .outOfFuel
      parseExpression := fun _ => .outOfFuel
      parsePrimary := fun _ => .outOfFuel
      parseVarDeclMultiVariable := fun _ _ _ => .outOfFuel
      parseVarDeclMultiBoth := fun _ _ _ _ => .outOfFuel
      parseAssignment := fun _ => .outOfFuel
      parseIfStatement := fun _ => .outOfFuel
      parseBlock := fun _ => .outOfFuel
      parseLoop := fun _ => .outOfFuel
      parseTryCatch := fun _ => .outOfFuel
      parseTernary := fun _ _ => .outOfFuel
      parseMatch := fun _ => .outOfFuel }
  | n + 1 =>
    { parseStatement := parseStatementStep (parsers uninit n)
      parseVarDecl := parseVarDeclStep (parsers uninit n)
      parseExpression := parseExpressionStep uninit (n + 1) (parsers uninit n)
      parsePrimary := parsePrimaryStep (n + 1) (parsers uninit n)
      parseVarDeclMultiVariable := parseVarDeclMultiVariableStep (n + 1) (parsers uninit n)
      parseVarDeclMultiBoth := parseVarDeclMultiBothStep (parsers uninit n)
      parseAssignment := parseAssignmentStep (parsers uninit n)
      parseIfStatement := parseIfStatementStep (parsers uninit n)
      parseBlock := parseBlockStep (n + 1) (parsers uninit n)
      parseLoop := parseLoopStep (parsers uninit n)
      parseTryCatch := parseTryCatchStep (parsers uninit n)
      parseTernary := parseTernaryStep (parsers uninit n)
      parseMatch := parseMatchStep (n + 1) (parsers uninit n) }

/-- `Parser::parseStatement` with call depth at most `fuel`. -/
def parseStatement (uninit : BinaryOp) (fuel : Nat) : Parser → Result ASTNode :=
  (parsers uninit fuel).parseStatement

/-- `Parser::parseVarDecl` with call depth at most `fuel`. -/
def parseVarDecl (uninit : BinaryOp) (fuel : Nat) : Parser → Result ASTNode :=
  (parsers uninit fuel).parseVarDecl

/-- `Parser::parseExpression` with call depth at most `fuel`. -/
def parseExpression (uninit : BinaryOp) (fuel : Nat) : Parser → Result ASTNode :=
  (parsers uninit fuel).parseExpression

/-- `Parser::parsePrimary` with call depth at most `fuel`. -/
def parsePrimary (uninit : BinaryOp) (fuel : Nat) : Parser → Result ASTNode :=
  (parsers uninit fuel).parsePrimary

/-- `Parser::parseVarDeclMultiVariable` with call depth at most `fuel`. -/
def parseVarDeclMultiVariable (uninit : BinaryOp) (fuel : Nat) :
    VarType → String → Parser → Result ASTNode :=
  (parsers uninit fuel).parseVarDeclMultiVariable

/-- `Parser::parseVarDeclMultiBoth` with call depth at most `fuel`. -/
def parseVarDeclMultiBoth (uninit : BinaryOp) (fuel : Nat) :
    VarType → ASTNode → List String → Parser → Result ASTNode :=
  (parsers uninit fuel).parseVarDeclMultiBoth

/-- `Parser::parseAssignment` with call depth at most `fuel`. -/
def parseAssignment (uninit : BinaryOp) (fuel : Nat) : Parser → Result ASTNode :=
  (parsers uninit fuel).parseAssignment

/-- `Parser::parseIfStatement` with call depth at most `fuel`. -/
def parseIfStatement (uninit : BinaryOp) (fuel : Nat) : Parser → Result ASTNode :=
  (parsers uninit fuel).parseIfStatement

/-- `Parser::parseBlock` with call depth at most `fuel`. -/
def parseBlock (uninit : BinaryOp) (fuel : Nat) : Parser → Result (List ASTNode) :=
  (parsers uninit fuel).parseBlock

/-- `Parser::parseLoop` with call depth at most `fuel`. -/
def parseLoop (uninit : BinaryOp) (fuel : Nat) : Parser → Result ASTNode :=
  (parsers uninit fuel).parseLoop

/-- `Parser::parseTryCatch` with call depth at most `fuel`. -/
def parseTryCatch (uninit : BinaryOp) (fuel : Nat) : Parser → Result ASTNode :=
  (parsers uninit fuel).parseTryCatch

/-- `Parser::parseTernary` with call depth at most `fuel`. -/
def parseTernary (uninit : BinaryOp) (fuel : Nat) : ASTNode → Parser → Result ASTNode :=
  (parsers uninit fuel).parseTernary

/-- `Parser::parseMatch` with call depth at most `fuel`. -/
def parseMatch (uninit : BinaryOp) (fuel : Nat) : Parser → Result ASTNode :=
  (parsers uninit fuel).parseMatch

/-- The loop of `parseProgram` (lines 18-24).  The test `if (!stmt)` is omitted:
`parseStatement` returns a node or throws, never a null pointer. -/
def programLoop (parseStatement : Parser → Result ASTNode) :
    Nat → List ASTNode → Parser → Result (List ASTNode)
  | 0, _, _ => .outOfFuel
  | n + 1, statements, p =>
    if p.currentToken.type ≠ .Eof then
      (parseStatement p).bind fun stmt p => programLoop parseStatement n (statements ++ [stmt]) p
    else .ok statements p

/-- `Parser::parseProgram` (lines 15-27) with call depth at most `fuel`. -/
def parseProgram (uninit : BinaryOp) : Nat → Parser → Result ProgramNode
  | 0, _ => .outOfFuel
  | n + 1, p =>
    (programLoop (parseStatement uninit n) (n + 1) [] p).bind fun statements p =>
      .ok ⟨statements⟩ p

/-! ## Specification-side definitions -/

/-- A token of the given kind, with text and line. -/
def tok (type : TokenType) (lexeme : String) (line : Nat) : Token := ⟨type, lexeme, line⟩

/-- Successive successful calls of `parseStatement`, each started on a token that
is not the end marker: the statements obtained, in order, and the state reached. -/
inductive StatementsRun (parseStatement : Parser → Result ASTNode) :
    Parser → List ASTNode → Parser → Prop
  | done (p : Parser) : StatementsRun parseStatement p [] p
  | step {p q r : Parser} {stmt : ASTNode} {stmts : List ASTNode} :
      p.currentToken.type ≠ .Eof → parseStatement p = .ok stmt q →
      StatementsRun parseStatement q stmts r →
      StatementsRun parseStatement p (stmt :: stmts) r

/-- The tokens of `int x ; x = 1 ;`. -/
def declThenAssignTokens : List Token :=
  [tok .Int "int" 1, tok .Ident "x" 1, tok .Semicolon ";" 1,
   tok .Ident "x" 2, tok .Equal "=" 2, tok .IntLiteral "1" 2, tok .Semicolon ";" 2]

/-- The operators of a flat chain by token kind, as the claim lists them:
`-`, `*`, `/`, `%`, `==`, `!=`, `<`, `<=`, `>`, `>=`, `and`, `or`, `xor`. -/
def flatOperator : TokenType → Option BinaryOp
  | .Minus => some .SUBTRACT
  | .Star => some .MULTIPLY
  | .Slash => some .DIVIDE
  | .Modulo => some .MODULO
  | .EqualEqual => some .EQUAL
  | .NotEqual => some .NOT_EQUAL
  | .Less => some .LESS
  | .LessEqual => some .LESS_EQUAL
  | .Greater => some .GREATER
  | .GreaterEqual => some .GREATER_EQUAL
  | .And => some .AND
  | .Or => some .OR
  | .Xor => some .XOR
  | _ => none

/-- A run `op1 p1 ... opn pn` after a first primary: each operator token is one
of `flatOperator`, each right operand is parsed by `parsePrimary`; the list
holds the operators with the operand trees, the last state is where the run ends. -/
inductive PrimaryChain (parsePrimary : Parser → Result ASTNode) :
    Parser → List (BinaryOp × ASTNode) → Parser → Prop
  | nil (p : Parser) : PrimaryChain parsePrimary p [] p
  | cons {p q r : Parser} {op : BinaryOp} {right : ASTNode} {items : List (BinaryOp × ASTNode)} :
      flatOperator p.currentToken.type = some op → parsePrimary p.advance = .ok right q →
      PrimaryChain parsePrimary q items r →
      PrimaryChain parsePrimary p ((op, right) :: items) r

/-- The left-nested tree `BinaryOp(opn, ... BinaryOp(op1, p0, p1) ..., pn)`. -/
def leftNested (first : ASTNode) (items : List (BinaryOp × ASTNode)) : ASTNode :=
  items.foldl (fun left item => .BinaryOpNode item.1 left (some item.2)) first

/-- The token after the chain does not continue the expression: it is no binary
operator, no signed literal, no `++`, `--` or `?`. -/
def endsExpression (t : TokenType) : Prop :=
  flatOperator t = none ∧ t ≠ .Plus ∧ t ≠ .SignedIntLiteral ∧
  t ≠ .PlusPlus ∧ t ≠ .MinusMinus ∧ t ≠ .Question

/-- The tokens of `1 - 2 * 3`. -/
def oneMinusTwoTimesThree : List Token :=
  [tok .IntLiteral "1" 1, tok .Minus "-" 1, tok .IntLiteral "2" 1, tok .Star "*" 1,
   tok .IntLiteral "3" 1]

/-- The tokens of `1 + 2 ;`. -/
def onePlusTwo : List Token :=
  [tok .IntLiteral "1" 1, tok .Plus "+" 1, tok .IntLiteral "2" 1, tok .Semicolon ";" 1]

/-- The conditions a ternary accepts, as the claim lists them: a `BinaryOpNode`
whose operator is one of Eq, Ne, Lt, Le, Gt, Ge, And, Or. -/
def IsComparisonOrLogical (c : ASTNode) : Prop :=
  ∃ op left right, c = .BinaryOpNode op left right ∧
    op ∈ [BinaryOp.EQUAL, .NOT_EQUAL, .LESS, .LESS_EQUAL, .GREATER, .GREATER_EQUAL, .AND, .OR]

/-- The tokens of `? 1 : 2 ;`, the part of a ternary after its condition. -/
def ternaryBranches : List Token :=
  [tok .Question "?" 1, tok .IntLiteral "1" 1, tok .Colon ":" 1, tok .IntLiteral "2" 1,
   tok .Semicolon ";" 1]

/-- One case of a `match` body parsed from `p` to `q`, whatever came before it:
a wildcard `_` or a case expression, `->`, a block or a single statement, and
the comma after it when the next token is not `}`. -/
def MatchCaseParsed (uninit : BinaryOp) (n : Nat) (p : Parser) (c : Option ASTNode × ASTNode)
    (q : Parser) : Prop :=
  p.currentToken.type ≠ .RightBrace ∧ p.currentToken.type ≠ .Eof ∧
  ∃ p1 p2 : Parser,
    ((p.currentToken.type = .Underscore ∧ c.1 = none ∧ p1 = p.advance) ∨
      (p.currentToken.type ≠ .Underscore ∧
        ∃ v, parseExpression uninit n p = .ok v p1 ∧ c.1 = some v)) ∧
    p1.currentToken.type = .Arrow ∧
    ((p1.advance.currentToken.type = .LeftBrace ∧
        ∃ b, parseBlock uninit n p1.advance = .ok b p2 ∧ c.2 = .BlockNode b) ∨
      (p1.advance.currentToken.type ≠ .LeftBrace ∧
        parseStatement uninit n p1.advance = .ok c.2 p2)) ∧
    q = if p2.currentToken.type = .Comma ∧ p2.peekToken.type ≠ .RightBrace then p2.advance else p2

/-- Successive cases of a `match` body, each parsed as `MatchCaseParsed`. -/
inductive MatchCasesRun (uninit : BinaryOp) (n : Nat) :
    Parser → List (Option ASTNode × ASTNode) → Parser → Prop
  | nil (p : Parser) : MatchCasesRun uninit n p [] p
  | cons {p q r : Parser} {c : Option ASTNode × ASTNode}
      {cs : List (Option ASTNode × ASTNode)} :
      MatchCaseParsed uninit n p c q → MatchCasesRun uninit n q cs r →
      MatchCasesRun uninit n p (c :: cs) r

/-- The number of cases whose value is absent (wildcard cases). -/
def countDefault (cases : List (Option ASTNode × ASTNode)) : Nat :=
  (cases.filter fun c => c.1.isNone).length

/-- The tokens of `match x { 1 -> print(1), _ -> print(0), _ -> print(2) }`. -/
def matchTwoDefaults : List Token :=
  [tok .Match "match" 1, tok .Ident "x" 1, tok .LeftBrace "\x7b" 1,
   tok .IntLiteral "1" 1, tok .Arrow "->" 1, tok .Print "print" 1, tok .LeftParen "(" 1,
   tok .IntLiteral "1" 1, tok .RightParen ")" 1, tok .Comma "," 1,
   tok .Underscore "_" 1, tok .Arrow "->" 1, tok .Print "print" 1, tok .LeftParen "(" 1,
   tok .IntLiteral "0" 1, tok .RightParen ")" 1, tok .Comma "," 1,
   tok .Underscore "_" 1, tok .Arrow "->" 1, tok .Print "print" 1, tok .LeftParen "(" 1,
   tok .IntLiteral "2" 1, tok .RightParen ")" 1, tok .RightBrace "\x7d" 1]

/-- The tokens of `match x { _ -> print(0); _ -> print(2); }`, the second
wildcard on line 2. -/
def matchTwoDefaultsSemicolons : List Token :=
  [tok .Match "match" 1, tok .Ident "x" 1, tok .LeftBrace "\x7b" 1,
   tok .Underscore "_" 1, tok .Arrow "->" 1, tok .Print "print" 1, tok .LeftParen "(" 1,
   tok .IntLiteral "0" 1, tok .RightParen ")" 1, tok .Semicolon ";" 1,
   tok .Underscore "_" 2, tok .Arrow "->" 2, tok .Print "print" 2, tok .LeftParen "(" 2,
   tok .IntLiteral "2" 2, tok .RightParen ")" 2, tok .Semicolon ";" 2, tok .RightBrace "\x7d" 2]

/-- The tokens of `int x = 1, y = 2, z = 3;`. -/
def intThreeInitialised : List Token :=
  [tok .Int "int" 1, tok .Ident "x" 1, tok .Equal "=" 1, tok .IntLiteral "1" 1,
   tok .Comma "," 1, tok .Ident "y" 1, tok .Equal "=" 1, tok .IntLiteral "2" 1,
   tok .Comma "," 1, tok .Ident "z" 1, tok .Equal "=" 1, tok .IntLiteral "3" 1,
   tok .Semicolon ";" 1]

/-- The tokens of `int x, y, z = 1, 2, 3;`. -/
def intThreeCommaList : List Token :=
  [tok .Int "int" 1, tok .Ident "x" 1, tok .Comma "," 1, tok .Ident "y" 1,
   tok .Comma "," 1, tok .Ident "z" 1, tok .Equal "=" 1, tok .IntLiteral "1" 1,
   tok .Comma "," 1, tok .IntLiteral "2" 1, tok .Comma "," 1, tok .IntLiteral "3" 1,
   tok .Semicolon ";" 1]

/-- The type keywords with the `VarType` each stands for: int, string, bool,
float, char, array. -/
def typeKeywords : List (TokenType × VarType) :=
  [(.Int, .INT), (.StringType, .STRING), (.Bool, .BOOL), (.Float, .FLOAT), (.Char, .CHAR),
   (.Array, .ARRAY)]

/-- The scalar type keywords with the `VarType` each stands for: int, float,
bool, char, string. -/
def scalarKeywords : List (TokenType × VarType) :=
  [(.Int, .INT), (.Float, .FLOAT), (.Bool, .BOOL), (.Char, .CHAR), (.StringType, .STRING)]

/-- The initializer node a literal token denotes for a scalar declared type:
an integer literal for int (the value `std::stoi` gives its text), a float or
integer literal for float (a `FloatLiteral` of the value `std::stof` gives its
text), a bool, char or string literal for the type of the same name.  `none`:
the token is no literal of the type's shape, or its text is not converted. -/
def scalarLiteral : VarType → Token → Option ASTNode
  | .INT, t => if t.type = .IntLiteral then (stoi t.lexeme).map .IntLiteral else none
  | .FLOAT, t =>
    if t.type = .FloatLiteral ∨ t.type = .IntLiteral then (stof t.lexeme).map .FloatLiteral
    else none
  | .BOOL, t => if t.type = .BoolLiteral then some (.BoolLiteral (t.lexeme = "true")) else none
  | .CHAR, t => if t.type = .CharLiteral then some (.CharLiteral (firstChar t.lexeme)) else none
  | .STRING, t => if t.type = .StrLiteral then some (.StrLiteral t.lexeme) else none
  | _, _ => none

/-- The token list of items that are each preceded by a separator: `, a , b ...`
for the pairs (separator, item). -/
def separated : List (Token × Token) → List Token
  | [] => []
  | x :: rest => x.1 :: x.2 :: separated rest

/-- The tokens of `int a, b = 1;`. -/
def intSharedOne : List Token :=
  [tok .Int "int" 1, tok .Ident "a" 1, tok .Comma "," 1, tok .Ident "b" 1, tok .Equal "=" 1,
   tok .IntLiteral "1" 1, tok .Semicolon ";" 1]

/-- The further values of a per-identifier list: each is preceded by a comma and
is a literal token of the declared scalar type, with the node it denotes. -/
def ValuesDenote (ty : VarType) (vals : List (Token × Token)) (lits : List ASTNode) : Prop :=
  List.Forall₂ (fun x lit => x.1.type = .Comma ∧ scalarLiteral ty x.2 = some lit) vals lits

/-- The tokens of `int a, b = 1, 2;`. -/
def intPerIdentifier : List Token :=
  [tok .Int "int" 1, tok .Ident "a" 1, tok .Comma "," 1, tok .Ident "b" 1, tok .Equal "=" 1,
   tok .IntLiteral "1" 1, tok .Comma "," 1, tok .IntLiteral "2" 1, tok .Semicolon ";" 1]

/-- The tokens of `array a, b = ["s"];`. -/
def arraySharedString : List Token :=
  [tok .Array "array" 1, tok .Ident "a" 1, tok .Comma "," 1, tok .Ident "b" 1, tok .Equal "=" 1,
   tok .LeftBracket "[" 1, tok .StrLiteral "s" 1, tok .RightBracket "]" 1, tok .Semicolon ";" 1]

/-- The tokens of `array a, b = [1, 2];`. -/
def arraySharedInts : List Token :=
  [tok .Array "array" 1, tok .Ident "a" 1, tok .Comma "," 1, tok .Ident "b" 1, tok .Equal "=" 1,
   tok .LeftBracket "[" 1, tok .IntLiteral "1" 1, tok .Comma "," 1, tok .IntLiteral "2" 1,
   tok .RightBracket "]" 1, tok .Semicolon ";" 1]

/-- The token kinds a statement may start with: the six type keywords, an
identifier, `if`, `print`, `for`, `foreach`, `try` and `match`. -/
def statementStarts : List TokenType :=
  [.Int, .StringType, .Bool, .Float, .Char, .Array, .Ident, .If, .Print, .For, .Foreach,
   .Try, .Match]

/-- The tokens of `x = 1 ;` followed by `y`. -/
def assignOneTokens : List Token :=
  [tok .Ident "x" 1, tok .Equal "=" 1, tok .IntLiteral "1" 1, tok .Semicolon ";" 1,
   tok .Ident "y" 2]

/-- The compound assignment tokens `+=`, `-=`, `*=`, `/=`, `%=` with the operator
each carries. -/
def compoundTokens : List (TokenType × BinaryOp) :=
  [(.PlusEqual, .ADD), (.MinusEqual, .SUBTRACT), (.StarEqual, .MULTIPLY),
   (.SlashEqual, .DIVIDE), (.ModuloEqual, .MODULO)]

/-- The right-hand values a compound assignment accepts: an integer literal, a
float literal or a variable reference. -/
def IsCompoundOperand (e : ASTNode) : Prop :=
  (∃ v, e = .IntLiteral v) ∨ (∃ v, e = .FloatLiteral v) ∨ (∃ name, e = .VarRefNode name)

/-- The tokens of `x += 1 - 2 ;`. -/
def compoundOfDifference : List Token :=
  [tok .Ident "x" 1, tok .PlusEqual "+=" 1, tok .IntLiteral "1" 1, tok .Minus "-" 1,
   tok .IntLiteral "2" 1, tok .Semicolon ";" 1]

/-- The tokens of `x /= 2 ;`. -/
def divideByTwo : List Token :=
  [tok .Ident "x" 1, tok .SlashEqual "/=" 1, tok .IntLiteral "2" 1, tok .Semicolon ";" 1]

/-- The operands a postfix `++`/`--` accepts: a variable reference or a
`BinaryOpNode` with operator `INDEX`. -/
def IsIncrementTarget (c : ASTNode) : Prop :=
  (∃ name, c = .VarRefNode name) ∨ (∃ left right, c = .BinaryOpNode .INDEX left right)

/-- The tokens of `x ++ ;`. -/
def incrementVariable : List Token :=
  [tok .Ident "x" 1, tok .PlusPlus "++" 1, tok .Semicolon ";" 1]

/-- The tokens of `1 -- ;`. -/
def decrementLiteral : List Token :=
  [tok .IntLiteral "1" 1, tok .MinusMinus "--" 1, tok .Semicolon ";" 1]

/-- The tokens of `print(-(y));`, the negated parenthesis being one token. -/
def printNegated : List Token :=
  [tok .Print "print" 1, tok .LeftParen "(" 1, tok .negLeftParen "-(" 1, tok .Ident "y" 1,
   tok .RightParen ")" 1, tok .RightParen ")" 1, tok .Semicolon ";" 1]

/-- The tokens of `x = -(y);`, the negated parenthesis being one token. -/
def assignNegated : List Token :=
  [tok .Ident "x" 1, tok .Equal "=" 1, tok .negLeftParen "-(" 1, tok .Ident "y" 1,
   tok .RightParen ")" 1, tok .Semicolon ";" 1]

/-- The element nodes an array literal accepts: an integer, string, bool or char
literal or a variable reference. -/
def IsArrayElement (e : ASTNode) : Prop :=
  (∃ v, e = .IntLiteral v) ∨ (∃ v, e = .StrLiteral v) ∨ (∃ v, e = .BoolLiteral v) ∨
  (∃ v, e = .CharLiteral v) ∨ (∃ name, e = .VarRefNode name)

/-- The leading elements of an array literal, each parsed by `parseExpression`
and followed by a comma after which the literal goes on: the element nodes in
order and the state at the start of the next element. -/
inductive ElementsPrefix (parseExpression : Parser → Result ASTNode) :
    Parser → List ASTNode → Parser → Prop
  | nil (p : Parser) : ElementsPrefix parseExpression p [] p
  | cons {p q r : Parser} {e : ASTNode} {es : List ASTNode} :
      parseExpression p = .ok e q → q.currentToken.type = .Comma →
      q.advance.currentToken.type ≠ .RightBracket →
      ElementsPrefix parseExpression q.advance es r →
      ElementsPrefix parseExpression p (e :: es) r

/-- The tokens of `[1.5]`. -/
def arrayOfFloat : List Token :=
  [tok .LeftBracket "[" 1, tok .FloatLiteral "1.5" 1, tok .RightBracket "]" 1]

/-- The tokens of `[1, x]`. -/
def arrayOfIntAndVariable : List Token :=
  [tok .LeftBracket "[" 1, tok .IntLiteral "1" 1, tok .Comma "," 1, tok .Ident "x" 1,
   tok .RightBracket "]" 1]

/-- The tokens of `[1 - 2]`. -/
def arrayOfDifference : List Token :=
  [tok .LeftBracket "[" 1, tok .IntLiteral "1" 1, tok .Minus "-" 1, tok .IntLiteral "2" 1,
   tok .RightBracket "]" 1]

/-- The tokens of `for (i = 0; i < 10; i++)` with an empty block. -/
def forWithAssignment : List Token :=
  [tok .For "for" 1, tok .LeftParen "(" 1, tok .Ident "i" 1, tok .Equal "=" 1,
   tok .IntLiteral "0" 1, tok .Semicolon ";" 1, tok .Ident "i" 1, tok .Less "<" 1,
   tok .IntLiteral "10" 1, tok .Semicolon ";" 1, tok .Ident "i" 1, tok .PlusPlus "++" 1,
   tok .RightParen ")" 1, tok .LeftBrace "\x7b" 1, tok .RightBrace "\x7d" 1]

/-- The tokens of `for (;;)` with an empty block. -/
def forWithNothing : List Token :=
  [tok .For "for" 1, tok .LeftParen "(" 1, tok .Semicolon ";" 1, tok .Semicolon ";" 1,
   tok .RightParen ")" 1, tok .LeftBrace "\x7b" 1, tok .RightBrace "\x7d" 1]

/-- The tokens of `for (int i = 0; i < 10; i++)` with an empty block. -/
def forWithDeclaration : List Token :=
  [tok .For "for" 1, tok .LeftParen "(" 1, tok .Int "int" 1, tok .Ident "i" 1, tok .Equal "=" 1,
   tok .IntLiteral "0" 1, tok .Semicolon ";" 1, tok .Ident "i" 1, tok .Less "<" 1,
   tok .IntLiteral "10" 1, tok .Semicolon ";" 1, tok .Ident "i" 1, tok .PlusPlus "++" 1,
   tok .RightParen ")" 1, tok .LeftBrace "\x7b" 1, tok .RightBrace "\x7d" 1]

/-- The tokens of `try B1 catch (Error e) B2` with `x = 1;` in B1 and `print(e);` in B2. -/
def tryCatchTokens : List Token :=
  [tok .Try "try" 1, tok .LeftBrace "\x7b" 1, tok .Ident "x" 1, tok .Equal "=" 1,
   tok .IntLiteral "1" 1, tok .Semicolon ";" 1, tok .RightBrace "\x7d" 1,
   tok .Catch "catch" 2, tok .LeftParen "(" 2, tok .Error "Error" 2, tok .Ident "e" 2,
   tok .RightParen ")" 2, tok .LeftBrace "\x7b" 2, tok .Print "print" 2, tok .LeftParen "(" 2,
   tok .Ident "e" 2, tok .RightParen ")" 2, tok .Semicolon ";" 2, tok .RightBrace "\x7d" 2]

/-- The shape of an if/else node: the then-branch is a block, the else-branch is
absent, a block, or again a node of this shape. -/
inductive WellShapedIf : ASTNode → Prop
  | noElse (c : ASTNode) (b : List ASTNode) : WellShapedIf (.IfElseNode c (.BlockNode b) none)
  | elseBlock (c : ASTNode) (b b2 : List ASTNode) :
      WellShapedIf (.IfElseNode c (.BlockNode b) (some (.BlockNode b2)))
  | elseIf (c : ASTNode) (b : List ASTNode) {inner : ASTNode} :
      WellShapedIf inner → WellShapedIf (.IfElseNode c (.BlockNode b) (some inner))

/-- The tokens of `if (a) B1 else if (b) B2 else B3` with empty blocks. -/
def ifElseIfElse : List Token :=
  [tok .If "if" 1, tok .LeftParen "(" 1, tok .Ident "a" 1, tok .RightParen ")" 1,
   tok .LeftBrace "\x7b" 1, tok .RightBrace "\x7d" 1, tok .Else "else" 1,
   tok .If "if" 2, tok .LeftParen "(" 2, tok .Ident "b" 2, tok .RightParen ")" 2,
   tok .LeftBrace "\x7b" 2, tok .RightBrace "\x7d" 2, tok .Else "else" 2,
   tok .LeftBrace "\x7b" 3, tok .RightBrace "\x7d" 3]

/-! ## The code generator (`src/codegen.cpp`)

The target IR builder is an external capability; it is modelled by the sequence
of instructions the generator submits to it.  Each `Create...` call of the
builder appends one instruction at the insertion point and returns the value of
that instruction; constant folding inside the builder is not modelled.

A generating function takes the generator object and returns `Except.ok` with
the object after the call (and the value, for `generateValue`), or
`Except.error` with the `std::runtime_error` thrown and the object as the throw
leaves it. -/

/-- The LLVM types the generator asks for: `i1`, `i8`, `i32`, `float` and the
pointer to `i8`. -/
inductive IRType
  | i1 | i8 | i32 | float | ptr
  deriving DecidableEq, Repr

/-- `Type::isIntegerTy()`. -/
def IRType.isIntegerTy : IRType → Bool
  | .i1 | .i8 | .i32 => true
  | _ => false

/-- `Type::isFloatTy()`. -/
def IRType.isFloatTy : IRType → Bool
  | .float => true
  | _ => false

/-- `Type::isPointerTy()`. -/
def IRType.isPointerTy : IRType → Bool
  | .ptr => true
  | _ => false

/-- A value handed to the builder: an integer constant of a type, a float
constant, the pointer to a global string, or the result of the instruction with
the given number, of the given type. -/
inductive Value
  | constInt (type : IRType) (value : Int)
  | constFP (value : FloatVal)
  | globalString (text : String)
  | inst (id : Nat) (type : IRType)
  deriving DecidableEq, Repr

/-- `Value::getType()`. -/
def Value.type : Value → IRType
  | .constInt ty _ => ty
  | .constFP _ => .float
  | .globalString _ => .ptr
  | .inst _ ty => ty

/-- The two-operand instructions the generator creates. -/
inductive IRBinOp
  | add | sub | mul | sdiv | fadd | fsub | fmul | fdiv
  | icmpEQ | icmpNE | icmpSLT | icmpSLE | icmpSGT | icmpSGE | and | or
  deriving DecidableEq, Repr

/-- The type of the result of a two-operand instruction on operands of type `ty`. -/
def IRBinOp.resultType (op : IRBinOp) (ty : IRType) : IRType :=
  match op with
  | .icmpEQ | .icmpNE | .icmpSLT | .icmpSLE | .icmpSGT | .icmpSGE => .i1
  | _ => ty

/-- An instruction submitted to the builder.  Results are numbered in order of
creation; `slot` is the number of an `alloca`, block operands are block indices. -/
inductive Instr
  | alloca (id : Nat) (type : IRType) (name : String)
  | load (id : Nat) (type : IRType) (slot : Nat)
  | store (value : Value) (slot : Nat)
  | binary (id : Nat) (op : IRBinOp) (left right : Value)
  | condBr (cond : Value) (thenBlock elseBlock : Nat)
  | br (target : Nat)
  | ret (value : Value)
  deriving DecidableEq, Repr

/-- `Instruction::isTerminator()`. -/
def Instr.isTerminator : Instr → Bool
  | .condBr _ _ _ | .br _ | .ret _ => true
  | _ => false

/-- An `AllocaInst`: the number of the instruction and its allocated type. -/
structure AllocaInst where
  id : Nat
  allocatedType : IRType
  deriving DecidableEq, Repr

/-- A basic block of `main`. -/
structure BasicBlock where
  name : String
  instructions : List Instr
  deriving DecidableEq, Repr

/-- The state of a `CodeGen` object: the symbol table (`std::map` from name to
`AllocaInst*`, one entry per name), the basic blocks of `main` in creation order,
the index of the builder's insertion block, the global strings created, and the
number of the next instruction. -/
structure CodeGen where
  symbols : List (String × AllocaInst)
  blocks : List BasicBlock
  insertBlock : Nat
  globals : List String
  nextId : Nat
  deriving DecidableEq, Repr

/-- `CodeGen::CodeGen()`: `main` with the block `entry` as insertion point. -/
def CodeGen.new : CodeGen :=
  { symbols := [], blocks := [⟨"entry", []⟩], insertBlock := 0, globals := [], nextId := 0 }

/-- Append an instruction to the block with the given index. -/
def appendInstr : List BasicBlock → Nat → Instr → List BasicBlock
  | [], _, _ => []
  | b :: bs, 0, i => { b with instructions := b.instructions ++ [i] } :: bs
  | b :: bs, n + 1, i => b :: appendInstr bs n i

/-- The instructions of the block with the given index. -/
def blockInstructions : List BasicBlock → Nat → List Instr
  | [], _ => []
  | b :: _, 0 => b.instructions
  | _ :: bs, n + 1 => blockInstructions bs n

namespace CodeGen

/-- `symbols.find(name)`. -/
def find (g : CodeGen) (name : String) : Option AllocaInst :=
  g.symbols.lookup name

/-- `symbols[name] = alloca`: the entry of `name` is replaced or added. -/
def setSymbol (g : CodeGen) (name : String) (a : AllocaInst) : CodeGen :=
  { g with symbols := (name, a) :: g.symbols.filter fun e => e.1 ≠ name }

/-- The instructions of the insertion block (`builder->GetInsertBlock()`). -/
def currentInstructions (g : CodeGen) : List Instr :=
  blockInstructions g.blocks g.insertBlock

/-- `builder->GetInsertBlock()->getTerminator()` is not null: the insertion
block ends in a terminator. -/
def hasTerminator (g : CodeGen) : Bool :=
  match g.currentInstructions.getLast? with
  | some i => i.isTerminator
  | none => false

/-- The builder inserts an instruction at the insertion point. -/
def emit (g : CodeGen) (i : Instr) : CodeGen :=
  { g with blocks := appendInstr g.blocks g.insertBlock i }

/-- `builder->CreateAlloca(type, nullptr, name)`. -/
def createAlloca (g : CodeGen) (type : IRType) (name : String) : AllocaInst × CodeGen :=
  (⟨g.nextId, type⟩, { g.emit (.alloca g.nextId type name) with nextId := g.nextId + 1 })

/-- `builder->CreateLoad(type, alloca)`. -/
def createLoad (g : CodeGen) (type : IRType) (slot : Nat) : Value × CodeGen :=
  (.inst g.nextId type, { g.emit (.load g.nextId type slot) with nextId := g.nextId + 1 })

/-- `builder->CreateStore(value, alloca)`. -/
def createStore (g : CodeGen) (value : Value) (slot : Nat) : CodeGen :=
  g.emit (.store value slot)

/-- A two-operand `builder->Create...(left, right)`. -/
def createBinary (g : CodeGen) (op : IRBinOp) (left right : Value) : Value × CodeGen :=
  (.inst g.nextId (op.resultType left.type),
    { g.emit (.binary g.nextId op left right) with nextId := g.nextId + 1 })

/-- `builder->CreateGlobalStringPtr(text)`. -/
def createGlobalStringPtr (g : CodeGen) (text : String) : Value × CodeGen :=
  (.globalString text, { g with globals := g.globals ++ [text] })

/-- `builder->CreateCondBr(cond, thenBlock, elseBlock)`. -/
def createCondBr (g : CodeGen) (cond : Value) (thenBlock elseBlock : Nat) : CodeGen :=
  g.emit (.condBr cond thenBlock elseBlock)

/-- `builder->CreateBr(target)`. -/
def createBr (g : CodeGen) (target : Nat) : CodeGen :=
  g.emit (.br target)

/-- `builder->CreateRet(value)`. -/
def createRet (g : CodeGen) (value : Value) : CodeGen :=
  g.emit (.ret value)

/-- `BasicBlock::Create(*context, name, parentFunc)`: a new block at the end of
`main`; its index. -/
def createBlock (g : CodeGen) (name : String) : Nat × CodeGen :=
  (g.blocks.length, { g with blocks := g.blocks ++ [⟨name, []⟩] })

/-- `builder->SetInsertPoint(block)`. -/
def setInsertPoint (g : CodeGen) (block : Nat) : CodeGen :=
  { g with insertBlock := block }

end CodeGen

/-- A `std::runtime_error` thrown by the generator: its message, together with
the generator object as the throw leaves it (the builder calls made before the
throw have taken effect). -/
structure RuntimeError where
  what : String
  state : CodeGen
  deriving DecidableEq, Repr

/-- The operators `generateValue` treats as comparison or logical (lines 222-225). -/
def isComparisonOrLogicalOp (op : BinaryOp) : Bool :=
  op = .EQUAL || op = .LESS_EQUAL || op = .NOT_EQUAL || op = .GREATER ||
  op = .GREATER_EQUAL || op = .LESS || op = .AND || op = .OR

/-- The `switch` on a comparison or logical operator in `generateValue` (lines
228-238): the instruction created; `none` is its `default` branch. -/
def comparisonInstruction : BinaryOp → Option IRBinOp
  | .EQUAL => some .icmpEQ
  | .LESS_EQUAL => some .icmpSLE
  | .NOT_EQUAL => some .icmpNE
  | .GREATER => some .icmpSGT
  | .GREATER_EQUAL => some .icmpSGE
  | .LESS => some .icmpSLT
  | .AND => some .and
  | .OR => some .or
  | _ => none

/-- The `switch` on an arithmetic operator in `generateValue` (lines 243-258) and
in `generateCompoundAssign` (lines 111-130): for `ADD`, `SUBTRACT`, `MULTIPLY` and
`DIVIDE` the floating-point instruction when `isFloatTy()` holds and the integer
one (signed division) otherwise; `none` is the `default` branch. -/
def arithmeticInstruction : BinaryOp → Bool → Option IRBinOp
  | .ADD, isFloat => some (if isFloat then .fadd else .add)
  | .SUBTRACT, isFloat => some (if isFloat then .fsub else .sub)
  | .MULTIPLY, isFloat => some (if isFloat then .fmul else .mul)
  | .DIVIDE, isFloat => some (if isFloat then .fdiv else .sdiv)
  | _, _ => none

mutual

/-- `CodeGen::generateValue` (lines 186-272) on a node that is not null.  A node
of a class that is not tested reaches the final throw. -/
def generateValue : ASTNode → IRType → CodeGen → Except RuntimeError (Value × CodeGen)
  | .IntLiteral v, expectedType, g =>
    if expectedType.isIntegerTy then .ok (.constInt .i32 v, g)
    else if expectedType.isFloatTy then .ok (.constFP (.ofInt v), g)
    else .error ⟨"Type mismatch: cannot convert integer to target type", g⟩
  | .FloatLiteral v, expectedType, g =>
    if !expectedType.isFloatTy then .error ⟨"Expected float type", g⟩
    else .ok (.constFP v, g)
  | .StrLiteral s, expectedType, g =>
    if !expectedType.isPointerTy then .error ⟨"Expected pointer type for string", g⟩
    else .ok (g.createGlobalStringPtr s)
  | .BoolLiteral b, expectedType, g =>
    if expectedType ≠ .i1 then .error ⟨"Expected boolean type", g⟩
    else .ok (.constInt .i1 (if b then 1 else 0), g)
  | .CharLiteral c, expectedType, g =>
    if expectedType ≠ .i8 then .error ⟨"Expected char (i8) type", g⟩
    else .ok (.constInt .i8 c.toNat, g)
  | .BinaryOpNode op left right, expectedType, g =>
    if isComparisonOrLogicalOp op then
      let operandType := if op = .AND ∨ op = .OR then IRType.i1 else IRType.i32
      match generateValue left operandType g with
      | .error m => .error m
      | .ok (l, g) =>
        match generateValueOrNull right operandType g with
        | .error m => .error m
        | .ok (r, g) =>
          match comparisonInstruction op with
          | some instruction => .ok (g.createBinary instruction l r)
          | none => .error ⟨"Unreachable", g⟩
    else
      match generateValue left expectedType g with
      | .error m => .error m
      | .ok (l, g) =>
        match generateValueOrNull right expectedType g with
        | .error m => .error m
        | .ok (r, g) =>
          match arithmeticInstruction op expectedType.isFloatTy with
          | some instruction => .ok (g.createBinary instruction l r)
          | none => .error ⟨"Unsupported binary operator", g⟩
  | .VarRefNode name, expectedType, g =>
    match g.find name with
    | none => .error ⟨"Undeclared variable: " ++ name, g⟩
    | some alloca =>
      if alloca.allocatedType ≠ expectedType then
        .error ⟨"Type mismatch: variable " ++ name ++ " has a different type", g⟩
      else .ok (g.createLoad expectedType alloca.id)
  | _, _, g => .error ⟨"Unsupported value type in code generation", g⟩

/-- `CodeGen::generateValue` on a pointer that may be null (the right operand of
a `BinaryOpNode`, null for `ABS`): a null pointer fails every `dynamic_cast` and
reaches the final throw. -/
def generateValueOrNull : Option ASTNode → IRType → CodeGen → Except RuntimeError (Value × CodeGen)
  | none, _, g => .error ⟨"Unsupported value type in code generation", g⟩
  | some node, expectedType, g => generateValue node expectedType g

end

/-- The `switch` of `generateVarDecl` on the declared type (lines 63-70); `none`
is its `default` branch. -/
def irTypeOfVarType : VarType → Option IRType
  | .INT => some .i32
  | .BOOL => some .i1
  | .FLOAT => some .float
  | .CHAR => some .i8
  | .STRING => some .ptr
  | _ => none

/-- `CodeGen::generateVarDecl` (lines 56-79), on the fields of the `VarDeclNode`. -/
def generateVarDecl (type : VarType) (name : String) (value : Option ASTNode) (g : CodeGen) :
    Except RuntimeError CodeGen :=
  match irTypeOfVarType type with
  | none => .error ⟨"Unknown variable type", g⟩
  | some ty =>
    let (alloca, g) := g.createAlloca ty name
    let g := g.setSymbol name alloca
    match value with
    | none => .ok g
    | some value =>
      match generateValue value ty g with
      | .error m => .error m
      | .ok (val, g) => .ok (g.createStore val alloca.id)

/-- `CodeGen::generateAssign` (lines 81-92), on the fields of the `AssignNode`. -/
def generateAssign (name : String) (value : ASTNode) (g : CodeGen) : Except RuntimeError CodeGen :=
  match g.find name with
  | none => .error ⟨"Assignment to undeclared variable: " ++ name, g⟩
  | some alloca =>
    match generateValue value alloca.allocatedType g with
    | .error m => .error m
    | .ok (val, g) => .ok (g.createStore val alloca.id)

/-- `CodeGen::generateCompoundAssign` (lines 94-134), on the fields of the
`CompoundAssignNode`. -/
def generateCompoundAssign (name : String) (op : BinaryOp) (value : ASTNode) (g : CodeGen) :
    Except RuntimeError CodeGen :=
  match g.find name with
  | none => .error ⟨"Compound assignment to undeclared variable: " ++ name, g⟩
  | some alloca =>
    let type := alloca.allocatedType
    let (current, g) := g.createLoad type alloca.id
    match generateValue value type g with
    | .error m => .error m
    | .ok (rhs, g) =>
      match arithmeticInstruction op type.isFloatTy with
      | none => .error ⟨"Unsupported compound assignment operator", g⟩
      | some instruction =>
        let (result, g) := g.createBinary instruction current rhs
        .ok (g.createStore result alloca.id)

/-- The loop of `generateStatement` over the declarations of a
`MultiVarDeclNode` (lines 41-43). -/
def generateVarDecls :
    List (VarType × String × Option ASTNode) → CodeGen → Except RuntimeError CodeGen
  | [], g => .ok g
  | (type, name, value) :: rest, g =>
    match generateVarDecl type name value g with
    | .error m => .error m
    | .ok g => generateVarDecls rest g

/-- `dynamic_cast<IfElseNode*>` succeeds. -/
def ASTNode.isIfElseNode : ASTNode → Bool
  | .IfElseNode _ _ _ => true
  | _ => false

/-- Modelled from the spec: `IfElseNode::hasElseBlock()` of the AST header, which
is not among the sources; the else of an if/else is optional, and the method
says whether it is present. -/
def hasElseBlock (elseBlock : Option ASTNode) : Bool :=
  elseBlock.isSome

/-- Modelled from the spec: `IfElseNode::isElseIf()` of the AST header, which is
not among the sources; the else is "either a Block or another IfElse", and the
method says whether it is an if/else. -/
def isElseIf (elseBlock : ASTNode) : Bool :=
  elseBlock.isIfElseNode

/-- The cases of `generateStatement` other than the if/else (lines 39-49): the
declarations, the assignment and the compound assignment; on a node of any
other class every `dynamic_cast` fails and nothing is generated. -/
def generateSimpleStatement : ASTNode → CodeGen → Except RuntimeError CodeGen
  | .MultiVarDeclNode declarations, g => generateVarDecls declarations g
  | .VarDeclNode type name value, g => generateVarDecl type name value g
  | .AssignNode name value, g => generateAssign name value g
  | .CompoundAssignNode name op value, g => generateCompoundAssign name op value g
  | _, g => .ok g

mutual

/-- `CodeGen::generateIfElse` (lines 136-175); the node is the `IfElseNode`. -/
def generateIfElse : ASTNode → CodeGen → Except RuntimeError CodeGen
  | .IfElseNode condition thenBlock elseBlockNode, g =>
    match generateValue condition .i1 g with
    | .error m => .error m
    | .ok (conditionValue, g) =>
      let (thenBlockId, g) := g.createBlock "then"
      let (elseBlockId, g) : Option Nat × CodeGen :=
        if hasElseBlock elseBlockNode then
          let (b, g) := g.createBlock "else"
          (some b, g)
        else (none, g)
      let (afterIfElseBlock, g) := g.createBlock "after_if_else"
      let g := g.createCondBr conditionValue thenBlockId (elseBlockId.getD afterIfElseBlock)
      let g := g.setInsertPoint thenBlockId
      match generateThenBlock thenBlock g with
      | .error m => .error m
      | .ok g =>
        let g := if !g.hasTerminator then g.createBr afterIfElseBlock else g
        match elseBlockId with
        | some elseBlockId =>
          match generateElse elseBlockNode afterIfElseBlock (g.setInsertPoint elseBlockId) with
          | .error m => .error m
          | .ok g =>
            let g := if !g.hasTerminator then g.createBr afterIfElseBlock else g
            .ok (g.setInsertPoint afterIfElseBlock)
        | none => .ok (g.setInsertPoint afterIfElseBlock)
  | _, g => .error ⟨"generateIfElse on a node that is not an IfElseNode", g⟩

/-- The then-branch of `generateIfElse` (lines 146-150). -/
def generateThenBlock : ASTNode → CodeGen → Except RuntimeError CodeGen
  | .BlockNode statements, g => generateBlock statements g
  | _, g => .error ⟨"Expected BlockNode for then_block in IfElseNode", g⟩

/-- The else-branch of `generateIfElse` (lines 157-167), entered with the
insertion point on the else block: an else-if is lowered by `generateIfElse`,
a block by `generateBlock` followed by the branch to the converge block when
the block has no terminator. -/
def generateElse : Option ASTNode → Nat → CodeGen → Except RuntimeError CodeGen
  | none, _, g => .error ⟨"Expected BlockNode or IfElseNode for else_block", g⟩
  | some node, afterIfElseBlock, g =>
    if isElseIf node then generateIfElse node g
    else generateElseBlock node afterIfElseBlock g

/-- The plain else block of `generateIfElse` (lines 160-167). -/
def generateElseBlock : ASTNode → Nat → CodeGen → Except RuntimeError CodeGen
  | .BlockNode statements, afterIfElseBlock, g =>
    match generateBlock statements g with
    | .error m => .error m
    | .ok g => .ok (if !g.hasTerminator then g.createBr afterIfElseBlock else g)
  | _, _, g => .error ⟨"Expected BlockNode or IfElseNode for else_block", g⟩

/-- `CodeGen::generateBlock` (lines 179-184), on the statements of the block.
The call `generateStatement(statement.get())` of the loop is written out as the
dispatch of `generateStatement` (the if/else apart from the other cases), which
keeps the recursion structural. -/
def generateBlock : List ASTNode → CodeGen → Except RuntimeError CodeGen
  | [], g => .ok g
  | statement :: rest, g =>
    match (if statement.isIfElseNode then generateIfElse statement g
      else generateSimpleStatement statement g) with
    | .error m => .error m
    | .ok g => generateBlock rest g

end

/-- `CodeGen::generateStatement` (lines 38-54).  A node of any other class than
the five tested makes every `dynamic_cast` fail and nothing is generated. -/
def generateStatement (node : ASTNode) (g : CodeGen) : Except RuntimeError CodeGen :=
  match node with
  | .MultiVarDeclNode declarations => generateVarDecls declarations g
  | .VarDeclNode type name value => generateVarDecl type name value g
  | .AssignNode name value => generateAssign name value g
  | .CompoundAssignNode name op value => generateCompoundAssign name op value g
  | .IfElseNode c t e => generateIfElse (.IfElseNode c t e) g
  | _ => .ok g

/-- `CodeGen::generate` (lines 21-36).  `verifyModule` is the structural verifier
of the target IR builder: it yields the diagnostic text for an invalid module. -/
def generate (verifyModule : CodeGen → Option String) (ast : ProgramNode) (g : CodeGen) :
    Except RuntimeError CodeGen :=
  match generateBlock ast.statements g with
  | .error m => .error m
  | .ok g =>
    let g := if !g.hasTerminator then g.createRet (.constInt .i32 0) else g
    match verifyModule g with
    | some error => .error ⟨"Generated IR is invalid: " ++ error, g⟩
    | none => .ok g

/-- The names of the blocks of `main`, in creation order. -/
def CodeGen.blockNames (g : CodeGen) : List String :=
  g.blocks.map BasicBlock.name

/-- The builder's insertion point is one of the blocks of `main`. -/
def CodeGen.WellFormed (g : CodeGen) : Prop :=
  g.insertBlock < g.blocks.length

/-- From `g` to `g2` the generator has appended the instructions `is` to the
insertion block, has left the other blocks as they were and has neither moved
the insertion point nor created or renamed a block. -/
def Appends (g g2 : CodeGen) (is : List Instr) : Prop :=
  g2.insertBlock = g.insertBlock ∧ g2.blocks.length = g.blocks.length ∧
  g2.currentInstructions = g.currentInstructions ++ is ∧
  (∀ i, i ≠ g.insertBlock → blockInstructions g2.blocks i = blockInstructions g.blocks i) ∧
  g2.blockNames = g.blockNames

/-- None of the instructions is a terminator. -/
def NoTerminator (is : List Instr) : Prop :=
  ∀ x ∈ is, x.isTerminator = false

/-- A load or a two-operand instruction. -/
def Instr.isComputation : Instr → Bool
  | .load _ _ _ | .binary _ _ _ _ => true
  | _ => false

/-- All the instructions are loads and two-operand instructions. -/
def Computation (is : List Instr) : Prop :=
  ∀ x ∈ is, x.isComputation = true

/-- The instruction a compound assignment applies, by operator and slot type:
the floating-point form for a float slot, the integer form (signed division for
`/=`) for a slot of an integer type. -/
def compoundInstruction (op : BinaryOp) (type : IRType) : Option IRBinOp :=
  if type.isFloatTy then
    match op with
    | .ADD => some .fadd
    | .SUBTRACT => some .fsub
    | .MULTIPLY => some .fmul
    | .DIVIDE => some .fdiv
    | _ => none
  else if type.isIntegerTy then
    match op with
    | .ADD => some .add
    | .SUBTRACT => some .sub
    | .MULTIPLY => some .mul
    | .DIVIDE => some .sdiv
    | _ => none
  else none

/-- The generator state after `int x;`. -/
def afterIntX : CodeGen :=
  { symbols := [("x", ⟨0, .i32⟩)], blocks := [⟨"entry", [.alloca 0 .i32 "x"]⟩],
    insertBlock := 0, globals := [], nextId := 1 }

/-- The generator state after `float f;`. -/
def afterFloatF : CodeGen :=
  { symbols := [("f", ⟨0, .float⟩)], blocks := [⟨"entry", [.alloca 0 .float "f"]⟩],
    insertBlock := 0, globals := [], nextId := 1 }

/-- The generator state after `string s;`. -/
def afterStringS : CodeGen :=
  { symbols := [("s", ⟨0, .ptr⟩)], blocks := [⟨"entry", [.alloca 0 .ptr "s"]⟩],
    insertBlock := 0, globals := [], nextId := 1 }

/-- The four arithmetic operators with their floating-point and their integer
instruction. -/
def arithmeticForms : List (BinaryOp × IRBinOp × IRBinOp) :=
  [(.ADD, .fadd, .add), (.SUBTRACT, .fsub, .sub), (.MULTIPLY, .fmul, .mul),
   (.DIVIDE, .fdiv, .sdiv)]

/-- The operators `generateValue` has an instruction for. -/
def supportedOperators : List BinaryOp :=
  [.ADD, .SUBTRACT, .MULTIPLY, .DIVIDE, .EQUAL, .NOT_EQUAL, .LESS, .LESS_EQUAL, .GREATER,
   .GREATER_EQUAL, .AND, .OR]

/-- The state of the generator when `generate` has lowered a program of no
effect: the block `entry` holds the return of the `i32` constant 0. -/
def returnOnly : CodeGen :=
  { CodeGen.new with blocks := [⟨"entry", [.ret (.constInt .i32 0)]⟩] }

/-- The blocks a terminator passes control to. -/
def Instr.targets : Instr → List Nat
  | .condBr _ thenBlock elseBlock => [thenBlock, elseBlock]
  | .br target => [target]
  | _ => []

/-- A return instruction. -/
def Instr.isRet : Instr → Bool
  | .ret _ => true
  | _ => false

/-- The instructions end in exactly one terminator, which is the last of them. -/
def Terminated (is : List Instr) : Prop :=
  ∃ body t, is = body ++ [t] ∧ NoTerminator body ∧ t.isTerminator = true

/-- The terminator invariant of a generator state: the insertion block is a
block of `main` and holds no terminator, and every other block ends in exactly
one terminator, its last instruction. -/
def CodeGen.TerminatorInvariant (g : CodeGen) : Prop :=
  g.insertBlock < g.blocks.length ∧ NoTerminator g.currentInstructions ∧
  ∀ i, i < g.blocks.length → i ≠ g.insertBlock → Terminated (blockInstructions g.blocks i)

/-- The terminator invariant while an if/else is being lowered: the blocks in
`pending` have been created and not yet been entered, they and the insertion
block hold no terminator, every other block ends in exactly one. -/
def CodeGen.BlocksClosed (g : CodeGen) (pending : Nat → Prop) : Prop :=
  g.insertBlock < g.blocks.length ∧ ¬ pending g.insertBlock ∧
  (∀ i, pending i → i < g.blocks.length) ∧
  NoTerminator g.currentInstructions ∧
  (∀ i, pending i → NoTerminator (blockInstructions g.blocks i)) ∧
  ∀ i, i < g.blocks.length → i ≠ g.insertBlock → ¬ pending i →
    Terminated (blockInstructions g.blocks i)

/-- The state in which `generateIfElse` enters the then-branch of an if without
else, `cond` being the value of the condition: the blocks `then` and
`after_if_else` created, the conditional branch to them emitted, the insertion
point on `then` (lines 139-145). -/
def ifThenEntry (g : CodeGen) (cond : Value) : CodeGen :=
  ((((g.createBlock "then").2.createBlock "after_if_else").2.createCondBr cond
    g.blocks.length (g.blocks.length + 1)).setInsertPoint g.blocks.length)

/-- The state in which `generateIfElse` enters the then-branch of an if with an
else: the blocks `then`, `else` and `after_if_else` created, the conditional
branch to `then` and `else` emitted, the insertion point on `then`. -/
def ifElseEntry (g : CodeGen) (cond : Value) : CodeGen :=
  (((((g.createBlock "then").2.createBlock "else").2.createBlock "after_if_else").2.createCondBr
    cond g.blocks.length (g.blocks.length + 1)).setInsertPoint g.blocks.length)

/-- The shapes of what lowering statements does to the blocks: nothing; one
lowering after another; instructions other than terminators appended to the
insertion block; an if without else (the then-branch lowered from `ifThenEntry`,
closed by the branch to the converge block, the insertion point left there); an
if with else (then-branch, branch, else-branch lowered on the else block,
branch, insertion point on the converge block). -/
inductive Lowers : CodeGen → CodeGen → Prop
  | refl (g : CodeGen) : Lowers g g
  | trans {g g1 g2 : CodeGen} : Lowers g g1 → Lowers g1 g2 → Lowers g g2
  | straight {g g2 : CodeGen} {is : List Instr} :
      Appends g g2 is → NoTerminator is → Lowers g g2
  | ifThen {g g1 : CodeGen} (cond : Value) :
      Lowers (ifThenEntry g cond) g1 →
      Lowers g ((g1.createBr (g.blocks.length + 1)).setInsertPoint (g.blocks.length + 1))
  | ifThenElse {g g1 g2 : CodeGen} (cond : Value) :
      Lowers (ifElseEntry g cond) g1 →
      Lowers ((g1.createBr (g.blocks.length + 2)).setInsertPoint (g.blocks.length + 1)) g2 →
      Lowers g ((g2.createBr (g.blocks.length + 2)).setInsertPoint (g.blocks.length + 2))

/-- Every path of the control-flow graph that starts at a block reaches a block
of `goal`: the block is in `goal`, or it ends in a branch and every path from
each target of the branch reaches `goal`. -/
inductive Reaches (blocks : List BasicBlock) (goal : Nat → Prop) : Nat → Prop
  | here (b : Nat) : goal b → Reaches blocks goal b
  | step (b : Nat) (t : Instr) :
      (blockInstructions blocks b).getLast? = some t → t.targets ≠ [] →
      (∀ s, s ∈ t.targets → Reaches blocks goal s) → Reaches blocks goal b

/-- No block holds a return instruction. -/
def CodeGen.NoReturn (g : CodeGen) : Prop :=
  ∀ i, ∀ x ∈ blockInstructions g.blocks i, x.isRet = false
/-- What a successful call of `generateIfElse` on a node from the state `g` has
done: the node is an if/else, its condition has been lowered against `i1` by
instructions appended to the insertion block, and the branches have been
lowered in the shape of `Lowers.ifThen` (no else) or `Lowers.ifThenElse`. -/
def IfElseLowered (node : ASTNode) (g g2 : CodeGen) : Prop :=
  ∃ condition thenBlock elseBlock cond gc condInstrs,
    node = .IfElseNode condition thenBlock elseBlock ∧
    generateValue condition .i1 g = .ok (cond, gc) ∧
    Appends g gc condInstrs ∧ Computation condInstrs ∧
    ((elseBlock = none ∧ ∃ g1, Lowers (ifThenEntry gc cond) g1 ∧
        g2 = (g1.createBr (gc.blocks.length + 1)).setInsertPoint (gc.blocks.length + 1)) ∨
     (elseBlock.isSome = true ∧ ∃ g1 g3, Lowers (ifElseEntry gc cond) g1 ∧
        Lowers ((g1.createBr (gc.blocks.length + 2)).setInsertPoint (gc.blocks.length + 1)) g3 ∧
        g2 = (g3.createBr (gc.blocks.length + 2)).setInsertPoint (gc.blocks.length + 2)))

/-- The statement `if (x > 0) { x = 1; } else if (x < 0) { x = 2; } else { }`. -/
def elseIfChain : ASTNode :=
  .IfElseNode (.BinaryOpNode .GREATER (.VarRefNode "x") (some (.IntLiteral 0)))
    (.BlockNode [.AssignNode "x" (.IntLiteral 1)])
    (some (.IfElseNode (.BinaryOpNode .LESS (.VarRefNode "x") (some (.IntLiteral 0)))
      (.BlockNode [.AssignNode "x" (.IntLiteral 2)])
      (some (.BlockNode []))))

/-- The generator state after `int x;` followed by `elseIfChain`: the blocks
`entry`, `then`, `else`, `after_if_else` of the outer if/else and `then`, `else`,
`after_if_else` of the inner one, the insertion point on the outer converge
block. -/
def afterElseIfChain : CodeGen :=
  { symbols := [("x", ⟨0, .i32⟩)],
    blocks := [
      ⟨"entry", [.alloca 0 .i32 "x", .load 1 .i32 0,
        .binary 2 .icmpSGT (.inst 1 .i32) (.constInt .i32 0), .condBr (.inst 2 .i1) 1 2]⟩,
      ⟨"then", [.store (.constInt .i32 1) 0, .br 3]⟩,
      ⟨"else", [.load 3 .i32 0, .binary 4 .icmpSLT (.inst 3 .i32) (.constInt .i32 0),
        .condBr (.inst 4 .i1) 4 5]⟩,
      ⟨"after_if_else", []⟩,
      ⟨"then", [.store (.constInt .i32 2) 0, .br 6]⟩,
      ⟨"else", [.br 6]⟩,
      ⟨"after_if_else", [.br 3]⟩],
    insertBlock := 3, globals := [], nextId := 5 }

/-- The program `int x; if (x > 0) { x = 1; } else if (x < 0) { x = 2; } else { }`. -/
def elseIfProgram : ProgramNode :=
  ⟨[.VarDeclNode .INT "x" none, elseIfChain]⟩

/-- The tokens of `try B1 catch (Error e) B2` with `array a;` in B1 and B2 empty. -/
def tryArrayTokens : List Token :=
  [tok .Try "try" 1, tok .LeftBrace "\x7b" 1, tok .Array "array" 1, tok .Ident "a" 1,
   tok .Semicolon ";" 1, tok .RightBrace "\x7d" 1, tok .Catch "catch" 1, tok .LeftParen "(" 1,
   tok .Error "Error" 1, tok .Ident "e" 1, tok .RightParen ")" 1, tok .LeftBrace "\x7b" 1,
   tok .RightBrace "\x7d" 1]

/-- The program `try B1 catch (Error e) B2` with `array a;` in B1 and B2 empty. -/
def tryArrayProgram : ProgramNode :=
  ⟨[.TryCatchNode (.BlockNode [.VarDeclNode .ARRAY "a" none]) (.BlockNode []) "e"]⟩

/-- The `VarDecl` statement of an entry of a `MultiVarDeclNode`. -/
def varDeclStatement (d : VarType × String × Option ASTNode) : ASTNode :=
  .VarDeclNode d.1 d.2.1 d.2.2

/-- Lowering statements one after the other with `generateStatement`, stopping
at the first that fails: what `generate` does with the top-level statements. -/
def lowerInOrder : List ASTNode → CodeGen → Except RuntimeError CodeGen
  | [], g => .ok g
  | statement :: rest, g =>
    match generateStatement statement g with
    | .error e => .error e
    | .ok g => lowerInOrder rest g

/-- The generator state after `int a, b = v, w;`: two `i32` slots, each with the
store of its value. -/
def afterTwoInts (v w : Int) : CodeGen :=
  { symbols := [("b", ⟨1, .i32⟩), ("a", ⟨0, .i32⟩)],
    blocks := [⟨"entry", [.alloca 0 .i32 "a", .store (.constInt .i32 v) 0,
      .alloca 1 .i32 "b", .store (.constInt .i32 w) 1]⟩],
    insertBlock := 0, globals := [], nextId := 2 }

/-- The tokens of `int a = 1; int b = a + 2;`. -/
def sumWithVariableTokens : List Token :=
  [tok .Int "int" 1, tok .Ident "a" 1, tok .Equal "=" 1, tok .IntLiteral "1" 1,
   tok .Semicolon ";" 1, tok .Int "int" 2, tok .Ident "b" 2, tok .Equal "=" 2,
   tok .Ident "a" 2, tok .Plus "+" 2, tok .IntLiteral "2" 2, tok .Semicolon ";" 2]

/-- The program `int a = 1; int b = a + 2;` as the parser returns it. -/
def sumWithVariableProgram : ProgramNode :=
  ⟨[.VarDeclNode .INT "a" (some (.IntLiteral 1)),
    .VarDeclNode .INT "b" (some (.ConcatNode (.VarRefNode "a") (.IntLiteral 2)))]⟩

/-- The generator state after `int x; string x;`. -/
def afterIntThenStringX : CodeGen :=
  { symbols := [("x", ⟨1, .ptr⟩)],
    blocks := [⟨"entry", [.alloca 0 .i32 "x", .alloca 1 .ptr "x"]⟩],
    insertBlock := 0, globals := [], nextId := 2 }

/-- The names a statement declares: the name of a `VarDeclNode`, the names of
the entries of a `MultiVarDeclNode`. -/
def ASTNode.declares : ASTNode → String → Bool
  | .VarDeclNode _ n _, name => n = name
  | .MultiVarDeclNode declarations, name => declarations.any fun d => d.2.1 = name
  | _, _ => false

/-- One of the statements of the block `block` declares `name`. -/
def DeclaredIn (block : ASTNode) (name : String) : Prop :=
  ∃ stmts, block = .BlockNode stmts ∧ ∃ s ∈ stmts, s.declares name = true

/-- Every name of the symbol table of `g` is in the symbol table of `g2`. -/
def SymbolsKept (g g2 : CodeGen) : Prop :=
  ∀ name, (g.find name).isSome = true → (g2.find name).isSome = true

/-- The statements `if (c) { int x = 1; } x = 2;`. -/
def declareInThen : List ASTNode :=
  [.IfElseNode (.VarRefNode "c") (.BlockNode [.VarDeclNode .INT "x" (some (.IntLiteral 1))]) none,
   .AssignNode "x" (.IntLiteral 2)]

/-- The tokens of `bool c ; if ( c ) { int x = 1 ; } x = 2 ;`. -/
def declareInThenTokens : List Token :=
  [tok .Bool "bool" 1, tok .Ident "c" 1, tok .Semicolon ";" 1,
   tok .If "if" 1, tok .LeftParen "(" 1, tok .Ident "c" 1, tok .RightParen ")" 1,
   tok .LeftBrace "\x7b" 1, tok .Int "int" 1, tok .Ident "x" 1, tok .Equal "=" 1,
   tok .IntLiteral "1" 1, tok .Semicolon ";" 1, tok .RightBrace "\x7d" 1,
   tok .Ident "x" 1, tok .Equal "=" 1, tok .IntLiteral "2" 1, tok .Semicolon ";" 1]

/-- The tokens of `bool b = 1 ;`. -/
def boolOneTokens : List Token :=
  [tok .Bool "bool" 1, tok .Ident "b" 1, tok .Equal "=" 1, tok .IntLiteral "1" 1,
   tok .Semicolon ";" 1]

/-- The program `bool b = 1;`. -/
def boolOneProgram : ProgramNode :=
  ⟨[.VarDeclNode .BOOL "b" (some (.IntLiteral 1))]⟩

/-- The generator state after `bool b = 1;` and the final return: the slot of
`b` has type `i1`, the value stored into it is the `i32` constant 1. -/
def afterBoolOne : CodeGen :=
  { symbols := [("b", ⟨0, .i1⟩)],
    blocks := [⟨"entry", [.alloca 0 .i1 "b", .store (.constInt .i32 1) 0,
      .ret (.constInt .i32 0)]⟩],
    insertBlock := 0, globals := [], nextId := 1 }

/-- The tokens of `x %= 2 ;`. -/
def moduloByTwo : List Token :=
  [tok .Ident "x" 1, tok .ModuloEqual "%=" 1, tok .IntLiteral "2" 1, tok .Semicolon ";" 1]

/-- The index expressions `parseAssignment` accepts between `[` and `]`: an
integer, string, boolean or character literal, or a variable reference. -/
def IsIndexOperand (e : ASTNode) : Prop :=
  (∃ v, e = .IntLiteral v) ∨ (∃ name, e = .VarRefNode name) ∨ (∃ s, e = .StrLiteral s) ∨
  (∃ b, e = .BoolLiteral b) ∨ (∃ c, e = .CharLiteral c)

/-- The tokens of `a [ 1.5 ] = 1 ;`. -/
def floatIndexAssign : List Token :=
  [tok .Ident "a" 1, tok .LeftBracket "[" 1, tok .FloatLiteral "1.5" 1, tok .RightBracket "]" 1,
   tok .Equal "=" 1, tok .IntLiteral "1" 1, tok .Semicolon ";" 1]

/-- The tokens of `a = 1 ;`. -/
def plainAssign : List Token :=
  [tok .Ident "a" 1, tok .Equal "=" 1, tok .IntLiteral "1" 1, tok .Semicolon ";" 1]

/-- The tokens of `a [ i ] = 1 ;`. -/
def indexAssign : List Token :=
  [tok .Ident "a" 1, tok .LeftBracket "[" 1, tok .Ident "i" 1, tok .RightBracket "]" 1,
   tok .Equal "=" 1, tok .IntLiteral "1" 1, tok .Semicolon ";" 1]

/-- The tokens of `a [ i ] ++ ;`. -/
def indexIncrement : List Token :=
  [tok .Ident "a" 1, tok .LeftBracket "[" 1, tok .Ident "i" 1, tok .RightBracket "]" 1,
   tok .PlusPlus "++" 1, tok .Semicolon ";" 1]

/-- The parser on the stream of `p` with a bracketed index left out: the name
token of `p` current, followed by what follows the `]` that is current in `q`. -/
def withoutIndex (p q : Parser) : Parser :=
  { q with currentToken := p.currentToken }
/-- One case of a `match` body parsed from `p` up to the end of its body at
`p2`: a wildcard `_` or a case expression, `->`, a block or a single statement.
A comma that follows is not part of it. -/
def MatchCaseEntry (uninit : BinaryOp) (n : Nat) (p : Parser) (c : Option ASTNode × ASTNode)
    (p2 : Parser) : Prop :=
  p.currentToken.type ≠ .RightBrace ∧ p.currentToken.type ≠ .Eof ∧
  ∃ p1 : Parser,
    ((p.currentToken.type = .Underscore ∧ c.1 = none ∧ p1 = p.advance) ∨
      (p.currentToken.type ≠ .Underscore ∧
        ∃ v, parseExpression uninit n p = .ok v p1 ∧ c.1 = some v)) ∧
    p1.currentToken.type = .Arrow ∧
    ((p1.advance.currentToken.type = .LeftBrace ∧
        ∃ b, parseBlock uninit n p1.advance = .ok b p2 ∧ c.2 = .BlockNode b) ∨
      (p1.advance.currentToken.type ≠ .LeftBrace ∧
        parseStatement uninit n p1.advance = .ok c.2 p2))

/-- The tokens of `match x { 1 -> print(1); , 2 -> print(2); }`. -/
def matchWithComma : List Token :=
  [tok .Match "match" 1, tok .Ident "x" 1, tok .LeftBrace "\x7b" 1,
   tok .IntLiteral "1" 1, tok .Arrow "->" 1, tok .Print "print" 1, tok .LeftParen "(" 1,
   tok .IntLiteral "1" 1, tok .RightParen ")" 1, tok .Semicolon ";" 1, tok .Comma "," 1,
   tok .IntLiteral "2" 1, tok .Arrow "->" 1, tok .Print "print" 1, tok .LeftParen "(" 1,
   tok .IntLiteral "2" 1, tok .RightParen ")" 1, tok .Semicolon ";" 1, tok .RightBrace "\x7d" 1]

/-- The tokens of `match x { 1 -> print(1); 2 -> print(2); }`. -/
def matchWithoutComma : List Token :=
  [tok .Match "match" 1, tok .Ident "x" 1, tok .LeftBrace "\x7b" 1,
   tok .IntLiteral "1" 1, tok .Arrow "->" 1, tok .Print "print" 1, tok .LeftParen "(" 1,
   tok .IntLiteral "1" 1, tok .RightParen ")" 1, tok .Semicolon ";" 1,
   tok .IntLiteral "2" 1, tok .Arrow "->" 1, tok .Print "print" 1, tok .LeftParen "(" 1,
   tok .IntLiteral "2" 1, tok .RightParen ")" 1, tok .Semicolon ";" 1, tok .RightBrace "\x7d" 1]

/-- The tokens of `match x { 1 -> print(1); , 2 -> print(2); , }`. -/
def matchTrailingComma : List Token :=
  [tok .Match "match" 1, tok .Ident "x" 1, tok .LeftBrace "\x7b" 1,
   tok .IntLiteral "1" 1, tok .Arrow "->" 1, tok .Print "print" 1, tok .LeftParen "(" 1,
   tok .IntLiteral "1" 1, tok .RightParen ")" 1, tok .Semicolon ";" 1, tok .Comma "," 1,
   tok .IntLiteral "2" 1, tok .Arrow "->" 1, tok .Print "print" 1, tok .LeftParen "(" 1,
   tok .IntLiteral "2" 1, tok .RightParen ")" 1, tok .Semicolon ";" 1, tok .Comma "," 1,
   tok .RightBrace "\x7d" 1]

/-- The `MatchNode` of `match x { 1 -> print(1); 2 -> print(2); }`. -/
def matchOneTwo : ASTNode :=
  .MatchNode (.VarRefNode "x")
    [(some (.IntLiteral 1), .PrintNode (.IntLiteral 1)),
     (some (.IntLiteral 2), .PrintNode (.IntLiteral 2))]

/-- The number of tokens still to be consumed: the tokens pending in the lexer,
the peeked token and the current token, an end marker in the cursor not counted. -/
def Parser.rem (p : Parser) : Nat :=
  p.lexer.pending.length + (if p.peekToken.type = .Eof then 0 else 1) +
    (if p.currentToken.type = .Eof then 0 else 1)

/-- What a call of a parsing function is shown to satisfy: under the condition
`enough` on its fuel it does not run out of fuel, and when it returns a node,
fewer than `bound` tokens are left to be consumed. -/
def Good {α : Type} (enough : Prop) (bound : Nat) (r : Result α) : Prop :=
  (enough → r ≠ .outOfFuel) ∧ ∀ a q, r = .ok a q → q.rem < bound

/-- The parsing functions of a record all satisfy `Good`: with fuel `n` each
terminates on a state with few enough tokens left (six units of fuel per token,
and the units its own calls need), and each leaves no more tokens than it found;
those that always consume a token leave fewer. -/
structure ParsersGood (rec : Parsers) (n : Nat) : Prop where
  parseStatement : ∀ p, Good (6 * p.rem + 6 ≤ n) p.rem (rec.parseStatement p)
  parseVarDecl : ∀ p, Good (6 * p.rem + 4 ≤ n) p.rem (rec.parseVarDecl p)
  parseExpression : ∀ p, Good (6 * p.rem + 2 ≤ n) p.rem (rec.parseExpression p)
  parsePrimary : ∀ p, Good (6 * p.rem + 1 ≤ n) p.rem (rec.parsePrimary p)
  parseVarDeclMultiVariable : ∀ type name p,
    Good (6 * p.rem + 3 ≤ n) (p.rem + 1) (rec.parseVarDeclMultiVariable type name p)
  parseVarDeclMultiBoth : ∀ type value names p,
    Good (6 * p.rem + 2 ≤ n) (p.rem + 1) (rec.parseVarDeclMultiBoth type value names p)
  parseAssignment : ∀ p, Good (6 * p.rem + 3 ≤ n) p.rem (rec.parseAssignment p)
  parseIfStatement : ∀ p, Good (6 * p.rem + 3 ≤ n) p.rem (rec.parseIfStatement p)
  parseBlock : ∀ p, Good (6 * p.rem + 1 ≤ n) p.rem (rec.parseBlock p)
  parseLoop : ∀ p, Good (6 * p.rem + 5 ≤ n) p.rem (rec.parseLoop p)
  parseTryCatch : ∀ p, Good (6 * p.rem + 2 ≤ n) (p.rem + 1) (rec.parseTryCatch p)
  parseTernary : ∀ c p, Good (6 * p.rem + 1 ≤ n) (p.rem + 1) (rec.parseTernary c p)
  parseMatch : ∀ p, Good (6 * p.rem + 3 ≤ n) p.rem (rec.parseMatch p)

/-- The tokens of `if ( c ) { x = 1 ;`, the block left open. -/
def unclosedBlock : List Token :=
  [tok .If "if" 1, tok .LeftParen "(" 1, tok .Ident "c" 1, tok .RightParen ")" 1,
   tok .LeftBrace "\x7b" 1, tok .Ident "x" 1, tok .Equal "=" 1, tok .IntLiteral "1" 1,
   tok .Semicolon ";" 1]

/-- The tokens of `match x { 1 -> print(1);`, the body left open. -/
def unclosedMatch : List Token :=
  [tok .Match "match" 1, tok .Ident "x" 1, tok .LeftBrace "\x7b" 1,
   tok .IntLiteral "1" 1, tok .Arrow "->" 1, tok .Print "print" 1, tok .LeftParen "(" 1,
   tok .IntLiteral "1" 1, tok .RightParen ")" 1, tok .Semicolon ";" 1]

/-- The tokens of `int a, b = 99999999999;`. -/
def intSharedTooLarge : List Token :=
  [tok .Int "int" 1, tok .Ident "a" 1, tok .Comma "," 1, tok .Ident "b" 1, tok .Equal "=" 1,
   tok .IntLiteral "99999999999" 1, tok .Semicolon ";" 1]

/-- The tokens of `float a, b = 12345678901234567890123456789012345678901;`. -/
def floatSharedTooLarge : List Token :=
  [tok .Float "float" 1, tok .Ident "a" 1, tok .Comma "," 1, tok .Ident "b" 1, tok .Equal "=" 1,
   tok .IntLiteral "12345678901234567890123456789012345678901" 1, tok .Semicolon ";" 1]

/-- The tokens of `int a, b = 1, 99999999999;`. -/
def intPerIdentifierTooLarge : List Token :=
  [tok .Int "int" 1, tok .Ident "a" 1, tok .Comma "," 1, tok .Ident "b" 1, tok .Equal "=" 1,
   tok .IntLiteral "1" 1, tok .Comma "," 1, tok .IntLiteral "99999999999" 1,
   tok .Semicolon ";" 1]

/-- The tokens of `float a, b = 1.5, 12345678901234567890123456789012345678901.0;`. -/
def floatPerIdentifierTooLarge : List Token :=
  [tok .Float "float" 1, tok .Ident "a" 1, tok .Comma "," 1, tok .Ident "b" 1, tok .Equal "=" 1,
   tok .FloatLiteral "1.5" 1, tok .Comma "," 1,
   tok .FloatLiteral "12345678901234567890123456789012345678901.0" 1, tok .Semicolon ";" 1]

/-- The tokens of `x ++ ? 1 : 2 ;`. -/
def postfixThenQuestion : List Token :=
  [tok .Ident "x" 1, tok .PlusPlus "++" 1, tok .Question "?" 1, tok .IntLiteral "1" 1,
   tok .Colon ":" 1, tok .IntLiteral "2" 1, tok .Semicolon ";" 1]

/-- The else-if of `elseIfChain`: `if (x < 0) { x = 2; } else { }`. -/
def elseIfInner : ASTNode :=
  .IfElseNode (.BinaryOpNode .LESS (.VarRefNode "x") (some (.IntLiteral 0)))
    (.BlockNode [.AssignNode "x" (.IntLiteral 2)])
    (some (.BlockNode []))

/-- The generator state in which the lowering of `elseIfChain` after `int x;`
calls `generateIfElse` on the else-if: the then-block of the outer if/else is
closed, the insertion point is on its `else` block, its converge block (block 3)
is created and not yet entered. -/
def beforeElseIfInner : CodeGen :=
  { symbols := [("x", ⟨0, .i32⟩)],
    blocks := [
      ⟨"entry", [.alloca 0 .i32 "x", .load 1 .i32 0,
        .binary 2 .icmpSGT (.inst 1 .i32) (.constInt .i32 0), .condBr (.inst 2 .i1) 1 2]⟩,
      ⟨"then", [.store (.constInt .i32 1) 0, .br 3]⟩,
      ⟨"else", []⟩,
      ⟨"after_if_else", []⟩],
    insertBlock := 2, globals := [], nextId := 3 }

/-- The generator state that call leaves: the insertion point on the converge
block of the else-if (block 6). -/
def afterElseIfInner : CodeGen :=
  { symbols := [("x", ⟨0, .i32⟩)],
    blocks := [
      ⟨"entry", [.alloca 0 .i32 "x", .load 1 .i32 0,
        .binary 2 .icmpSGT (.inst 1 .i32) (.constInt .i32 0), .condBr (.inst 2 .i1) 1 2]⟩,
      ⟨"then", [.store (.constInt .i32 1) 0, .br 3]⟩,
      ⟨"else", [.load 3 .i32 0, .binary 4 .icmpSLT (.inst 3 .i32) (.constInt .i32 0),
        .condBr (.inst 4 .i1) 4 5]⟩,
      ⟨"after_if_else", []⟩,
      ⟨"then", [.store (.constInt .i32 2) 0, .br 6]⟩,
      ⟨"else", [.br 6]⟩,
      ⟨"after_if_else", []⟩],
    insertBlock := 6, globals := [], nextId := 5 }

/-! ## The token cursor lemmas -/

theorem ofTokens_nil_current : (Parser.ofTokens []).currentToken = eofToken := rfl

theorem ofTokens_cons_current (t : Token) (ts : List Token) :
    (Parser.ofTokens (t :: ts)).currentToken = t := rfl

theorem ofTokens_cons_peek (t t2 : Token) (ts : List Token) :
    (Parser.ofTokens (t :: t2 :: ts)).peekToken = t2 := rfl

theorem ofTokens_cons_advance (t : Token) (ts : List Token) :
    (Parser.ofTokens (t :: ts)).advance = Parser.ofTokens ts := by
  cases ts with
  | nil => rfl
  | cons t2 ts =>
    cases ts with
    | nil => rfl
    | cons t3 ts => rfl

theorem ofTokens_nil_advance : (Parser.ofTokens []).advance = Parser.ofTokens [] := rfl

/-! ## Sequencing -/

@[simp] theorem Result.bind_ok {α β : Type} (a : α) (p : Parser) (f : α → Parser → Result β) :
    (Result.ok a p).bind f = f a p := rfl

@[simp] theorem Result.bind_error {α β : Type} (m : String) (f : α → Parser → Result β) :
    (Result.error m : Result α).bind f = .error m := rfl

@[simp] theorem Result.bind_outOfFuel {α β : Type} (f : α → Parser → Result β) :
    (Result.outOfFuel : Result α).bind f = .outOfFuel := rfl

/-! ## `parseProgram` -/

theorem programLoop_run (ps : Parser → Result ASTNode) {p q : Parser} {stmts : List ASTNode}
    (hrun : StatementsRun ps p stmts q) :
    ∀ (k : Nat) (acc : List ASTNode),
      programLoop ps (stmts.length + k) acc p = programLoop ps k (acc ++ stmts) q := by
  induction hrun with
  | done p => intro k acc; simp
  | @step p q r stmt stmts hne hok _ ih =>
    intro k acc
    have h : (stmt :: stmts).length + k = (stmts.length + k) + 1 := by
      simp only [List.length_cons]; omega
    rw [h, programLoop]
    simp only [hne, ne_eq, not_false_eq_true, if_true, hok, Result.bind_ok]
    rw [ih k (acc ++ [stmt])]
    simp

/-- C1. `parseProgram` calls `parseStatement` again and again while the current
token is not the end marker.  When the calls succeed with `stmts`, in order, and
then reach the end marker, it returns the `ProgramNode` holding exactly `stmts`
(the empty program when the stream starts at the end marker); when a call fails
after `stmts`, `parseProgram` fails with that error and returns no program. -/
theorem parseProgram_collects_statements (uninit : BinaryOp) (n : Nat) (p q : Parser)
    (stmts : List ASTNode)
    (hrun : StatementsRun (parseStatement uninit n) p stmts q) (hlen : stmts.length ≤ n) :
    (q.currentToken.type = .Eof → parseProgram uninit (n + 1) p = .ok ⟨stmts⟩ q) ∧
    (∀ msg, q.currentToken.type ≠ .Eof → parseStatement uninit n q = .error msg →
      parseProgram uninit (n + 1) p = .error msg) ∧
    (p.currentToken.type = .Eof → parseProgram uninit (n + 1) p = .ok ⟨[]⟩ p) := by
  obtain ⟨k, hk⟩ : ∃ k, n + 1 = stmts.length + (k + 1) := ⟨n - stmts.length, by omega⟩
  refine ⟨?_, ?_, ?_⟩
  · intro heof
    rw [parseProgram, hk, programLoop_run _ hrun, programLoop]
    simp [heof]
  · intro msg hne herr
    rw [parseProgram, hk, programLoop_run _ hrun, programLoop]
    simp [hne, herr]
  · intro heof
    rw [parseProgram, programLoop]
    simp [heof]

/-- C1 at `int x ; x = 1 ;`: two statements, collected in source order. -/
theorem parseProgram_collects_statements_witness :
    parseProgram .ADD 6 (Parser.ofTokens declThenAssignTokens) =
      .ok ⟨[.VarDeclNode .INT "x" none, .AssignNode "x" (.IntLiteral 1)]⟩ (Parser.ofTokens []) :=
  (parseProgram_collects_statements .ADD 5 (Parser.ofTokens declThenAssignTokens)
    (Parser.ofTokens []) [.VarDeclNode .INT "x" none, .AssignNode "x" (.IntLiteral 1)]
    (.step (q := Parser.ofTokens (declThenAssignTokens.drop 3)) (by decide) rfl
      (.step (q := Parser.ofTokens []) (by decide) rfl (.done _)))
    (by decide)).1 rfl

/-! ## `parseExpression`: the flat operator chain -/

theorem flatOperator_loop {t : TokenType} {op : BinaryOp} (h : flatOperator t = some op) :
    isChainOperator t = true ∧ t ≠ .Plus ∧ t ≠ .SignedIntLiteral ∧
      binaryOpOfToken t = some op ∧ op ≠ .ADD := by
  cases t <;> simp [flatOperator] at h <;> subst h <;> simp [isChainOperator, binaryOpOfToken]

theorem exprLoop_chain (uninit : BinaryOp) (rec : Parsers) {p r : Parser}
    {items : List (BinaryOp × ASTNode)} (hchain : PrimaryChain rec.parsePrimary p items r) :
    ∀ (k : Nat) (left : ASTNode),
      exprLoop uninit rec (items.length + k) left p =
        exprLoop uninit rec k (leftNested left items) r := by
  induction hchain with
  | nil p => intro k left; simp [leftNested]
  | @cons p q r op right items hop hprim _ ih =>
    intro k left
    obtain ⟨h1, h2, h3, h4, h5⟩ := flatOperator_loop hop
    have h : ((op, right) :: items).length + k = (items.length + k) + 1 := by
      simp only [List.length_cons]; omega
    rw [h, exprLoop]
    simp only [h1, h2, h3, h4, h5, hprim, if_true, if_false, ne_eq, not_false_eq_true,
      Result.bind_ok, false_and]
    rw [ih k]
    simp [leftNested]

theorem exprLoop_end (uninit : BinaryOp) (rec : Parsers) (k : Nat) (left : ASTNode) (p : Parser)
    (hend : endsExpression p.currentToken.type) :
    exprLoop uninit rec (k + 1) left p = .ok left p := by
  obtain ⟨h1, h2, h3, _, _, _⟩ := hend
  have : isChainOperator p.currentToken.type = false := by
    generalize p.currentToken.type = t at *
    cases t <;> simp_all [flatOperator, isChainOperator]
  rw [exprLoop]
  simp [this]

theorem exprPostfix_end (left : ASTNode) (p : Parser)
    (hend : endsExpression p.currentToken.type) : exprPostfix left p = .ok left p := by
  obtain ⟨_, _, _, h4, h5, _⟩ := hend
  simp [exprPostfix, h4, h5]

theorem parseTernary_end (uninit : BinaryOp) (n : Nat) (left : ASTNode) (p : Parser)
    (hend : endsExpression p.currentToken.type) :
    parseTernary uninit (n + 1) left p = .ok left p := by
  obtain ⟨_, _, _, _, _, h6⟩ := hend
  simp [parseTernary, parsers, parseTernaryStep, h6]

theorem parsePrimary_ok_fuel {uninit : BinaryOp} {n : Nat} {p q : Parser} {e : ASTNode}
    (h : parsePrimary uninit n p = .ok e q) : ∃ m, n = m + 1 := by
  cases n with
  | zero => simp [parsePrimary, parsers] at h
  | succ m => exact ⟨m, rfl⟩

theorem parseExpression_ok_fuel {uninit : BinaryOp} {n : Nat} {p q : Parser} {e : ASTNode}
    (h : parseExpression uninit n p = .ok e q) : ∃ m, n = m + 1 := by
  cases n with
  | zero => simp [parseExpression, parsers] at h
  | succ m => exact ⟨m, rfl⟩

/-- C2. `parseExpression` is flat and left-associative.  For a first primary
`p0` — parsed by `parsePrimary`, or a parenthesised expression `( e )` — followed
by `op1 p1 ... opn pn` with operators among `-`, `*`, `/`, `%`, `==`, `!=`, `<`,
`<=`, `>`, `>=`, `and`, `or`, `xor`, where the next token does not continue the
expression, the result is the left-nested tree
`BinaryOp(opn, ... BinaryOp(op1, p0, p1) ..., pn)`; `1 - 2 * 3` yields
`Multiply(Subtract(1, 2), 3)`. -/
theorem parseExpression_left_associative (uninit : BinaryOp) (n : Nat) (p q0 r : Parser)
    (first : ASTNode) (items : List (BinaryOp × ASTNode))
    (hfirst : (p.currentToken.type ≠ .LeftParen ∧ parsePrimary uninit n p = .ok first q0) ∨
      (p.currentToken.type = .LeftParen ∧ ∃ q, parseExpression uninit n p.advance = .ok first q ∧
        q.currentToken.type = .RightParen ∧ q0 = q.advance))
    (hchain : PrimaryChain (parsePrimary uninit n) q0 items r)
    (hend : endsExpression r.currentToken.type) (hlen : items.length ≤ n) :
    parseExpression uninit (n + 1) p = .ok (leftNested first items) r := by
  obtain ⟨k, hk⟩ : ∃ k, n + 1 = items.length + (k + 1) := ⟨n - items.length, by omega⟩
  have hloop : exprLoop uninit (parsers uninit n) (n + 1) first q0 =
      .ok (leftNested first items) r := by
    rw [hk, exprLoop_chain uninit _ hchain, exprLoop_end _ _ _ _ _ hend]
  rcases hfirst with ⟨hne, hprim⟩ | ⟨hparen, q, hinner, hclose, rfl⟩
  · obtain ⟨m, rfl⟩ := parsePrimary_ok_fuel hprim
    have hneg : p.currentToken.type ≠ .negLeftParen := by
      intro hc
      simp [parsePrimary, parsers, parsePrimaryStep, hc] at hprim
    have hprim2 : (parsers uninit (m + 1)).parsePrimary p = .ok first q0 := hprim
    have htern := parseTernary_end uninit m (leftNested first items) r hend
    unfold parseTernary at htern
    show parseExpressionStep uninit (m + 1 + 1) (parsers uninit (m + 1)) p = _
    simp only [parseExpressionStep, hne, hneg, or_self, if_false, hprim2, Result.bind_ok, hloop,
      exprPostfix_end _ _ hend, htern]
  · obtain ⟨m, rfl⟩ := parseExpression_ok_fuel hinner
    have hinner2 : (parsers uninit (m + 1)).parseExpression p.advance = .ok first q := hinner
    have htern := parseTernary_end uninit m (leftNested first items) r hend
    unfold parseTernary at htern
    show parseExpressionStep uninit (m + 1 + 1) (parsers uninit (m + 1)) p = _
    simp only [parseExpressionStep, hparen, true_or, if_true, hinner2, Result.bind_ok, hclose,
      ne_eq, not_true_eq_false, if_false]
    by_cases hsemi : q.advance.currentToken.type = .Semicolon
    · simp only [hsemi, not_true_eq_false, if_false]
      cases hchain with
      | nil _ => simp [leftNested]
      | cons hop _ _ => simp [hsemi, flatOperator] at hop
    · simp only [hsemi, not_false_eq_true, if_true, hloop, Result.bind_ok,
        exprPostfix_end _ _ hend, htern]

/-- C2 at `1 - 2 * 3`: the tree is `Multiply(Subtract(1, 2), 3)`. -/
theorem parseExpression_left_associative_witness :
    parseExpression .ADD 3 (Parser.ofTokens oneMinusTwoTimesThree) =
      .ok (.BinaryOpNode .MULTIPLY
        (.BinaryOpNode .SUBTRACT (.IntLiteral 1) (some (.IntLiteral 2)))
        (some (.IntLiteral 3))) (Parser.ofTokens []) :=
  parseExpression_left_associative .ADD 2 (Parser.ofTokens oneMinusTwoTimesThree)
    (Parser.ofTokens (oneMinusTwoTimesThree.drop 1)) (Parser.ofTokens [])
    (.IntLiteral 1) [(.SUBTRACT, .IntLiteral 2), (.MULTIPLY, .IntLiteral 3)]
    (.inl ⟨by decide, rfl⟩)
    (.cons (q := Parser.ofTokens (oneMinusTwoTimesThree.drop 3)) rfl rfl
      (.cons (q := Parser.ofTokens []) rfl rfl (.nil _)))
    (by unfold endsExpression; decide) (by decide)

/-! ## `parseExpression`: resolution of `+` -/

/-- The `+` step of the operator loop when the uninitialised `op` does not hold
`XOR`: a `ConcatNode` if either side is a string literal or a variable reference,
numeric `ADD` otherwise. -/
theorem exprLoop_plus (uninit : BinaryOp) (rec : Parsers) (k : Nat) (left right : ASTNode)
    (p q : Parser) (hplus : p.currentToken.type = .Plus)
    (hprim : rec.parsePrimary p.advance = .ok right q) (hx : uninit ≠ .XOR) :
    exprLoop uninit rec (k + 1) left p =
      exprLoop uninit rec k
        (if left.isStrLiteral ∨ right.isStrLiteral ∨ left.isVarRefNode ∨ right.isVarRefNode
          then .ConcatNode left right else .BinaryOpNode .ADD left (some right)) q := by
  rw [exprLoop]
  simp only [hplus, isChainOperator, decide_True, Bool.true_or, if_true, hprim, Result.bind_ok,
    hx, false_and, if_false, isConcatOperands]
  by_cases h : left.isStrLiteral ∨ right.isStrLiteral ∨ left.isVarRefNode ∨ right.isVarRefNode
  · have : (left.isStrLiteral || right.isStrLiteral || left.isVarRefNode ||
        right.isVarRefNode) = true := by
      simpa [Bool.or_eq_true, or_assoc] using h
    simp [this, h]
  · have : (left.isStrLiteral || right.isStrLiteral || left.isVarRefNode ||
        right.isVarRefNode) = false := by
      simpa [or_assoc, and_assoc] using h
    simp [this, h]

/-- C3. The `+` branch reads the local `op` before it is assigned (lines 175, 265).
On `1 + 2 ;` the result is `Add(1, 2)` unless that indeterminate value is `XOR`,
in which case the `+` between two integer literals is rejected. -/
theorem plus_between_integer_literals_rejected :
    parseExpression .XOR 3 (Parser.ofTokens onePlusTwo) =
      .error "XOR requires boolean operands at line 1" ∧
    ∀ uninit : BinaryOp, parseExpression uninit 3 (Parser.ofTokens onePlusTwo) =
      if uninit = .XOR then .error "XOR requires boolean operands at line 1"
      else .ok (.BinaryOpNode .ADD (.IntLiteral 1) (some (.IntLiteral 2)))
        (Parser.ofTokens [tok .Semicolon ";" 1]) := by
  refine ⟨rfl, ?_⟩
  intro uninit
  cases uninit <;> rfl

/-! ## `parseTernary` -/

theorem isBooleanCondition_iff (c : ASTNode) :
    isBooleanCondition c = true ↔ IsComparisonOrLogical c := by
  constructor
  · intro h
    cases c with
    | BinaryOpNode op l rt =>
      refine ⟨op, l, rt, rfl, ?_⟩
      cases op <;> simp [isBooleanCondition] at h ⊢
    | _ => simp [isBooleanCondition] at h
  · rintro ⟨op, l, rt, rfl, hop⟩
    simp only [List.mem_cons, List.mem_singleton, List.not_mem_nil, or_false] at hop
    rcases hop with h | h | h | h | h | h | h | h <;> subst h <;> rfl

/-- C4. When the chain `cond` is followed by `? t : f` and both branches parse,
`parseTernary` returns `TernaryExpr(cond, t, f)` if `cond` is a `BinaryOpNode`
with operator among Eq, Ne, Lt, Le, Gt, Ge, And, Or, and fails with the
ternary-condition error for every other `cond`. -/
theorem parseTernary_condition_check (uninit : BinaryOp) (n : Nat) (cond t f : ASTNode)
    (p q r : Parser) (hquestion : p.currentToken.type = .Question)
    (htrue : parseExpression uninit n p.advance = .ok t q)
    (hcolon : q.currentToken.type = .Colon)
    (hfalse : parseExpression uninit n q.advance = .ok f r) :
    (IsComparisonOrLogical cond →
      parseTernary uninit (n + 1) cond p = .ok (.TernaryExprNode cond t f) r) ∧
    (¬ IsComparisonOrLogical cond →
      parseTernary uninit (n + 1) cond p =
        .error (atLine "Ternary condition must be a boolean expression at line " r)) := by
  have htrue2 : (parsers uninit n).parseExpression p.advance = .ok t q := htrue
  have hfalse2 : (parsers uninit n).parseExpression q.advance = .ok f r := hfalse
  have hstep : parseTernary uninit (n + 1) cond p =
      if isBooleanCondition cond then .ok (.TernaryExprNode cond t f) r
      else .error (atLine "Ternary condition must be a boolean expression at line " r) := by
    show parseTernaryStep (parsers uninit n) cond p = _
    simp [parseTernaryStep, hquestion, htrue2, hcolon, hfalse2]
  constructor
  · intro h
    rw [hstep, if_pos ((isBooleanCondition_iff cond).2 h)]
  · intro h
    rw [hstep, if_neg (fun hc => h ((isBooleanCondition_iff cond).1 hc))]

/-- C4 at `a > b ? 1 : 2 ;` (accepted) and at `x ? 1 : 2 ;` (rejected). -/
theorem parseTernary_condition_check_witness :
    parseTernary .ADD 3 (.BinaryOpNode .GREATER (.VarRefNode "a") (some (.VarRefNode "b")))
        (Parser.ofTokens ternaryBranches) =
      .ok (.TernaryExprNode (.BinaryOpNode .GREATER (.VarRefNode "a") (some (.VarRefNode "b")))
        (.IntLiteral 1) (.IntLiteral 2)) (Parser.ofTokens [tok .Semicolon ";" 1]) ∧
    parseTernary .ADD 3 (.VarRefNode "x") (Parser.ofTokens ternaryBranches) =
      .error "Ternary condition must be a boolean expression at line 1" :=
  ⟨(parseTernary_condition_check .ADD 2 _ (.IntLiteral 1) (.IntLiteral 2)
      (Parser.ofTokens ternaryBranches) (Parser.ofTokens (ternaryBranches.drop 2))
      (Parser.ofTokens [tok .Semicolon ";" 1]) rfl rfl rfl rfl).1
      ⟨.GREATER, _, _, rfl, by decide⟩,
   (parseTernary_condition_check .ADD 2 (.VarRefNode "x") (.IntLiteral 1) (.IntLiteral 2)
      (Parser.ofTokens ternaryBranches) (Parser.ofTokens (ternaryBranches.drop 2))
      (Parser.ofTokens [tok .Semicolon ";" 1]) rfl rfl rfl rfl).2
      (by rintro ⟨op, l, rt, h, _⟩; cases h)⟩

/-! ## `parseMatch`: at most one default case -/

theorem countDefault_append (cs ds : List (Option ASTNode × ASTNode)) :
    countDefault (cs ++ ds) = countDefault cs + countDefault ds := by
  simp [countDefault]

theorem countDefault_snoc_none (acc : List (Option ASTNode × ASTNode)) (b : ASTNode) :
    countDefault (acc ++ [(none, b)]) = countDefault acc + 1 := by
  rw [countDefault_append]; rfl

theorem countDefault_snoc_some (acc : List (Option ASTNode × ASTNode)) (v b : ASTNode) :
    countDefault (acc ++ [(some v, b)]) = countDefault acc := by
  rw [countDefault_append]; rfl

theorem matchLoop_case (uninit : BinaryOp) (n k : Nat) (acc : List (Option ASTNode × ASTNode))
    (hasDefault : Bool) {p q : Parser} {c : Option ASTNode × ASTNode}
    (hcase : MatchCaseParsed uninit n p c q) (hd : c.1 = none → hasDefault = false) :
    matchLoop (parsers uninit n) (k + 1) acc hasDefault p =
      matchLoop (parsers uninit n) k (acc ++ [c]) (hasDefault || c.1.isNone) q := by
  obtain ⟨hrb, heof, p1, p2, hval, harrow, hbody, rfl⟩ := hcase
  obtain ⟨c1, c2⟩ := c
  rw [matchLoop]
  simp only [hrb, heof, ne_eq, not_false_eq_true, and_self, if_true]
  rcases hval with ⟨hu, hc1, rfl⟩ | ⟨hu, v, hexpr, hc1⟩
  · simp only at hc1
    subst hc1
    have hfalse : hasDefault = false := hd rfl
    subst hfalse
    simp only [hu, if_true, Bool.false_eq_true, if_false, Result.bind_ok, harrow,
      not_true_eq_false]
    rcases hbody with ⟨hlb, b, hblock, hc2⟩ | ⟨hlb, hstmt⟩
    · simp only at hc2
      subst hc2
      have hblock2 : (parsers uninit n).parseBlock p.advance.advance = .ok b p2 := hblock
      simp only [hlb, if_true, hblock2, Result.bind_ok, Option.isNone_none, Bool.or_true]
      split <;> rfl
    · have hstmt2 : (parsers uninit n).parseStatement p.advance.advance = .ok c2 p2 := hstmt
      simp only [hlb, if_false, hstmt2, Result.bind_ok, Option.isNone_none, Bool.or_true]
      split <;> rfl
  · simp only at hc1
    subst hc1
    have hexpr2 : (parsers uninit n).parseExpression p = .ok v p1 := hexpr
    simp only [hu, if_false, hexpr2, Result.bind_ok, harrow, not_true_eq_false]
    rcases hbody with ⟨hlb, b, hblock, hc2⟩ | ⟨hlb, hstmt⟩
    · simp only at hc2
      subst hc2
      have hblock2 : (parsers uninit n).parseBlock p1.advance = .ok b p2 := hblock
      simp only [hlb, if_true, hblock2, Result.bind_ok, Option.isNone_some, Bool.or_false]
      split <;> rfl
    · have hstmt2 : (parsers uninit n).parseStatement p1.advance = .ok c2 p2 := hstmt
      simp only [hlb, if_false, hstmt2, Result.bind_ok, Option.isNone_some, Bool.or_false]
      split <;> rfl

theorem matchLoop_run (uninit : BinaryOp) (n : Nat) {p q : Parser}
    {cs : List (Option ASTNode × ASTNode)} (hrun : MatchCasesRun uninit n p cs q) :
    ∀ (k : Nat) (acc : List (Option ASTNode × ASTNode)) (hasDefault : Bool),
      (hasDefault = true → countDefault cs = 0) → countDefault cs ≤ 1 →
      matchLoop (parsers uninit n) (cs.length + k) acc hasDefault p =
        matchLoop (parsers uninit n) k (acc ++ cs)
          (hasDefault || decide (0 < countDefault cs)) q := by
  induction hrun with
  | nil p => intro k acc hasDefault _ _; simp [countDefault]
  | @cons p q r c cs hcase _ ih =>
    intro k acc hasDefault h0 h1
    have hlen : (c :: cs).length + k = (cs.length + k) + 1 := by
      simp only [List.length_cons]; omega
    have hsplit : countDefault (c :: cs) = countDefault [c] + countDefault cs :=
      countDefault_append [c] cs
    cases hc : c.1 with
    | none =>
      have hone : countDefault [c] = 1 := by simp [countDefault, hc]
      have hd : hasDefault = false := by
        cases hasDefault with
        | false => rfl
        | true => have := h0 rfl; omega
      subst hd
      rw [hlen, matchLoop_case uninit n _ acc false hcase (fun _ => rfl),
        ih k (acc ++ [c]) _ (fun _ => by omega) (by omega)]
      have hpos : 0 < countDefault (c :: cs) := by omega
      simp [hc, hpos]
    | some v =>
      have hzero : countDefault [c] = 0 := by simp [countDefault, hc]
      rw [hlen, matchLoop_case uninit n _ acc hasDefault hcase (fun h => by simp [hc] at h),
        ih k (acc ++ [c]) _ (fun h => by
          have hh : hasDefault = true := by simpa [hc] using h
          have := h0 hh; omega) (by omega)]
      simp [hc, hsplit, hzero]

theorem matchLoop_invariant (rec : Parsers) :
    ∀ (k : Nat) (acc : List (Option ASTNode × ASTNode)) (hasDefault : Bool) (p r : Parser)
      (res : List (Option ASTNode × ASTNode)),
      matchLoop rec k acc hasDefault p = .ok res r →
      (hasDefault = false → countDefault acc = 0) → countDefault acc ≤ 1 →
      countDefault res ≤ 1 := by
  intro k
  induction k with
  | zero => intro acc hasDefault p r res h; simp [matchLoop] at h
  | succ k ih =>
    intro acc hasDefault p r res h h0 h1
    rw [matchLoop] at h
    by_cases hcond : p.currentToken.type ≠ .RightBrace ∧ p.currentToken.type ≠ .Eof
    · rw [if_pos hcond] at h
      by_cases hu : p.currentToken.type = .Underscore
      · cases hasDefault with
        | true => simp [hu] at h
        | false =>
          simp only [hu, if_true, Bool.false_eq_true, if_false, Result.bind_ok] at h
          have hacc := h0 rfl
          split at h
          · simp at h
          · split at h
            · cases hb : (rec.parseBlock p.advance.advance) with
              | ok b p2 =>
                rw [hb] at h
                simp only [Result.bind_ok] at h
                split at h <;>
                  exact ih _ _ _ _ _ h (fun hc => by simp at hc)
                    (by rw [countDefault_snoc_none]; omega)
              | error m => rw [hb] at h; simp at h
              | outOfFuel => rw [hb] at h; simp at h
            · cases hb : (rec.parseStatement p.advance.advance) with
              | ok b p2 =>
                rw [hb] at h
                simp only [Result.bind_ok] at h
                split at h <;>
                  exact ih _ _ _ _ _ h (fun hc => by simp at hc)
                    (by rw [countDefault_snoc_none]; omega)
              | error m => rw [hb] at h; simp at h
              | outOfFuel => rw [hb] at h; simp at h
      · simp only [hu, if_false] at h
        cases he : (rec.parseExpression p) with
        | ok v p1 =>
          rw [he] at h
          simp only [Result.bind_ok] at h
          split at h
          · simp at h
          · split at h
            · cases hb : (rec.parseBlock p1.advance) with
              | ok b p2 =>
                rw [hb] at h
                simp only [Result.bind_ok] at h
                split at h <;>
                  exact ih _ _ _ _ _ h
                    (fun hc => by rw [countDefault_snoc_some]; exact h0 hc)
                    (by rw [countDefault_snoc_some]; exact h1)
              | error m => rw [hb] at h; simp at h
              | outOfFuel => rw [hb] at h; simp at h
            · cases hb : (rec.parseStatement p1.advance) with
              | ok b p2 =>
                rw [hb] at h
                simp only [Result.bind_ok] at h
                split at h <;>
                  exact ih _ _ _ _ _ h
                    (fun hc => by rw [countDefault_snoc_some]; exact h0 hc)
                    (by rw [countDefault_snoc_some]; exact h1)
              | error m => rw [hb] at h; simp at h
              | outOfFuel => rw [hb] at h; simp at h
        | error m => rw [he] at h; simp at h
        | outOfFuel => rw [he] at h; simp at h
    · rw [if_neg hcond] at h
      cases h
      exact h1

theorem matchLoop_second_default (rec : Parsers) (k : Nat)
    (acc : List (Option ASTNode × ASTNode)) (p : Parser)
    (hu : p.currentToken.type = .Underscore) :
    matchLoop rec (k + 1) acc true p =
      .error (atLine "Multiple default cases in match at line " p) := by
  rw [matchLoop]
  simp [hu]

/-- C5. `parseMatch` rejects a duplicate default.  When the cases parsed so far
hold one wildcard and the next case begins with `_`, parsing fails with the
multiple-default error; every `MatchNode` that `parseMatch` returns has at most
one case whose value is absent; and the stream
`match x { 1 -> print(1), _ -> print(0), _ -> print(2) }` fails to parse (it is
rejected at the `,` after `print(1)`, where `parseStatement` requires `;`). -/
theorem parseMatch_rejects_duplicate_default (uninit : BinaryOp) :
    (∀ (n : Nat) (p p1 q : Parser) (e : ASTNode) (cs : List (Option ASTNode × ASTNode)),
      parseExpression uninit n p.advance = .ok e p1 → p1.currentToken.type = .LeftBrace →
      MatchCasesRun uninit n p1.advance cs q → countDefault cs = 1 →
      q.currentToken.type = .Underscore → cs.length ≤ n →
      parseMatch uninit (n + 1) p =
        .error (atLine "Multiple default cases in match at line " q)) ∧
    (∀ (n : Nat) (p r : Parser) (node : ASTNode), parseMatch uninit n p = .ok node r →
      ∃ e cs, node = .MatchNode e cs ∧ countDefault cs ≤ 1) ∧
    parseStatement uninit 6 (Parser.ofTokens matchTwoDefaults) =
      .error "Expected ';' after print statement" := by
  refine ⟨?_, ?_, rfl⟩
  · intro n p p1 q e cs hexpr hbrace hrun hone hsecond hlen
    obtain ⟨k, hk⟩ : ∃ k, n + 1 = cs.length + (k + 1) := ⟨n - cs.length, by omega⟩
    have hexpr2 : (parsers uninit n).parseExpression p.advance = .ok e p1 := hexpr
    show parseMatchStep (n + 1) (parsers uninit n) p = _
    simp only [parseMatchStep, hexpr2, Result.bind_ok, hbrace, ne_eq, not_true_eq_false,
      if_false]
    rw [hk, matchLoop_run uninit n hrun (k + 1) [] false (fun h => by simp at h) (by omega)]
    simp only [hone, Nat.lt_one_iff, decide_True, Bool.or_true, List.nil_append,
      matchLoop_second_default _ _ _ _ hsecond, Result.bind_error, Nat.zero_lt_one]
  · intro n p r node h
    cases n with
    | zero => simp [parseMatch, parsers] at h
    | succ n =>
      change parseMatchStep (n + 1) (parsers uninit n) p = _ at h
      simp only [parseMatchStep] at h
      cases he : (parsers uninit n).parseExpression p.advance with
      | ok e p1 =>
        rw [he] at h
        simp only [Result.bind_ok] at h
        split at h
        · simp at h
        · cases hl : matchLoop (parsers uninit n) (n + 1) [] false p1.advance with
          | ok cs p2 =>
            rw [hl] at h
            simp only [Result.bind_ok] at h
            split at h
            · simp at h
            · simp only [Result.ok.injEq] at h
              exact ⟨e, cs, h.1.symm,
                matchLoop_invariant _ _ _ _ _ _ _ hl (fun _ => rfl) (by simp [countDefault])⟩
          | error m => rw [hl] at h; simp at h
          | outOfFuel => rw [hl] at h; simp at h
      | error m => rw [he] at h; simp at h
      | outOfFuel => rw [he] at h; simp at h

/-- C5 at `match x { _ -> print(0); _ -> print(2); }`: the second wildcard, on
line 2, is rejected. -/
theorem parseMatch_rejects_duplicate_default_witness :
    parseMatch .ADD 5 (Parser.ofTokens matchTwoDefaultsSemicolons) =
      .error "Multiple default cases in match at line 2" :=
  (parseMatch_rejects_duplicate_default .ADD).1 4 (Parser.ofTokens matchTwoDefaultsSemicolons)
    (Parser.ofTokens (matchTwoDefaultsSemicolons.drop 2))
    (Parser.ofTokens (matchTwoDefaultsSemicolons.drop 10)) (.VarRefNode "x")
    [(none, .PrintNode (.IntLiteral 0))] rfl rfl
    (.cons (q := Parser.ofTokens (matchTwoDefaultsSemicolons.drop 10))
      ⟨by decide, by decide, Parser.ofTokens (matchTwoDefaultsSemicolons.drop 4),
        Parser.ofTokens (matchTwoDefaultsSemicolons.drop 10),
        .inl ⟨rfl, rfl, rfl⟩, rfl, .inr ⟨by decide, rfl⟩, rfl⟩
      (.nil _))
    rfl rfl (by decide)

/-! ## `parseVarDecl` -/

theorem typeKeywords_varType {t : TokenType} {ty : VarType} (h : (t, ty) ∈ typeKeywords) :
    varTypeOfToken t = some ty := by
  simp only [typeKeywords, List.mem_cons, List.mem_singleton, Prod.mk.injEq, List.not_mem_nil,
    or_false] at h
  rcases h with ⟨rfl, rfl⟩ | ⟨rfl, rfl⟩ | ⟨rfl, rfl⟩ | ⟨rfl, rfl⟩ | ⟨rfl, rfl⟩ | ⟨rfl, rfl⟩ <;> rfl

/-- C6, the claim as stated fails: `int x = 1, y = 2, z = 3;` is rejected at the
first comma. -/
theorem parseStatement_initialised_list_rejected :
    parseStatement .ADD 5 (Parser.ofTokens intThreeInitialised) =
      .error "Expected ';' after variable declaration" := rfl

/-- C6, amended.  A declaration `T name = value` followed by a comma is rejected
with the missing-`;` error: `parseVarDecl` accepts one `name = value` item and
then requires `;`.  The `MultiVarDeclNode` with x = 1, y = 2, z = 3, one entry
per name in order, is what `int x, y, z = 1, 2, 3;` yields. -/
theorem parseVarDecl_comma_after_initializer (uninit : BinaryOp) :
    (∀ (n : Nat) (p q : Parser) (ty : VarType) (value : ASTNode),
      (p.currentToken.type, ty) ∈ typeKeywords →
      p.advance.currentToken.type = .Ident →
      p.advance.advance.currentToken.type = .Equal →
      parseExpression uninit n p.advance.advance.advance = .ok value q →
      q.currentToken.type = .Comma →
      parseVarDecl uninit (n + 1) p = .error "Expected ';' after variable declaration") ∧
    parseStatement uninit 5 (Parser.ofTokens intThreeCommaList) =
      .ok (.MultiVarDeclNode [(.INT, "x", some (.IntLiteral 1)), (.INT, "y", some (.IntLiteral 2)),
        (.INT, "z", some (.IntLiteral 3))]) (Parser.ofTokens []) := by
  refine ⟨?_, rfl⟩
  intro n p q ty value hkw hid heq hexpr hcomma
  have hexpr2 : (parsers uninit n).parseExpression p.advance.advance.advance = .ok value q :=
    hexpr
  show parseVarDeclStep (parsers uninit n) p = _
  simp [parseVarDeclStep, typeKeywords_varType hkw, hid, heq, hexpr2, hcomma]

/-- C6 amended, at `int x = 1, y = 2, z = 3;`. -/
theorem parseVarDecl_comma_after_initializer_witness :
    parseVarDecl .ADD 4 (Parser.ofTokens intThreeInitialised) =
      .error "Expected ';' after variable declaration" :=
  (parseVarDecl_comma_after_initializer .ADD).1 3 (Parser.ofTokens intThreeInitialised)
    (Parser.ofTokens (intThreeInitialised.drop 4)) .INT (.IntLiteral 1)
    (by decide) rfl rfl rfl rfl

/-- C10. For each type keyword and every identifier `n`, parsing `T n ;`
succeeds, consumes exactly these three tokens and returns the `VarDeclNode` with
the keyword's `VarType`, the name `n` and no initializer, both through
`parseVarDecl` and through `parseStatement`. -/
theorem parseVarDecl_without_initializer (uninit : BinaryOp) (n : Nat) (kw name semi : Token)
    (rest : List Token) (ty : VarType) (hkw : (kw.type, ty) ∈ typeKeywords)
    (hname : name.type = .Ident) (hsemi : semi.type = .Semicolon) :
    parseVarDecl uninit (n + 1) (Parser.ofTokens (kw :: name :: semi :: rest)) =
      .ok (.VarDeclNode ty name.lexeme none) (Parser.ofTokens rest) ∧
    parseStatement uninit (n + 2) (Parser.ofTokens (kw :: name :: semi :: rest)) =
      .ok (.VarDeclNode ty name.lexeme none) (Parser.ofTokens rest) := by
  have hdecl : parseVarDeclStep (parsers uninit n) (Parser.ofTokens (kw :: name :: semi :: rest)) =
      .ok (.VarDeclNode ty name.lexeme none) (Parser.ofTokens rest) := by
    simp [parseVarDeclStep, ofTokens_cons_current, ofTokens_cons_advance,
      typeKeywords_varType hkw, hname, hsemi]
  refine ⟨hdecl, ?_⟩
  show parseStatementStep (parsers uninit (n + 1)) _ = _
  have hdisp : kw.type = .Int ∨ kw.type = .StringType ∨ kw.type = .Bool ∨ kw.type = .Float ∨
      kw.type = .Char ∨ kw.type = .Array := by
    simp only [typeKeywords, List.mem_cons, List.mem_singleton, Prod.mk.injEq, List.not_mem_nil,
      or_false] at hkw
    rcases hkw with ⟨h, _⟩ | ⟨h, _⟩ | ⟨h, _⟩ | ⟨h, _⟩ | ⟨h, _⟩ | ⟨h, _⟩ <;> simp [h]
  rw [parseStatementStep, ofTokens_cons_current, if_pos hdisp]
  exact hdecl

/-- C10 at `string s ;` followed by further tokens. -/
theorem parseVarDecl_without_initializer_witness :
    parseStatement .ADD 2 (Parser.ofTokens [tok .StringType "string" 1, tok .Ident "s" 1,
        tok .Semicolon ";" 1, tok .Ident "s" 2]) =
      .ok (.VarDeclNode .STRING "s" none) (Parser.ofTokens [tok .Ident "s" 2]) :=
  (parseVarDecl_without_initializer .ADD 0 (tok .StringType "string" 1) (tok .Ident "s" 1)
    (tok .Semicolon ";" 1) [tok .Ident "s" 2] .STRING (by decide) rfl rfl).2

/-! ## Multi-variable declarations -/

theorem identLoop_names (more : List (Token × Token)) :
    ∀ (k : Nat) (acc : List String) (eqTok : Token) (rest : List Token), more ≠ [] →
      (∀ x ∈ more, x.1.type = .Comma ∧ x.2.type = .Ident) → eqTok.type = .Equal →
      identLoop (more.length + k) acc (Parser.ofTokens (separated more ++ eqTok :: rest)) =
        .ok (acc ++ more.map (fun x => x.2.lexeme)) (Parser.ofTokens (eqTok :: rest)) := by
  induction more with
  | nil => intro k acc eqTok rest h; exact absurd rfl h
  | cons x more ih =>
    intro k acc eqTok rest _ hnames heq
    have hx := hnames x (List.mem_cons_self _ _)
    have hlen : (x :: more).length + k = (more.length + k) + 1 := by
      simp only [List.length_cons]; omega
    rw [hlen, identLoop]
    simp only [separated, List.cons_append, ofTokens_cons_advance, ofTokens_cons_current, hx.2,
      ne_eq, not_true_eq_false, if_false]
    cases more with
    | nil =>
      simp [separated, ofTokens_cons_current, heq]
    | cons y more =>
      have hy := hnames y (List.mem_cons_of_mem _ (List.mem_cons_self _ _))
      have hrec := ih k (acc ++ [x.2.lexeme]) eqTok rest (List.cons_ne_nil _ _)
        (fun z hz => hnames z (List.mem_cons_of_mem _ hz)) heq
      simp only [separated, List.cons_append, ofTokens_cons_current, hy.1] at hrec ⊢
      simp only [reduceCtorEq, if_false, not_true_eq_false]
      rw [hrec]
      simp

theorem copyDecls_map (ty : VarType) (value copy : ASTNode) (h : copyValue value = .ok copy)
    (names : List String) :
    copyDecls ty value names = .ok (names.map fun nm => (ty, nm, some copy)) := by
  induction names with
  | nil => rfl
  | cons nm names ih => simp [copyDecls, h, ih]

theorem scalarLiteral_cases {ty : VarType} {v : Token} {lit : ASTNode}
    (h : scalarLiteral ty v = some lit) :
    (ty = .INT ∧ v.type = .IntLiteral ∧ ∃ i, stoi v.lexeme = some i ∧ lit = .IntLiteral i) ∨
    (ty = .FLOAT ∧ (v.type = .FloatLiteral ∨ v.type = .IntLiteral) ∧
      ∃ f, stof v.lexeme = some f ∧ lit = .FloatLiteral f) ∨
    (ty = .BOOL ∧ v.type = .BoolLiteral ∧ lit = .BoolLiteral (v.lexeme = "true")) ∨
    (ty = .CHAR ∧ v.type = .CharLiteral ∧ lit = .CharLiteral (firstChar v.lexeme)) ∨
    (ty = .STRING ∧ v.type = .StrLiteral ∧ lit = .StrLiteral v.lexeme) := by
  cases ty <;> simp only [scalarLiteral] at h
  · split at h
    · rename_i hv
      cases hs : stoi v.lexeme with
      | none => simp [hs] at h
      | some i =>
        simp only [hs, Option.map_some', Option.some.injEq] at h
        exact .inl ⟨rfl, hv, i, rfl, h.symm⟩
    · cases h
  · split at h
    · rename_i hv
      simp only [Option.some.injEq] at h
      exact .inr (.inr (.inl ⟨rfl, hv, h.symm⟩))
    · cases h
  · split at h
    · rename_i hv
      cases hs : stof v.lexeme with
      | none => simp [hs] at h
      | some f =>
        simp only [hs, Option.map_some', Option.some.injEq] at h
        exact .inr (.inl ⟨rfl, hv, f, rfl, h.symm⟩)
    · cases h
  · split at h
    · rename_i hv
      simp only [Option.some.injEq] at h
      exact .inr (.inr (.inr (.inl ⟨rfl, hv, h.symm⟩)))
    · cases h
  · split at h
    · rename_i hv
      simp only [Option.some.injEq] at h
      exact .inr (.inr (.inr (.inr ⟨rfl, hv, h.symm⟩)))
    · cases h
  · cases h
  · cases h

theorem scalarLiteral_copy {ty : VarType} {v : Token} {lit : ASTNode}
    (h : scalarLiteral ty v = some lit) : copyValue lit = .ok lit := by
  rcases scalarLiteral_cases h with ⟨_, _, i, _, rfl⟩ | ⟨_, _, f, _, rfl⟩ | ⟨_, _, rfl⟩ |
    ⟨_, _, rfl⟩ | ⟨_, _, rfl⟩ <;> rfl

theorem scalarKeywords_varType {t : TokenType} {ty : VarType} (h : (t, ty) ∈ scalarKeywords) :
    varTypeOfToken t = some ty := by
  simp only [scalarKeywords, List.mem_cons, List.mem_singleton, Prod.mk.injEq, List.not_mem_nil,
    or_false] at h
  rcases h with ⟨rfl, rfl⟩ | ⟨rfl, rfl⟩ | ⟨rfl, rfl⟩ | ⟨rfl, rfl⟩ | ⟨rfl, rfl⟩ <;> rfl

/-- The first value of a comma list: for a literal token of the declared scalar
type, `parseVarDeclMultiVariable` hands the literal node and the state after the
token to the tail of the function. -/
theorem multiVariable_first_value (fuel : Nat) (rec : Parsers) (ty : VarType) (name : String)
    (more : List (Token × Token)) (k : Nat) (eqTok v : Token) (rest : List Token)
    (lit : ASTNode) (hfuel : fuel = more.length + k) (hmore : more ≠ [])
    (hnames : ∀ x ∈ more, x.1.type = .Comma ∧ x.2.type = .Ident) (heq : eqTok.type = .Equal)
    (hlit : scalarLiteral ty v = some lit) :
    parseVarDeclMultiVariableStep fuel rec ty name
        (Parser.ofTokens (separated more ++ eqTok :: v :: rest)) =
      multiVariableTail rec ty lit (name :: more.map (fun x => x.2.lexeme))
        (Parser.ofTokens rest) := by
  subst hfuel
  rw [parseVarDeclMultiVariableStep, identLoop_names more k [name] eqTok (v :: rest) hmore hnames
    heq]
  simp only [Result.bind_ok, ofTokens_cons_advance, ofTokens_cons_current, List.singleton_append]
  rcases scalarLiteral_cases hlit with ⟨rfl, hv, i, hs, rfl⟩ | ⟨rfl, hv, f, hs, rfl⟩ |
    ⟨rfl, hv, rfl⟩ | ⟨rfl, hv, rfl⟩ | ⟨rfl, hv, rfl⟩
  · simp [hv, hs]
  · rcases hv with hv | hv <;> simp [hv, hs]
  · simp [hv]
  · simp [hv]
  · simp [hv]

/-- C7, the claim as stated fails: `int a, b = 99999999999;` and
`float a, b = 12345678901234567890123456789012345678901;` are rejected, the text
of the literal being one that `std::stoi`, respectively `std::stof`, does not
convert. -/
theorem parseStatement_shared_unconvertible_rejected :
    (∀ uninit : BinaryOp,
      parseStatement uninit 3 (Parser.ofTokens intSharedTooLarge) = .error "stoi") ∧
    (∀ uninit : BinaryOp,
      parseStatement uninit 3 (Parser.ofTokens floatSharedTooLarge) = .error "stof") :=
  ⟨fun _ => rfl, fun _ => rfl⟩

/-- C7, amended.  Shared-initializer form for the scalar types.  For a scalar
type keyword `T`, identifiers `n1, ..., nk` with `k ≥ 2` and a literal token `v`
of `T`'s shape whose text is converted (by `std::stoi` for int, by `std::stof`
for float), parsing `T n1, ..., nk = v ;` yields the `MultiVarDeclNode` with
exactly one entry per identifier, in order, each of type `T` with its own
initializer node equal to the literal of `v` (for float and an integer-literal
token the `FloatLiteral` of that text). -/
theorem parseVarDecl_shared_initializer (uninit : BinaryOp) (j : Nat) (kw first : Token)
    (more : List (Token × Token)) (eqTok v semi : Token) (rest : List Token) (ty : VarType)
    (lit : ASTNode) (hkw : (kw.type, ty) ∈ scalarKeywords) (hfirst : first.type = .Ident)
    (hmore : more ≠ []) (hnames : ∀ x ∈ more, x.1.type = .Comma ∧ x.2.type = .Ident)
    (heq : eqTok.type = .Equal) (hlit : scalarLiteral ty v = some lit)
    (hsemi : semi.type = .Semicolon) :
    parseVarDecl uninit (more.length + 1 + j)
        (Parser.ofTokens (kw :: first :: (separated more ++ eqTok :: v :: semi :: rest))) =
      .ok (.MultiVarDeclNode
        ((first.lexeme :: more.map (fun x => x.2.lexeme)).map fun nm => (ty, nm, some lit)))
        (Parser.ofTokens rest) := by
  obtain ⟨m, hm⟩ : ∃ m, more.length + j = m + 1 := by
    cases more with
    | nil => exact absurd rfl hmore
    | cons x more => exact ⟨more.length + j, by simp only [List.length_cons]; omega⟩
  have hcomma : (Parser.ofTokens (separated more ++ eqTok :: v :: semi :: rest)).currentToken.type
      = .Comma := by
    cases more with
    | nil => exact absurd rfl hmore
    | cons x more =>
      simp only [separated, List.cons_append, ofTokens_cons_current]
      exact (hnames x (List.mem_cons_self _ _)).1
  have hfuel : more.length + 1 + j = (m + 1) + 1 := by omega
  rw [hfuel]
  show parseVarDeclStep (parsers uninit (m + 1)) _ = _
  rw [parseVarDeclStep]
  simp only [ofTokens_cons_current, ofTokens_cons_advance, scalarKeywords_varType hkw, hfirst,
    ne_eq, not_true_eq_false, if_false, hcomma, if_true]
  show parseVarDeclMultiVariableStep (m + 1) (parsers uninit m) ty first.lexeme _ = _
  rw [multiVariable_first_value (m + 1) _ ty first.lexeme more j eqTok v (semi :: rest) lit
    hm.symm hmore hnames heq hlit]
  simp [multiVariableTail, ofTokens_cons_current, ofTokens_cons_advance, hsemi,
    copyDecls_map ty lit lit (scalarLiteral_copy hlit)]

/-- C7 amended, at `int a, b = 1;`: `a` and `b` each hold the literal 1. -/
theorem parseVarDecl_shared_initializer_witness :
    parseVarDecl .ADD 2 (Parser.ofTokens intSharedOne) =
      .ok (.MultiVarDeclNode [(.INT, "a", some (.IntLiteral 1)), (.INT, "b", some (.IntLiteral 1))])
        (Parser.ofTokens []) :=
  parseVarDecl_shared_initializer .ADD 0 (tok .Int "int" 1) (tok .Ident "a" 1)
    [(tok .Comma "," 1, tok .Ident "b" 1)] (tok .Equal "=" 1) (tok .IntLiteral "1" 1)
    (tok .Semicolon ";" 1) [] .INT (.IntLiteral 1) (by decide) rfl (by simp)
    (by simp [tok]) rfl rfl rfl

theorem multiBothLoop_values (rec : Parsers) (ty : VarType) (semi : Token) (rest : List Token)
    (hsemi : semi.type = .Semicolon) (names : List String) :
    ∀ (vals : List (Token × Token)) (lits : List ASTNode)
      (acc : List (VarType × String × Option ASTNode)), ValuesDenote ty vals lits →
      multiBothLoop rec ty names acc (Parser.ofTokens (separated vals ++ semi :: rest)) =
        if names.length ≤ vals.length then
          .ok (acc ++ List.zipWith (fun nm lit => (ty, nm, some lit)) names lits)
            (Parser.ofTokens (separated (vals.drop names.length) ++ semi :: rest))
        else .error "Type mismatch in variable declaration(3)" := by
  induction names with
  | nil => intro vals lits acc _; simp [multiBothLoop]
  | cons nm names ih =>
    intro vals lits acc hvals
    cases hvals with
    | nil =>
      simp [multiBothLoop, separated, ofTokens_cons_current, hsemi]
    | @cons x lit vals lits hx hrest =>
      rw [multiBothLoop]
      simp only [separated, List.cons_append, ofTokens_cons_current, hx.1, ne_eq,
        not_true_eq_false, if_false, ofTokens_cons_advance]
      have hvalue : ∀ (f : ASTNode → Parser → Result (List (VarType × String × Option ASTNode))),
          Result.bind
            (if ty = .INT ∧ x.2.type = .IntLiteral then
              match stoi x.2.lexeme with
              | none => .error "stoi"
              | some v => .ok (.IntLiteral v) (Parser.ofTokens (x.2 :: (separated vals ++ semi :: rest)))
            else if ty = .STRING ∧ x.2.type = .StrLiteral then
              .ok (.StrLiteral x.2.lexeme) (Parser.ofTokens (x.2 :: (separated vals ++ semi :: rest)))
            else if ty = .ARRAY ∧ x.2.type = .LeftBracket then
              (rec.parsePrimary (Parser.ofTokens (x.2 :: (separated vals ++ semi :: rest)))).bind
                fun value p =>
                  if !value.isArrayLiteralNode then
                    .error "Array initializer must be an array literal"
                  else .ok value p
            else if ty = .FLOAT ∧ (x.2.type = .FloatLiteral ∨ x.2.type = .IntLiteral) then
              match stof x.2.lexeme with
              | none => .error "stof"
              | some v => .ok (.FloatLiteral v)
                (Parser.ofTokens (x.2 :: (separated vals ++ semi :: rest)))
            else if ty = .BOOL ∧ x.2.type = .BoolLiteral then
              .ok (.BoolLiteral (x.2.lexeme = "true"))
                (Parser.ofTokens (x.2 :: (separated vals ++ semi :: rest)))
            else if ty = .CHAR ∧ x.2.type = .CharLiteral then
              .ok (.CharLiteral (firstChar x.2.lexeme))
                (Parser.ofTokens (x.2 :: (separated vals ++ semi :: rest)))
            else .error "Type mismatch in variable declaration(4)") f =
          f lit (Parser.ofTokens (x.2 :: (separated vals ++ semi :: rest))) := by
        intro f
        rcases scalarLiteral_cases hx.2 with ⟨rfl, hv, i, hs, rfl⟩ | ⟨rfl, hv, f, hs, rfl⟩ |
          ⟨rfl, hv, rfl⟩ | ⟨rfl, hv, rfl⟩ | ⟨rfl, hv, rfl⟩
        · simp [hv, hs]
        · rcases hv with hv | hv <;> simp [hv, hs]
        · simp [hv]
        · simp [hv]
        · simp [hv]
      rw [hvalue, ofTokens_cons_advance, ih vals lits _ hrest]
      simp

theorem valuesDenote_comma {ty : VarType} {vals : List (Token × Token)} {lits : List ASTNode}
    (h : ValuesDenote ty vals lits) : ∀ x ∈ vals, x.1.type = .Comma := by
  induction h with
  | nil => intro x hx; cases hx
  | cons hx _ ih =>
    intro y hy
    rcases List.mem_cons.1 hy with rfl | hy
    · exact hx.1
    · exact ih y hy

theorem separated_head_comma (vals : List (Token × Token)) (tail : List Token)
    (hne : vals ≠ []) (hcomma : ∀ x ∈ vals, x.1.type = .Comma) :
    (Parser.ofTokens (separated vals ++ tail)).currentToken.type = .Comma := by
  cases vals with
  | nil => exact absurd rfl hne
  | cons x vals =>
    simp only [separated, List.cons_append, ofTokens_cons_current]
    exact hcomma x (List.mem_cons_self _ _)

/-- C8, the claim as stated fails: `int a, b = 1, 99999999999;` and
`float a, b = 1.5, 12345678901234567890123456789012345678901.0;` are rejected,
the text of the second literal being one that `std::stoi`, respectively
`std::stof`, does not convert. -/
theorem parseStatement_per_identifier_unconvertible_rejected :
    (∀ uninit : BinaryOp,
      parseStatement uninit 4 (Parser.ofTokens intPerIdentifierTooLarge) = .error "stoi") ∧
    (∀ uninit : BinaryOp,
      parseStatement uninit 4 (Parser.ofTokens floatPerIdentifierTooLarge) = .error "stof") :=
  ⟨fun _ => rfl, fun _ => rfl⟩

/-- C8, amended.  Heterogeneous-per-identifier form for the scalar types.  For
identifiers `n1, ..., nk` (`k ≥ 2`) and more than one literal value of the
declared type's shape after `=`, the text of each being converted (by
`std::stoi` for int, by `std::stof` for float): with exactly `k` values, parsing
`T n1, ..., nk = v1, ..., vk ;` yields the `MultiVarDeclNode` whose i-th entry is
`(T, ni, vi)`; with a number of values different from `k`, parsing fails. -/
theorem parseVarDecl_per_identifier_values (uninit : BinaryOp) (j : Nat) (kw first : Token)
    (more : List (Token × Token)) (eqTok v1 : Token) (moreVals : List (Token × Token))
    (semi : Token) (rest : List Token) (ty : VarType) (lit1 : ASTNode) (moreLits : List ASTNode)
    (hkw : (kw.type, ty) ∈ scalarKeywords) (hfirst : first.type = .Ident)
    (hmore : more ≠ []) (hnames : ∀ x ∈ more, x.1.type = .Comma ∧ x.2.type = .Ident)
    (heq : eqTok.type = .Equal) (hlit1 : scalarLiteral ty v1 = some lit1)
    (hvals : ValuesDenote ty moreVals moreLits) (hvne : moreVals ≠ [])
    (hsemi : semi.type = .Semicolon) :
    (moreVals.length = more.length →
      parseVarDecl uninit (more.length + 2 + j) (Parser.ofTokens
          (kw :: first :: (separated more ++ eqTok :: v1 :: (separated moreVals ++ semi :: rest)))) =
        .ok (.MultiVarDeclNode (List.zipWith (fun nm lit => (ty, nm, some lit))
          (first.lexeme :: more.map (fun x => x.2.lexeme)) (lit1 :: moreLits)))
          (Parser.ofTokens rest)) ∧
    (moreVals.length ≠ more.length →
      ∃ msg, parseVarDecl uninit (more.length + 2 + j) (Parser.ofTokens
          (kw :: first :: (separated more ++ eqTok :: v1 :: (separated moreVals ++ semi :: rest)))) =
        .error msg) := by
  obtain ⟨m, hm⟩ : ∃ m, more.length + j = m + 1 := by
    cases more with
    | nil => exact absurd rfl hmore
    | cons x more => exact ⟨more.length + j, by simp only [List.length_cons]; omega⟩
  have hcomma := separated_head_comma more (eqTok :: v1 :: (separated moreVals ++ semi :: rest))
    hmore (fun x hx => (hnames x hx).1)
  have hcomma2 := separated_head_comma moreVals (semi :: rest) hvne (valuesDenote_comma hvals)
  have hfuel : more.length + 2 + j = (m + 2) + 1 := by omega
  have hstep : parseVarDecl uninit (more.length + 2 + j) (Parser.ofTokens
      (kw :: first :: (separated more ++ eqTok :: v1 :: (separated moreVals ++ semi :: rest)))) =
      if more.length ≤ moreVals.length then
        if moreVals.length = more.length then
          .ok (.MultiVarDeclNode (List.zipWith (fun nm lit => (ty, nm, some lit))
            (first.lexeme :: more.map (fun x => x.2.lexeme)) (lit1 :: moreLits)))
            (Parser.ofTokens rest)
        else .error "Expected ';' after variable declaration"
      else .error "Type mismatch in variable declaration(3)" := by
    rw [hfuel]
    show parseVarDeclStep (parsers uninit (m + 2)) _ = _
    rw [parseVarDeclStep]
    simp only [ofTokens_cons_current, ofTokens_cons_advance, scalarKeywords_varType hkw, hfirst,
      ne_eq, not_true_eq_false, if_false, hcomma, if_true]
    show parseVarDeclMultiVariableStep (m + 2) (parsers uninit (m + 1)) ty first.lexeme _ = _
    rw [multiVariable_first_value (m + 2) _ ty first.lexeme more (j + 1) eqTok v1
      (separated moreVals ++ semi :: rest) lit1 (by omega) hmore hnames heq hlit1]
    rw [multiVariableTail, if_pos hcomma2]
    change parseVarDeclMultiBothStep (parsers uninit m) ty lit1
      (first.lexeme :: more.map (fun x => x.2.lexeme))
      (Parser.ofTokens (separated moreVals ++ semi :: rest)) = _
    rw [parseVarDeclMultiBothStep, multiBothLoop_values _ ty semi rest hsemi _ moreVals moreLits _
      hvals]
    simp only [List.length_map]
    by_cases hle : more.length ≤ moreVals.length
    · simp only [hle, if_true, Result.bind_ok]
      by_cases hlen : moreVals.length = more.length
      · have hdrop : moreVals.drop more.length = [] := by
          rw [← hlen]; exact List.drop_length _
        simp [hlen, hdrop, separated, ofTokens_cons_current, ofTokens_cons_advance, hsemi]
      · have hdrop : moreVals.drop more.length ≠ [] := by
          intro h
          have := List.drop_eq_nil_iff.1 h
          omega
        have hc := separated_head_comma (moreVals.drop more.length) (semi :: rest) hdrop
          (fun x hx => valuesDenote_comma hvals x (List.mem_of_mem_drop hx))
        simp [hlen, hc]
    · simp [hle]
  constructor
  · intro hlen
    rw [hstep]
    simp [hlen]
  · intro hlen
    rw [hstep]
    by_cases hle : more.length ≤ moreVals.length
    · exact ⟨"Expected ';' after variable declaration", by simp [hle, hlen]⟩
    · exact ⟨"Type mismatch in variable declaration(3)", by simp [hle]⟩

/-- C8 amended, at `int a, b = 1, 2;`: `a` holds 1 and `b` holds 2. -/
theorem parseVarDecl_per_identifier_values_witness :
    parseVarDecl .ADD 3 (Parser.ofTokens intPerIdentifier) =
      .ok (.MultiVarDeclNode [(.INT, "a", some (.IntLiteral 1)), (.INT, "b", some (.IntLiteral 2))])
        (Parser.ofTokens []) :=
  (parseVarDecl_per_identifier_values .ADD 0 (tok .Int "int" 1) (tok .Ident "a" 1)
    [(tok .Comma "," 1, tok .Ident "b" 1)] (tok .Equal "=" 1) (tok .IntLiteral "1" 1)
    [(tok .Comma "," 1, tok .IntLiteral "2" 1)] (tok .Semicolon ";" 1) [] .INT (.IntLiteral 1)
    [.IntLiteral 2] (by decide) rfl (by simp) (by simp [tok]) rfl rfl
    (.cons ⟨rfl, rfl⟩ .nil) (by simp) rfl).1 rfl

theorem copyElements_integers (elems : List ASTNode)
    (h : ∀ e ∈ elems, e.isIntLiteral = true) : copyElements elems = .ok elems := by
  induction elems with
  | nil => rfl
  | cons e elems ih =>
    have he := h e (List.mem_cons_self _ _)
    cases e <;> simp [ASTNode.isIntLiteral] at he
    simp [copyElements, ih (fun x hx => h x (List.mem_cons_of_mem _ hx))]

theorem copyElements_other (elems : List ASTNode)
    (h : ∃ e ∈ elems, e.isIntLiteral = false) :
    copyElements elems = .error "Array elements must be integers" := by
  induction elems with
  | nil => obtain ⟨e, he, _⟩ := h; cases he
  | cons e elems ih =>
    by_cases hint : e.isIntLiteral = true
    · have hrest : ∃ x ∈ elems, x.isIntLiteral = false := by
        obtain ⟨x, hx, hxf⟩ := h
        rcases List.mem_cons.1 hx with rfl | hx
        · rw [hint] at hxf; cases hxf
        · exact ⟨x, hx, hxf⟩
      cases e <;> simp [ASTNode.isIntLiteral] at hint
      simp [copyElements, ih hrest]
    · cases e <;> simp [ASTNode.isIntLiteral] at hint <;> simp [copyElements]

theorem copyDecls_error (ty : VarType) (value : ASTNode) (msg : String)
    (h : copyValue value = .error msg) (name : String) (names : List String) :
    copyDecls ty value (name :: names) = .error msg := by
  simp [copyDecls, h]

/-- The copy loop of the shared-initializer form accepts integer literal elements
only: `array a, b = ["s"];` is rejected for its element. -/
theorem parseStatement_array_shared_string_rejected (uninit : BinaryOp) :
    parseStatement uninit 6 (Parser.ofTokens arraySharedString) =
      .error "Array elements must be integers" := rfl

/-- C9. The shared-initializer form for arrays skips the token after the array
literal.  `array a, b = [1, 2];` is rejected for a missing `;`, while the same
declaration followed by a second `;` yields the `MultiVarDeclNode` in which `a`
and `b` each hold `[1, 2]`.  In general, for `k ≥ 2` identifiers and an array
literal of integer literals, `parseVarDecl` steps over the token that follows
the literal, whatever it is, requires `;` after it, and then returns the
`MultiVarDeclNode` with one entry of type Array per identifier, in order, each
holding the literal. -/
theorem parseVarDecl_array_shared_skips_token (uninit : BinaryOp) :
    parseStatement uninit 6 (Parser.ofTokens arraySharedInts) =
      .error "Expected ';' after variable declaration" ∧
    parseStatement uninit 6 (Parser.ofTokens (arraySharedInts ++ [tok .Semicolon ";" 1])) =
      .ok (.MultiVarDeclNode
        [(.ARRAY, "a", some (.ArrayLiteralNode [.IntLiteral 1, .IntLiteral 2])),
         (.ARRAY, "b", some (.ArrayLiteralNode [.IntLiteral 1, .IntLiteral 2]))])
        (Parser.ofTokens []) ∧
    ∀ (m : Nat) (kw first : Token) (more : List (Token × Token)) (eqTok lb skipped : Token)
      (arr rest : List Token) (elems : List ASTNode),
      kw.type = .Array → first.type = .Ident → more ≠ [] →
      (∀ x ∈ more, x.1.type = .Comma ∧ x.2.type = .Ident) → eqTok.type = .Equal →
      lb.type = .LeftBracket → more.length ≤ m + 1 →
      parsePrimary uninit m (Parser.ofTokens (lb :: (arr ++ skipped :: rest))) =
        .ok (.ArrayLiteralNode elems) (Parser.ofTokens (skipped :: rest)) →
      (∀ e ∈ elems, e.isIntLiteral = true) →
      (Parser.ofTokens rest).currentToken.type ≠ .Comma →
      parseVarDecl uninit (m + 2) (Parser.ofTokens
          (kw :: first :: (separated more ++ eqTok :: lb :: (arr ++ skipped :: rest)))) =
        if (Parser.ofTokens rest).currentToken.type = .Semicolon then
          .ok (.MultiVarDeclNode ((first.lexeme :: more.map (fun x => x.2.lexeme)).map
            fun nm => (.ARRAY, nm, some (.ArrayLiteralNode elems))))
            (Parser.ofTokens rest).advance
        else .error "Expected ';' after variable declaration" := by
  refine ⟨rfl, rfl, ?_⟩
  intro m kw first more eqTok lb skipped arr rest elems hkw hfirst hmore hnames heq hlb hlen
    hprim hall hnext
  obtain ⟨k, hk⟩ : ∃ k, m + 1 = more.length + k := ⟨m + 1 - more.length, by omega⟩
  have hcomma := separated_head_comma more (eqTok :: lb :: (arr ++ skipped :: rest)) hmore
    (fun x hx => (hnames x hx).1)
  have hprim2 : (parsers uninit m).parsePrimary
      (Parser.ofTokens (lb :: (arr ++ skipped :: rest))) =
      .ok (.ArrayLiteralNode elems) (Parser.ofTokens (skipped :: rest)) := hprim
  have hcopy : copyValue (.ArrayLiteralNode elems) = .ok (.ArrayLiteralNode elems) := by
    simp [copyValue, copyElements_integers elems hall]
  show parseVarDeclStep (parsers uninit (m + 1)) _ = _
  rw [parseVarDeclStep]
  simp only [ofTokens_cons_current, ofTokens_cons_advance, hkw, varTypeOfToken, hfirst,
    ne_eq, not_true_eq_false, if_false, hcomma, if_true]
  show parseVarDeclMultiVariableStep (m + 1) (parsers uninit m) .ARRAY first.lexeme _ = _
  rw [parseVarDeclMultiVariableStep, hk,
    identLoop_names more k [first.lexeme] eqTok _ hmore hnames heq]
  simp only [Result.bind_ok, ofTokens_cons_advance, ofTokens_cons_current, hlb, hprim2,
    reduceCtorEq, false_and, if_false, true_and, and_self, if_true, ASTNode.isArrayLiteralNode,
    Bool.not_true, Bool.false_eq_true, multiVariableTail, hnext, List.singleton_append,
    copyDecls_map _ _ _ hcopy]
  by_cases hsemi : (Parser.ofTokens rest).currentToken.type = .Semicolon
  · simp [hsemi]
  · simp [hsemi]

/-- C9 at `array a, b = [1, 2];`: the `;` after the literal is skipped, the end
of the stream is found where `;` is required. -/
theorem parseVarDecl_array_shared_skips_token_witness :
    parseVarDecl .ADD 5 (Parser.ofTokens arraySharedInts) =
      .error "Expected ';' after variable declaration" :=
  (parseVarDecl_array_shared_skips_token .ADD).2.2 3
    (tok .Array "array" 1) (tok .Ident "a" 1) [(tok .Comma "," 1, tok .Ident "b" 1)]
    (tok .Equal "=" 1) (tok .LeftBracket "[" 1) (tok .Semicolon ";" 1)
    [tok .IntLiteral "1" 1, tok .Comma "," 1, tok .IntLiteral "2" 1, tok .RightBracket "]" 1] []
    [.IntLiteral 1, .IntLiteral 2]
    rfl rfl (by simp) (by simp [tok]) rfl rfl (by decide) rfl
    (by intro e he; simp at he; rcases he with rfl | rfl <;> rfl) (by decide)

/-! ## `parseStatement`: dispatch and assignment statements -/

/-- C11. The dispatch of `parseStatement` is closed: on a current token that is
not a type keyword, an identifier, `if`, `print`, `for`, `foreach`, `try` or
`match` it fails with the unexpected-token error and returns no node. -/
theorem parseStatement_dispatch_closed (uninit : BinaryOp) (n : Nat) (p : Parser)
    (h : p.currentToken.type ∉ statementStarts) :
    parseStatement uninit (n + 1) p = .error "Unexpected token in statement" := by
  show parseStatementStep (parsers uninit n) p = _
  simp only [statementStarts, List.mem_cons, List.mem_singleton, List.not_mem_nil, or_false,
    not_or] at h
  obtain ⟨h1, h2, h3, h4, h5, h6, h7, h8, h9, h10, h11, h12, h13⟩ := h
  simp [parseStatementStep, h1, h2, h3, h4, h5, h6, h7, h8, h9, h10, h11, h12, h13]

/-- C11 on the end marker, on `;` and on a closing brace. -/
theorem parseStatement_dispatch_closed_witness :
    parseStatement .ADD 1 (Parser.ofTokens []) = .error "Unexpected token in statement" ∧
    parseStatement .ADD 1 (Parser.ofTokens [tok .Semicolon ";" 1]) =
      .error "Unexpected token in statement" ∧
    parseStatement .ADD 1 (Parser.ofTokens [tok .RightBrace "\x7d" 1]) =
      .error "Unexpected token in statement" :=
  ⟨parseStatement_dispatch_closed .ADD 0 _ (by decide),
   parseStatement_dispatch_closed .ADD 0 _ (by decide),
   parseStatement_dispatch_closed .ADD 0 _ (by decide)⟩

/-- C12. Assignment statement.  On `n = e ;` `parseStatement` returns
`Assign(n, tree of e)` and leaves the cursor just after the `;`; when the token
after the assignment is not `;` it fails, and so it does after any node that
`parseAssignment` returns. -/
theorem parseStatement_assignment (uninit : BinaryOp) (n : Nat) (p q : Parser) (e : ASTNode)
    (hident : p.currentToken.type = .Ident) (hequal : p.advance.currentToken.type = .Equal)
    (hexpr : parseExpression uninit n p.advance.advance = .ok e q) :
    (q.currentToken.type = .Semicolon →
      parseStatement uninit (n + 2) p = .ok (.AssignNode p.currentToken.lexeme e) q.advance) ∧
    (q.currentToken.type ≠ .Semicolon →
      parseStatement uninit (n + 2) p = .error "Expected ';' after assignment") ∧
    (∀ (m : Nat) (node : ASTNode) (r : Parser), parseAssignment uninit m p = .ok node r →
      r.currentToken.type ≠ .Semicolon →
      parseStatement uninit (m + 1) p = .error "Expected ';' after assignment") := by
  have hexpr2 : (parsers uninit n).parseExpression p.advance.advance = .ok e q := hexpr
  have hassign : parseAssignmentStep (parsers uninit n) p =
      .ok (.AssignNode p.currentToken.lexeme e) q := by
    simp [parseAssignmentStep, assignmentTail, hequal, assignOpOfToken, hexpr2]
  have hstmt : ∀ (m : Nat), parseStatement uninit (m + 1) p =
      (parseAssignment uninit m p).bind fun tempreturn p =>
        if p.currentToken.type ≠ .Semicolon then .error "Expected ';' after assignment"
        else .ok tempreturn p.advance := by
    intro m
    show parseStatementStep (parsers uninit m) p = _
    simp [parseStatementStep, hident, parseAssignment]
  have hassign2 : parseAssignment uninit (n + 1) p =
      .ok (.AssignNode p.currentToken.lexeme e) q := hassign
  refine ⟨?_, ?_, ?_⟩
  · intro hsemi
    rw [hstmt, hassign2]
    simp [hsemi]
  · intro hsemi
    rw [hstmt, hassign2]
    simp [hsemi]
  · intro m node r hnode hsemi
    rw [hstmt, hnode]
    simp [hsemi]

/-- C12 at `x = 1 ;` followed by another token. -/
theorem parseStatement_assignment_witness :
    parseStatement .ADD 4 (Parser.ofTokens assignOneTokens) =
      .ok (.AssignNode "x" (.IntLiteral 1)) (Parser.ofTokens [tok .Ident "y" 2]) :=
  (parseStatement_assignment .ADD 2 (Parser.ofTokens assignOneTokens)
    (Parser.ofTokens (assignOneTokens.drop 3)) (.IntLiteral 1) rfl rfl rfl).1 rfl

theorem compoundTokens_assignOp {t : TokenType} {op : BinaryOp} (h : (t, op) ∈ compoundTokens) :
    assignOpOfToken t = some (some op) ∧ t ≠ .LeftBracket ∧ t ≠ .PlusPlus ∧ t ≠ .MinusMinus := by
  simp only [compoundTokens, List.mem_cons, List.mem_singleton, Prod.mk.injEq, List.not_mem_nil,
    or_false] at h
  rcases h with ⟨rfl, rfl⟩ | ⟨rfl, rfl⟩ | ⟨rfl, rfl⟩ | ⟨rfl, rfl⟩ | ⟨rfl, rfl⟩ <;>
    exact ⟨rfl, by decide, by decide, by decide⟩

theorem isCompoundOperand_iff (e : ASTNode) :
    IsCompoundOperand e ↔
      (!e.isIntLiteral && !e.isFloatLiteral && !e.isVarRefNode) = false := by
  constructor
  · rintro (⟨v, rfl⟩ | ⟨v, rfl⟩ | ⟨v, rfl⟩) <;> rfl
  · intro h
    cases e <;> simp [ASTNode.isIntLiteral, ASTNode.isFloatLiteral, ASTNode.isVarRefNode] at h
    · exact .inl ⟨_, rfl⟩
    · exact .inr (.inl ⟨_, rfl⟩)
    · exact .inr (.inr ⟨_, rfl⟩)

/-- C13. Compound assignment right-hand side.  For each of `+=`, `-=`, `*=`, `/=`,
`%=`, `parseAssignment` on `n op= e` returns `CompoundAssign(n, op, e)` if the
parsed value `e` is an integer literal, a float literal or a variable reference,
and fails for every other parsed value. -/
theorem parseAssignment_compound_operand (uninit : BinaryOp) (n : Nat) (p q : Parser)
    (op : BinaryOp) (e : ASTNode) (hop : (p.advance.currentToken.type, op) ∈ compoundTokens)
    (hexpr : parseExpression uninit n p.advance.advance = .ok e q) :
    (IsCompoundOperand e →
      parseAssignment uninit (n + 1) p = .ok (.CompoundAssignNode p.currentToken.lexeme op e) q) ∧
    (¬ IsCompoundOperand e →
      parseAssignment uninit (n + 1) p = .error (atLine
        "Divide-equal (/=) expression must be an int or float literal or variable at line " q)) := by
  obtain ⟨h1, h2, h3, h4⟩ := compoundTokens_assignOp hop
  have hexpr2 : (parsers uninit n).parseExpression p.advance.advance = .ok e q := hexpr
  have hstep : parseAssignment uninit (n + 1) p =
      if (!e.isIntLiteral && !e.isFloatLiteral && !e.isVarRefNode) = true then
        .error (atLine
          "Divide-equal (/=) expression must be an int or float literal or variable at line " q)
      else .ok (.CompoundAssignNode p.currentToken.lexeme op e) q := by
    show parseAssignmentStep (parsers uninit n) p = _
    simp only [parseAssignmentStep, h2, if_false, assignmentTail, h3, h4, or_self, h1, hexpr2,
      Result.bind_ok]
  constructor
  · intro h
    rw [hstep, (isCompoundOperand_iff e).1 h]
    simp
  · intro h
    have hb : (!e.isIntLiteral && !e.isFloatLiteral && !e.isVarRefNode) = true := by
      cases hc : (!e.isIntLiteral && !e.isFloatLiteral && !e.isVarRefNode) with
      | true => rfl
      | false => exact absurd ((isCompoundOperand_iff e).2 hc) h
    rw [hstep, hb]
    simp

/-- C13 at `x /= 2 ;` (accepted) and at `x += 1 - 2 ;` (rejected). -/
theorem parseAssignment_compound_operand_witness :
    parseAssignment .ADD 3 (Parser.ofTokens divideByTwo) =
      .ok (.CompoundAssignNode "x" .DIVIDE (.IntLiteral 2))
        (Parser.ofTokens [tok .Semicolon ";" 1]) ∧
    parseAssignment .ADD 3 (Parser.ofTokens compoundOfDifference) =
      .error "Divide-equal (/=) expression must be an int or float literal or variable at line 1" :=
  ⟨(parseAssignment_compound_operand .ADD 2 (Parser.ofTokens divideByTwo)
      (Parser.ofTokens [tok .Semicolon ";" 1]) .DIVIDE (.IntLiteral 2) (by decide) rfl).1
      (.inl ⟨2, rfl⟩),
   (parseAssignment_compound_operand .ADD 2 (Parser.ofTokens compoundOfDifference)
      (Parser.ofTokens [tok .Semicolon ";" 1]) .ADD
      (.BinaryOpNode .SUBTRACT (.IntLiteral 1) (some (.IntLiteral 2))) (by decide) rfl).2
      (by rintro (⟨v, h⟩ | ⟨v, h⟩ | ⟨v, h⟩) <;> cases h)⟩

/-! ## `parseExpression`: postfix operators and the negated parenthesis -/

theorem exprPostfix_target (c : ASTNode) (p : Parser)
    (hpost : p.currentToken.type = .PlusPlus ∨ p.currentToken.type = .MinusMinus) :
    (IsIncrementTarget c →
      exprPostfix c p = .ok (.UnaryOpNode
        (if p.currentToken.type = .PlusPlus then .INCREMENT else .DECREMENT) c) p.advance) ∧
    (¬ IsIncrementTarget c → ∃ msg, exprPostfix c p = .error msg) := by
  constructor
  · rintro (⟨name, rfl⟩ | ⟨l, r, rfl⟩) <;>
      simp [exprPostfix, hpost, ASTNode.isVarRefNode, ASTNode.isBinaryOpNode]
  · intro h
    cases c with
    | VarRefNode name => exact absurd (.inl ⟨name, rfl⟩) h
    | BinaryOpNode op l r =>
      by_cases hop : op = .INDEX
      · subst hop
        exact absurd (.inr ⟨l, r, rfl⟩) h
      · exact ⟨"Increment/decrement can only be applied to array elements with index",
          by simp [exprPostfix, hpost, ASTNode.isVarRefNode, ASTNode.isBinaryOpNode, hop]⟩
    | _ =>
      exact ⟨"Increment/decrement can only be applied to variables or array elements",
        by simp [exprPostfix, hpost, ASTNode.isVarRefNode, ASTNode.isBinaryOpNode]⟩

theorem parseTernary_no_question (uninit : BinaryOp) (n : Nat) (left : ASTNode) (p : Parser)
    (h : p.currentToken.type ≠ .Question) :
    (parsers uninit (n + 1)).parseTernary left p = .ok left p := by
  show parseTernaryStep (parsers uninit n) left p = _
  simp [parseTernaryStep, h]

theorem parseTernaryStep_unary_condition (rec : Parsers) (op : UnaryOp) (c : ASTNode)
    (p : Parser) (h : p.currentToken.type = .Question) (node : ASTNode) (q : Parser) :
    parseTernaryStep rec (.UnaryOpNode op c) p ≠ .ok node q := by
  unfold parseTernaryStep
  simp only [h, if_true]
  cases rec.parseExpression p.advance with
  | error m => simp
  | outOfFuel => simp
  | ok trueBranch p1 =>
    simp only [Result.bind_ok]
    split
    · simp
    · cases rec.parseExpression p1.advance with
      | error m => simp
      | outOfFuel => simp
      | ok falseBranch p2 => simp [isBooleanCondition]

/-- C14, the claim as stated fails: in `x ++ ? 1 : 2 ;` the chain `x`, a variable
reference, is followed by `++`, and `parseExpression` does not yield the
`UnaryOp` but fails, the `UnaryOp` being taken as the condition of a ternary. -/
theorem parseExpression_postfix_then_question_rejected :
    (∀ uninit : BinaryOp, parsePrimary uninit 3 (Parser.ofTokens postfixThenQuestion) =
      .ok (.VarRefNode "x") (Parser.ofTokens (postfixThenQuestion.drop 1))) ∧
    (Parser.ofTokens (postfixThenQuestion.drop 1)).currentToken.type = .PlusPlus ∧
    (∀ uninit : BinaryOp, parseExpression uninit 4 (Parser.ofTokens postfixThenQuestion) =
      .error "Ternary condition must be a boolean expression at line 1") :=
  ⟨fun _ => rfl, rfl, fun _ => rfl⟩

/-- C14, amended.  Postfix `++`/`--` in an expression.  When the chain `c` built
by the operator loop is followed by `++` or `--`: if `c` is a variable reference
or a `BinaryOp` with operator `Index`, `parseExpression` yields
`UnaryOp(Increment or Decrement, c)` when the token after the operator is not
`?`, and yields no node when it is `?`; for every other `c` it fails. -/
theorem parseExpression_postfix_operator (uninit : BinaryOp) (n : Nat) (p q0 r : Parser)
    (first c : ASTNode)
    (hfirst : (p.currentToken.type ≠ .LeftParen ∧ parsePrimary uninit n p = .ok first q0) ∨
      ((p.currentToken.type = .LeftParen ∨ p.currentToken.type = .negLeftParen) ∧
        ∃ q, parseExpression uninit n p.advance = .ok first q ∧
          q.currentToken.type = .RightParen ∧ q0 = q.advance))
    (hloop : exprLoop uninit (parsers uninit n) (n + 1) first q0 = .ok c r)
    (hpost : r.currentToken.type = .PlusPlus ∨ r.currentToken.type = .MinusMinus) :
    (IsIncrementTarget c → r.advance.currentToken.type ≠ .Question →
      parseExpression uninit (n + 1) p = .ok (.UnaryOpNode
        (if r.currentToken.type = .PlusPlus then .INCREMENT else .DECREMENT) c) r.advance) ∧
    (IsIncrementTarget c → r.advance.currentToken.type = .Question →
      ∀ node q, parseExpression uninit (n + 1) p ≠ .ok node q) ∧
    (¬ IsIncrementTarget c → ∃ msg, parseExpression uninit (n + 1) p = .error msg) := by
  have hstep : parseExpression uninit (n + 1) p =
      (exprPostfix c r).bind fun left p => (parsers uninit n).parseTernary left p := by
    show parseExpressionStep uninit (n + 1) (parsers uninit n) p = _
    rcases hfirst with ⟨hne, hprim⟩ | ⟨hparen, q, hinner, hclose, rfl⟩
    · have hneg : p.currentToken.type ≠ .negLeftParen := by
        intro hc
        obtain ⟨m, rfl⟩ := parsePrimary_ok_fuel hprim
        simp [parsePrimary, parsers, parsePrimaryStep, hc] at hprim
      have hprim2 : (parsers uninit n).parsePrimary p = .ok first q0 := hprim
      simp only [parseExpressionStep, hne, hneg, or_self, if_false, hprim2, Result.bind_ok, hloop]
    · have hinner2 : (parsers uninit n).parseExpression p.advance = .ok first q := hinner
      have hsemi : q.advance.currentToken.type ≠ .Semicolon := by
        intro hc
        rw [exprLoop] at hloop
        simp only [hc, isChainOperator, reduceCtorEq, decide_False, Bool.or_self,
          Bool.false_eq_true, if_false, Result.ok.injEq] at hloop
        rw [← hloop.2, hc] at hpost
        rcases hpost with h | h <;> cases h
      simp only [parseExpressionStep, hparen, if_true, hinner2, Result.bind_ok, hclose, ne_eq,
        not_true_eq_false, if_false, hsemi, not_false_eq_true, hloop]
  obtain ⟨m, rfl⟩ : ∃ m, n = m + 1 := by
    rcases hfirst with ⟨_, hprim⟩ | ⟨_, q, hinner, _, _⟩
    · exact parsePrimary_ok_fuel hprim
    · exact parseExpression_ok_fuel hinner
  obtain ⟨hyes, hno⟩ := exprPostfix_target c r hpost
  refine ⟨?_, ?_, ?_⟩
  · intro h hnext
    rw [hstep, hyes h, Result.bind_ok, parseTernary_no_question uninit m _ _ hnext]
  · intro h hnext node q
    rw [hstep, hyes h, Result.bind_ok]
    exact parseTernaryStep_unary_condition (parsers uninit m) _ c r.advance hnext node q
  · intro h
    obtain ⟨msg, hmsg⟩ := hno h
    exact ⟨msg, by rw [hstep, hmsg, Result.bind_error]⟩

/-- C14 amended, at `x ++ ;` (accepted) and at `1 -- ;` (rejected). -/
theorem parseExpression_postfix_operator_witness :
    parseExpression .ADD 3 (Parser.ofTokens incrementVariable) =
      .ok (.UnaryOpNode .INCREMENT (.VarRefNode "x")) (Parser.ofTokens [tok .Semicolon ";" 1]) ∧
    ∃ msg, parseExpression .ADD 3 (Parser.ofTokens decrementLiteral) = .error msg :=
  ⟨(parseExpression_postfix_operator .ADD 2 (Parser.ofTokens incrementVariable)
      (Parser.ofTokens (incrementVariable.drop 1)) (Parser.ofTokens (incrementVariable.drop 1))
      (.VarRefNode "x") (.VarRefNode "x") (.inl ⟨by decide, rfl⟩) rfl (.inl rfl)).1
      (.inl ⟨"x", rfl⟩) (by decide),
   (parseExpression_postfix_operator .ADD 2 (Parser.ofTokens decrementLiteral)
      (Parser.ofTokens (decrementLiteral.drop 1)) (Parser.ofTokens (decrementLiteral.drop 1))
      (.IntLiteral 1) (.IntLiteral 1) (.inl ⟨by decide, rfl⟩) rfl (.inr rfl)).2.2
      (by rintro (⟨v, h⟩ | ⟨l, r, h⟩) <;> cases h)⟩

/-- C15. The negation of a negated parenthesis is kept only when `;` follows the
`)`: `x = -(y);` carries `Negate(VarRef y)`, while `print(-(y));` prints the bare
`VarRef y`, the negation being dropped on the path that continues after `)`. -/
theorem negated_parenthesis_dropped_before_other_tokens :
    parseStatement .ADD 5 (Parser.ofTokens printNegated) =
      .ok (.PrintNode (.VarRefNode "y")) (Parser.ofTokens []) ∧
    parseStatement .ADD 5 (Parser.ofTokens assignNegated) =
      .ok (.AssignNode "x" (.UnaryOpNode .NEGATE (.VarRefNode "y"))) (Parser.ofTokens []) :=
  ⟨rfl, rfl⟩

/-! ## `parsePrimary`: array literals -/

theorem isArrayElement_iff (e : ASTNode) :
    IsArrayElement e ↔
      (!e.isIntLiteral && !e.isVarRefNode && !e.isStrLiteral && !e.isBoolLiteral &&
        !e.isCharLiteral) = false := by
  constructor
  · rintro (⟨v, rfl⟩ | ⟨v, rfl⟩ | ⟨v, rfl⟩ | ⟨v, rfl⟩ | ⟨v, rfl⟩) <;> rfl
  · intro h
    cases e <;> simp [ASTNode.isIntLiteral, ASTNode.isVarRefNode, ASTNode.isStrLiteral,
      ASTNode.isBoolLiteral, ASTNode.isCharLiteral] at h
    · exact .inl ⟨_, rfl⟩
    · exact .inr (.inl ⟨_, rfl⟩)
    · exact .inr (.inr (.inl ⟨_, rfl⟩))
    · exact .inr (.inr (.inr (.inl ⟨_, rfl⟩)))
    · exact .inr (.inr (.inr (.inr ⟨_, rfl⟩)))

theorem not_isArrayElement_iff (e : ASTNode) :
    ¬ IsArrayElement e ↔
      (!e.isIntLiteral && !e.isVarRefNode && !e.isStrLiteral && !e.isBoolLiteral &&
        !e.isCharLiteral) = true := by
  rw [isArrayElement_iff]
  cases (!e.isIntLiteral && !e.isVarRefNode && !e.isStrLiteral && !e.isBoolLiteral &&
    !e.isCharLiteral) <;> simp

theorem arrayLoop_prefix (rec : Parsers) {p r : Parser} {es : List ASTNode}
    (helements : ElementsPrefix rec.parseExpression p es r) :
    (∀ e ∈ es, IsArrayElement e) → ∀ (k : Nat) (acc : List ASTNode),
      arrayLoop rec (es.length + k) acc p = arrayLoop rec k (acc ++ es) r := by
  induction helements with
  | nil p => intro _ k acc; simp
  | @cons p q r e es hexpr hcomma hmore _ ih =>
    intro hall k acc
    have he := (isArrayElement_iff e).1 (hall e (List.mem_cons_self _ _))
    have hlen : (e :: es).length + k = (es.length + k) + 1 := by
      simp only [List.length_cons]; omega
    rw [hlen, arrayLoop]
    simp only [hexpr, Result.bind_ok, he, Bool.false_eq_true, if_false, hcomma, if_true, hmore,
      ne_eq, not_false_eq_true]
    rw [ih (fun x hx => hall x (List.mem_cons_of_mem _ hx)) k (acc ++ [e])]
    simp

theorem parseExpression_not_at_bracket {uninit : BinaryOp} {n : Nat} {p q : Parser}
    {e : ASTNode} (h : parseExpression uninit n p = .ok e q) :
    p.currentToken.type ≠ .RightBracket := by
  intro hc
  obtain ⟨m, rfl⟩ := parseExpression_ok_fuel h
  change parseExpressionStep uninit (m + 1) (parsers uninit m) p = _ at h
  cases m with
  | zero => simp [parseExpressionStep, hc, parsers] at h
  | succ k =>
    have hprim : (parsers uninit (k + 1)).parsePrimary p = .error "Expected primary expression" := by
      show parsePrimaryStep (k + 1) (parsers uninit k) p = _
      simp [parsePrimaryStep, hc]
    simp [parseExpressionStep, hc, hprim] at h

/-- C16, the claim as stated fails: `[1.5]`, whose element parses to a float
literal, is rejected. -/
theorem parsePrimary_array_of_float_rejected :
    parsePrimary .ADD 4 (Parser.ofTokens arrayOfFloat) =
      .error "Array elements must be integers or identifiers" := rfl

/-- C16, amended.  `parsePrimary` on `[e1, ..., en]` returns the `ArrayLiteralNode`
with the n element nodes in source order when every element expression parses to
an integer, string, bool or char literal or a variable reference; an element
that parses to any other node (a float literal, `1 - 2`) makes parsing fail;
`[]` gives the empty array literal. -/
theorem parsePrimary_array_literal (uninit : BinaryOp) (n : Nat) (p r : Parser)
    (es : List ASTNode) (hopen : p.currentToken.type = .LeftBracket)
    (helements : ElementsPrefix (parseExpression uninit n) p.advance es r)
    (hall : ∀ e ∈ es, IsArrayElement e) (hlen : es.length ≤ n) :
    (∀ (e : ASTNode) (q : Parser), parseExpression uninit n r = .ok e q → IsArrayElement e →
      q.currentToken.type = .RightBracket →
      parsePrimary uninit (n + 1) p = .ok (.ArrayLiteralNode (es ++ [e])) q.advance) ∧
    (∀ (e : ASTNode) (q : Parser), parseExpression uninit n r = .ok e q → ¬ IsArrayElement e →
      parsePrimary uninit (n + 1) p = .error "Array elements must be integers or identifiers") ∧
    (p.advance.currentToken.type = .RightBracket →
      parsePrimary uninit (n + 1) p = .ok (.ArrayLiteralNode []) p.advance.advance) := by
  have hstep : parsePrimary uninit (n + 1) p =
      ((if p.advance.currentToken.type ≠ .RightBracket then
          arrayLoop (parsers uninit n) (n + 1) [] p.advance
        else .ok [] p.advance).bind fun elements p =>
        if p.currentToken.type ≠ .RightBracket then .error "Expected ']' after array literal"
        else .ok (.ArrayLiteralNode elements) p.advance) := by
    show parsePrimaryStep (n + 1) (parsers uninit n) p = _
    simp only [parsePrimaryStep, hopen, reduceCtorEq, or_self, if_false, if_true]
  have hloop : ∀ (e : ASTNode) (q : Parser), parseExpression uninit n r = .ok e q →
      p.advance.currentToken.type ≠ .RightBracket ∧
      arrayLoop (parsers uninit n) (n + 1) [] p.advance =
        if (!e.isIntLiteral && !e.isVarRefNode && !e.isStrLiteral && !e.isBoolLiteral &&
            !e.isCharLiteral) = true then
          .error "Array elements must be integers or identifiers"
        else if q.currentToken.type = .Comma then
          if q.advance.currentToken.type ≠ .RightBracket then
            arrayLoop (parsers uninit n) (n - es.length) (es ++ [e]) q.advance
          else .ok (es ++ [e]) q.advance
        else .ok (es ++ [e]) q := by
    intro e q hlast
    have hlast2 : (parsers uninit n).parseExpression r = .ok e q := hlast
    constructor
    · cases helements with
      | nil _ => exact parseExpression_not_at_bracket hlast
      | cons hexpr _ _ _ => exact parseExpression_not_at_bracket hexpr
    · obtain ⟨k, hk⟩ : ∃ k, n + 1 = es.length + (k + 1) := ⟨n - es.length, by omega⟩
      have hk2 : n - es.length = k := by omega
      rw [hk, arrayLoop_prefix _ helements hall (k + 1) [], arrayLoop, hk2]
      simp only [hlast2, Result.bind_ok, List.nil_append]
  refine ⟨?_, ?_, ?_⟩
  · intro e q hlast helem hclose
    obtain ⟨hne, hl⟩ := hloop e q hlast
    rw [hstep, if_pos hne, hl, (isArrayElement_iff e).1 helem]
    simp [hclose]
  · intro e q hlast helem
    obtain ⟨hne, hl⟩ := hloop e q hlast
    rw [hstep, if_pos hne, hl, (not_isArrayElement_iff e).1 helem]
    simp
  · intro hempty
    rw [hstep]
    simp [hempty]

/-- C16 amended, at `[1, x]` (accepted) and at `[1 - 2]` (rejected). -/
theorem parsePrimary_array_literal_witness :
    parsePrimary .ADD 4 (Parser.ofTokens arrayOfIntAndVariable) =
      .ok (.ArrayLiteralNode [.IntLiteral 1, .VarRefNode "x"]) (Parser.ofTokens []) ∧
    parsePrimary .ADD 4 (Parser.ofTokens arrayOfDifference) =
      .error "Array elements must be integers or identifiers" :=
  ⟨(parsePrimary_array_literal .ADD 3 (Parser.ofTokens arrayOfIntAndVariable)
      (Parser.ofTokens (arrayOfIntAndVariable.drop 3)) [.IntLiteral 1] rfl
      (.cons (q := Parser.ofTokens (arrayOfIntAndVariable.drop 2)) rfl rfl (by decide) (.nil _))
      (by intro e he; simp at he; exact .inl ⟨1, he⟩) (by decide)).1
      (.VarRefNode "x") (Parser.ofTokens (arrayOfIntAndVariable.drop 4)) rfl
      (.inr (.inr (.inr (.inr ⟨"x", rfl⟩)))) rfl,
   (parsePrimary_array_literal .ADD 3 (Parser.ofTokens arrayOfDifference)
      (Parser.ofTokens (arrayOfDifference.drop 1)) [] rfl (.nil _)
      (by intro e he; cases he) (by decide)).2.1
      (.BinaryOpNode .SUBTRACT (.IntLiteral 1) (some (.IntLiteral 2)))
      (Parser.ofTokens (arrayOfDifference.drop 4)) rfl
      (by rintro (⟨v, h⟩ | ⟨v, h⟩ | ⟨v, h⟩ | ⟨v, h⟩ | ⟨v, h⟩) <;> cases h)⟩

/-! ## `parseLoop`, `try`/`catch` and `parseIfStatement` -/

/-- C17. The header of a C-style `for`.  With an assignment as init, or with no
init, the `;` after the init is not consumed: the condition is taken as absent
and what follows that `;` is parsed as the update, so `for (i = 0; i < 10; i++)`
and `for (;;)` are rejected; with an int declaration as init (which consumes its
own `;`) the loop holds the init, the condition and the update. -/
theorem parseLoop_header_separator :
    parseStatement .ADD 6 (Parser.ofTokens forWithAssignment) =
      .error "Expected '=' or compound assignment operator" ∧
    parseStatement .ADD 6 (Parser.ofTokens forWithNothing) =
      .error "Expected '=' or compound assignment operator" ∧
    parseStatement .ADD 6 (Parser.ofTokens forWithDeclaration) =
      .ok (.LoopNode (some (.VarDeclNode .INT "i" (some (.IntLiteral 0))))
        (some (.BinaryOpNode .LESS (.VarRefNode "i") (some (.IntLiteral 10))))
        (some (.UnaryOpNode .INCREMENT (.VarRefNode "i"))) (.BlockNode []))
        (Parser.ofTokens []) :=
  ⟨rfl, rfl, rfl⟩

/-- C18. The `try` branch of `parseStatement` returns the catch block as parsed,
without the implicit binding; `parseTryCatch`, on the same tokens, puts
`VarDecl(Error, e, no initializer)` in front of the catch block's statements. -/
theorem parseStatement_try_without_binding :
    parseStatement .ADD 6 (Parser.ofTokens tryCatchTokens) =
      .ok (.TryCatchNode (.BlockNode [.AssignNode "x" (.IntLiteral 1)])
        (.BlockNode [.PrintNode (.VarRefNode "e")]) "e") (Parser.ofTokens []) ∧
    parseTryCatch .ADD 6 (Parser.ofTokens tryCatchTokens) =
      .ok (.TryCatchNode (.BlockNode [.AssignNode "x" (.IntLiteral 1)])
        (.BlockNode [.VarDeclNode .ERROR "e" none, .PrintNode (.VarRefNode "e")]) "e")
        (Parser.ofTokens []) :=
  ⟨rfl, rfl⟩

theorem parseIfStatement_wellShaped (uninit : BinaryOp) :
    ∀ (n : Nat) (p q : Parser) (node : ASTNode),
      parseIfStatement uninit n p = .ok node q → WellShapedIf node := by
  intro n
  induction n with
  | zero => intro p q node h; simp [parseIfStatement, parsers] at h
  | succ n ih =>
    intro p q node h
    change parseIfStatementStep (parsers uninit n) p = _ at h
    simp only [parseIfStatementStep] at h
    split at h
    · cases h
    · cases hc : (parsers uninit n).parseExpression p.advance.advance with
      | error m => rw [hc] at h; cases h
      | outOfFuel => rw [hc] at h; cases h
      | ok c q1 =>
        rw [hc] at h
        simp only [Result.bind_ok] at h
        split at h
        · cases h
        · split at h
          · cases h
          · cases hb : (parsers uninit n).parseBlock q1.advance with
            | error m => rw [hb] at h; cases h
            | outOfFuel => rw [hb] at h; cases h
            | ok b q2 =>
              rw [hb] at h
              simp only [Result.bind_ok] at h
              split at h
              · split at h
                · cases hi : (parsers uninit n).parseIfStatement q2.advance with
                  | error m => rw [hi] at h; cases h
                  | outOfFuel => rw [hi] at h; cases h
                  | ok inner q3 =>
                    rw [hi] at h
                    simp only [Result.bind_ok, Result.ok.injEq] at h
                    rw [← h.1]
                    exact .elseIf c b (ih _ _ _ hi)
                · split at h
                  · cases he : (parsers uninit n).parseBlock q2.advance with
                    | error m => rw [he] at h; cases h
                    | outOfFuel => rw [he] at h; cases h
                    | ok b2 q3 =>
                      rw [he] at h
                      simp only [Result.bind_ok, Result.ok.injEq] at h
                      rw [← h.1]
                      exact .elseBlock c b b2
                  · cases h
              · simp only [Result.ok.injEq] at h
                rw [← h.1]
                exact .noElse c b

/-- C19. Shape of a parsed if/else.  Every node `parseIfStatement` returns has a
block as then-branch and an else-branch that is absent, a block, or another such
if/else.  After `if (c) B`: without `else` the else-branch is absent; `else if`
nests the if/else that follows, so `if (c1) B1 else if (c2) B2 else B3` is
`IfElse(c1, B1, IfElse(c2, B2, B3))`; `else` with a block gives that block; `else`
followed by any other token fails. -/
theorem parseIfStatement_shape (uninit : BinaryOp) :
    (∀ (n : Nat) (p q : Parser) (node : ASTNode),
      parseIfStatement uninit n p = .ok node q → WellShapedIf node) ∧
    (∀ (n : Nat) (p q1 q2 : Parser) (c : ASTNode) (b : List ASTNode),
      p.advance.currentToken.type = .LeftParen →
      parseExpression uninit n p.advance.advance = .ok c q1 →
      q1.currentToken.type = .RightParen → q1.advance.currentToken.type = .LeftBrace →
      parseBlock uninit n q1.advance = .ok b q2 →
      (q2.currentToken.type ≠ .Else →
        parseIfStatement uninit (n + 1) p = .ok (.IfElseNode c (.BlockNode b) none) q2) ∧
      (∀ (inner : ASTNode) (q3 : Parser), q2.currentToken.type = .Else →
        q2.advance.currentToken.type = .If →
        parseIfStatement uninit n q2.advance = .ok inner q3 →
        parseIfStatement uninit (n + 1) p = .ok (.IfElseNode c (.BlockNode b) (some inner)) q3) ∧
      (∀ (b2 : List ASTNode) (q3 : Parser), q2.currentToken.type = .Else →
        q2.advance.currentToken.type = .LeftBrace →
        parseBlock uninit n q2.advance = .ok b2 q3 →
        parseIfStatement uninit (n + 1) p =
          .ok (.IfElseNode c (.BlockNode b) (some (.BlockNode b2))) q3) ∧
      (q2.currentToken.type = .Else → q2.advance.currentToken.type ≠ .If →
        q2.advance.currentToken.type ≠ .LeftBrace →
        parseIfStatement uninit (n + 1) p = .error "Expected 'if' or '\x7b' after 'else'")) := by
  refine ⟨parseIfStatement_wellShaped uninit, ?_⟩
  intro n p q1 q2 c b hparen hcond hclose hbrace hblock
  have hcond2 : (parsers uninit n).parseExpression p.advance.advance = .ok c q1 := hcond
  have hblock2 : (parsers uninit n).parseBlock q1.advance = .ok b q2 := hblock
  have hstep : parseIfStatement uninit (n + 1) p =
      if q2.currentToken.type = .Else then
        if q2.advance.currentToken.type = .If then
          ((parsers uninit n).parseIfStatement q2.advance).bind fun elseBlock p =>
            .ok (.IfElseNode c (.BlockNode b) (some elseBlock)) p
        else if q2.advance.currentToken.type = .LeftBrace then
          ((parsers uninit n).parseBlock q2.advance).bind fun elseBlock p =>
            .ok (.IfElseNode c (.BlockNode b) (some (.BlockNode elseBlock))) p
        else .error "Expected 'if' or '\x7b' after 'else'"
      else .ok (.IfElseNode c (.BlockNode b) none) q2 := by
    show parseIfStatementStep (parsers uninit n) p = _
    simp only [parseIfStatementStep, hparen, ne_eq, not_true_eq_false, if_false, hcond2,
      Result.bind_ok, hclose, hbrace, hblock2]
  refine ⟨?_, ?_, ?_, ?_⟩
  · intro helse
    rw [hstep, if_neg helse]
  · intro inner q3 helse hif hinner
    have hinner2 : (parsers uninit n).parseIfStatement q2.advance = .ok inner q3 := hinner
    rw [hstep, if_pos helse, if_pos hif, hinner2, Result.bind_ok]
  · intro b2 q3 helse hlb hb2
    have hb3 : (parsers uninit n).parseBlock q2.advance = .ok b2 q3 := hb2
    have hif : q2.advance.currentToken.type ≠ .If := by rw [hlb]; decide
    rw [hstep, if_pos helse, if_neg hif, if_pos hlb, hb3, Result.bind_ok]
  · intro helse hif hlb
    rw [hstep, if_pos helse, if_neg hif, if_neg hlb]

/-- C19 at `if (a) B1 else if (b) B2 else B3` with empty blocks. -/
theorem parseIfStatement_shape_witness :
    parseIfStatement .ADD 5 (Parser.ofTokens ifElseIfElse) =
      .ok (.IfElseNode (.VarRefNode "a") (.BlockNode [])
        (some (.IfElseNode (.VarRefNode "b") (.BlockNode []) (some (.BlockNode [])))))
        (Parser.ofTokens []) :=
  ((parseIfStatement_shape .ADD).2 4 (Parser.ofTokens ifElseIfElse)
    (Parser.ofTokens (ifElseIfElse.drop 3)) (Parser.ofTokens (ifElseIfElse.drop 6))
    (.VarRefNode "a") [] rfl rfl rfl rfl rfl).2.1
    (.IfElseNode (.VarRefNode "b") (.BlockNode []) (some (.BlockNode [])))
    (Parser.ofTokens []) rfl rfl rfl

/-! ## The code generator: emitted instructions -/

theorem length_appendInstr (bs : List BasicBlock) :
    ∀ (n : Nat) (i : Instr), (appendInstr bs n i).length = bs.length := by
  induction bs with
  | nil => intro n i; rfl
  | cons b bs ih =>
    intro n i
    cases n with
    | zero => rfl
    | succ n => simp [appendInstr, ih]

theorem blockInstructions_appendInstr (bs : List BasicBlock) :
    ∀ (n : Nat) (i : Instr), n < bs.length →
      blockInstructions (appendInstr bs n i) n = blockInstructions bs n ++ [i] := by
  induction bs with
  | nil => intro n i h; simp at h
  | cons b bs ih =>
    intro n i h
    cases n with
    | zero => rfl
    | succ n =>
      simp only [appendInstr, blockInstructions]
      exact ih n i (by simpa using h)

theorem blockInstructions_appendInstr_ne (bs : List BasicBlock) :
    ∀ (n k : Nat) (i : Instr), k ≠ n →
      blockInstructions (appendInstr bs n i) k = blockInstructions bs k := by
  induction bs with
  | nil => intro n k i _; rfl
  | cons b bs ih =>
    intro n k i h
    cases n with
    | zero =>
      cases k with
      | zero => exact absurd rfl h
      | succ k => rfl
    | succ n =>
      cases k with
      | zero => rfl
      | succ k =>
        simp only [appendInstr, blockInstructions]
        exact ih n k i (by omega)

theorem noTerminator_nil : NoTerminator [] := by
  intro x hx; cases hx

theorem noTerminator_singleton {i : Instr} (h : i.isTerminator = false) : NoTerminator [i] := by
  intro x hx
  rw [List.mem_singleton] at hx
  rw [hx]; exact h

theorem noTerminator_append {is js : List Instr} (h1 : NoTerminator is) (h2 : NoTerminator js) :
    NoTerminator (is ++ js) := by
  intro x hx
  rcases List.mem_append.mp hx with h | h
  · exact h1 x h
  · exact h2 x h

theorem computation_nil : Computation [] := by
  intro x hx; cases hx

theorem computation_singleton {i : Instr} (h : i.isComputation = true) : Computation [i] := by
  intro x hx
  rw [List.mem_singleton] at hx
  rw [hx]; exact h

theorem computation_append {is js : List Instr} (h1 : Computation is) (h2 : Computation js) :
    Computation (is ++ js) := by
  intro x hx
  rcases List.mem_append.mp hx with h | h
  · exact h1 x h
  · exact h2 x h

theorem computation_noTerminator {is : List Instr} (h : Computation is) : NoTerminator is := by
  intro x hx
  have hc := h x hx
  cases x <;> simp [Instr.isComputation] at hc <;> rfl

theorem map_name_appendInstr (bs : List BasicBlock) :
    ∀ (n : Nat) (i : Instr),
      (appendInstr bs n i).map BasicBlock.name = bs.map BasicBlock.name := by
  induction bs with
  | nil => intro n i; rfl
  | cons b bs ih =>
    intro n i
    cases n with
    | zero => rfl
    | succ n => simp [appendInstr, ih]

theorem appends_refl (g : CodeGen) : Appends g g [] := by
  simp [Appends]

theorem appends_trans {g g2 g3 : CodeGen} {is js : List Instr} (h1 : Appends g g2 is)
    (h2 : Appends g2 g3 js) : Appends g g3 (is ++ js) := by
  obtain ⟨a1, a2, a3, a4, a5⟩ := h1
  obtain ⟨b1, b2, b3, b4, b5⟩ := h2
  exact ⟨b1.trans a1, b2.trans a2, by rw [b3, a3, List.append_assoc],
    fun i hi => (b4 i (by rw [a1]; exact hi)).trans (a4 i hi), b5.trans a5⟩

theorem appends_wellFormed {g g2 : CodeGen} {is : List Instr} (h : Appends g g2 is)
    (hwf : g.WellFormed) : g2.WellFormed := by
  obtain ⟨a1, a2, _⟩ := h
  unfold CodeGen.WellFormed at *
  omega

theorem appends_emit (g : CodeGen) (i : Instr) (hwf : g.WellFormed) :
    Appends g (g.emit i) [i] :=
  ⟨rfl, length_appendInstr _ _ _, blockInstructions_appendInstr _ _ _ hwf,
    fun k hk => blockInstructions_appendInstr_ne _ _ k _ hk, map_name_appendInstr _ _ _⟩

theorem appends_createLoad (g : CodeGen) (type : IRType) (slot : Nat) (hwf : g.WellFormed) :
    Appends g (g.createLoad type slot).2 [.load g.nextId type slot] :=
  appends_emit g _ hwf

theorem appends_createBinary (g : CodeGen) (op : IRBinOp) (l r : Value) (hwf : g.WellFormed) :
    Appends g (g.createBinary op l r).2 [.binary g.nextId op l r] :=
  appends_emit g _ hwf

theorem appends_createStore (g : CodeGen) (v : Value) (slot : Nat) (hwf : g.WellFormed) :
    Appends g (g.createStore v slot) [.store v slot] :=
  appends_emit g _ hwf

theorem generateValue_appends_bounded (n : Nat) :
    ∀ (node : ASTNode), sizeOf node ≤ n → ∀ (ty : IRType) (g : CodeGen) (v : Value)
      (g2 : CodeGen), g.WellFormed → generateValue node ty g = .ok (v, g2) →
      ∃ is, Appends g g2 is ∧ Computation is := by
  induction n with
  | zero =>
    intro node hsize
    cases node <;> simp at hsize
  | succ n ih =>
    intro node hsize ty g v g2 hwf h
    cases node with
    | IntLiteral i =>
      rw [generateValue] at h
      split at h
      · simp only [Except.ok.injEq, Prod.mk.injEq] at h
        rw [← h.2]; exact ⟨[], appends_refl g, computation_nil⟩
      · split at h
        · simp only [Except.ok.injEq, Prod.mk.injEq] at h
          rw [← h.2]; exact ⟨[], appends_refl g, computation_nil⟩
        · cases h
    | FloatLiteral f =>
      rw [generateValue] at h
      split at h
      · cases h
      · simp only [Except.ok.injEq, Prod.mk.injEq] at h
        rw [← h.2]; exact ⟨[], appends_refl g, computation_nil⟩
    | StrLiteral s =>
      rw [generateValue] at h
      split at h
      · cases h
      · simp only [Except.ok.injEq] at h
        have hg : (g.createGlobalStringPtr s).2 = g2 := congrArg Prod.snd h
        rw [← hg]
        exact ⟨[], ⟨rfl, rfl, by simp [CodeGen.createGlobalStringPtr, CodeGen.currentInstructions],
          fun _ _ => rfl, rfl⟩, computation_nil⟩
    | BoolLiteral b =>
      rw [generateValue] at h
      split at h
      · cases h
      · simp only [Except.ok.injEq, Prod.mk.injEq] at h
        rw [← h.2]; exact ⟨[], appends_refl g, computation_nil⟩
    | CharLiteral c =>
      rw [generateValue] at h
      split at h
      · cases h
      · simp only [Except.ok.injEq, Prod.mk.injEq] at h
        rw [← h.2]; exact ⟨[], appends_refl g, computation_nil⟩
    | VarRefNode name =>
      rw [generateValue] at h
      split at h
      · cases h
      · split at h
        · cases h
        · simp only [Except.ok.injEq] at h
          have hg : (g.createLoad ty _).2 = g2 := congrArg Prod.snd h
          rw [← hg]
          exact ⟨_, appends_createLoad g ty _ hwf, computation_singleton rfl⟩
    | BinaryOpNode op l r =>
      have hl : sizeOf l ≤ n := by
        simp only [ASTNode.BinaryOpNode.sizeOf_spec] at hsize; omega
      have hr : ∀ x, r = some x → sizeOf x ≤ n := by
        intro x hx
        subst hx
        simp only [ASTNode.BinaryOpNode.sizeOf_spec, Option.some.sizeOf_spec] at hsize; omega
      have hside : ∀ (ty2 : IRType) (g0 g1 g3 : CodeGen) (lv rv : Value), g0.WellFormed →
          generateValue l ty2 g0 = .ok (lv, g1) → generateValueOrNull r ty2 g1 = .ok (rv, g3) →
          ∃ is, Appends g0 g3 is ∧ Computation is ∧ g3.WellFormed := by
        intro ty2 g0 g1 g3 lv rv hwf0 h1 h2
        obtain ⟨is1, a1, n1⟩ := ih l hl ty2 g0 lv g1 hwf0 h1
        cases r with
        | none => simp [generateValueOrNull] at h2
        | some x =>
          rw [generateValueOrNull] at h2
          obtain ⟨is2, a2, n2⟩ := ih x (hr x rfl) ty2 g1 rv g3 (appends_wellFormed a1 hwf0) h2
          exact ⟨_, appends_trans a1 a2, computation_append n1 n2,
            appends_wellFormed (appends_trans a1 a2) hwf0⟩
      rw [generateValue] at h
      split at h
      · simp only at h
        split at h
        · cases h
        · rename_i lv g1 h1
          split at h
          · cases h
          · rename_i rv g3 h2
            obtain ⟨is, a, nt, hwf3⟩ := hside _ g g1 g3 lv rv hwf h1 h2
            split at h
            · simp only [Except.ok.injEq] at h
              have hg : (g3.createBinary _ lv rv).2 = g2 := congrArg Prod.snd h
              rw [← hg]
              exact ⟨_, appends_trans a (appends_createBinary g3 _ lv rv hwf3),
                computation_append nt (computation_singleton rfl)⟩
            · cases h
      · split at h
        · cases h
        · rename_i lv g1 h1
          split at h
          · cases h
          · rename_i rv g3 h2
            obtain ⟨is, a, nt, hwf3⟩ := hside _ g g1 g3 lv rv hwf h1 h2
            split at h
            · simp only [Except.ok.injEq] at h
              have hg : (g3.createBinary _ lv rv).2 = g2 := congrArg Prod.snd h
              rw [← hg]
              exact ⟨_, appends_trans a (appends_createBinary g3 _ lv rv hwf3),
                computation_append nt (computation_singleton rfl)⟩
            · cases h
    | _ => simp [generateValue] at h

/-- `generateValue` only appends instructions to the insertion block. -/
theorem generateValue_appends (node : ASTNode) (ty : IRType) (g : CodeGen) (v : Value)
    (g2 : CodeGen) (hwf : g.WellFormed) (h : generateValue node ty g = .ok (v, g2)) :
    ∃ is, Appends g g2 is ∧ Computation is :=
  generateValue_appends_bounded (sizeOf node) node (Nat.le_refl _) ty g v g2 hwf h

theorem compoundInstruction_arithmetic {op : BinaryOp} {ty : IRType} {instruction : IRBinOp}
    (h : compoundInstruction op ty = some instruction) :
    arithmeticInstruction op ty.isFloatTy = some instruction ∧
      instruction.resultType ty = ty := by
  cases ty <;> cases op <;> simp [compoundInstruction, IRType.isFloatTy, IRType.isIntegerTy] at h <;>
    subst h <;> exact ⟨rfl, rfl⟩

/-- C20. Lowering of a compound assignment with `+=`, `-=`, `*=` or `/=` to a
declared variable whose value lowers against the slot's type:
`generateCompoundAssign` appends to the insertion block, in order, the load of
the slot, the instructions of the value, the operation — the floating-point form
for a float slot, the integer form for a slot of an integer type, so `fdiv`
respectively the signed `sdiv` for `/=` — on the loaded value and the value's
result, and the store of the operation's result to the slot. -/
theorem generateCompoundAssign_arithmetic (g g2 : CodeGen) (name : String) (op : BinaryOp)
    (value : ASTNode) (slot : AllocaInst) (rhs : Value) (instruction : IRBinOp)
    (hwf : g.WellFormed) (hdecl : g.find name = some slot)
    (hrhs : generateValue value slot.allocatedType
      (g.createLoad slot.allocatedType slot.id).2 = .ok (rhs, g2))
    (hop : compoundInstruction op slot.allocatedType = some instruction) :
    ∃ (final : CodeGen) (valueInstrs : List Instr),
      generateCompoundAssign name op value g = .ok final ∧
      g2.currentInstructions =
        g.currentInstructions ++ [.load g.nextId slot.allocatedType slot.id] ++ valueInstrs ∧
      final.currentInstructions =
        g.currentInstructions ++ [.load g.nextId slot.allocatedType slot.id] ++ valueInstrs ++
          [.binary g2.nextId instruction (.inst g.nextId slot.allocatedType) rhs,
           .store (.inst g2.nextId slot.allocatedType) slot.id] := by
  obtain ⟨harith, hres⟩ := compoundInstruction_arithmetic hop
  have hload := appends_createLoad g slot.allocatedType slot.id hwf
  obtain ⟨valueInstrs, hvalue, _⟩ := generateValue_appends value _ _ rhs g2
    (appends_wellFormed hload hwf) hrhs
  have h2 := appends_trans hload hvalue
  have hwf2 := appends_wellFormed h2 hwf
  have hbin := appends_createBinary g2 instruction (.inst g.nextId slot.allocatedType) rhs hwf2
  have h3 := appends_trans h2 hbin
  have hstore := appends_createStore
    (g2.createBinary instruction (.inst g.nextId slot.allocatedType) rhs).2
    (.inst g2.nextId slot.allocatedType) slot.id (appends_wellFormed h3 hwf)
  have h4 := appends_trans h3 hstore
  refine ⟨_, valueInstrs, ?_, by simpa using h2.2.2.1, by simpa using h4.2.2.1⟩
  have hcur : (g.createLoad slot.allocatedType slot.id).1 = .inst g.nextId slot.allocatedType :=
    rfl
  rw [generateCompoundAssign]
  simp only [hdecl, hrhs, harith, hcur, CodeGen.createBinary, Value.type, hres]

/-- C20 at `x /= 2` for `int x` (signed division) and at `f /= f` for `float f`
(floating-point division). -/
theorem generateCompoundAssign_arithmetic_witness :
    (∃ (final : CodeGen) (valueInstrs : List Instr),
      generateCompoundAssign "x" .DIVIDE (.IntLiteral 2) afterIntX = .ok final ∧
      afterIntX.currentInstructions ++ [.load 1 .i32 0] =
        afterIntX.currentInstructions ++ [.load 1 .i32 0] ++ valueInstrs ∧
      final.currentInstructions =
        afterIntX.currentInstructions ++ [.load 1 .i32 0] ++ valueInstrs ++
          [.binary 2 .sdiv (.inst 1 .i32) (.constInt .i32 2), .store (.inst 2 .i32) 0]) ∧
    (∃ (final : CodeGen) (valueInstrs : List Instr),
      generateCompoundAssign "f" .DIVIDE (.VarRefNode "f") afterFloatF = .ok final ∧
      afterFloatF.currentInstructions ++ [.load 1 .float 0, .load 2 .float 0] =
        afterFloatF.currentInstructions ++ [.load 1 .float 0] ++ valueInstrs ∧
      final.currentInstructions =
        afterFloatF.currentInstructions ++ [.load 1 .float 0] ++ valueInstrs ++
          [.binary 3 .fdiv (.inst 1 .float) (.inst 2 .float), .store (.inst 3 .float) 0]) := by
  constructor
  · obtain ⟨final, is, h1, h2, h3⟩ := generateCompoundAssign_arithmetic afterIntX
      (afterIntX.createLoad .i32 0).2 "x" .DIVIDE (.IntLiteral 2) ⟨0, .i32⟩
      (.constInt .i32 2) .sdiv (by unfold CodeGen.WellFormed; decide) rfl rfl rfl
    exact ⟨final, is, h1, h2, h3⟩
  · obtain ⟨final, is, h1, h2, h3⟩ := generateCompoundAssign_arithmetic afterFloatF
      ((afterFloatF.createLoad .float 0).2.createLoad .float 0).2 "f" .DIVIDE (.VarRefNode "f")
      ⟨0, .float⟩ (.inst 2 .float) .fdiv (by unfold CodeGen.WellFormed; decide) rfl rfl rfl
    exact ⟨final, is, h1, h2, h3⟩

/-! ## The code generator: values -/

/-- C21. A variable reference lowers exactly when the name is in the symbol
table and its slot's declared type equals the expected type; it then appends
exactly one load of that slot to the insertion block, and its value is that
load.  An undeclared name and a slot of any other type are errors that leave
the generator as it was. -/
theorem generateValue_varRef_exactly_typed (g : CodeGen) (name : String) (expectedType : IRType)
    (hwf : g.WellFormed) :
    ((∃ r, generateValue (.VarRefNode name) expectedType g = .ok r) ↔
      ∃ slot, g.find name = some slot ∧ slot.allocatedType = expectedType) ∧
    (∀ v g2, generateValue (.VarRefNode name) expectedType g = .ok (v, g2) →
      ∃ slot, g.find name = some slot ∧ slot.allocatedType = expectedType ∧
        v = .inst g.nextId expectedType ∧
        Appends g g2 [.load g.nextId expectedType slot.id]) ∧
    (g.find name = none →
      generateValue (.VarRefNode name) expectedType g =
        .error ⟨"Undeclared variable: " ++ name, g⟩) ∧
    (∀ slot, g.find name = some slot → slot.allocatedType ≠ expectedType →
      generateValue (.VarRefNode name) expectedType g =
        .error ⟨"Type mismatch: variable " ++ name ++ " has a different type", g⟩) := by
  refine ⟨?_, ?_, ?_, ?_⟩
  · rw [generateValue]
    cases hf : g.find name with
    | none => simp
    | some slot =>
      by_cases ht : slot.allocatedType = expectedType
      · simp [ht]
      · simp [ht]
  · intro v g2 h
    rw [generateValue] at h
    cases hf : g.find name with
    | none => simp [hf] at h
    | some slot =>
      rw [hf] at h
      by_cases ht : slot.allocatedType = expectedType
      · simp only [ht, ne_eq, not_true_eq_false, if_false, Except.ok.injEq] at h
        have hv : (g.createLoad expectedType slot.id).1 = v := congrArg Prod.fst h
        have hg : (g.createLoad expectedType slot.id).2 = g2 := congrArg Prod.snd h
        refine ⟨slot, rfl, ht, hv.symm, ?_⟩
        rw [← hg]
        exact appends_createLoad g expectedType slot.id hwf
      · simp [ht] at h
  · intro hf
    rw [generateValue]
    simp [hf]
  · intro slot hf ht
    rw [generateValue]
    simp [hf, ht]

/-- C21 on a declared `string s` and a declared `int x`: reading `s` against `i32`
and `x` against `float` fails, reading `s` against the pointer type succeeds. -/
theorem generateValue_varRef_exactly_typed_witness :
    afterStringS.WellFormed ∧
    generateValue (.VarRefNode "s") .i32 afterStringS =
      .error ⟨"Type mismatch: variable s has a different type", afterStringS⟩ ∧
    generateValue (.VarRefNode "x") .float afterIntX =
      .error ⟨"Type mismatch: variable x has a different type", afterIntX⟩ ∧
    (∃ r, generateValue (.VarRefNode "s") .ptr afterStringS = .ok r) :=
  ⟨by unfold CodeGen.WellFormed; decide,
   (generateValue_varRef_exactly_typed afterStringS "s" .i32
      (by unfold CodeGen.WellFormed; decide)).2.2.2 ⟨0, .ptr⟩ rfl (by decide),
   rfl,
   (generateValue_varRef_exactly_typed afterStringS "s" .ptr
      (by unfold CodeGen.WellFormed; decide)).1.mpr ⟨⟨0, .ptr⟩, rfl, rfl⟩⟩

/-- C22. Lowering of literals: an integer literal gives the `i32` constant of
its value against `i32` and the float constant of its value against `float`; a
float literal lowers against `float` only, a string literal against the pointer
type only, a bool literal against `i1` only and a char literal against `i8`
only, each failing with its type error against every other expected type, the
generator left as it was; so `int x = "s";` and `bool b = 'c';` fail. -/
theorem generateValue_literals (g : CodeGen) :
    (∀ v, generateValue (.IntLiteral v) .i32 g = .ok (.constInt .i32 v, g)) ∧
    (∀ v, generateValue (.IntLiteral v) .float g = .ok (.constFP (.ofInt v), g)) ∧
    (∀ v, generateValue (.FloatLiteral v) .float g = .ok (.constFP v, g)) ∧
    (∀ v T, T ≠ .float →
      generateValue (.FloatLiteral v) T g = .error ⟨"Expected float type", g⟩) ∧
    (∀ s, generateValue (.StrLiteral s) .ptr g = .ok (g.createGlobalStringPtr s)) ∧
    (∀ s T, T ≠ .ptr →
      generateValue (.StrLiteral s) T g = .error ⟨"Expected pointer type for string", g⟩) ∧
    (∀ b, generateValue (.BoolLiteral b) .i1 g = .ok (.constInt .i1 (if b then 1 else 0), g)) ∧
    (∀ b T, T ≠ .i1 →
      generateValue (.BoolLiteral b) T g = .error ⟨"Expected boolean type", g⟩) ∧
    (∀ c, generateValue (.CharLiteral c) .i8 g = .ok (.constInt .i8 c.toNat, g)) ∧
    (∀ c T, T ≠ .i8 →
      generateValue (.CharLiteral c) T g = .error ⟨"Expected char (i8) type", g⟩) ∧
    (∃ e, generateVarDecl .INT "x" (some (.StrLiteral "s")) g = .error e ∧
      e.what = "Expected pointer type for string") ∧
    (∃ e, generateVarDecl .BOOL "b" (some (.CharLiteral 'c')) g = .error e ∧
      e.what = "Expected char (i8) type") := by
  refine ⟨fun v => rfl, fun v => rfl, fun v => rfl, ?_, fun s => rfl, ?_, fun b => rfl, ?_,
    fun c => rfl, ?_, ⟨_, rfl, rfl⟩, ⟨_, rfl, rfl⟩⟩
  · intro v T hT
    cases T <;> first | exact absurd rfl hT | rfl
  · intro s T hT
    cases T <;> first | exact absurd rfl hT | rfl
  · intro b T hT
    cases T <;> first | exact absurd rfl hT | rfl
  · intro c T hT
    cases T <;> first | exact absurd rfl hT | rfl
theorem isComparisonOrLogicalOp_of_arithmeticForms {op : BinaryOp} {f i : IRBinOp}
    (h : (op, f, i) ∈ arithmeticForms) :
    isComparisonOrLogicalOp op = false ∧
      ∀ T : IRType, arithmeticInstruction op T.isFloatTy = some (if T = .float then f else i) := by
  simp only [arithmeticForms, List.mem_cons, Prod.mk.injEq, List.mem_singleton,
    List.not_mem_nil, or_false] at h
  rcases h with ⟨rfl, rfl, rfl⟩ | ⟨rfl, rfl, rfl⟩ | ⟨rfl, rfl, rfl⟩ | ⟨rfl, rfl, rfl⟩ <;>
    exact ⟨rfl, fun T => by cases T <;> rfl⟩

/-- The comparison and logical operators lower both operands against `i1` (for
`AND`, `OR`) or `i32` (for the six comparisons), the left one first, whatever the
expected type, and create the instruction of the operator on the two values. -/
theorem generateValue_comparison (op : BinaryOp) (left : ASTNode) (right : Option ASTNode)
    (expectedType : IRType) (g : CodeGen) (h : isComparisonOrLogicalOp op = true) :
    generateValue (.BinaryOpNode op left right) expectedType g =
      match generateValue left (if op = .AND ∨ op = .OR then .i1 else .i32) g with
      | .error e => .error e
      | .ok (l, g1) =>
        match generateValueOrNull right (if op = .AND ∨ op = .OR then .i1 else .i32) g1 with
        | .error e => .error e
        | .ok (r, g2) =>
          match comparisonInstruction op with
          | some instruction => .ok (g2.createBinary instruction l r)
          | none => .error ⟨"Unreachable", g2⟩ := by
  rw [generateValue]
  simp only [h, if_true]

/-- The result does not depend on the expected type the caller passes. -/
theorem generateValue_comparison_ignores_expected (op : BinaryOp) (left : ASTNode)
    (right : Option ASTNode) (T1 T2 : IRType) (g : CodeGen)
    (h : isComparisonOrLogicalOp op = true) :
    generateValue (.BinaryOpNode op left right) T1 g =
      generateValue (.BinaryOpNode op left right) T2 g := by
  rw [generateValue_comparison op left right T1 g h, generateValue_comparison op left right T2 g h]

/-- C23. The logical `AND` of the integer literals 1 and 2, lowered against any
expected type: both operands lower (against `i1`) to `i32` constants, and the
value returned is the `and` instruction on them, of type `i32`, not `i1`. -/
theorem generateValue_and_of_integers_not_boolean (expectedType : IRType) (g : CodeGen) :
    generateValue (.BinaryOpNode .AND (.IntLiteral 1) (some (.IntLiteral 2))) expectedType g =
      .ok (.inst g.nextId .i32,
        (g.createBinary .and (.constInt .i32 1) (.constInt .i32 2)).2) ∧
    (Value.inst g.nextId .i32).type ≠ .i1 := by
  constructor
  · rw [generateValue_comparison .AND _ _ _ _ rfl]
    rfl
  · simp [Value.type]

/-- C24. An arithmetic operator lowers its left operand, then its right operand,
against the expected type and creates on the two values the floating-point
instruction when the expected type is `float` and the integer instruction (the
signed division for `DIVIDE`) otherwise; it fails as the first operand that
fails. -/
theorem generateValue_arithmetic (op : BinaryOp) (floatForm integerForm : IRBinOp)
    (left : ASTNode) (right : Option ASTNode) (expectedType : IRType) (g : CodeGen)
    (hop : (op, floatForm, integerForm) ∈ arithmeticForms) :
    generateValue (.BinaryOpNode op left right) expectedType g =
      match generateValue left expectedType g with
      | .error e => .error e
      | .ok (l, g1) =>
        match generateValueOrNull right expectedType g1 with
        | .error e => .error e
        | .ok (r, g2) =>
          .ok (.inst g2.nextId
                ((if expectedType = .float then floatForm else integerForm).resultType l.type),
              { g2.emit (.binary g2.nextId
                  (if expectedType = .float then floatForm else integerForm) l r) with
                nextId := g2.nextId + 1 }) := by
  obtain ⟨hcmp, hinstr⟩ := isComparisonOrLogicalOp_of_arithmeticForms hop
  rw [generateValue]
  simp only [hcmp, Bool.false_eq_true, if_false, hinstr expectedType]
  rfl

/-- C24 at `x / 2` against `i32` after `int x;` (loads `x`, then `sdiv`) and at
`1 / 2` against `float` (`fdiv` on the float constants). -/
theorem generateValue_arithmetic_witness :
    (.DIVIDE, .fdiv, .sdiv) ∈ arithmeticForms ∧
    generateValue (.BinaryOpNode .DIVIDE (.VarRefNode "x") (some (.IntLiteral 2))) .i32 afterIntX =
      .ok (.inst 2 .i32,
        { afterIntX with
          blocks := [⟨"entry", [.alloca 0 .i32 "x", .load 1 .i32 0,
            .binary 2 .sdiv (.inst 1 .i32) (.constInt .i32 2)]⟩],
          nextId := 3 }) ∧
    generateValue (.BinaryOpNode .DIVIDE (.IntLiteral 1) (some (.IntLiteral 2))) .float afterIntX =
      .ok (.inst 1 .float,
        { afterIntX with
          blocks := [⟨"entry", [.alloca 0 .i32 "x",
            .binary 1 .fdiv (.constFP (.ofInt 1)) (.constFP (.ofInt 2))]⟩],
          nextId := 2 }) :=
  ⟨by decide,
   (generateValue_arithmetic .DIVIDE .fdiv .sdiv (.VarRefNode "x") (some (.IntLiteral 2)) .i32
      afterIntX (by decide)).trans rfl,
   (generateValue_arithmetic .DIVIDE .fdiv .sdiv (.IntLiteral 1) (some (.IntLiteral 2)) .float
      afterIntX (by decide)).trans rfl⟩
/-- C25. Lowering of an assignment.  To an undeclared name it fails with the
undeclared-variable error and leaves the generator (instructions and symbol
table) as it was.  To a declared name it lowers the value against the type of
the name's slot: when that fails the assignment fails with the same error; when
it succeeds the assignment succeeds, and what it has appended to the insertion
block is the instructions of the value, loads and two-operand instructions,
followed by one store of the value to the slot; the symbol table is the one the
lowering of the value leaves. -/
theorem generateAssign_lowering (g : CodeGen) (name : String) (value : ASTNode)
    (hwf : g.WellFormed) :
    (g.find name = none →
      generateAssign name value g =
        .error ⟨"Assignment to undeclared variable: " ++ name, g⟩) ∧
    (∀ slot, g.find name = some slot →
      (∀ e, generateValue value slot.allocatedType g = .error e →
        generateAssign name value g = .error e) ∧
      (∀ v g1, generateValue value slot.allocatedType g = .ok (v, g1) →
        ∃ valueInstrs, generateAssign name value g = .ok (g1.createStore v slot.id) ∧
          Computation valueInstrs ∧
          Appends g (g1.createStore v slot.id) (valueInstrs ++ [.store v slot.id]) ∧
          (g1.createStore v slot.id).symbols = g1.symbols)) := by
  constructor
  · intro hf
    rw [generateAssign]
    simp only [hf]
  · intro slot hf
    constructor
    · intro e he
      rw [generateAssign]
      simp only [hf, he]
    · intro v g1 hv
      obtain ⟨is, ha, hc⟩ := generateValue_appends value _ g v g1 hwf hv
      refine ⟨is, ?_, hc, ?_, rfl⟩
      · rw [generateAssign]
        simp only [hf, hv]
      · exact appends_trans ha (appends_createStore g1 v slot.id (appends_wellFormed ha hwf))

/-- C25 after `int x;`: `y = 5;` fails and leaves the generator as it was,
`x = 5;` appends the store of the constant 5 to the slot of `x`. -/
theorem generateAssign_lowering_witness :
    afterIntX.WellFormed ∧
    generateAssign "y" (.IntLiteral 5) afterIntX =
      .error ⟨"Assignment to undeclared variable: y", afterIntX⟩ ∧
    ∃ valueInstrs, generateAssign "x" (.IntLiteral 5) afterIntX =
        .ok (afterIntX.createStore (.constInt .i32 5) 0) ∧
      Computation valueInstrs ∧
      Appends afterIntX (afterIntX.createStore (.constInt .i32 5) 0)
        (valueInstrs ++ [.store (.constInt .i32 5) 0]) ∧
      (afterIntX.createStore (.constInt .i32 5) 0).symbols = afterIntX.symbols :=
  ⟨by unfold CodeGen.WellFormed; decide,
   (generateAssign_lowering afterIntX "y" (.IntLiteral 5)
      (by unfold CodeGen.WellFormed; decide)).1 rfl,
   ((generateAssign_lowering afterIntX "x" (.IntLiteral 5)
      (by unfold CodeGen.WellFormed; decide)).2 ⟨0, .i32⟩ rfl).2 (.constInt .i32 5) afterIntX rfl⟩

/-- C29. Statements of a class `generateStatement` has no case for are skipped
without an error: a print, a loop, a foreach loop, a try/catch, a match and a
statement that is an expression (an increment) leave the generator as it was,
also inside a block, and `generate` on the program `print(1);` does what it does
on the empty program: it emits the default return and fails only if the
verifier rejects the module that holds just that return. -/
theorem generateStatement_skips_unknown_statements :
    (∀ (e : ASTNode) (g : CodeGen), generateStatement (.PrintNode e) g = .ok g) ∧
    (∀ (i c u : Option ASTNode) (b : ASTNode) (g : CodeGen),
      generateStatement (.LoopNode i c u b) g = .ok g) ∧
    (∀ (n : String) (c b : ASTNode) (g : CodeGen),
      generateStatement (.ForeachLoopNode n c b) g = .ok g) ∧
    (∀ (t c : ASTNode) (n : String) (g : CodeGen),
      generateStatement (.TryCatchNode t c n) g = .ok g) ∧
    (∀ (e : ASTNode) (cs : List (Option ASTNode × ASTNode)) (g : CodeGen),
      generateStatement (.MatchNode e cs) g = .ok g) ∧
    (∀ (op : UnaryOp) (e : ASTNode) (g : CodeGen),
      generateStatement (.UnaryOpNode op e) g = .ok g) ∧
    (∀ (e : ASTNode) (g : CodeGen), generateBlock [.PrintNode e] g = .ok g) ∧
    ∀ verifyModule : CodeGen → Option String,
      generate verifyModule ⟨[.PrintNode (.IntLiteral 1)]⟩ CodeGen.new =
        match verifyModule returnOnly with
        | some error => .error ⟨"Generated IR is invalid: " ++ error, returnOnly⟩
        | none => .ok returnOnly := by
  refine ⟨fun _ _ => rfl, fun _ _ _ _ _ => rfl, fun _ _ _ _ => rfl, fun _ _ _ _ => rfl,
    fun _ _ _ => rfl, fun _ _ _ => rfl, ?_, ?_⟩
  · intro e g
    rw [generateBlock]
    simp only [ASTNode.isIfElseNode, Bool.false_eq_true, if_false, generateSimpleStatement,
      generateBlock]
  · intro verifyModule
    have hb : generateBlock [.PrintNode (.IntLiteral 1)] CodeGen.new = .ok CodeGen.new := by
      rw [generateBlock]
      simp only [ASTNode.isIfElseNode, Bool.false_eq_true, if_false, generateSimpleStatement,
        generateBlock]
    unfold generate
    simp only [hb]
    rfl

/-- C30. A binary operator other than the four arithmetic, the six comparison
and the two logical ones cannot be lowered: `generateValue` fails for every
expected type and every pair of operands, and `generateCompoundAssign` with the
operator `MODULO` fails for every name and value. -/
theorem unsupported_operators_fail (op : BinaryOp) (left : ASTNode) (right : Option ASTNode)
    (expectedType : IRType) (name : String) (value : ASTNode) (g : CodeGen)
    (hop : op ∉ supportedOperators) :
    (∃ e, generateValue (.BinaryOpNode op left right) expectedType g = .error e) ∧
    (∃ e, generateCompoundAssign name .MODULO value g = .error e) := by
  constructor
  · have hcmp : isComparisonOrLogicalOp op = false := by
      cases op <;> first | rfl | exact absurd (by decide) hop
    have harith : arithmeticInstruction op expectedType.isFloatTy = none := by
      cases op <;> first | rfl | exact absurd (by decide) hop
    rw [generateValue]
    simp only [hcmp, Bool.false_eq_true, if_false, harith]
    cases hl : generateValue left expectedType g with
    | error e => exact ⟨e, rfl⟩
    | ok r =>
      obtain ⟨l, g1⟩ := r
      simp only
      cases hr : generateValueOrNull right expectedType g1 with
      | error e => exact ⟨e, rfl⟩
      | ok r2 =>
        obtain ⟨rv, g2⟩ := r2
        exact ⟨_, rfl⟩
  · rw [generateCompoundAssign]
    cases g.find name with
    | none => exact ⟨_, rfl⟩
    | some slot =>
      simp only
      cases generateValue value slot.allocatedType (g.createLoad slot.allocatedType slot.id).2 with
      | error e => exact ⟨e, rfl⟩
      | ok r =>
        obtain ⟨rhs, g2⟩ := r
        exact ⟨_, rfl⟩

/-- C30 at `1 % 2` and `x %= 2` after `int x;`. -/
theorem unsupported_operators_fail_witness :
    BinaryOp.MODULO ∉ supportedOperators ∧
    (∃ e, generateValue (.BinaryOpNode .MODULO (.IntLiteral 1) (some (.IntLiteral 2))) .i32
      afterIntX = .error e) ∧
    (∃ e, generateCompoundAssign "x" .MODULO (.IntLiteral 2) afterIntX = .error e) :=
  ⟨by decide,
   unsupported_operators_fail .MODULO (.IntLiteral 1) (some (.IntLiteral 2)) .i32 "x"
     (.IntLiteral 2) afterIntX (by decide)⟩

/-! ## The code generator: blocks and terminators -/

theorem blockInstructions_append_new (bs : List BasicBlock) (name : String) :
    ∀ i, blockInstructions (bs ++ [⟨name, []⟩]) i = blockInstructions bs i := by
  induction bs with
  | nil =>
    intro i
    cases i <;> rfl
  | cons b bs ih =>
    intro i
    cases i with
    | zero => rfl
    | succ i => exact ih i

theorem blockInstructions_of_length_le (bs : List BasicBlock) :
    ∀ i, bs.length ≤ i → blockInstructions bs i = [] := by
  induction bs with
  | nil => intro i _; rfl
  | cons b bs ih =>
    intro i h
    cases i with
    | zero => simp at h
    | succ i => exact ih i (by simpa using h)

@[simp] theorem createBlock_length (g : CodeGen) (name : String) :
    (g.createBlock name).2.blocks.length = g.blocks.length + 1 := by
  simp [CodeGen.createBlock]

@[simp] theorem createBlock_insertBlock (g : CodeGen) (name : String) :
    (g.createBlock name).2.insertBlock = g.insertBlock := rfl

@[simp] theorem createBlock_instructions (g : CodeGen) (name : String) (i : Nat) :
    blockInstructions (g.createBlock name).2.blocks i = blockInstructions g.blocks i :=
  blockInstructions_append_new g.blocks name i

@[simp] theorem emit_length (g : CodeGen) (x : Instr) :
    (g.emit x).blocks.length = g.blocks.length :=
  length_appendInstr _ _ _

@[simp] theorem emit_insertBlock (g : CodeGen) (x : Instr) :
    (g.emit x).insertBlock = g.insertBlock := rfl

theorem emit_instructions_self (g : CodeGen) (x : Instr) (hwf : g.WellFormed) :
    blockInstructions (g.emit x).blocks g.insertBlock =
      blockInstructions g.blocks g.insertBlock ++ [x] :=
  blockInstructions_appendInstr _ _ _ hwf

theorem emit_instructions_ne (g : CodeGen) (x : Instr) {i : Nat} (h : i ≠ g.insertBlock) :
    blockInstructions (g.emit x).blocks i = blockInstructions g.blocks i :=
  blockInstructions_appendInstr_ne _ _ _ _ h

@[simp] theorem setInsertPoint_blocks (g : CodeGen) (b : Nat) :
    (g.setInsertPoint b).blocks = g.blocks := rfl

@[simp] theorem setInsertPoint_insertBlock (g : CodeGen) (b : Nat) :
    (g.setInsertPoint b).insertBlock = b := rfl

theorem terminated_append {is : List Instr} {t : Instr} (h : NoTerminator is)
    (ht : t.isTerminator = true) : Terminated (is ++ [t]) :=
  ⟨is, t, rfl, h, ht⟩

theorem blocksClosed_congr {g : CodeGen} {S T : Nat → Prop} (hST : ∀ i, S i ↔ T i)
    (h : g.BlocksClosed S) : g.BlocksClosed T := by
  obtain ⟨h1, h2, h3, h4, h5, h6⟩ := h
  exact ⟨h1, fun ht => h2 ((hST _).mpr ht), fun i hi => h3 i ((hST i).mpr hi), h4,
    fun i hi => h5 i ((hST i).mpr hi), fun i hi hne hnt => h6 i hi hne (fun hs => hnt ((hST i).mp hs))⟩

theorem blocksClosed_wellFormed {g : CodeGen} {S : Nat → Prop} (h : g.BlocksClosed S) :
    g.WellFormed := h.1

theorem blocksClosed_appends {g g2 : CodeGen} {is : List Instr} {S : Nat → Prop}
    (ha : Appends g g2 is) (hn : NoTerminator is) (h : g.BlocksClosed S) :
    g2.BlocksClosed S := by
  obtain ⟨h1, h2, h3, h4, h5, h6⟩ := h
  obtain ⟨a1, a2, a3, a4, _⟩ := ha
  refine ⟨by rw [a1, a2]; exact h1, by rw [a1]; exact h2, fun i hi => by rw [a2]; exact h3 i hi,
    by rw [a3]; exact noTerminator_append h4 hn, ?_, ?_⟩
  · intro i hi
    have hne : i ≠ g.insertBlock := fun he => h2 (he ▸ hi)
    rw [a4 i hne]
    exact h5 i hi
  · intro i hi hne hnp
    rw [a1] at hne
    rw [a2] at hi
    rw [a4 i hne]
    exact h6 i hi hne hnp

theorem blocksClosed_createBlock {g : CodeGen} {S : Nat → Prop} (name : String)
    (h : g.BlocksClosed S) :
    (g.createBlock name).2.BlocksClosed (fun i => S i ∨ i = g.blocks.length) := by
  obtain ⟨h1, h2, h3, h4, h5, h6⟩ := h
  refine ⟨by simp; omega, ?_, ?_, ?_, ?_, ?_⟩
  · simp only [createBlock_insertBlock]
    rintro (hs | he)
    · exact h2 hs
    · omega
  · rintro i (hs | he)
    · have := h3 i hs
      simp; omega
    · simp; omega
  · simpa [CodeGen.currentInstructions] using h4
  · rintro i (hs | he)
    · simpa using h5 i hs
    · rw [createBlock_instructions, blockInstructions_of_length_le _ _ (by omega)]
      exact noTerminator_nil
  · intro i hi hne hnp
    simp only [createBlock_length, createBlock_insertBlock] at hi hne
    rw [createBlock_instructions]
    have hlt : i < g.blocks.length := by
      rcases Nat.lt_or_ge i g.blocks.length with hl | hl
      · exact hl
      · exact absurd (Or.inr (by omega)) hnp
    exact h6 i hlt hne (fun hs => hnp (Or.inl hs))

theorem blocksClosed_jump {g : CodeGen} {S : Nat → Prop} (t : Instr) (b : Nat)
    (h : g.BlocksClosed S) (hb : S b) (ht : t.isTerminator = true) :
    ((g.emit t).setInsertPoint b).BlocksClosed (fun i => S i ∧ i ≠ b) := by
  obtain ⟨h1, h2, h3, h4, h5, h6⟩ := h
  have hbne : b ≠ g.insertBlock := fun he => h2 (he ▸ hb)
  refine ⟨by simpa using h3 b hb, fun hc => hc.2 rfl, fun i hi => by simpa using h3 i hi.1,
    ?_, ?_, ?_⟩
  · simp only [CodeGen.currentInstructions, setInsertPoint_blocks, setInsertPoint_insertBlock]
    rw [emit_instructions_ne g t hbne]
    exact h5 b hb
  · rintro i ⟨hs, _⟩
    have hne : i ≠ g.insertBlock := fun he => h2 (he ▸ hs)
    simp only [setInsertPoint_blocks]
    rw [emit_instructions_ne g t hne]
    exact h5 i hs
  · intro i hi hne hnp
    simp only [setInsertPoint_blocks, emit_length, setInsertPoint_insertBlock] at hi hne ⊢
    by_cases hc : i = g.insertBlock
    · subst hc
      rw [emit_instructions_self g t h1]
      exact terminated_append h4 ht
    · rw [emit_instructions_ne g t hc]
      exact h6 i hi hc (fun hs => hnp ⟨hs, hne⟩)

theorem blocksClosed_ifThenEntry {g : CodeGen} {S : Nat → Prop} (cond : Value)
    (h : g.BlocksClosed S) :
    (ifThenEntry g cond).BlocksClosed (fun i => S i ∨ i = g.blocks.length + 1) := by
  have hlt := h.2.2.1
  have h2 := blocksClosed_createBlock "after_if_else" (blocksClosed_createBlock "then" h)
  have h3 := blocksClosed_jump (.condBr cond g.blocks.length (g.blocks.length + 1))
    g.blocks.length h2 (Or.inl (Or.inr rfl)) rfl
  refine blocksClosed_congr ?_ h3
  intro i
  simp only [createBlock_length]
  constructor
  · rintro ⟨(hs | he) | he, hne⟩
    · exact Or.inl hs
    · exact absurd he hne
    · exact Or.inr he
  · rintro (hs | he)
    · exact ⟨Or.inl (Or.inl hs), by have := hlt i hs; omega⟩
    · exact ⟨Or.inr he, by omega⟩

theorem blocksClosed_ifElseEntry {g : CodeGen} {S : Nat → Prop} (cond : Value)
    (h : g.BlocksClosed S) :
    (ifElseEntry g cond).BlocksClosed
      (fun i => (S i ∨ i = g.blocks.length + 2) ∨ i = g.blocks.length + 1) := by
  have hlt := h.2.2.1
  have h2 := blocksClosed_createBlock "after_if_else"
    (blocksClosed_createBlock "else" (blocksClosed_createBlock "then" h))
  have h3 := blocksClosed_jump (.condBr cond g.blocks.length (g.blocks.length + 1))
    g.blocks.length h2 (Or.inl (Or.inl (Or.inr rfl))) rfl
  refine blocksClosed_congr ?_ h3
  intro i
  simp only [createBlock_length]
  constructor
  · rintro ⟨((hs | he) | he) | he, hne⟩
    · exact Or.inl (Or.inl hs)
    · exact absurd he hne
    · exact Or.inr he
    · exact Or.inl (Or.inr he)
  · rintro ((hs | he) | he)
    · exact ⟨Or.inl (Or.inl (Or.inl hs)), by have := hlt i hs; omega⟩
    · exact ⟨Or.inr he, by omega⟩
    · exact ⟨Or.inl (Or.inr he), by omega⟩

/-- Lowering keeps the terminator invariant, whatever blocks are pending. -/
theorem lowers_blocksClosed {g g2 : CodeGen} (h : Lowers g g2) :
    ∀ S : Nat → Prop, g.BlocksClosed S → g2.BlocksClosed S := by
  induction h with
  | refl g => intro S hS; exact hS
  | trans _ _ ih1 ih2 => intro S hS; exact ih2 S (ih1 S hS)
  | straight ha hn => intro S hS; exact blocksClosed_appends ha hn hS
  | @ifThen g g1 cond _ ih =>
    intro S hS
    have hlt := hS.2.2.1
    have h1 := ih _ (blocksClosed_ifThenEntry cond hS)
    have h2 := blocksClosed_jump (.br (g.blocks.length + 1)) (g.blocks.length + 1) h1
      (Or.inr rfl) rfl
    refine blocksClosed_congr ?_ h2
    intro i
    constructor
    · rintro ⟨hs | he, hne⟩
      · exact hs
      · exact absurd he hne
    · intro hs
      exact ⟨Or.inl hs, by have := hlt i hs; omega⟩
  | @ifThenElse g g1 g2 cond _ _ ih1 ih2 =>
    intro S hS
    have hlt := hS.2.2.1
    have h1 := ih1 _ (blocksClosed_ifElseEntry cond hS)
    have h2 := blocksClosed_jump (.br (g.blocks.length + 2)) (g.blocks.length + 1) h1
      (Or.inr rfl) rfl
    have h3 : ((g1.createBr (g.blocks.length + 2)).setInsertPoint
        (g.blocks.length + 1)).BlocksClosed (fun i => S i ∨ i = g.blocks.length + 2) := by
      refine blocksClosed_congr ?_ h2
      intro i
      constructor
      · rintro ⟨(hs | he) | he, hne⟩
        · exact Or.inl hs
        · exact Or.inr he
        · exact absurd he hne
      · rintro (hs | he)
        · exact ⟨Or.inl (Or.inl hs), by have := hlt i hs; omega⟩
        · exact ⟨Or.inl (Or.inr he), by omega⟩
    have h4 := ih2 _ h3
    have h5 := blocksClosed_jump (.br (g.blocks.length + 2)) (g.blocks.length + 2) h4
      (Or.inr rfl) rfl
    refine blocksClosed_congr ?_ h5
    intro i
    constructor
    · rintro ⟨hs | he, hne⟩
      · exact hs
      · exact absurd he hne
    · intro hs
      exact ⟨Or.inl hs, by have := hlt i hs; omega⟩
theorem ifThenEntry_length (g : CodeGen) (cond : Value) :
    (ifThenEntry g cond).blocks.length = g.blocks.length + 2 := by
  simp [ifThenEntry, CodeGen.createCondBr]

theorem ifThenEntry_insertBlock (g : CodeGen) (cond : Value) :
    (ifThenEntry g cond).insertBlock = g.blocks.length := rfl

theorem ifElseEntry_length (g : CodeGen) (cond : Value) :
    (ifElseEntry g cond).blocks.length = g.blocks.length + 3 := by
  simp [ifElseEntry, CodeGen.createCondBr]

theorem ifElseEntry_insertBlock (g : CodeGen) (cond : Value) :
    (ifElseEntry g cond).insertBlock = g.blocks.length := rfl

theorem ifThenEntry_instructions_self (g : CodeGen) (cond : Value) (hwf : g.WellFormed) :
    blockInstructions (ifThenEntry g cond).blocks g.insertBlock =
      g.currentInstructions ++ [.condBr cond g.blocks.length (g.blocks.length + 1)] := by
  unfold ifThenEntry CodeGen.createCondBr
  rw [setInsertPoint_blocks]
  have h := emit_instructions_self ((g.createBlock "then").2.createBlock "after_if_else").2
    (.condBr cond g.blocks.length (g.blocks.length + 1))
    (by unfold CodeGen.WellFormed at *; simp; omega)
  simpa [CodeGen.currentInstructions] using h

theorem ifThenEntry_instructions_ne (g : CodeGen) (cond : Value) {i : Nat}
    (h : i ≠ g.insertBlock) :
    blockInstructions (ifThenEntry g cond).blocks i = blockInstructions g.blocks i := by
  unfold ifThenEntry CodeGen.createCondBr
  rw [setInsertPoint_blocks, emit_instructions_ne _ _ (by simpa using h)]
  simp

theorem ifElseEntry_instructions_self (g : CodeGen) (cond : Value) (hwf : g.WellFormed) :
    blockInstructions (ifElseEntry g cond).blocks g.insertBlock =
      g.currentInstructions ++ [.condBr cond g.blocks.length (g.blocks.length + 1)] := by
  unfold ifElseEntry CodeGen.createCondBr
  rw [setInsertPoint_blocks]
  have h := emit_instructions_self
    (((g.createBlock "then").2.createBlock "else").2.createBlock "after_if_else").2
    (.condBr cond g.blocks.length (g.blocks.length + 1))
    (by unfold CodeGen.WellFormed at *; simp; omega)
  simpa [CodeGen.currentInstructions] using h

theorem ifElseEntry_instructions_ne (g : CodeGen) (cond : Value) {i : Nat}
    (h : i ≠ g.insertBlock) :
    blockInstructions (ifElseEntry g cond).blocks i = blockInstructions g.blocks i := by
  unfold ifElseEntry CodeGen.createCondBr
  rw [setInsertPoint_blocks, emit_instructions_ne _ _ (by simpa using h)]
  simp

/-- Lowering keeps the insertion point inside `main`, creates blocks only at the
end, and leaves the insertion point where it was or on a block it has created. -/
theorem lowers_structure {g g2 : CodeGen} (h : Lowers g g2) :
    g.WellFormed → g2.WellFormed ∧ g.blocks.length ≤ g2.blocks.length ∧
      (g2.insertBlock = g.insertBlock ∨ g.blocks.length ≤ g2.insertBlock) := by
  induction h with
  | refl g => intro hwf; exact ⟨hwf, Nat.le_refl _, Or.inl rfl⟩
  | trans _ _ ih1 ih2 =>
    intro hwf
    obtain ⟨w1, l1, i1⟩ := ih1 hwf
    obtain ⟨w2, l2, i2⟩ := ih2 w1
    refine ⟨w2, Nat.le_trans l1 l2, ?_⟩
    unfold CodeGen.WellFormed at *
    omega
  | straight ha _ =>
    intro hwf
    exact ⟨appends_wellFormed ha hwf, Nat.le_of_eq ha.2.1.symm, Or.inl ha.1⟩
  | @ifThen g g1 cond _ ih =>
    intro hwf
    have he : (ifThenEntry g cond).WellFormed := by
      unfold CodeGen.WellFormed
      rw [ifThenEntry_length, ifThenEntry_insertBlock]; omega
    obtain ⟨w1, l1, i1⟩ := ih he
    rw [ifThenEntry_length] at l1
    unfold CodeGen.WellFormed at *
    simp only [CodeGen.createBr, setInsertPoint_blocks, emit_length, setInsertPoint_insertBlock]
    omega
  | @ifThenElse g g1 g2 cond _ _ ih1 ih2 =>
    intro hwf
    have he : (ifElseEntry g cond).WellFormed := by
      unfold CodeGen.WellFormed
      rw [ifElseEntry_length, ifElseEntry_insertBlock]; omega
    obtain ⟨w1, l1, i1⟩ := ih1 he
    rw [ifElseEntry_length] at l1
    have hj : ((g1.createBr (g.blocks.length + 2)).setInsertPoint
        (g.blocks.length + 1)).WellFormed := by
      unfold CodeGen.WellFormed
      simp only [CodeGen.createBr, setInsertPoint_blocks, emit_length, setInsertPoint_insertBlock]
      omega
    obtain ⟨w2, l2, i2⟩ := ih2 hj
    simp only [CodeGen.createBr, setInsertPoint_blocks, emit_length,
      setInsertPoint_insertBlock] at l2 i2
    unfold CodeGen.WellFormed at *
    simp only [CodeGen.createBr, setInsertPoint_blocks, emit_length, setInsertPoint_insertBlock]
    omega

/-- Lowering leaves the blocks other than the insertion block as they were. -/
theorem lowers_frame {g g2 : CodeGen} (h : Lowers g g2) :
    g.WellFormed → ∀ i, i < g.blocks.length → i ≠ g.insertBlock →
      blockInstructions g2.blocks i = blockInstructions g.blocks i := by
  induction h with
  | refl g => intro _ i _ _; rfl
  | @trans g g1 g2 h1 _ ih1 ih2 =>
    intro hwf i hi hne
    obtain ⟨w1, l1, i1⟩ := lowers_structure h1 hwf
    rw [ih2 w1 i (by omega) (by omega), ih1 hwf i hi hne]
  | straight ha _ =>
    intro _ i _ hne
    exact ha.2.2.2.1 i hne
  | @ifThen g g1 cond h1 ih =>
    intro hwf i hi hne
    have he : (ifThenEntry g cond).WellFormed := by
      unfold CodeGen.WellFormed
      rw [ifThenEntry_length, ifThenEntry_insertBlock]; omega
    obtain ⟨w1, l1, i1⟩ := lowers_structure h1 he
    rw [ifThenEntry_length] at l1
    rw [ifThenEntry_length, ifThenEntry_insertBlock] at i1
    simp only [CodeGen.createBr, setInsertPoint_blocks]
    rw [emit_instructions_ne _ _ (by omega),
      ih he i (by rw [ifThenEntry_length]; omega) (by rw [ifThenEntry_insertBlock]; omega),
      ifThenEntry_instructions_ne g cond hne]
  | @ifThenElse g g1 g2 cond h1 h2 ih1 ih2 =>
    intro hwf i hi hne
    have he : (ifElseEntry g cond).WellFormed := by
      unfold CodeGen.WellFormed
      rw [ifElseEntry_length, ifElseEntry_insertBlock]; omega
    obtain ⟨w1, l1, i1⟩ := lowers_structure h1 he
    rw [ifElseEntry_length] at l1
    rw [ifElseEntry_length, ifElseEntry_insertBlock] at i1
    have hj : ((g1.createBr (g.blocks.length + 2)).setInsertPoint
        (g.blocks.length + 1)).WellFormed := by
      unfold CodeGen.WellFormed
      simp only [CodeGen.createBr, setInsertPoint_blocks, emit_length, setInsertPoint_insertBlock]
      omega
    obtain ⟨w2, l2, i2⟩ := lowers_structure h2 hj
    simp only [CodeGen.createBr, setInsertPoint_blocks, emit_length,
      setInsertPoint_insertBlock] at l2 i2
    simp only [CodeGen.createBr, setInsertPoint_blocks]
    rw [emit_instructions_ne _ _ (by omega),
      ih2 hj i (by simp only [CodeGen.createBr, setInsertPoint_blocks, emit_length]; omega)
        (by simp only [setInsertPoint_insertBlock]; omega)]
    simp only [CodeGen.createBr, setInsertPoint_blocks]
    rw [emit_instructions_ne _ _ (by omega),
      ih1 he i (by rw [ifElseEntry_length]; omega) (by rw [ifElseEntry_insertBlock]; omega),
      ifElseEntry_instructions_ne g cond hne]
/-- Paths that reach `goal` still reach `goal2` after the blocks outside `goal`
have been kept and every path from a block of `goal` reaches `goal2`. -/
theorem reaches_transfer {bs bs2 : List BasicBlock} {goal goal2 : Nat → Prop} {x : Nat}
    (h : Reaches bs goal x) (hgoal : ∀ i, goal i → Reaches bs2 goal2 i)
    (hsame : ∀ i, ¬ goal i → blockInstructions bs2 i = blockInstructions bs i) :
    Reaches bs2 goal2 x := by
  induction h with
  | here b hb => exact hgoal b hb
  | step b t hlast htargets _ ih =>
    by_cases hb : goal b
    · exact hgoal b hb
    · exact Reaches.step b t (by rw [hsame b hb]; exact hlast) htargets ih

theorem reaches_of_last {bs : List BasicBlock} {goal : Nat → Prop} {b : Nat} {l : List Instr}
    {t : Instr} (h : blockInstructions bs b = l ++ [t]) (ht : t.targets ≠ [])
    (hs : ∀ s, s ∈ t.targets → goal s) : Reaches bs goal b :=
  Reaches.step b t (by rw [h]; simp) ht (fun s hs2 => Reaches.here s (hs s hs2))

/-- Lowering carries every path that reached the insertion block, or another
goal, on to the insertion block it leaves. -/
theorem lowers_reaches {g g2 : CodeGen} (h : Lowers g g2) :
    g.WellFormed → ∀ (G : Nat → Prop) (x : Nat),
      Reaches g.blocks (fun i => G i ∨ i = g.insertBlock) x →
      Reaches g2.blocks (fun i => G i ∨ i = g2.insertBlock) x := by
  induction h with
  | refl g => intro _ G x hx; exact hx
  | @trans g g1 g2 h1 _ ih1 ih2 =>
    intro hwf G x hx
    exact ih2 (lowers_structure h1 hwf).1 G x (ih1 hwf G x hx)
  | straight ha _ =>
    intro _ G x hx
    refine reaches_transfer hx ?_ ?_
    · intro i hi
      exact Reaches.here i (by rw [ha.1]; exact hi)
    · intro i hi
      exact ha.2.2.2.1 i (fun he => hi (Or.inr he))
  | @ifThen g g1 cond h1 ih =>
    intro hwf G x hx
    have he : (ifThenEntry g cond).WellFormed := by
      unfold CodeGen.WellFormed
      rw [ifThenEntry_length, ifThenEntry_insertBlock]; omega
    obtain ⟨w1, l1, i1⟩ := lowers_structure h1 he
    have hx1 : Reaches (ifThenEntry g cond).blocks
        (fun i => (G i ∨ i = g.blocks.length + 1) ∨ i = (ifThenEntry g cond).insertBlock) x := by
      refine reaches_transfer hx ?_ ?_
      · rintro i (hG | hi)
        · exact Reaches.here i (Or.inl (Or.inl hG))
        · subst hi
          refine reaches_of_last (ifThenEntry_instructions_self g cond hwf) (by simp [Instr.targets])
            ?_
          intro s hs
          simp only [Instr.targets, List.mem_cons, List.mem_singleton, List.not_mem_nil,
            or_false] at hs
          rcases hs with hs | hs
          · exact Or.inr (by rw [ifThenEntry_insertBlock]; exact hs)
          · exact Or.inl (Or.inr hs)
      · intro i hi
        exact ifThenEntry_instructions_ne g cond (fun hc => hi (Or.inr hc))
    have hx2 := ih he _ x hx1
    refine reaches_transfer hx2 ?_ ?_
    · rintro i ((hG | hi) | hi)
      · exact Reaches.here i (Or.inl hG)
      · exact Reaches.here i (Or.inr hi)
      · subst hi
        refine reaches_of_last (l := blockInstructions g1.blocks g1.insertBlock)
          (t := .br (g.blocks.length + 1)) ?_ (by simp [Instr.targets]) ?_
        · simp only [CodeGen.createBr, setInsertPoint_blocks]
          exact emit_instructions_self g1 _ w1
        · intro s hs
          simp only [Instr.targets, List.mem_singleton] at hs
          exact Or.inr hs
    · intro i hi
      simp only [CodeGen.createBr, setInsertPoint_blocks]
      exact emit_instructions_ne g1 _ (fun hc => hi (Or.inr hc))
  | @ifThenElse g g1 g2 cond h1 h2 ih1 ih2 =>
    intro hwf G x hx
    have he : (ifElseEntry g cond).WellFormed := by
      unfold CodeGen.WellFormed
      rw [ifElseEntry_length, ifElseEntry_insertBlock]; omega
    obtain ⟨w1, l1, i1⟩ := lowers_structure h1 he
    rw [ifElseEntry_length] at l1
    have hj : ((g1.createBr (g.blocks.length + 2)).setInsertPoint
        (g.blocks.length + 1)).WellFormed := by
      unfold CodeGen.WellFormed
      simp only [CodeGen.createBr, setInsertPoint_blocks, emit_length, setInsertPoint_insertBlock]
      omega
    obtain ⟨w2, l2, i2⟩ := lowers_structure h2 hj
    have hx1 : Reaches (ifElseEntry g cond).blocks
        (fun i => ((G i ∨ i = g.blocks.length + 2) ∨ i = g.blocks.length + 1) ∨
          i = (ifElseEntry g cond).insertBlock) x := by
      refine reaches_transfer hx ?_ ?_
      · rintro i (hG | hi)
        · exact Reaches.here i (Or.inl (Or.inl (Or.inl hG)))
        · subst hi
          refine reaches_of_last (ifElseEntry_instructions_self g cond hwf) (by simp [Instr.targets])
            ?_
          intro s hs
          simp only [Instr.targets, List.mem_cons, List.mem_singleton, List.not_mem_nil,
            or_false] at hs
          rcases hs with hs | hs
          · exact Or.inr (by rw [ifElseEntry_insertBlock]; exact hs)
          · exact Or.inl (Or.inr hs)
      · intro i hi
        exact ifElseEntry_instructions_ne g cond (fun hc => hi (Or.inr hc))
    have hx2 := ih1 he _ x hx1
    have hx3 : Reaches ((g1.createBr (g.blocks.length + 2)).setInsertPoint
          (g.blocks.length + 1)).blocks
        (fun i => (G i ∨ i = g.blocks.length + 2) ∨
          i = ((g1.createBr (g.blocks.length + 2)).setInsertPoint
            (g.blocks.length + 1)).insertBlock) x := by
      refine reaches_transfer hx2 ?_ ?_
      · rintro i (((hG | hi) | hi) | hi)
        · exact Reaches.here i (Or.inl (Or.inl hG))
        · exact Reaches.here i (Or.inl (Or.inr hi))
        · exact Reaches.here i (Or.inr hi)
        · subst hi
          refine reaches_of_last (l := blockInstructions g1.blocks g1.insertBlock)
            (t := .br (g.blocks.length + 2)) ?_ (by simp [Instr.targets]) ?_
          · simp only [CodeGen.createBr, setInsertPoint_blocks]
            exact emit_instructions_self g1 _ w1
          · intro s hs
            simp only [Instr.targets, List.mem_singleton] at hs
            exact Or.inl (Or.inr hs)
      · intro i hi
        simp only [CodeGen.createBr, setInsertPoint_blocks]
        exact emit_instructions_ne g1 _ (fun hc => hi (Or.inr hc))
    have hx4 := ih2 hj _ x hx3
    refine reaches_transfer hx4 ?_ ?_
    · rintro i ((hG | hi) | hi)
      · exact Reaches.here i (Or.inl hG)
      · exact Reaches.here i (Or.inr hi)
      · subst hi
        refine reaches_of_last (l := blockInstructions g2.blocks g2.insertBlock)
          (t := .br (g.blocks.length + 2)) ?_ (by simp [Instr.targets]) ?_
        · simp only [CodeGen.createBr, setInsertPoint_blocks]
          exact emit_instructions_self g2 _ w2
        · intro s hs
          simp only [Instr.targets, List.mem_singleton] at hs
          exact Or.inr hs
    · intro i hi
      simp only [CodeGen.createBr, setInsertPoint_blocks]
      exact emit_instructions_ne g2 _ (fun hc => hi (Or.inr hc))

theorem noReturn_emit {g : CodeGen} (x : Instr) (hx : x.isRet = false) (hwf : g.WellFormed)
    (h : g.NoReturn) : (g.emit x).NoReturn := by
  intro i y hy
  by_cases hi : i = g.insertBlock
  · subst hi
    rw [emit_instructions_self g x hwf, List.mem_append, List.mem_singleton] at hy
    rcases hy with hy | hy
    · exact h _ y hy
    · rw [hy]; exact hx
  · rw [emit_instructions_ne g x hi] at hy
    exact h i y hy

theorem noReturn_createBlock {g : CodeGen} (name : String) (h : g.NoReturn) :
    (g.createBlock name).2.NoReturn := by
  intro i y hy
  rw [createBlock_instructions] at hy
  exact h i y hy

theorem isRet_of_not_terminator {x : Instr} (h : x.isTerminator = false) : x.isRet = false := by
  cases x <;> first | rfl | cases h

/-- Lowering emits no return instruction. -/
theorem lowers_noReturn {g g2 : CodeGen} (h : Lowers g g2) :
    g.WellFormed → g.NoReturn → g2.NoReturn := by
  induction h with
  | refl g => intro _ h; exact h
  | @trans g g1 g2 h1 _ ih1 ih2 =>
    intro hwf h
    exact ih2 (lowers_structure h1 hwf).1 (ih1 hwf h)
  | @straight g g2 is ha hn =>
    intro _ h i y hy
    by_cases hi : i = g.insertBlock
    · subst hi
      have hcur : blockInstructions g2.blocks g.insertBlock =
          blockInstructions g.blocks g.insertBlock ++ is := by
        have := ha.2.2.1
        rw [CodeGen.currentInstructions, ha.1] at this
        exact this
      rw [hcur, List.mem_append] at hy
      rcases hy with hy | hy
      · exact h _ y hy
      · exact isRet_of_not_terminator (hn y hy)
    · rw [ha.2.2.2.1 i hi] at hy
      exact h i y hy
  | @ifThen g g1 cond h1 ih =>
    intro hwf h
    have he : (ifThenEntry g cond).WellFormed := by
      unfold CodeGen.WellFormed
      rw [ifThenEntry_length, ifThenEntry_insertBlock]; omega
    have hn : (ifThenEntry g cond).NoReturn :=
      noReturn_emit (g := ((g.createBlock "then").2.createBlock "after_if_else").2) _ rfl
        (by unfold CodeGen.WellFormed at *; simp; omega)
        (noReturn_createBlock _ (noReturn_createBlock _ h))
    exact noReturn_emit (g := g1) _ rfl (lowers_structure h1 he).1 (ih he hn)
  | @ifThenElse g g1 g2 cond h1 h2 ih1 ih2 =>
    intro hwf h
    have he : (ifElseEntry g cond).WellFormed := by
      unfold CodeGen.WellFormed
      rw [ifElseEntry_length, ifElseEntry_insertBlock]; omega
    obtain ⟨w1, l1, i1⟩ := lowers_structure h1 he
    rw [ifElseEntry_length] at l1
    have hj : ((g1.createBr (g.blocks.length + 2)).setInsertPoint
        (g.blocks.length + 1)).WellFormed := by
      unfold CodeGen.WellFormed
      simp only [CodeGen.createBr, setInsertPoint_blocks, emit_length, setInsertPoint_insertBlock]
      omega
    have hn : (ifElseEntry g cond).NoReturn :=
      noReturn_emit
        (g := (((g.createBlock "then").2.createBlock "else").2.createBlock "after_if_else").2)
        _ rfl (by unfold CodeGen.WellFormed at *; simp; omega)
        (noReturn_createBlock _ (noReturn_createBlock _ (noReturn_createBlock _ h)))
    have hn1 : ((g1.createBr (g.blocks.length + 2)).setInsertPoint
        (g.blocks.length + 1)).NoReturn := noReturn_emit (g := g1) _ rfl w1 (ih1 he hn)
    exact noReturn_emit (g := g2) _ rfl (lowers_structure h2 hj).1 (ih2 hj hn1)
theorem appends_of_blocks_eq {g g2 : CodeGen} (hb : g2.blocks = g.blocks)
    (hi : g2.insertBlock = g.insertBlock) : Appends g g2 [] := by
  refine ⟨hi, by rw [hb], ?_, fun i _ => by rw [hb], by rw [CodeGen.blockNames, hb]; rfl⟩
  simp [CodeGen.currentInstructions, hb, hi]

theorem appends_createAlloca (g : CodeGen) (type : IRType) (name : String) (hwf : g.WellFormed) :
    Appends g (g.createAlloca type name).2 [.alloca g.nextId type name] :=
  appends_emit g _ hwf

theorem generateVarDecl_appends {type : VarType} {name : String} {value : Option ASTNode}
    {g g2 : CodeGen} (hwf : g.WellFormed) (h : generateVarDecl type name value g = .ok g2) :
    ∃ is, Appends g g2 is ∧ NoTerminator is := by
  unfold generateVarDecl at h
  cases hty : irTypeOfVarType type with
  | none => simp [hty] at h
  | some ty =>
    simp only [hty] at h
    have ha := appends_createAlloca g ty name hwf
    have hs : Appends (g.createAlloca ty name).2
        ((g.createAlloca ty name).2.setSymbol name (g.createAlloca ty name).1) [] :=
      appends_of_blocks_eq rfl rfl
    have h1 := appends_trans ha hs
    cases value with
    | none =>
      simp only [Except.ok.injEq] at h
      rw [← h]
      exact ⟨_, h1, noTerminator_append (noTerminator_singleton rfl) noTerminator_nil⟩
    | some v =>
      simp only at h
      cases hv : generateValue v ty
          ((g.createAlloca ty name).2.setSymbol name (g.createAlloca ty name).1) with
      | error e => simp [hv] at h
      | ok r =>
        obtain ⟨val, gv⟩ := r
        simp only [hv, Except.ok.injEq] at h
        obtain ⟨is, hav, hc⟩ := generateValue_appends v ty _ val gv (appends_wellFormed h1 hwf) hv
        have h2 := appends_trans h1 hav
        rw [← h]
        exact ⟨_, appends_trans h2 (appends_createStore gv val _ (appends_wellFormed h2 hwf)),
          noTerminator_append (noTerminator_append
            (noTerminator_append (noTerminator_singleton rfl) noTerminator_nil)
            (computation_noTerminator hc)) (noTerminator_singleton rfl)⟩

theorem generateVarDecls_appends (decls : List (VarType × String × Option ASTNode)) :
    ∀ {g g2 : CodeGen}, g.WellFormed → generateVarDecls decls g = .ok g2 →
      ∃ is, Appends g g2 is ∧ NoTerminator is := by
  induction decls with
  | nil =>
    intro g g2 _ h
    simp only [generateVarDecls, Except.ok.injEq] at h
    rw [← h]
    exact ⟨[], appends_refl g, noTerminator_nil⟩
  | cons d rest ih =>
    intro g g2 hwf h
    obtain ⟨type, name, value⟩ := d
    rw [generateVarDecls] at h
    cases hd : generateVarDecl type name value g with
    | error e => simp [hd] at h
    | ok g1 =>
      simp only [hd] at h
      obtain ⟨is1, a1, n1⟩ := generateVarDecl_appends hwf hd
      obtain ⟨is2, a2, n2⟩ := ih (appends_wellFormed a1 hwf) h
      exact ⟨_, appends_trans a1 a2, noTerminator_append n1 n2⟩

theorem generateAssign_appends {name : String} {value : ASTNode} {g g2 : CodeGen}
    (hwf : g.WellFormed) (h : generateAssign name value g = .ok g2) :
    ∃ is, Appends g g2 is ∧ NoTerminator is := by
  unfold generateAssign at h
  cases hf : g.find name with
  | none => simp [hf] at h
  | some slot =>
    simp only [hf] at h
    cases hv : generateValue value slot.allocatedType g with
    | error e => simp [hv] at h
    | ok r =>
      obtain ⟨val, gv⟩ := r
      simp only [hv, Except.ok.injEq] at h
      obtain ⟨is, hav, hc⟩ := generateValue_appends value _ g val gv hwf hv
      rw [← h]
      exact ⟨_, appends_trans hav (appends_createStore gv val _ (appends_wellFormed hav hwf)),
        noTerminator_append (computation_noTerminator hc) (noTerminator_singleton rfl)⟩

theorem generateCompoundAssign_appends {name : String} {op : BinaryOp} {value : ASTNode}
    {g g2 : CodeGen} (hwf : g.WellFormed) (h : generateCompoundAssign name op value g = .ok g2) :
    ∃ is, Appends g g2 is ∧ NoTerminator is := by
  unfold generateCompoundAssign at h
  cases hf : g.find name with
  | none => simp [hf] at h
  | some slot =>
    simp only [hf] at h
    have hl := appends_createLoad g slot.allocatedType slot.id hwf
    cases hv : generateValue value slot.allocatedType
        (g.createLoad slot.allocatedType slot.id).2 with
    | error e => simp [hv] at h
    | ok r =>
      obtain ⟨rhs, gv⟩ := r
      simp only [hv] at h
      obtain ⟨is, hav, hc⟩ := generateValue_appends value _ _ rhs gv
        (appends_wellFormed hl hwf) hv
      have h2 := appends_trans hl hav
      cases ha : arithmeticInstruction op slot.allocatedType.isFloatTy with
      | none => simp [ha] at h
      | some instruction =>
        simp only [ha, Except.ok.injEq] at h
        have hb := appends_createBinary gv instruction
          (g.createLoad slot.allocatedType slot.id).1 rhs (appends_wellFormed h2 hwf)
        have h3 := appends_trans h2 hb
        rw [← h]
        exact ⟨_, appends_trans h3 (appends_createStore _ _ _ (appends_wellFormed h3 hwf)),
          noTerminator_append (noTerminator_append
            (noTerminator_append (noTerminator_singleton rfl) (computation_noTerminator hc))
            (noTerminator_singleton rfl)) (noTerminator_singleton rfl)⟩

theorem generateSimpleStatement_appends {node : ASTNode} {g g2 : CodeGen} (hwf : g.WellFormed)
    (h : generateSimpleStatement node g = .ok g2) : ∃ is, Appends g g2 is ∧ NoTerminator is := by
  cases node with
  | MultiVarDeclNode ds => exact generateVarDecls_appends ds hwf h
  | VarDeclNode t n v => exact generateVarDecl_appends hwf h
  | AssignNode n v => exact generateAssign_appends hwf h
  | CompoundAssignNode n op v => exact generateCompoundAssign_appends hwf h
  | _ =>
    simp only [generateSimpleStatement, Except.ok.injEq] at h
    rw [← h]
    exact ⟨[], appends_refl g, noTerminator_nil⟩

theorem hasTerminator_of_noTerminator {g : CodeGen} (h : NoTerminator g.currentInstructions) :
    g.hasTerminator = false := by
  unfold CodeGen.hasTerminator
  cases hl : g.currentInstructions.getLast? with
  | none => rfl
  | some i => exact h i (List.mem_of_getLast?_eq_some hl)

theorem hasTerminator_createBr (g : CodeGen) (target : Nat) (hwf : g.WellFormed) :
    (g.createBr target).hasTerminator = true := by
  unfold CodeGen.hasTerminator CodeGen.currentInstructions CodeGen.createBr
  rw [emit_insertBlock, emit_instructions_self g _ hwf]
  simp [Instr.isTerminator]

theorem ifElseLowered_lowers {node : ASTNode} {g g2 : CodeGen} (h : IfElseLowered node g g2) :
    Lowers g g2 := by
  obtain ⟨c, t, e, cond, gc, is, _, _, ha, hc, hrest⟩ := h
  refine Lowers.trans (Lowers.straight ha (computation_noTerminator hc)) ?_
  rcases hrest with ⟨_, g1, h1, rfl⟩ | ⟨_, g1, g3, h1, h3, rfl⟩
  · exact Lowers.ifThen cond h1
  · exact Lowers.ifThenElse cond h1 h3
theorem generateIfElse_without_else (c t : ASTNode) (g : CodeGen) :
    generateIfElse (.IfElseNode c t none) g =
      match generateValue c .i1 g with
      | .error e => .error e
      | .ok (cond, gc) =>
        match generateThenBlock t (ifThenEntry gc cond) with
        | .error e => .error e
        | .ok g1 =>
          .ok ((if !g1.hasTerminator then g1.createBr (gc.blocks.length + 1)
            else g1).setInsertPoint (gc.blocks.length + 1)) := by
  rw [generateIfElse]
  cases generateValue c .i1 g with
  | error e => rfl
  | ok r =>
    obtain ⟨cond, gc⟩ := r
    simp only [hasElseBlock, Option.isSome_none, Bool.false_eq_true, if_false, Option.getD_none]
    have h1 : (gc.createBlock "then").1 = gc.blocks.length := rfl
    have h2 : ((gc.createBlock "then").2.createBlock "after_if_else").1 =
        gc.blocks.length + 1 := createBlock_length gc "then"
    rw [h1, h2]
    rfl

theorem generateIfElse_with_else (c t en : ASTNode) (g : CodeGen) :
    generateIfElse (.IfElseNode c t (some en)) g =
      match generateValue c .i1 g with
      | .error e => .error e
      | .ok (cond, gc) =>
        match generateThenBlock t (ifElseEntry gc cond) with
        | .error e => .error e
        | .ok g1 =>
          match generateElse (some en) (gc.blocks.length + 2)
              ((if !g1.hasTerminator then g1.createBr (gc.blocks.length + 2)
                else g1).setInsertPoint (gc.blocks.length + 1)) with
          | .error e => .error e
          | .ok g3 =>
            .ok ((if !g3.hasTerminator then g3.createBr (gc.blocks.length + 2)
              else g3).setInsertPoint (gc.blocks.length + 2)) := by
  rw [generateIfElse]
  cases generateValue c .i1 g with
  | error e => rfl
  | ok r =>
    obtain ⟨cond, gc⟩ := r
    simp only [hasElseBlock, Option.isSome_some, if_true, Option.getD_some]
    have h1 : (gc.createBlock "then").1 = gc.blocks.length := rfl
    have h2 : ((gc.createBlock "then").2.createBlock "else").1 =
        gc.blocks.length + 1 := createBlock_length gc "then"
    have h3 : (((gc.createBlock "then").2.createBlock "else").2.createBlock "after_if_else").1 =
        gc.blocks.length + 2 := by
      show (((gc.createBlock "then").2.createBlock "else").2).blocks.length = _
      simp
    rw [h1, h2, h3]
    rfl
theorem generateThenBlock_block {t : ASTNode} {g g1 : CodeGen}
    (h : generateThenBlock t g = .ok g1) :
    ∃ stmts, t = .BlockNode stmts ∧ generateBlock stmts g = .ok g1 := by
  cases t with
  | BlockNode stmts => exact ⟨stmts, rfl, by rw [generateThenBlock] at h; exact h⟩
  | _ => simp [generateThenBlock] at h

theorem generateElseBlock_block {t : ASTNode} {after : Nat} {g g1 : CodeGen}
    (h : generateElseBlock t after g = .ok g1) :
    ∃ stmts g0, t = .BlockNode stmts ∧ generateBlock stmts g = .ok g0 ∧
      g1 = if !g0.hasTerminator then g0.createBr after else g0 := by
  cases t with
  | BlockNode stmts =>
    rw [generateElseBlock] at h
    cases hb : generateBlock stmts g with
    | error e => simp [hb] at h
    | ok g0 =>
      simp only [hb, Except.ok.injEq] at h
      exact ⟨stmts, g0, rfl, hb, h.symm⟩
  | _ => simp [generateElseBlock] at h

/-- A successful `generateIfElse` has the shape `IfElseLowered`, a successful
`generateBlock` the shape `Lowers`, from every state that keeps the terminator
invariant. -/
theorem generate_lowers_bounded (n : Nat) :
    (∀ node : ASTNode, sizeOf node ≤ n → ∀ (g g2 : CodeGen) (S : Nat → Prop),
      g.BlocksClosed S → generateIfElse node g = .ok g2 → IfElseLowered node g g2) ∧
    (∀ stmts : List ASTNode, sizeOf stmts ≤ n → ∀ (g g2 : CodeGen) (S : Nat → Prop),
      g.BlocksClosed S → generateBlock stmts g = .ok g2 → Lowers g g2) := by
  induction n with
  | zero =>
    constructor
    · intro node hsize
      cases node <;> simp at hsize
    · intro stmts hsize
      cases stmts <;> simp at hsize
  | succ n ih =>
    obtain ⟨ihIf, ihBlock⟩ := ih
    constructor
    · intro node hsize g g2 S hS h
      cases node with
      | IfElseNode c t e =>
        have hwf := blocksClosed_wellFormed hS
        cases e with
        | none =>
          rw [generateIfElse_without_else] at h
          cases hc : generateValue c .i1 g with
          | error e => simp [hc] at h
          | ok r =>
            obtain ⟨cond, gc⟩ := r
            simp only [hc] at h
            obtain ⟨is, ha, hcomp⟩ := generateValue_appends c .i1 g cond gc hwf hc
            have hSc := blocksClosed_appends ha (computation_noTerminator hcomp) hS
            cases ht : generateThenBlock t (ifThenEntry gc cond) with
            | error e => simp [ht] at h
            | ok g1 =>
              simp only [ht, Except.ok.injEq] at h
              obtain ⟨stmts, rfl, hb⟩ := generateThenBlock_block ht
              have hsz : sizeOf stmts ≤ n := by
                simp only [ASTNode.IfElseNode.sizeOf_spec, ASTNode.BlockNode.sizeOf_spec] at hsize
                omega
              have hl := ihBlock stmts hsz _ g1 _ (blocksClosed_ifThenEntry cond hSc) hb
              have hS1 := lowers_blocksClosed hl _ (blocksClosed_ifThenEntry cond hSc)
              rw [hasTerminator_of_noTerminator hS1.2.2.2.1] at h
              simp only [Bool.not_false, if_true] at h
              exact ⟨c, _, none, cond, gc, is, rfl, hc, ha, hcomp, Or.inl ⟨rfl, g1, hl, h.symm⟩⟩
        | some en =>
          rw [generateIfElse_with_else] at h
          cases hc : generateValue c .i1 g with
          | error e => simp [hc] at h
          | ok r =>
            obtain ⟨cond, gc⟩ := r
            simp only [hc] at h
            obtain ⟨is, ha, hcomp⟩ := generateValue_appends c .i1 g cond gc hwf hc
            have hSc := blocksClosed_appends ha (computation_noTerminator hcomp) hS
            have hltc := hSc.2.2.1
            cases ht : generateThenBlock t (ifElseEntry gc cond) with
            | error e => simp [ht] at h
            | ok g1 =>
              simp only [ht] at h
              obtain ⟨stmts, rfl, hb⟩ := generateThenBlock_block ht
              have hsz : sizeOf stmts ≤ n := by
                simp only [ASTNode.IfElseNode.sizeOf_spec, ASTNode.BlockNode.sizeOf_spec] at hsize
                omega
              have hen : sizeOf en ≤ n := by
                simp only [ASTNode.IfElseNode.sizeOf_spec, Option.some.sizeOf_spec] at hsize
                omega
              have hl := ihBlock stmts hsz _ g1 _ (blocksClosed_ifElseEntry cond hSc) hb
              have hS1 := lowers_blocksClosed hl _ (blocksClosed_ifElseEntry cond hSc)
              rw [hasTerminator_of_noTerminator hS1.2.2.2.1] at h
              simp only [Bool.not_false, if_true] at h
              have hSj : ((g1.createBr (gc.blocks.length + 2)).setInsertPoint
                  (gc.blocks.length + 1)).BlocksClosed
                  (fun i => S i ∨ i = gc.blocks.length + 2) := by
                refine blocksClosed_congr ?_ (blocksClosed_jump (.br (gc.blocks.length + 2))
                  (gc.blocks.length + 1) hS1 (Or.inr rfl) rfl)
                intro i
                constructor
                · rintro ⟨(hs | he) | he, hne⟩
                  · exact Or.inl hs
                  · exact Or.inr he
                  · exact absurd he hne
                · rintro (hs | he)
                  · exact ⟨Or.inl (Or.inl hs), by have := hltc i hs; omega⟩
                  · exact ⟨Or.inl (Or.inr he), by omega⟩
              cases hel : generateElse (some en) (gc.blocks.length + 2)
                  ((g1.createBr (gc.blocks.length + 2)).setInsertPoint
                    (gc.blocks.length + 1)) with
              | error e => simp [hel] at h
              | ok g3 =>
                simp only [hel, Except.ok.injEq] at h
                rw [generateElse, isElseIf] at hel
                by_cases hif : en.isIfElseNode = true
                · simp only [hif, if_true] at hel
                  have hl3 := ifElseLowered_lowers (ihIf en hen _ g3 _ hSj hel)
                  have hS3 := lowers_blocksClosed hl3 _ hSj
                  rw [hasTerminator_of_noTerminator hS3.2.2.2.1] at h
                  simp only [Bool.not_false, if_true] at h
                  exact ⟨c, _, some en, cond, gc, is, rfl, hc, ha, hcomp,
                    Or.inr ⟨rfl, g1, g3, hl, hl3, h.symm⟩⟩
                · simp only [hif, Bool.false_eq_true, if_false] at hel
                  obtain ⟨stmts2, g0, rfl, hb2, hg3⟩ := generateElseBlock_block hel
                  have hsz2 : sizeOf stmts2 ≤ n := by
                    simp only [ASTNode.BlockNode.sizeOf_spec] at hen
                    omega
                  have hl3 := ihBlock stmts2 hsz2 _ g0 _ hSj hb2
                  have hS3 := lowers_blocksClosed hl3 _ hSj
                  rw [hasTerminator_of_noTerminator hS3.2.2.2.1] at hg3
                  simp only [Bool.not_false, if_true] at hg3
                  rw [hg3, hasTerminator_createBr g0 _ (blocksClosed_wellFormed hS3)] at h
                  simp only [Bool.not_true, Bool.false_eq_true, if_false] at h
                  exact ⟨c, _, some _, cond, gc, is, rfl, hc, ha, hcomp,
                    Or.inr ⟨rfl, g1, g0, hl, hl3, h.symm⟩⟩
      | _ => simp [generateIfElse] at h
    · intro stmts hsize g g2 S hS h
      cases stmts with
      | nil =>
        simp only [generateBlock, Except.ok.injEq] at h
        rw [← h]
        exact Lowers.refl g
      | cons s rest =>
        have hs : sizeOf s ≤ n := by
          simp only [List.cons.sizeOf_spec] at hsize; omega
        have hrest : sizeOf rest ≤ n := by
          simp only [List.cons.sizeOf_spec] at hsize; omega
        rw [generateBlock] at h
        by_cases hif : s.isIfElseNode = true
        · simp only [hif, if_true] at h
          cases h1 : generateIfElse s g with
          | error e => simp [h1] at h
          | ok g1 =>
            simp only [h1] at h
            have hl1 := ifElseLowered_lowers (ihIf s hs g g1 S hS h1)
            exact Lowers.trans hl1
              (ihBlock rest hrest g1 g2 S (lowers_blocksClosed hl1 S hS) h)
        · simp only [hif, Bool.false_eq_true, if_false] at h
          cases h1 : generateSimpleStatement s g with
          | error e => simp [h1] at h
          | ok g1 =>
            simp only [h1] at h
            obtain ⟨is, ha, hn⟩ := generateSimpleStatement_appends (blocksClosed_wellFormed hS) h1
            have hl1 : Lowers g g1 := Lowers.straight ha hn
            exact Lowers.trans hl1
              (ihBlock rest hrest g1 g2 S (lowers_blocksClosed hl1 S hS) h)

theorem generateIfElse_lowered {node : ASTNode} {g g2 : CodeGen} {S : Nat → Prop}
    (hS : g.BlocksClosed S) (h : generateIfElse node g = .ok g2) : IfElseLowered node g g2 :=
  (generate_lowers_bounded (sizeOf node)).1 node (Nat.le_refl _) g g2 S hS h

theorem generateBlock_lowers {stmts : List ASTNode} {g g2 : CodeGen} {S : Nat → Prop}
    (hS : g.BlocksClosed S) (h : generateBlock stmts g = .ok g2) : Lowers g g2 :=
  (generate_lowers_bounded (sizeOf stmts)).2 stmts (Nat.le_refl _) g g2 S hS h

theorem terminatorInvariant_iff (g : CodeGen) :
    g.TerminatorInvariant ↔ g.BlocksClosed (fun _ => False) := by
  constructor
  · rintro ⟨h1, h2, h3⟩
    exact ⟨h1, fun h => h, fun _ h => h.elim, h2, fun _ h => h.elim, fun i hi hne _ => h3 i hi hne⟩
  · rintro ⟨h1, _, _, h4, _, h6⟩
    exact ⟨h1, h4, fun i hi hne => h6 i hi hne (fun h => h)⟩

theorem createBlock_blockNames (g : CodeGen) (name : String) :
    (g.createBlock name).2.blockNames = g.blockNames ++ [name] := by
  simp [CodeGen.createBlock, CodeGen.blockNames]

theorem emit_blockNames (g : CodeGen) (x : Instr) : (g.emit x).blockNames = g.blockNames :=
  map_name_appendInstr _ _ _

theorem ifThenEntry_blockNames (g : CodeGen) (cond : Value) :
    (ifThenEntry g cond).blockNames = g.blockNames ++ ["then", "after_if_else"] := by
  show (((g.createBlock "then").2.createBlock "after_if_else").2.emit _).blockNames = _
  rw [emit_blockNames, createBlock_blockNames, createBlock_blockNames, List.append_assoc]
  rfl

theorem ifElseEntry_blockNames (g : CodeGen) (cond : Value) :
    (ifElseEntry g cond).blockNames = g.blockNames ++ ["then", "else", "after_if_else"] := by
  show ((((g.createBlock "then").2.createBlock "else").2.createBlock "after_if_else").2.emit
    _).blockNames = _
  rw [emit_blockNames, createBlock_blockNames, createBlock_blockNames, createBlock_blockNames,
    List.append_assoc, List.append_assoc]
  rfl

/-- Lowering keeps the blocks it finds, with their names, and adds blocks at the
end. -/
theorem lowers_blockNames {g g2 : CodeGen} (h : Lowers g g2) :
    ∃ created, g2.blockNames = g.blockNames ++ created := by
  induction h with
  | refl g => exact ⟨[], by simp⟩
  | trans _ _ ih1 ih2 =>
    obtain ⟨c1, h1⟩ := ih1
    obtain ⟨c2, h2⟩ := ih2
    exact ⟨c1 ++ c2, by rw [h2, h1, List.append_assoc]⟩
  | straight ha _ => exact ⟨[], by rw [ha.2.2.2.2]; simp⟩
  | @ifThen g g1 cond _ ih =>
    obtain ⟨c1, h1⟩ := ih
    refine ⟨["then", "after_if_else"] ++ c1, ?_⟩
    show (g1.emit _).blockNames = _
    rw [emit_blockNames, h1, ifThenEntry_blockNames, List.append_assoc]
  | @ifThenElse g g1 g2 cond _ _ ih1 ih2 =>
    obtain ⟨c1, h1⟩ := ih1
    obtain ⟨c2, h2⟩ := ih2
    refine ⟨["then", "else", "after_if_else"] ++ c1 ++ c2, ?_⟩
    show (g2.emit _).blockNames = _
    have h3 : ((g1.createBr (g.blocks.length + 2)).setInsertPoint
        (g.blocks.length + 1)).blockNames = g1.blockNames := emit_blockNames g1 _
    rw [emit_blockNames, h2, h3, h1, ifElseEntry_blockNames]
    simp

theorem generateIfElse_chain : generateIfElse elseIfChain afterIntX = .ok afterElseIfChain := by
  simp only [elseIfChain, generateIfElse_with_else, generateThenBlock, generateElse,
    generateElseBlock, generateBlock, isElseIf, ASTNode.isIfElseNode, generateSimpleStatement,
    if_true,
    if_false, Bool.false_eq_true]
  rfl

theorem terminatorInvariant_afterIntX : afterIntX.TerminatorInvariant := by
  refine ⟨by decide, ?_, ?_⟩
  · intro x hx
    simp only [afterIntX, CodeGen.currentInstructions, blockInstructions,
      List.mem_singleton] at hx
    rw [hx]; rfl
  · intro i hi hne
    simp only [afterIntX, List.length_singleton] at hi hne
    omega

/-- C26. The terminator invariant of if/else lowering: from a state in which the
insertion block holds no terminator and every other block ends in exactly one
terminator, its last instruction, a successful `generateIfElse` leaves a state
with the same property, and its insertion block is the converge block the call
has created: the third block (with an else) or the second (without). -/
theorem generateIfElse_terminator_invariant (node : ASTNode) (g g2 : CodeGen)
    (hinv : g.TerminatorInvariant) (h : generateIfElse node g = .ok g2) :
    g2.TerminatorInvariant ∧
    ∃ c t e, node = .IfElseNode c t e ∧
      g2.insertBlock = (if e.isSome then g.blocks.length + 2 else g.blocks.length + 1) := by
  have hS := (terminatorInvariant_iff g).mp hinv
  have hshape := generateIfElse_lowered hS h
  refine ⟨(terminatorInvariant_iff g2).mpr
    (lowers_blocksClosed (ifElseLowered_lowers hshape) _ hS), ?_⟩
  obtain ⟨c, t, e, cond, gc, is, hnode, _, ha, _, hrest⟩ := hshape
  refine ⟨c, t, e, hnode, ?_⟩
  rcases hrest with ⟨he, g1, _, rfl⟩ | ⟨he, g1, g3, _, _, rfl⟩
  · rw [he, setInsertPoint_insertBlock, ha.2.1]
    rfl
  · rw [setInsertPoint_insertBlock, ha.2.1]
    simp [he]

/-- C26 on `if (x > 0) { x = 1; } else if (x < 0) { x = 2; } else { }` after
`int x;`: the seven blocks the lowering leaves keep the invariant, the insertion
point is on block 3, the outer converge block. -/
theorem generateIfElse_terminator_invariant_witness :
    afterIntX.TerminatorInvariant ∧
    generateIfElse elseIfChain afterIntX = .ok afterElseIfChain ∧
    afterElseIfChain.TerminatorInvariant ∧ afterElseIfChain.insertBlock = 3 :=
  ⟨terminatorInvariant_afterIntX, generateIfElse_chain,
   (generateIfElse_terminator_invariant elseIfChain afterIntX afterElseIfChain
      terminatorInvariant_afterIntX generateIfElse_chain).1, rfl⟩

theorem reaches_mono {bs : List BasicBlock} {goal goal2 : Nat → Prop} {x : Nat}
    (h : Reaches bs goal x) (hgoal : ∀ i, goal i → goal2 i) : Reaches bs goal2 x := by
  induction h with
  | here b hb => exact Reaches.here b (hgoal b hb)
  | step b t hlast htargets _ ih => exact Reaches.step b t hlast htargets ih

/-- The block of the condition after a successful `generateIfElse`. -/
theorem ifElseLowered_condition_block {node : ASTNode} {g g2 : CodeGen} (hwf : g.WellFormed)
    (h : IfElseLowered node g g2) :
    ∃ (cond : Value) (condInstrs : List Instr),
      blockInstructions g2.blocks g.insertBlock =
        g.currentInstructions ++ condInstrs ++
          [.condBr cond g.blocks.length (g.blocks.length + 1)] := by
  obtain ⟨c, t, e, cond, gc, is, _, _, ha, _, hrest⟩ := h
  have hwfc := appends_wellFormed ha hwf
  have hlen := ha.2.1
  have hins := ha.1
  have hcur := ha.2.2.1
  unfold CodeGen.WellFormed at hwf hwfc
  refine ⟨cond, is, ?_⟩
  rw [← hcur, ← hlen, ← hins]
  rcases hrest with ⟨_, g1, h1, rfl⟩ | ⟨_, g1, g3, h1, h3, rfl⟩
  · have he : (ifThenEntry gc cond).WellFormed := by
      unfold CodeGen.WellFormed
      rw [ifThenEntry_length, ifThenEntry_insertBlock]; omega
    obtain ⟨w1, l1, i1⟩ := lowers_structure h1 he
    rw [ifThenEntry_length] at l1
    rw [ifThenEntry_length, ifThenEntry_insertBlock] at i1
    simp only [CodeGen.createBr, setInsertPoint_blocks]
    rw [emit_instructions_ne _ _ (by omega),
      lowers_frame h1 he _ (by rw [ifThenEntry_length]; omega)
        (by rw [ifThenEntry_insertBlock]; omega),
      ifThenEntry_instructions_self gc cond hwfc]
  · have he : (ifElseEntry gc cond).WellFormed := by
      unfold CodeGen.WellFormed
      rw [ifElseEntry_length, ifElseEntry_insertBlock]; omega
    obtain ⟨w1, l1, i1⟩ := lowers_structure h1 he
    rw [ifElseEntry_length] at l1
    rw [ifElseEntry_length, ifElseEntry_insertBlock] at i1
    have hj : ((g1.createBr (gc.blocks.length + 2)).setInsertPoint
        (gc.blocks.length + 1)).WellFormed := by
      unfold CodeGen.WellFormed
      simp only [CodeGen.createBr, setInsertPoint_blocks, emit_length, setInsertPoint_insertBlock]
      omega
    obtain ⟨w3, l3, i3⟩ := lowers_structure h3 hj
    simp only [CodeGen.createBr, setInsertPoint_blocks, emit_length,
      setInsertPoint_insertBlock] at l3 i3
    simp only [CodeGen.createBr, setInsertPoint_blocks]
    rw [emit_instructions_ne _ _ (by omega),
      lowers_frame h3 hj _
        (by simp only [CodeGen.createBr, setInsertPoint_blocks, emit_length]; omega)
        (by simp only [setInsertPoint_insertBlock]; omega)]
    simp only [CodeGen.createBr, setInsertPoint_blocks]
    rw [emit_instructions_ne _ _ (by omega),
      lowers_frame h1 he _ (by rw [ifElseEntry_length]; omega)
        (by rw [ifElseEntry_insertBlock]; omega),
      ifElseEntry_instructions_self gc cond hwfc]

/-- The names of the blocks a successful `generateIfElse` has created. -/
theorem ifElseLowered_blockNames {c t : ASTNode} {e : Option ASTNode} {g g2 : CodeGen}
    (h : IfElseLowered (.IfElseNode c t e) g g2) :
    ∃ created, g2.blockNames = g.blockNames ++
      (if e.isSome then ["then", "else", "after_if_else"] else ["then", "after_if_else"]) ++
        created := by
  obtain ⟨c2, t2, e2, cond, gc, is, hnode, _, ha, _, hrest⟩ := h
  simp only [ASTNode.IfElseNode.injEq] at hnode
  obtain ⟨_, _, rfl⟩ := hnode
  have hn := ha.2.2.2.2
  rcases hrest with ⟨he, g1, h1, rfl⟩ | ⟨he, g1, g3, h1, h3, rfl⟩
  · obtain ⟨c1, hc1⟩ := lowers_blockNames h1
    refine ⟨c1, ?_⟩
    show (g1.emit _).blockNames = _
    rw [emit_blockNames, hc1, ifThenEntry_blockNames, hn, he]
    rfl
  · obtain ⟨c1, hc1⟩ := lowers_blockNames h1
    obtain ⟨c3, hc3⟩ := lowers_blockNames h3
    refine ⟨c1 ++ c3, ?_⟩
    show (g3.emit _).blockNames = _
    have hj : ((g1.createBr (gc.blocks.length + 2)).setInsertPoint
        (gc.blocks.length + 1)).blockNames = g1.blockNames := emit_blockNames g1 _
    rw [emit_blockNames, hc3, hj, hc1, ifElseEntry_blockNames, hn]
    simp [he]

theorem generateIfElse_inner :
    generateIfElse elseIfInner beforeElseIfInner = .ok afterElseIfInner := by
  simp only [elseIfInner, generateIfElse_with_else, generateThenBlock, generateElse,
    generateElseBlock, generateBlock, isElseIf, ASTNode.isIfElseNode, generateSimpleStatement,
    if_true, if_false, Bool.false_eq_true]
  rfl

theorem blocksClosed_beforeElseIfInner : beforeElseIfInner.BlocksClosed (fun i => i = 3) := by
  refine ⟨by decide, by decide, ?_, ?_, ?_, ?_⟩
  · intro i hi
    rw [hi]
    decide
  · intro x hx
    simp [beforeElseIfInner, CodeGen.currentInstructions, blockInstructions] at hx
  · intro i hi x hx
    rw [hi] at hx
    simp [beforeElseIfInner, blockInstructions] at hx
  · intro i hi hne hpend
    have hlen : beforeElseIfInner.blocks.length = 4 := rfl
    have hins : beforeElseIfInner.insertBlock = 2 := rfl
    rw [hlen] at hi
    rw [hins] at hne
    have hcases : i = 0 ∨ i = 1 := by omega
    rcases hcases with rfl | rfl
    · exact ⟨[.alloca 0 .i32 "x", .load 1 .i32 0,
        .binary 2 .icmpSGT (.inst 1 .i32) (.constInt .i32 0)], .condBr (.inst 2 .i1) 1 2, rfl,
        by intro x hx; simp at hx; rcases hx with rfl | rfl | rfl <;> rfl, rfl⟩
    · exact ⟨[.store (.constInt .i32 1) 0], .br 3, rfl,
        by intro x hx; simp at hx; rw [hx]; rfl, rfl⟩

/-- C27. The single converge point of if/else lowering.  After a successful
`generateIfElse` on an if/else, from a state that keeps the terminator invariant
up to blocks created and not yet entered (the states in which an if/else is
lowered, at the top level, nested in a block and as an else-if): the call has
created the blocks `then`, `else` (when there is an else) and `after_if_else`, in
this order, after the blocks it found; the block that held the insertion point,
where the condition was lowered, ends with the conditional branch on the
condition's value whose true target is the `then` block and whose false target
is the next block, the `else` block when there is an else and the converge block
`after_if_else` otherwise; the insertion point is left on the converge block;
every path of the control-flow graph from either target of that branch reaches
the converge block; and the state left keeps the invariant with the same blocks
pending. -/
theorem generateIfElse_single_converge_point (c t : ASTNode) (e : Option ASTNode)
    (g g2 : CodeGen) (pending : Nat → Prop) (hS : g.BlocksClosed pending)
    (h : generateIfElse (.IfElseNode c t e) g = .ok g2) :
    (∃ (cond : Value) (condInstrs : List Instr) (created : List String),
      g2.blockNames = g.blockNames ++
        (if e.isSome then ["then", "else", "after_if_else"] else ["then", "after_if_else"]) ++
          created ∧
      blockInstructions g2.blocks g.insertBlock =
        g.currentInstructions ++ condInstrs ++
          [.condBr cond g.blocks.length (g.blocks.length + 1)] ∧
      g2.insertBlock = (if e.isSome then g.blocks.length + 2 else g.blocks.length + 1) ∧
      Reaches g2.blocks (fun b => b = g2.insertBlock) g.blocks.length ∧
      Reaches g2.blocks (fun b => b = g2.insertBlock) (g.blocks.length + 1)) ∧
    g2.BlocksClosed pending := by
  have hwf := blocksClosed_wellFormed hS
  have hshape := generateIfElse_lowered hS h
  have hl := ifElseLowered_lowers hshape
  refine ⟨?_, lowers_blocksClosed hl _ hS⟩
  obtain ⟨cond, is, hcond⟩ := ifElseLowered_condition_block hwf hshape
  obtain ⟨created, hnames⟩ := ifElseLowered_blockNames hshape
  have hins : g2.insertBlock =
      (if e.isSome then g.blocks.length + 2 else g.blocks.length + 1) := by
    obtain ⟨c2, t2, e2, _, gc, _, hnode, _, ha, _, hrest⟩ := hshape
    simp only [ASTNode.IfElseNode.injEq] at hnode
    obtain ⟨_, _, rfl⟩ := hnode
    rcases hrest with ⟨he, g1, _, rfl⟩ | ⟨he, g1, g3, _, _, rfl⟩
    · rw [he, setInsertPoint_insertBlock, ha.2.1]
      rfl
    · rw [setInsertPoint_insertBlock, ha.2.1]
      simp [he]
  have hr := lowers_reaches hl hwf (fun _ => False) g.insertBlock (Reaches.here _ (Or.inr rfl))
  have hr2 : Reaches g2.blocks (fun b => b = g2.insertBlock) g.insertBlock :=
    reaches_mono hr (fun i hi => hi.elim False.elim id)
  have hne : g.insertBlock ≠ g2.insertBlock := by
    unfold CodeGen.WellFormed at hwf
    rw [hins]
    split <;> omega
  refine ⟨cond, is, created, hnames, hcond, hins, ?_, ?_⟩
  · cases hr2 with
    | here _ hb => exact absurd hb hne
    | step _ t hlast _ hs =>
      have hcb : (blockInstructions g2.blocks g.insertBlock).getLast? =
          some (.condBr cond g.blocks.length (g.blocks.length + 1)) := by
        rw [hcond]; simp
      rw [hcb, Option.some.injEq] at hlast
      subst hlast
      exact hs _ (by simp [Instr.targets])
  · cases hr2 with
    | here _ hb => exact absurd hb hne
    | step _ t hlast _ hs =>
      have hcb : (blockInstructions g2.blocks g.insertBlock).getLast? =
          some (.condBr cond g.blocks.length (g.blocks.length + 1)) := by
        rw [hcond]; simp
      rw [hcb, Option.some.injEq] at hlast
      subst hlast
      exact hs _ (by simp [Instr.targets])

/-- C27 on `if (x > 0) { x = 1; } else if (x < 0) { x = 2; } else { }` after
`int x;`.  The outer call: block 0 ends with the branch to block 1 (`then`) and
block 2 (`else`), the insertion point is left on block 3, and the paths from
blocks 1 and 2 reach block 3.  The call on the else-if, made with block 3
pending: block 2 ends with the branch to blocks 4 and 5, the insertion point is
left on block 6, and the paths from blocks 4 and 5 reach block 6. -/
theorem generateIfElse_single_converge_point_witness :
    (afterIntX.BlocksClosed (fun _ => False) ∧
      generateIfElse elseIfChain afterIntX = .ok afterElseIfChain ∧
      ∃ (cond : Value) (condInstrs : List Instr) (created : List String),
        afterElseIfChain.blockNames =
          ["entry"] ++ ["then", "else", "after_if_else"] ++ created ∧
        blockInstructions afterElseIfChain.blocks 0 =
          [.alloca 0 .i32 "x"] ++ condInstrs ++ [.condBr cond 1 2] ∧
        afterElseIfChain.insertBlock = 3 ∧
        Reaches afterElseIfChain.blocks (fun b => b = 3) 1 ∧
        Reaches afterElseIfChain.blocks (fun b => b = 3) 2) ∧
    (beforeElseIfInner.BlocksClosed (fun i => i = 3) ∧
      generateIfElse elseIfInner beforeElseIfInner = .ok afterElseIfInner ∧
      ∃ (cond : Value) (condInstrs : List Instr) (created : List String),
        afterElseIfInner.blockNames =
          ["entry", "then", "else", "after_if_else"] ++ ["then", "else", "after_if_else"] ++
            created ∧
        blockInstructions afterElseIfInner.blocks 2 = [] ++ condInstrs ++ [.condBr cond 4 5] ∧
        afterElseIfInner.insertBlock = 6 ∧
        Reaches afterElseIfInner.blocks (fun b => b = 6) 4 ∧
        Reaches afterElseIfInner.blocks (fun b => b = 6) 5) :=
  ⟨⟨(terminatorInvariant_iff _).mp terminatorInvariant_afterIntX, generateIfElse_chain,
    (generateIfElse_single_converge_point _ _ _ afterIntX afterElseIfChain _
      ((terminatorInvariant_iff _).mp terminatorInvariant_afterIntX) generateIfElse_chain).1⟩,
   ⟨blocksClosed_beforeElseIfInner, generateIfElse_inner,
    (generateIfElse_single_converge_point _ _ _ beforeElseIfInner afterElseIfInner _
      blocksClosed_beforeElseIfInner generateIfElse_inner).1⟩⟩

theorem noReturn_new : CodeGen.new.NoReturn := by
  intro i x hx
  cases i with
  | zero => simp [CodeGen.new, blockInstructions] at hx
  | succ i => simp [CodeGen.new, blockInstructions] at hx

theorem terminatorInvariant_new : CodeGen.new.TerminatorInvariant := by
  refine ⟨by decide, ?_, ?_⟩
  · intro x hx
    simp [CodeGen.new, CodeGen.currentInstructions, blockInstructions] at hx
  · intro i hi hne
    simp only [CodeGen.new, List.length_singleton] at hi hne
    omega

/-- C28. The default return: when `generate` completes on a program, from the
generator as its constructor leaves it, the insertion block ends with the
return of the `i32` constant 0, no other instruction of that block is a return,
and no other block holds a return. -/
theorem generate_default_return (verifyModule : CodeGen → Option String) (ast : ProgramNode)
    (g2 : CodeGen) (h : generate verifyModule ast CodeGen.new = .ok g2) :
    ∃ body, g2.currentInstructions = body ++ [.ret (.constInt .i32 0)] ∧
      (∀ x ∈ body, x.isRet = false) ∧
      ∀ i, i ≠ g2.insertBlock → ∀ x ∈ blockInstructions g2.blocks i, x.isRet = false := by
  unfold generate at h
  cases hb : generateBlock ast.statements CodeGen.new with
  | error e => simp [hb] at h
  | ok g1 =>
    simp only [hb] at h
    have hS := (terminatorInvariant_iff _).mp terminatorInvariant_new
    have hl := generateBlock_lowers hS hb
    have hS1 := lowers_blocksClosed hl _ hS
    have hwf1 := blocksClosed_wellFormed hS1
    have hn1 := lowers_noReturn hl (blocksClosed_wellFormed hS) noReturn_new
    rw [hasTerminator_of_noTerminator hS1.2.2.2.1] at h
    simp only [Bool.not_false, if_true] at h
    cases hv : verifyModule (g1.createRet (.constInt .i32 0)) with
    | some err => simp [hv] at h
    | none =>
      simp only [hv, Except.ok.injEq] at h
      subst h
      refine ⟨g1.currentInstructions, emit_instructions_self g1 _ hwf1, fun x hx => hn1 _ x hx, ?_⟩
      intro i hi x hx
      have hi2 : i ≠ g1.insertBlock := hi
      simp only [CodeGen.createRet] at hx
      rw [emit_instructions_ne g1 _ hi2] at hx
      exact hn1 i x hx

/-- C28 on `int x; if (x > 0) { x = 1; } else if (x < 0) { x = 2; } else { }` with
a verifier that accepts the module: the converge block of the if/else, block 3,
receives the return. -/
theorem generate_default_return_witness :
    generate (fun _ => none) elseIfProgram CodeGen.new =
      .ok (afterElseIfChain.createRet (.constInt .i32 0)) ∧
    ∃ body, (afterElseIfChain.createRet (.constInt .i32 0)).currentInstructions =
        body ++ [.ret (.constInt .i32 0)] ∧
      (∀ x ∈ body, x.isRet = false) ∧
      ∀ i, i ≠ 3 → ∀ x ∈ blockInstructions
        (afterElseIfChain.createRet (.constInt .i32 0)).blocks i, x.isRet = false :=
  have h : generate (fun _ => none) elseIfProgram CodeGen.new =
      .ok (afterElseIfChain.createRet (.constInt .i32 0)) := by
    have hd : generateBlock elseIfProgram.statements CodeGen.new = .ok afterElseIfChain := by
      simp only [elseIfProgram, generateBlock, ASTNode.isIfElseNode, elseIfChain,
        generateSimpleStatement, Bool.false_eq_true, if_false, if_true]
      have hx : generateVarDecl .INT "x" none CodeGen.new = .ok afterIntX := rfl
      rw [hx]
      have hc := generateIfElse_chain
      rw [elseIfChain] at hc
      simp only [hc]
    unfold generate
    rw [hd]
    rfl
  ⟨h, generate_default_return (fun _ => none) elseIfProgram _ h⟩

/-! ## The code generator: declarations and the symbol table -/

/-- A declaration of type array or Error is not lowered: `generateVarDecl` throws
before it allocates a slot and leaves the generator as it was. -/
theorem generateVarDecl_unknown_type (name : String) (value : Option ASTNode) (g : CodeGen) :
    generateVarDecl .ARRAY name value g = .error ⟨"Unknown variable type", g⟩ ∧
    generateVarDecl .ERROR name value g = .error ⟨"Unknown variable type", g⟩ :=
  ⟨rfl, rfl⟩

/-- C39. The program `try B1 catch (Error e) B2` with `array a;` in B1 is accepted
by the parser, and `generate` lowers it like the empty program: the try/catch
statement is skipped, the array declaration in it is never reached, and the
call completes unless the verifier rejects the module that holds only the
default return. -/
theorem array_declaration_in_try_accepted :
    (∀ uninit : BinaryOp, parseProgram uninit 5 (Parser.ofTokens tryArrayTokens) =
      .ok tryArrayProgram (Parser.ofTokens [])) ∧
    ∀ verifyModule : CodeGen → Option String,
      generate verifyModule tryArrayProgram CodeGen.new =
        match verifyModule returnOnly with
        | some error => .error ⟨"Generated IR is invalid: " ++ error, returnOnly⟩
        | none => .ok returnOnly := by
  refine ⟨fun _ => rfl, ?_⟩
  intro verifyModule
  have hb : generateBlock tryArrayProgram.statements CodeGen.new = .ok CodeGen.new := by
    simp only [tryArrayProgram, generateBlock, ASTNode.isIfElseNode, Bool.false_eq_true, if_false,
      generateSimpleStatement]
  unfold generate
  simp only [hb]
  rfl

theorem lookup_filter_ne (name other : String) (h : other ≠ name) :
    ∀ symbols : List (String × AllocaInst),
      List.lookup other (symbols.filter fun e => e.1 ≠ name) = List.lookup other symbols := by
  intro symbols
  induction symbols with
  | nil => rfl
  | cons e rest ih =>
    obtain ⟨n, s⟩ := e
    by_cases hn : n = name
    · have hd : decide (n ≠ name) = false := by simpa using hn
      have hb : (other == n) = false := by rw [hn]; simpa using h
      rw [List.filter_cons, List.lookup_cons, hb]
      simp only [hd, Bool.false_eq_true, if_false]
      exact ih
    · have hd : decide (n ≠ name) = true := by simpa using hn
      rw [List.filter_cons]
      simp only [hd, if_true, List.lookup_cons]
      rw [ih]

theorem find_setSymbol_self (g : CodeGen) (name : String) (a : AllocaInst) :
    (g.setSymbol name a).find name = some a := by
  simp [CodeGen.find, CodeGen.setSymbol, List.lookup_cons]

theorem find_setSymbol_ne (g : CodeGen) (name other : String) (a : AllocaInst)
    (h : other ≠ name) : (g.setSymbol name a).find other = g.find other := by
  have hb : (other == name) = false := by simpa using h
  unfold CodeGen.find CodeGen.setSymbol
  simp only [List.lookup_cons, hb]
  exact lookup_filter_ne name other h g.symbols

theorem generateValue_symbols_bounded (n : Nat) :
    ∀ (node : ASTNode), sizeOf node ≤ n → ∀ (ty : IRType) (g : CodeGen) (v : Value)
      (g2 : CodeGen), generateValue node ty g = .ok (v, g2) → g2.symbols = g.symbols := by
  induction n with
  | zero =>
    intro node hsize
    cases node <;> simp at hsize
  | succ n ih =>
    intro node hsize ty g v g2 h
    cases node with
    | IntLiteral i =>
      rw [generateValue] at h
      split at h
      · simp only [Except.ok.injEq, Prod.mk.injEq] at h
        rw [← h.2]
      · split at h
        · simp only [Except.ok.injEq, Prod.mk.injEq] at h
          rw [← h.2]
        · cases h
    | FloatLiteral f =>
      rw [generateValue] at h
      split at h
      · cases h
      · simp only [Except.ok.injEq, Prod.mk.injEq] at h
        rw [← h.2]
    | StrLiteral s =>
      rw [generateValue] at h
      split at h
      · cases h
      · simp only [Except.ok.injEq] at h
        have hg : (g.createGlobalStringPtr s).2 = g2 := congrArg Prod.snd h
        rw [← hg]
        rfl
    | BoolLiteral b =>
      rw [generateValue] at h
      split at h
      · cases h
      · simp only [Except.ok.injEq, Prod.mk.injEq] at h
        rw [← h.2]
    | CharLiteral c =>
      rw [generateValue] at h
      split at h
      · cases h
      · simp only [Except.ok.injEq, Prod.mk.injEq] at h
        rw [← h.2]
    | VarRefNode name =>
      rw [generateValue] at h
      split at h
      · cases h
      · split at h
        · cases h
        · simp only [Except.ok.injEq] at h
          have hg : (g.createLoad ty _).2 = g2 := congrArg Prod.snd h
          rw [← hg]
          rfl
    | BinaryOpNode op l r =>
      have hl : sizeOf l ≤ n := by
        simp only [ASTNode.BinaryOpNode.sizeOf_spec] at hsize; omega
      have hr : ∀ x, r = some x → sizeOf x ≤ n := by
        intro x hx
        subst hx
        simp only [ASTNode.BinaryOpNode.sizeOf_spec, Option.some.sizeOf_spec] at hsize; omega
      have hside : ∀ (ty2 : IRType) (g0 g1 g3 : CodeGen) (lv rv : Value),
          generateValue l ty2 g0 = .ok (lv, g1) → generateValueOrNull r ty2 g1 = .ok (rv, g3) →
          g3.symbols = g0.symbols := by
        intro ty2 g0 g1 g3 lv rv h1 h2
        have a1 := ih l hl ty2 g0 lv g1 h1
        cases r with
        | none => simp [generateValueOrNull] at h2
        | some x =>
          rw [generateValueOrNull] at h2
          rw [ih x (hr x rfl) ty2 g1 rv g3 h2, a1]
      rw [generateValue] at h
      split at h
      · simp only at h
        split at h
        · cases h
        · rename_i lv g1 h1
          split at h
          · cases h
          · rename_i rv g3 h2
            have a := hside _ g g1 g3 lv rv h1 h2
            split at h
            · simp only [Except.ok.injEq] at h
              have hg : (g3.createBinary _ lv rv).2 = g2 := congrArg Prod.snd h
              rw [← hg, ← a]
              rfl
            · cases h
      · split at h
        · cases h
        · rename_i lv g1 h1
          split at h
          · cases h
          · rename_i rv g3 h2
            have a := hside _ g g1 g3 lv rv h1 h2
            split at h
            · simp only [Except.ok.injEq] at h
              have hg : (g3.createBinary _ lv rv).2 = g2 := congrArg Prod.snd h
              rw [← hg, ← a]
              rfl
            · cases h
    | _ => simp [generateValue] at h

/-- `generateValue` leaves the symbol table as it is. -/
theorem generateValue_symbols {node : ASTNode} {ty : IRType} {g g2 : CodeGen} {v : Value}
    (h : generateValue node ty g = .ok (v, g2)) : g2.symbols = g.symbols :=
  generateValue_symbols_bounded (sizeOf node) node (Nat.le_refl _) ty g v g2 h

/-- What a successful `generateVarDecl` leaves in the symbol table: the declared
name with the newly allocated slot, every other name as before. -/
theorem generateVarDecl_symbols {type : VarType} {name : String} {value : Option ASTNode}
    {g g2 : CodeGen} (h : generateVarDecl type name value g = .ok g2) :
    ∃ ty, irTypeOfVarType type = some ty ∧ g2.find name = some ⟨g.nextId, ty⟩ ∧
      ∀ other, other ≠ name → g2.find other = g.find other := by
  unfold generateVarDecl at h
  cases hty : irTypeOfVarType type with
  | none => simp [hty] at h
  | some ty =>
    simp only [hty] at h
    refine ⟨ty, rfl, ?_⟩
    have hset : ∀ g1 : CodeGen,
        g1.symbols = ((g.createAlloca ty name).2.setSymbol name (g.createAlloca ty name).1).symbols →
        g1.find name = some ⟨g.nextId, ty⟩ ∧
          ∀ other, other ≠ name → g1.find other = g.find other := by
      intro g1 hs
      unfold CodeGen.find
      rw [hs]
      exact ⟨find_setSymbol_self _ name _,
        fun other ho => find_setSymbol_ne (g.createAlloca ty name).2 name other _ ho⟩
    cases value with
    | none =>
      simp only [Except.ok.injEq] at h
      rw [← h]
      exact hset _ rfl
    | some v =>
      simp only at h
      cases hv : generateValue v ty
          ((g.createAlloca ty name).2.setSymbol name (g.createAlloca ty name).1) with
      | error e => simp [hv] at h
      | ok r =>
        obtain ⟨val, gv⟩ := r
        simp only [hv, Except.ok.injEq] at h
        rw [← h]
        exact hset _ (generateValue_symbols hv : gv.symbols = _)
/-- C33. Re-declaration overwrites.  `generateVarDecl` never looks the name up:
for a supported type, without initializer it succeeds, and with one it fails
only as the lowering of the initializer fails, whether or not the name is in
the table.  It allocates a new slot; afterwards the table maps the name to that
slot with the declared type, every other name is mapped as before, a read of
the name lowers exactly against the declared type, and an assignment to it
lowers its value against that type. -/
theorem generateVarDecl_redeclaration (type : VarType) (ty : IRType) (name : String)
    (value : Option ASTNode) (g : CodeGen) (hty : irTypeOfVarType type = some ty) :
    generateVarDecl type name none g =
      .ok ((g.createAlloca ty name).2.setSymbol name ⟨g.nextId, ty⟩) ∧
    (∀ v, generateVarDecl type name (some v) g =
      match generateValue v ty ((g.createAlloca ty name).2.setSymbol name ⟨g.nextId, ty⟩) with
      | .error e => .error e
      | .ok (val, g1) => .ok (g1.createStore val g.nextId)) ∧
    ∀ g2, generateVarDecl type name value g = .ok g2 →
      g2.find name = some ⟨g.nextId, ty⟩ ∧
      (∀ other, other ≠ name → g2.find other = g.find other) ∧
      (∀ T, (∃ r, generateValue (.VarRefNode name) T g2 = .ok r) ↔ T = ty) ∧
      ∀ v, generateAssign name v g2 =
        match generateValue v ty g2 with
        | .error e => .error e
        | .ok (val, g3) => .ok (g3.createStore val g.nextId) := by
  refine ⟨?_, ?_, ?_⟩
  · unfold generateVarDecl
    simp only [hty]
    rfl
  · intro v
    unfold generateVarDecl
    simp only [hty]
    rfl
  · intro g2 h
    obtain ⟨ty2, hty2, hfind, hother⟩ := generateVarDecl_symbols h
    rw [hty] at hty2
    cases hty2
    refine ⟨hfind, hother, ?_, ?_⟩
    · intro T
      rw [generateValue]
      simp only [hfind]
      by_cases hT : ty = T
      · simp [hT]
      · simp [hT, fun h : T = ty => hT h.symm, Ne.symm hT]
    · intro v
      rw [generateAssign]
      simp only [hfind]

/-- C33 on `int x; string x;`: the second declaration succeeds, the table then
holds `x` with the new slot of pointer type only, reading `x` against the pointer
type succeeds and against `i32` fails. -/
theorem generateVarDecl_redeclaration_witness :
    irTypeOfVarType .STRING = some .ptr ∧
    generateVarDecl .STRING "x" none afterIntX = .ok afterIntThenStringX ∧
    afterIntThenStringX.find "x" = some ⟨1, .ptr⟩ ∧
    (∃ r, generateValue (.VarRefNode "x") .ptr afterIntThenStringX = .ok r) ∧
    ¬ ∃ r, generateValue (.VarRefNode "x") .i32 afterIntThenStringX = .ok r :=
  have h := generateVarDecl_redeclaration .STRING .ptr "x" none afterIntX rfl
  ⟨rfl, h.1, (h.2.2 afterIntThenStringX h.1).1,
    ((h.2.2 afterIntThenStringX h.1).2.2.1 .ptr).mpr rfl,
    fun hr => absurd (((h.2.2 afterIntThenStringX h.1).2.2.1 .i32).mp hr) (by decide)⟩

theorem generateVarDecls_lowerInOrder (decls : List (VarType × String × Option ASTNode)) :
    ∀ g : CodeGen, generateVarDecls decls g = lowerInOrder (decls.map varDeclStatement) g := by
  induction decls with
  | nil => intro g; rfl
  | cons d rest ih =>
    intro g
    obtain ⟨type, name, value⟩ := d
    rw [generateVarDecls, List.map_cons, lowerInOrder]
    simp only [varDeclStatement, generateStatement]
    cases generateVarDecl type name value g with
    | error e => rfl
    | ok g1 => exact ih g1

/-- C35. A multi-variable declaration lowers like its parts: `generateStatement`
on a `MultiVarDeclNode` has the outcome (the generator state with its
instructions and symbol table, or the error with the state at the throw) of
lowering the entries in order as separate `VarDecl` statements.  The shared form
`int a, b = 1;` and the per-identifier form `int a, b = 1, 2;` parse to
`MultiVarDeclNode`s that lower to two `i32` slots with one store each. -/
theorem generateStatement_multiVarDecl :
    (∀ (decls : List (VarType × String × Option ASTNode)) (g : CodeGen),
      generateStatement (.MultiVarDeclNode decls) g =
        lowerInOrder (decls.map varDeclStatement) g) ∧
    (∀ uninit : BinaryOp, parseStatement uninit 4 (Parser.ofTokens intSharedOne) =
      .ok (.MultiVarDeclNode
        [(.INT, "a", some (.IntLiteral 1)), (.INT, "b", some (.IntLiteral 1))])
        (Parser.ofTokens [])) ∧
    generateStatement (.MultiVarDeclNode
        [(.INT, "a", some (.IntLiteral 1)), (.INT, "b", some (.IntLiteral 1))]) CodeGen.new =
      .ok (afterTwoInts 1 1) ∧
    (∀ uninit : BinaryOp, parseStatement uninit 4 (Parser.ofTokens intPerIdentifier) =
      .ok (.MultiVarDeclNode
        [(.INT, "a", some (.IntLiteral 1)), (.INT, "b", some (.IntLiteral 2))])
        (Parser.ofTokens [])) ∧
    generateStatement (.MultiVarDeclNode
        [(.INT, "a", some (.IntLiteral 1)), (.INT, "b", some (.IntLiteral 2))]) CodeGen.new =
      .ok (afterTwoInts 1 2) :=
  ⟨fun decls g => generateVarDecls_lowerInOrder decls g, fun _ => rfl, rfl, fun _ => rfl, rfl⟩

theorem exprLoop_plus_variable (uninit : BinaryOp) (rec : Parsers) (k : Nat)
    (left right : ASTNode) (p q : Parser) (hplus : p.currentToken.type = .Plus)
    (hprim : rec.parsePrimary p.advance = .ok right q)
    (hvar : left.isVarRefNode = true ∨ right.isVarRefNode = true) :
    exprLoop uninit rec (k + 1) left p = exprLoop uninit rec k (.ConcatNode left right) q := by
  rw [exprLoop]
  have hx : ¬ (uninit = .XOR ∧ (!left.isBoolLiteral && !left.isVarRefNode &&
      !right.isBoolLiteral && !right.isVarRefNode) = true) := by
    rintro ⟨_, hc⟩
    rcases hvar with hv | hv <;> simp [hv] at hc
  have hcat : isConcatOperands left right = true := by
    unfold isConcatOperands
    rcases hvar with hv | hv <;> simp [hv]
  simp only [hplus, isChainOperator, decide_True, Bool.true_or, if_true, hprim, Result.bind_ok,
    hx, if_false, hcat]

/-- C37. An addition involving a variable cannot be lowered.  `generateValue`
fails on every `ConcatNode`, for every expected type, and so do a declaration
and an assignment whose value is one.  The operator loop of the parser turns
`l + r` into a `ConcatNode` whenever `l` or `r` is a variable reference,
whatever the uninitialised `op` holds.  `int a = 1; int b = a + 2;` is accepted
by the parser and rejected by `generate`, whatever the verifier says. -/
theorem concat_not_lowered :
    (∀ (l r : ASTNode) (T : IRType) (g : CodeGen),
      generateValue (.ConcatNode l r) T g =
        .error ⟨"Unsupported value type in code generation", g⟩) ∧
    (∀ (type : VarType) (name : String) (l r : ASTNode) (g : CodeGen),
      ∃ e, generateVarDecl type name (some (.ConcatNode l r)) g = .error e) ∧
    (∀ (name : String) (l r : ASTNode) (g : CodeGen),
      ∃ e, generateAssign name (.ConcatNode l r) g = .error e) ∧
    (∀ (uninit : BinaryOp) (rec : Parsers) (k : Nat) (left right : ASTNode) (p q : Parser),
      p.currentToken.type = .Plus → rec.parsePrimary p.advance = .ok right q →
      left.isVarRefNode = true ∨ right.isVarRefNode = true →
      exprLoop uninit rec (k + 1) left p = exprLoop uninit rec k (.ConcatNode left right) q) ∧
    (∀ uninit : BinaryOp, parseProgram uninit 5 (Parser.ofTokens sumWithVariableTokens) =
      .ok sumWithVariableProgram (Parser.ofTokens [])) ∧
    ∀ verifyModule : CodeGen → Option String,
      ∃ e, generate verifyModule sumWithVariableProgram CodeGen.new = .error e ∧
        e.what = "Unsupported value type in code generation" := by
  have hconcat : ∀ (l r : ASTNode) (T : IRType) (g : CodeGen),
      generateValue (.ConcatNode l r) T g =
        .error ⟨"Unsupported value type in code generation", g⟩ := by
    intro l r T g
    rw [generateValue]
    all_goals intros; exact ASTNode.noConfusion ‹_›
  refine ⟨hconcat, ?_, ?_, exprLoop_plus_variable, ?_, ?_⟩
  · intro type name l r g
    unfold generateVarDecl
    cases irTypeOfVarType type with
    | none => exact ⟨_, rfl⟩
    | some ty => simp only [hconcat]; exact ⟨_, rfl⟩
  · intro name l r g
    unfold generateAssign
    cases g.find name with
    | none => exact ⟨_, rfl⟩
    | some slot => simp only [hconcat]; exact ⟨_, rfl⟩
  · intro uninit
    cases uninit <;> rfl
  · intro verifyModule
    unfold generate
    simp only [sumWithVariableProgram, generateBlock, ASTNode.isIfElseNode, Bool.false_eq_true,
      if_false, generateSimpleStatement, generateStatement, generateVarDecl, irTypeOfVarType,
      hconcat]
    exact ⟨_, rfl, rfl⟩

/-! ## The code generator: the symbol table is flat -/

theorem symbolsKept_refl (g : CodeGen) : SymbolsKept g g := fun _ h => h

theorem symbolsKept_trans {g g1 g2 : CodeGen} (h1 : SymbolsKept g g1) (h2 : SymbolsKept g1 g2) :
    SymbolsKept g g2 := fun name h => h2 name (h1 name h)

theorem symbolsKept_of_eq {g g2 : CodeGen} (h : g2.symbols = g.symbols) : SymbolsKept g g2 := by
  intro name hn
  unfold CodeGen.find at hn ⊢
  rw [h]
  exact hn

theorem symbols_closeBlock (c : Prop) [Decidable c] (g : CodeGen) (target point : Nat) :
    ((if c then g.createBr target else g).setInsertPoint point).symbols = g.symbols := by
  split <;> rfl

theorem generateAssign_symbols {name : String} {value : ASTNode} {g g2 : CodeGen}
    (h : generateAssign name value g = .ok g2) : g2.symbols = g.symbols := by
  unfold generateAssign at h
  cases hf : g.find name with
  | none => simp [hf] at h
  | some slot =>
    simp only [hf] at h
    cases hv : generateValue value slot.allocatedType g with
    | error e => simp [hv] at h
    | ok r =>
      obtain ⟨val, gv⟩ := r
      simp only [hv, Except.ok.injEq] at h
      rw [← h]
      exact (generateValue_symbols hv : gv.symbols = _)

theorem generateCompoundAssign_symbols {name : String} {op : BinaryOp} {value : ASTNode}
    {g g2 : CodeGen} (h : generateCompoundAssign name op value g = .ok g2) :
    g2.symbols = g.symbols := by
  unfold generateCompoundAssign at h
  cases hf : g.find name with
  | none => simp [hf] at h
  | some slot =>
    simp only [hf] at h
    cases hv : generateValue value slot.allocatedType
        (g.createLoad slot.allocatedType slot.id).2 with
    | error e => simp [hv] at h
    | ok r =>
      obtain ⟨val, gv⟩ := r
      simp only [hv] at h
      cases ha : arithmeticInstruction op slot.allocatedType.isFloatTy with
      | none => simp [ha] at h
      | some instruction =>
        simp only [ha, Except.ok.injEq] at h
        rw [← h]
        exact (generateValue_symbols hv : gv.symbols = _)

theorem generateVarDecl_kept {type : VarType} {name : String} {value : Option ASTNode}
    {g g2 : CodeGen} (h : generateVarDecl type name value g = .ok g2) :
    SymbolsKept g g2 ∧ (g2.find name).isSome = true := by
  obtain ⟨ty, _, hfind, hother⟩ := generateVarDecl_symbols h
  refine ⟨?_, by rw [hfind]; rfl⟩
  intro other ho
  by_cases hne : other = name
  · rw [hne, hfind]; rfl
  · rw [hother other hne]; exact ho

theorem generateVarDecls_kept (decls : List (VarType × String × Option ASTNode)) :
    ∀ g g2 : CodeGen, generateVarDecls decls g = .ok g2 →
      SymbolsKept g g2 ∧ ∀ d ∈ decls, (g2.find d.2.1).isSome = true := by
  induction decls with
  | nil =>
    intro g g2 h
    exact ⟨by rw [generateVarDecls, Except.ok.injEq] at h; rw [← h]; exact symbolsKept_refl g,
      fun d hd => by cases hd⟩
  | cons d rest ih =>
    intro g g2 h
    obtain ⟨type, name, value⟩ := d
    rw [generateVarDecls] at h
    cases hd : generateVarDecl type name value g with
    | error e => simp [hd] at h
    | ok g1 =>
      simp only [hd] at h
      obtain ⟨hk1, hn1⟩ := generateVarDecl_kept hd
      obtain ⟨hk2, hn2⟩ := ih g1 g2 h
      refine ⟨symbolsKept_trans hk1 hk2, ?_⟩
      intro d2 hd2
      rcases List.mem_cons.1 hd2 with rfl | hm
      · exact hk2 name hn1
      · exact hn2 d2 hm

theorem generateSimpleStatement_kept {stmt : ASTNode} {g g2 : CodeGen}
    (h : generateSimpleStatement stmt g = .ok g2) :
    SymbolsKept g g2 ∧ ∀ name, stmt.declares name = true → (g2.find name).isSome = true := by
  cases stmt with
  | VarDeclNode type n value =>
    rw [generateSimpleStatement] at h
    obtain ⟨hk, hn⟩ := generateVarDecl_kept h
    refine ⟨hk, ?_⟩
    intro name hd
    simp only [ASTNode.declares, decide_eq_true_eq] at hd
    rw [← hd]
    exact hn
  | MultiVarDeclNode decls =>
    rw [generateSimpleStatement] at h
    obtain ⟨hk, hn⟩ := generateVarDecls_kept decls g g2 h
    refine ⟨hk, ?_⟩
    intro name hd
    simp only [ASTNode.declares, List.any_eq_true, decide_eq_true_eq] at hd
    obtain ⟨d, hmem, hname⟩ := hd
    rw [← hname]
    exact hn d hmem
  | AssignNode n value =>
    rw [generateSimpleStatement] at h
    exact ⟨symbolsKept_of_eq (generateAssign_symbols h), fun name hd => by
      simp [ASTNode.declares] at hd⟩
  | CompoundAssignNode n op value =>
    rw [generateSimpleStatement] at h
    exact ⟨symbolsKept_of_eq (generateCompoundAssign_symbols h), fun name hd => by
      simp [ASTNode.declares] at hd⟩
  | _ =>
    simp only [generateSimpleStatement, Except.ok.injEq] at h
    rw [← h]
    exact ⟨symbolsKept_refl g, fun name hd => by simp [ASTNode.declares] at hd⟩

/-- Lowering an if/else or a block keeps every name of the symbol table; after
an if/else the names declared in its then-block and in its plain else-block are
in the table, after a block the names its statements declare. -/
theorem generate_symbols_bounded (n : Nat) :
    (∀ node : ASTNode, sizeOf node ≤ n → ∀ g g2 : CodeGen, generateIfElse node g = .ok g2 →
      SymbolsKept g g2 ∧ ∀ c t e, node = .IfElseNode c t e → ∀ name,
        (DeclaredIn t name ∨ ∃ b, e = some b ∧ DeclaredIn b name) →
          (g2.find name).isSome = true) ∧
    (∀ stmts : List ASTNode, sizeOf stmts ≤ n → ∀ g g2 : CodeGen,
      generateBlock stmts g = .ok g2 →
      SymbolsKept g g2 ∧ ∀ s ∈ stmts, ∀ name, s.declares name = true →
        (g2.find name).isSome = true) := by
  induction n with
  | zero =>
    constructor
    · intro node hsize
      cases node <;> simp at hsize
    · intro stmts hsize
      cases stmts <;> simp at hsize
  | succ n ih =>
    obtain ⟨ihIf, ihBlock⟩ := ih
    constructor
    · intro node hsize g g2 h
      cases node with
      | IfElseNode c t e =>
        cases e with
        | none =>
          rw [generateIfElse_without_else] at h
          cases hc : generateValue c .i1 g with
          | error e => simp [hc] at h
          | ok r =>
            obtain ⟨cond, gc⟩ := r
            simp only [hc] at h
            have hgc : gc.symbols = g.symbols := generateValue_symbols hc
            cases ht : generateThenBlock t (ifThenEntry gc cond) with
            | error e => simp [ht] at h
            | ok g1 =>
              simp only [ht, Except.ok.injEq] at h
              obtain ⟨stmts, rfl, hb⟩ := generateThenBlock_block ht
              have hsz : sizeOf stmts ≤ n := by
                simp only [ASTNode.IfElseNode.sizeOf_spec, ASTNode.BlockNode.sizeOf_spec] at hsize
                omega
              obtain ⟨hk, hd⟩ := ihBlock stmts hsz _ g1 hb
              have h2 : SymbolsKept g1 g2 :=
                symbolsKept_of_eq (by rw [← h]; exact symbols_closeBlock _ g1 _ _)
              have h0 : SymbolsKept g (ifThenEntry gc cond) := symbolsKept_of_eq hgc
              refine ⟨symbolsKept_trans h0 (symbolsKept_trans hk h2), ?_⟩
              intro c2 t2 e2 heq name hdecl
              cases heq
              rcases hdecl with ⟨ss, hss, s, hs, hsd⟩ | ⟨b, hb2, _⟩
              · cases hss
                exact h2 name (hd s hs name hsd)
              · cases hb2
        | some en =>
          rw [generateIfElse_with_else] at h
          cases hc : generateValue c .i1 g with
          | error e => simp [hc] at h
          | ok r =>
            obtain ⟨cond, gc⟩ := r
            simp only [hc] at h
            have hgc : gc.symbols = g.symbols := generateValue_symbols hc
            cases ht : generateThenBlock t (ifElseEntry gc cond) with
            | error e => simp [ht] at h
            | ok g1 =>
              simp only [ht] at h
              obtain ⟨stmts, rfl, hb⟩ := generateThenBlock_block ht
              have hsz : sizeOf stmts ≤ n := by
                simp only [ASTNode.IfElseNode.sizeOf_spec, ASTNode.BlockNode.sizeOf_spec] at hsize
                omega
              have hen : sizeOf en ≤ n := by
                simp only [ASTNode.IfElseNode.sizeOf_spec, Option.some.sizeOf_spec] at hsize
                omega
              obtain ⟨hk, hd⟩ := ihBlock stmts hsz _ g1 hb
              have h0 : SymbolsKept g (ifElseEntry gc cond) := symbolsKept_of_eq hgc
              split at h
              · cases h
              · rename_i g3 hel
                simp only [Except.ok.injEq] at h
                have h1 := symbolsKept_of_eq (symbols_closeBlock ((!g1.hasTerminator) = true) g1
                  (gc.blocks.length + 2) (gc.blocks.length + 1))
                have h3 : SymbolsKept g3 g2 :=
                  symbolsKept_of_eq (by rw [← h]; exact symbols_closeBlock _ g3 _ _)
                rw [generateElse, isElseIf] at hel
                by_cases hif : en.isIfElseNode = true
                · simp only [hif, if_true] at hel
                  obtain ⟨hk3, _⟩ := ihIf en hen _ g3 hel
                  have h13 := symbolsKept_trans h1 (symbolsKept_trans hk3 h3)
                  refine ⟨symbolsKept_trans h0 (symbolsKept_trans hk h13), ?_⟩
                  intro c2 t2 e2 heq name hdecl
                  cases heq
                  rcases hdecl with ⟨ss, hss, s, hs, hsd⟩ | ⟨b, hb2, ss, hss, _⟩
                  · cases hss
                    exact h13 name (hd s hs name hsd)
                  · cases hb2
                    rw [hss] at hif
                    simp [ASTNode.isIfElseNode] at hif
                · simp only [hif, Bool.false_eq_true, if_false] at hel
                  obtain ⟨stmts2, g0, rfl, hb2, hg3⟩ := generateElseBlock_block hel
                  have hsz2 : sizeOf stmts2 ≤ n := by
                    simp only [ASTNode.BlockNode.sizeOf_spec] at hen
                    omega
                  obtain ⟨hk0, hd0⟩ := ihBlock stmts2 hsz2 _ g0 hb2
                  have h03 : SymbolsKept g0 g3 := symbolsKept_of_eq (by
                    rw [hg3]
                    split <;> rfl)
                  have h13 := symbolsKept_trans h1 (symbolsKept_trans hk0 (symbolsKept_trans h03 h3))
                  refine ⟨symbolsKept_trans h0 (symbolsKept_trans hk h13), ?_⟩
                  intro c2 t2 e2 heq name hdecl
                  cases heq
                  rcases hdecl with ⟨ss, hss, s, hs, hsd⟩ | ⟨b, hb3, ss, hss, s, hs, hsd⟩
                  · cases hss
                    exact h13 name (hd s hs name hsd)
                  · cases hb3
                    cases hss
                    exact h3 name (h03 name (hd0 s hs name hsd))
      | _ => simp [generateIfElse] at h
    · intro stmts hsize g g2 h
      cases stmts with
      | nil =>
        rw [generateBlock, Except.ok.injEq] at h
        rw [← h]
        exact ⟨symbolsKept_refl g, fun s hs => by cases hs⟩
      | cons stmt rest =>
        rw [generateBlock] at h
        have hs1 : sizeOf stmt ≤ n := by
          simp only [List.cons.sizeOf_spec] at hsize
          omega
        have hs2 : sizeOf rest ≤ n := by
          simp only [List.cons.sizeOf_spec] at hsize
          omega
        cases hst : (if stmt.isIfElseNode then generateIfElse stmt g
            else generateSimpleStatement stmt g) with
        | error e => simp [hst] at h
        | ok g1 =>
          simp only [hst] at h
          obtain ⟨hk2, hd2⟩ := ihBlock rest hs2 g1 g2 h
          have h1 : SymbolsKept g g1 ∧
              ∀ name, stmt.declares name = true → (g1.find name).isSome = true := by
            by_cases hif : stmt.isIfElseNode = true
            · simp only [hif, if_true] at hst
              refine ⟨(ihIf stmt hs1 g g1 hst).1, ?_⟩
              intro name hdecl
              cases stmt <;> simp [ASTNode.declares, ASTNode.isIfElseNode] at hdecl hif
            · simp only [hif, Bool.false_eq_true, if_false] at hst
              exact generateSimpleStatement_kept hst
          refine ⟨symbolsKept_trans h1.1 hk2, ?_⟩
          intro s hs name hdecl
          rcases List.mem_cons.1 hs with rfl | hm
          · exact hk2 name (h1.2 name hdecl)
          · exact hd2 s hm name hdecl

theorem generateStatement_eq (stmt : ASTNode) (g : CodeGen) :
    generateStatement stmt g =
      if stmt.isIfElseNode then generateIfElse stmt g else generateSimpleStatement stmt g := by
  cases stmt <;> rfl

theorem find_closeBlock (c : Prop) [Decidable c] (g : CodeGen) (target point : Nat)
    (name : String) :
    ((if c then g.createBr target else g).setInsertPoint point).find name = g.find name := by
  unfold CodeGen.find
  rw [symbols_closeBlock]

theorem find_createStore (g : CodeGen) (value : Value) (slot : Nat) (name : String) :
    (g.createStore value slot).find name = g.find name := rfl

theorem declareInThen_lowers (g : CodeGen) (slot : Nat) (h : g.find "c" = some ⟨slot, .i1⟩) :
    ∃ g2, generateBlock declareInThen g = .ok g2 := by
  simp only [declareInThen, generateBlock, ASTNode.isIfElseNode, if_true, Bool.false_eq_true,
    if_false, generateIfElse_without_else, generateValue, h, generateThenBlock,
    generateSimpleStatement, generateVarDecl, irTypeOfVarType, generateAssign,
    ne_eq, not_true_eq_false, IRType.isIntegerTy, find_closeBlock, find_createStore,
    find_setSymbol_self, CodeGen.createAlloca]
  exact ⟨_, rfl⟩

/-- C32. The symbol table is flat.  A successful lowering of a statement, of a
block or of a program keeps every name of the symbol table, and after the
lowering of an `IfElse` the names declared by the statements of its then-block
and of its else-block are in the table.  `bool c; if (c) { int x = 1; } x = 2;`
is accepted by the parser, and `if (c) { int x = 1; } x = 2;` lowers without
error from every state in which `c` is declared with the type `i1`. -/
theorem symbol_table_flat :
    (∀ (stmt : ASTNode) (g g2 : CodeGen), generateStatement stmt g = .ok g2 →
      SymbolsKept g g2) ∧
    (∀ (stmts : List ASTNode) (g g2 : CodeGen), generateBlock stmts g = .ok g2 →
      SymbolsKept g g2) ∧
    (∀ (verifyModule : CodeGen → Option String) (ast : ProgramNode) (g g2 : CodeGen),
      generate verifyModule ast g = .ok g2 → SymbolsKept g g2) ∧
    (∀ (c t : ASTNode) (e : Option ASTNode) (g g2 : CodeGen) (name : String),
      generateStatement (.IfElseNode c t e) g = .ok g2 →
      (DeclaredIn t name ∨ ∃ b, e = some b ∧ DeclaredIn b name) →
      (g2.find name).isSome = true) ∧
    (∀ uninit : BinaryOp, parseProgram uninit 8 (Parser.ofTokens declareInThenTokens) =
      .ok ⟨.VarDeclNode .BOOL "c" none :: declareInThen⟩ (Parser.ofTokens [])) ∧
    ∀ (g : CodeGen) (slot : Nat), g.find "c" = some ⟨slot, .i1⟩ →
      ∃ g2, generateBlock declareInThen g = .ok g2 := by
  have hblock : ∀ (stmts : List ASTNode) (g g2 : CodeGen), generateBlock stmts g = .ok g2 →
      SymbolsKept g g2 :=
    fun stmts g g2 h => ((generate_symbols_bounded (sizeOf stmts)).2 stmts le_rfl g g2 h).1
  refine ⟨?_, hblock, ?_, ?_, fun _ => rfl, declareInThen_lowers⟩
  · intro stmt g g2 h
    rw [generateStatement_eq] at h
    by_cases hif : stmt.isIfElseNode = true
    · simp only [hif, if_true] at h
      exact ((generate_symbols_bounded (sizeOf stmt)).1 stmt le_rfl g g2 h).1
    · simp only [hif, Bool.false_eq_true, if_false] at h
      exact (generateSimpleStatement_kept h).1
  · intro verifyModule ast g g2 h
    unfold generate at h
    cases hb : generateBlock ast.statements g with
    | error e => simp [hb] at h
    | ok g1 =>
      simp only [hb] at h
      split at h
      · cases h
      · simp only [Except.ok.injEq] at h
        refine symbolsKept_trans (hblock _ g g1 hb) (symbolsKept_of_eq ?_)
        rw [← h]
        split <;> rfl
  · intro c t e g g2 name h hdecl
    rw [generateStatement] at h
    exact ((generate_symbols_bounded (sizeOf (ASTNode.IfElseNode c t e))).1 _ le_rfl g g2 h).2
      c t e rfl name hdecl

theorem generateValue_intLiteral_integer (v : Int) (T : IRType) (g : CodeGen)
    (h : T.isIntegerTy = true) :
    generateValue (.IntLiteral v) T g = .ok (.constInt .i32 v, g) := by
  rw [generateValue]
  simp only [h, if_true]

/-- C31. A store whose value has not the type of the slot.  Against every
integer type, the boolean `i1` included, an integer literal is lowered to an
`i32` constant.  `bool b = 1;` is accepted by the parser; its lowering completes
and stores the `i32` constant 1 into the slot of `b`, allocated with the type
`i1`; `generate` then fails only if the verifier rejects that module. -/
theorem bool_slot_stores_i32_constant :
    (∀ (v : Int) (g : CodeGen),
      generateValue (.IntLiteral v) .i1 g = .ok (.constInt .i32 v, g)) ∧
    (∀ uninit : BinaryOp, parseProgram uninit 5 (Parser.ofTokens boolOneTokens) =
      .ok boolOneProgram (Parser.ofTokens [])) ∧
    generateVarDecl .BOOL "b" (some (.IntLiteral 1)) CodeGen.new =
      .ok { afterBoolOne with
        blocks := [⟨"entry", [.alloca 0 .i1 "b", .store (.constInt .i32 1) 0]⟩] } ∧
    afterBoolOne.find "b" = some ⟨0, .i1⟩ ∧
    (Value.constInt .i32 1).type ≠ .i1 ∧
    ∀ verifyModule : CodeGen → Option String,
      generate verifyModule boolOneProgram CodeGen.new =
        match verifyModule afterBoolOne with
        | some error => .error ⟨"Generated IR is invalid: " ++ error, afterBoolOne⟩
        | none => .ok afterBoolOne :=
  ⟨fun v g => generateValue_intLiteral_integer v .i1 g rfl, fun _ => rfl, rfl, rfl, by decide,
    fun _ => rfl⟩

/-! ## `parseAssignment`: the operator of a compound assignment, the index -/

theorem assignmentTail_compound {rec : Parsers} {name name2 : String} {left value : ASTNode}
    {op : BinaryOp} {p q : Parser}
    (h : assignmentTail rec name left p = .ok (.CompoundAssignNode name2 op value) q) :
    (p.currentToken.type, op) ∈ compoundTokens := by
  unfold assignmentTail at h
  split at h
  · simp at h
  · cases ht : assignOpOfToken p.currentToken.type with
    | none => simp [ht] at h
    | some compound =>
      simp only [ht] at h
      cases he : rec.parseExpression p.advance with
      | error m => simp [he] at h
      | outOfFuel => simp [he] at h
      | ok v r =>
        simp only [he, Result.bind_ok] at h
        cases compound with
        | none => simp at h
        | some cop =>
          simp only at h
          split at h
          · simp at h
          · simp only [Result.ok.injEq, ASTNode.CompoundAssignNode.injEq] at h
            obtain ⟨⟨_, rfl, _⟩, _⟩ := h
            generalize p.currentToken.type = t at ht
            cases t <;> simp [assignOpOfToken] at ht <;> subst ht <;> decide

/-- C34, the claim as stated fails: `x %= 2` yields a `CompoundAssign` whose
operator is `MODULO`, none of `ADD`, `SUBTRACT`, `MULTIPLY`, `DIVIDE`. -/
theorem parseAssignment_modulo_equal :
    (∀ uninit : BinaryOp, parseAssignment uninit 3 (Parser.ofTokens moduloByTwo) =
      .ok (.CompoundAssignNode "x" .MODULO (.IntLiteral 2))
        (Parser.ofTokens [tok .Semicolon ";" 1])) ∧
    BinaryOp.MODULO ∉ [BinaryOp.ADD, .SUBTRACT, .MULTIPLY, .DIVIDE] :=
  ⟨fun _ => rfl, by decide⟩

/-- C34, amended.  Every `CompoundAssignNode` that `parseAssignment` returns
carries one of the operators `ADD`, `SUBTRACT`, `MULTIPLY`, `DIVIDE`, `MODULO`;
without an index the operator is the one of the token after the name: `ADD`
for `+=`, `SUBTRACT` for `-=`, `MULTIPLY` for `*=`, `DIVIDE` for `/=` and
`MODULO` for `%=`. -/
theorem parseAssignment_compound_operator (uninit : BinaryOp) (n : Nat) (p q : Parser)
    (name : String) (op : BinaryOp) (value : ASTNode)
    (h : parseAssignment uninit n p = .ok (.CompoundAssignNode name op value) q) :
    op ∈ [BinaryOp.ADD, .SUBTRACT, .MULTIPLY, .DIVIDE, .MODULO] ∧
    (p.advance.currentToken.type ≠ .LeftBracket →
      (p.advance.currentToken.type, op) ∈ compoundTokens) := by
  have hmem : ∀ t : TokenType, (t, op) ∈ compoundTokens →
      op ∈ [BinaryOp.ADD, .SUBTRACT, .MULTIPLY, .DIVIDE, .MODULO] := by
    intro t ht
    simp only [compoundTokens, List.mem_cons, Prod.mk.injEq, List.mem_singleton,
      List.not_mem_nil, or_false] at ht
    rcases ht with ⟨_, rfl⟩ | ⟨_, rfl⟩ | ⟨_, rfl⟩ | ⟨_, rfl⟩ | ⟨_, rfl⟩ <;> decide
  cases n with
  | zero => simp [parseAssignment, parsers] at h
  | succ n =>
    change parseAssignmentStep (parsers uninit n) p = _ at h
    unfold parseAssignmentStep at h
    by_cases hb : p.advance.currentToken.type = .LeftBracket
    · simp only [hb, if_true] at h
      refine ⟨?_, fun hne => absurd hb hne⟩
      cases he : (parsers uninit n).parseExpression p.advance.advance with
      | error m => simp [he] at h
      | outOfFuel => simp [he] at h
      | ok index r =>
        simp only [he, Result.bind_ok] at h
        split at h
        · simp at h
        · split at h
          · simp at h
          · exact hmem _ (assignmentTail_compound h)
    · simp only [hb, if_false] at h
      exact ⟨hmem _ (assignmentTail_compound h), fun _ => assignmentTail_compound h⟩

/-- C34 amended, at `x %= 2 ;`. -/
theorem parseAssignment_compound_operator_witness :
    parseAssignment .ADD 3 (Parser.ofTokens moduloByTwo) =
      .ok (.CompoundAssignNode "x" .MODULO (.IntLiteral 2))
        (Parser.ofTokens [tok .Semicolon ";" 1]) ∧
    BinaryOp.MODULO ∈ [BinaryOp.ADD, .SUBTRACT, .MULTIPLY, .DIVIDE, .MODULO] ∧
    (TokenType.ModuloEqual, BinaryOp.MODULO) ∈ compoundTokens :=
  have h := parseAssignment_compound_operator .ADD 3 (Parser.ofTokens moduloByTwo)
    (Parser.ofTokens [tok .Semicolon ";" 1]) "x" .MODULO (.IntLiteral 2) rfl
  ⟨rfl, h.1, h.2 (by decide)⟩

theorem isIndexOperand_iff (e : ASTNode) :
    IsIndexOperand e ↔
      (!e.isIntLiteral && !e.isVarRefNode && !e.isStrLiteral && !e.isBoolLiteral &&
        !e.isCharLiteral) = false := by
  constructor
  · rintro (⟨v, rfl⟩ | ⟨v, rfl⟩ | ⟨v, rfl⟩ | ⟨v, rfl⟩ | ⟨v, rfl⟩) <;> rfl
  · intro h
    cases e <;> simp [ASTNode.isIntLiteral, ASTNode.isVarRefNode, ASTNode.isStrLiteral,
      ASTNode.isBoolLiteral, ASTNode.isCharLiteral] at h
    · exact .inl ⟨_, rfl⟩
    · exact .inr (.inr (.inl ⟨_, rfl⟩))
    · exact .inr (.inr (.inr (.inl ⟨_, rfl⟩)))
    · exact .inr (.inr (.inr (.inr ⟨_, rfl⟩)))
    · exact .inr (.inl ⟨_, rfl⟩)

theorem assignmentTail_left (rec : Parsers) (name : String) (left left2 : ASTNode) (p : Parser)
    (h : ¬ (p.currentToken.type = .PlusPlus ∨ p.currentToken.type = .MinusMinus)) :
    assignmentTail rec name left p = assignmentTail rec name left2 p := by
  unfold assignmentTail
  simp only [h, if_false]

theorem parseAssignment_indexed (uninit : BinaryOp) (n : Nat) (p q : Parser) (index : ASTNode)
    (hbr : p.advance.currentToken.type = .LeftBracket)
    (hidx : parseExpression uninit n p.advance.advance = .ok index q)
    (hkind : IsIndexOperand index) (hclose : q.currentToken.type = .RightBracket) :
    parseAssignment uninit (n + 1) p =
      assignmentTail (parsers uninit n) p.currentToken.lexeme
        (.BinaryOpNode .INDEX (.VarRefNode p.currentToken.lexeme) (some index)) q.advance := by
  have hidx2 : (parsers uninit n).parseExpression p.advance.advance = .ok index q := hidx
  show parseAssignmentStep (parsers uninit n) p = _
  simp only [parseAssignmentStep, hbr, if_true, hidx2, Result.bind_ok,
    (isIndexOperand_iff index).1 hkind, Bool.false_eq_true, if_false, hclose, ne_eq,
    not_true_eq_false]

theorem parseAssignment_plain (uninit : BinaryOp) (n : Nat) (p : Parser)
    (hbr : p.advance.currentToken.type ≠ .LeftBracket) :
    parseAssignment uninit (n + 1) p =
      assignmentTail (parsers uninit n) p.currentToken.lexeme
        (.VarRefNode p.currentToken.lexeme) p.advance := by
  show parseAssignmentStep (parsers uninit n) p = _
  simp only [parseAssignmentStep, hbr, if_false]

/-- C36, the claim as stated fails: with a float literal as index, `a[1.5] = 1`
is rejected, while `a = 1` is accepted. -/
theorem parseAssignment_float_index_rejected :
    (∀ uninit : BinaryOp, parseAssignment uninit 3 (Parser.ofTokens floatIndexAssign) =
      .error "Array index must be an integer or identifier at line 1") ∧
    ∀ uninit : BinaryOp, parseAssignment uninit 3 (Parser.ofTokens plainAssign) =
      .ok (.AssignNode "a" (.IntLiteral 1)) (Parser.ofTokens [tok .Semicolon ";" 1]) :=
  ⟨fun _ => rfl, fun _ => rfl⟩

/-- C36, amended.  Let the index between `[` and `]` parse to an integer,
string, boolean or character literal or to a variable reference.  When `=` or a
compound operator follows the `]`, `parseAssignment` on `a[i] ...` returns what
it returns on the stream without `[i]`: `Assign(a, v)` for `=`,
`CompoundAssign(a, op, v)` for `op=`, with no trace of the index.  When `++` or
`--` follows, it returns the `UnaryOp` on `BinaryOp(INDEX, a, i)`, and without
`[i]` the `UnaryOp` on the variable `a`.  An index that parses to any other node
makes `parseAssignment` fail. -/
theorem parseAssignment_index_discarded (uninit : BinaryOp) (n : Nat) (p q : Parser)
    (index : ASTNode) (hbr : p.advance.currentToken.type = .LeftBracket)
    (hidx : parseExpression uninit n p.advance.advance = .ok index q) :
    (IsIndexOperand index → q.currentToken.type = .RightBracket →
    (∀ c, assignOpOfToken q.advance.currentToken.type = some c →
      parseAssignment uninit (n + 1) p = parseAssignment uninit (n + 1) (withoutIndex p q) ∧
      ∀ v r, parseExpression uninit n q.advance.advance = .ok v r →
        (c = none →
          parseAssignment uninit (n + 1) p = .ok (.AssignNode p.currentToken.lexeme v) r) ∧
        (∀ op, c = some op → IsCompoundOperand v →
          parseAssignment uninit (n + 1) p =
            .ok (.CompoundAssignNode p.currentToken.lexeme op v) r)) ∧
    (q.advance.currentToken.type = .PlusPlus ∨ q.advance.currentToken.type = .MinusMinus →
      parseAssignment uninit (n + 1) p =
        .ok (.UnaryOpNode
          (if q.advance.currentToken.type = .PlusPlus then .INCREMENT else .DECREMENT)
          (.BinaryOpNode .INDEX (.VarRefNode p.currentToken.lexeme) (some index)))
          q.advance.advance ∧
      parseAssignment uninit (n + 1) (withoutIndex p q) =
        .ok (.UnaryOpNode
          (if q.advance.currentToken.type = .PlusPlus then .INCREMENT else .DECREMENT)
          (.VarRefNode p.currentToken.lexeme)) q.advance.advance)) ∧
    (¬ IsIndexOperand index →
      parseAssignment uninit (n + 1) p =
        .error (atLine "Array index must be an integer or identifier at line " q)) := by
  have hadv : (withoutIndex p q).advance = q.advance := rfl
  have hcur : (withoutIndex p q).currentToken = p.currentToken := rfl
  refine ⟨?_, ?_⟩
  rotate_left
  · intro hbad
    have hidx2 : (parsers uninit n).parseExpression p.advance.advance = .ok index q := hidx
    have hguard : (!index.isIntLiteral && !index.isVarRefNode && !index.isStrLiteral &&
        !index.isBoolLiteral && !index.isCharLiteral) = true := by
      cases hg : (!index.isIntLiteral && !index.isVarRefNode && !index.isStrLiteral &&
        !index.isBoolLiteral && !index.isCharLiteral) with
      | true => rfl
      | false => exact absurd ((isIndexOperand_iff index).2 hg) hbad
    show parseAssignmentStep (parsers uninit n) p = _
    simp only [parseAssignmentStep, hbr, if_true, hidx2, Result.bind_ok, hguard]
  intro hkind hclose
  have hindexed := parseAssignment_indexed uninit n p q index hbr hidx hkind hclose
  constructor
  · intro c hc
    have hpost : ¬ (q.advance.currentToken.type = .PlusPlus ∨
        q.advance.currentToken.type = .MinusMinus) := by
      rintro (h | h) <;> rw [h] at hc <;> simp [assignOpOfToken] at hc
    have hnb : (withoutIndex p q).advance.currentToken.type ≠ .LeftBracket := by
      rw [hadv]
      intro h
      rw [h] at hc
      simp [assignOpOfToken] at hc
    refine ⟨?_, ?_⟩
    · rw [hindexed, parseAssignment_plain uninit n _ hnb, hadv, hcur]
      exact assignmentTail_left _ _ _ _ _ hpost
    · intro v r hv
      have hv2 : (parsers uninit n).parseExpression q.advance.advance = .ok v r := hv
      rw [hindexed]
      unfold assignmentTail
      simp only [hpost, if_false, hc, hv2, Result.bind_ok]
      refine ⟨?_, ?_⟩
      · intro hnone
        subst hnone
        rfl
      · intro op hop hoperand
        subst hop
        simp only [(isCompoundOperand_iff v).1 hoperand, Bool.false_eq_true, if_false]
  · intro hpost
    have hnb : (withoutIndex p q).advance.currentToken.type ≠ .LeftBracket := by
      rw [hadv]
      rcases hpost with h | h <;> rw [h] <;> decide
    rw [hindexed, parseAssignment_plain uninit n _ hnb, hadv, hcur]
    unfold assignmentTail
    rw [if_pos hpost, if_pos hpost]
    exact ⟨rfl, rfl⟩

/-- C36 amended, at `a [ i ] = 1 ;` against `a = 1 ;`, at `a [ i ] ++ ;`, and at
`a [ 1.5 ] = 1 ;`, whose index is a float literal. -/
theorem parseAssignment_index_discarded_witness :
    withoutIndex (Parser.ofTokens indexAssign) (Parser.ofTokens (indexAssign.drop 3)) =
      Parser.ofTokens plainAssign ∧
    parseAssignment .ADD 3 (Parser.ofTokens indexAssign) =
      parseAssignment .ADD 3 (Parser.ofTokens plainAssign) ∧
    parseAssignment .ADD 3 (Parser.ofTokens indexAssign) =
      .ok (.AssignNode "a" (.IntLiteral 1)) (Parser.ofTokens [tok .Semicolon ";" 1]) ∧
    parseAssignment .ADD 3 (Parser.ofTokens indexIncrement) =
      .ok (.UnaryOpNode .INCREMENT (.BinaryOpNode .INDEX (.VarRefNode "a")
        (some (.VarRefNode "i")))) (Parser.ofTokens [tok .Semicolon ";" 1]) ∧
    parseAssignment .ADD 3 (Parser.ofTokens floatIndexAssign) =
      .error "Array index must be an integer or identifier at line 1" :=
  have h := (parseAssignment_index_discarded .ADD 2 (Parser.ofTokens indexAssign)
    (Parser.ofTokens (indexAssign.drop 3)) (.VarRefNode "i") rfl rfl).1
    (.inr (.inl ⟨"i", rfl⟩)) rfl
  ⟨rfl, (h.1 none rfl).1,
    ((h.1 none rfl).2 (.IntLiteral 1) (Parser.ofTokens [tok .Semicolon ";" 1]) rfl).1 rfl,
    (((parseAssignment_index_discarded .ADD 2 (Parser.ofTokens indexIncrement)
      (Parser.ofTokens (indexIncrement.drop 3)) (.VarRefNode "i") rfl rfl).1
      (.inr (.inl ⟨"i", rfl⟩)) rfl).2 (.inl rfl)).1,
    (parseAssignment_index_discarded .ADD 2 (Parser.ofTokens floatIndexAssign)
      (Parser.ofTokens (floatIndexAssign.drop 3)) (.FloatLiteral (.stof "1.5")) rfl rfl).2
      (by rintro (⟨v, h⟩ | ⟨v, h⟩ | ⟨v, h⟩ | ⟨v, h⟩ | ⟨v, h⟩) <;> cases h)⟩
/-! ## `parseMatch`: the comma between cases -/

theorem matchCaseParsed_of_entry {uninit : BinaryOp} {n : Nat} {p p2 : Parser}
    {c : Option ASTNode × ASTNode} (h : MatchCaseEntry uninit n p c p2) :
    MatchCaseParsed uninit n p c
      (if p2.currentToken.type = .Comma ∧ p2.peekToken.type ≠ .RightBrace then p2.advance
        else p2) := by
  obtain ⟨hrb, heof, p1, hval, harrow, hbody⟩ := h
  exact ⟨hrb, heof, p1, p2, hval, harrow, hbody, rfl⟩

theorem parseExpression_at_comma (uninit : BinaryOp) (n : Nat) (p : Parser)
    (hc : p.currentToken.type = .Comma) :
    (parsers uninit (n + 2)).parseExpression p = .error "Expected primary expression" := by
  have hprim : (parsers uninit (n + 1)).parsePrimary p = .error "Expected primary expression" := by
    show parsePrimaryStep (n + 1) (parsers uninit n) p = _
    simp [parsePrimaryStep, hc]
  show parseExpressionStep uninit (n + 2) (parsers uninit (n + 1)) p = _
  simp [parseExpressionStep, hc, hprim]

theorem matchLoop_at_comma (uninit : BinaryOp) (n k : Nat)
    (acc : List (Option ASTNode × ASTNode)) (hasDefault : Bool) (p : Parser)
    (hc : p.currentToken.type = .Comma) :
    matchLoop (parsers uninit (n + 2)) (k + 1) acc hasDefault p =
      .error "Expected primary expression" := by
  rw [matchLoop]
  simp [hc, parseExpression_at_comma uninit n p hc]

theorem matchLoop_at_brace (rec : Parsers) (k : Nat) (acc : List (Option ASTNode × ASTNode))
    (hasDefault : Bool) (p : Parser) (hc : p.currentToken.type = .RightBrace) :
    matchLoop rec (k + 1) acc hasDefault p = .ok acc p := by
  rw [matchLoop]
  simp [hc]

/-- C40. The comma between the cases of a `match`.  After a case the loop of
`parseMatch` steps over a comma exactly when the token after the comma is not
`}`, and goes on from the end of the case otherwise.  Cases parsed in this way
up to the closing `}` give the `MatchNode` of these cases in order, with or
without commas between them; cases after which a comma is current (a comma
before `}` is not stepped over) make `parseMatch` fail.
`match x { 1 -> print(1); , 2 -> print(2); }` and
`match x { 1 -> print(1); 2 -> print(2); }` parse to the same node, and
`match x { 1 -> print(1); , 2 -> print(2); , }` fails. -/
theorem parseMatch_comma_between_cases (uninit : BinaryOp) :
    (∀ (n k : Nat) (acc : List (Option ASTNode × ASTNode)) (hasDefault : Bool)
      (p p2 : Parser) (c : Option ASTNode × ASTNode),
      MatchCaseEntry uninit n p c p2 → (c.1 = none → hasDefault = false) →
      matchLoop (parsers uninit n) (k + 1) acc hasDefault p =
        matchLoop (parsers uninit n) k (acc ++ [c]) (hasDefault || c.1.isNone)
          (if p2.currentToken.type = .Comma ∧ p2.peekToken.type ≠ .RightBrace then p2.advance
            else p2)) ∧
    (∀ (n : Nat) (p p1 q : Parser) (e : ASTNode) (cs : List (Option ASTNode × ASTNode)),
      parseExpression uninit (n + 2) p.advance = .ok e p1 →
      p1.currentToken.type = .LeftBrace →
      MatchCasesRun uninit (n + 2) p1.advance cs q → countDefault cs ≤ 1 →
      cs.length ≤ n + 2 → q.currentToken.type = .Comma →
      parseMatch uninit (n + 3) p = .error "Expected primary expression") ∧
    (∀ (n : Nat) (p p1 q : Parser) (e : ASTNode) (cs : List (Option ASTNode × ASTNode)),
      parseExpression uninit n p.advance = .ok e p1 → p1.currentToken.type = .LeftBrace →
      MatchCasesRun uninit n p1.advance cs q → countDefault cs ≤ 1 → cs.length ≤ n →
      q.currentToken.type = .RightBrace →
      parseMatch uninit (n + 1) p = .ok (.MatchNode e cs) q.advance) ∧
    parseMatch uninit 5 (Parser.ofTokens matchWithComma) = .ok matchOneTwo (Parser.ofTokens []) ∧
    parseMatch uninit 5 (Parser.ofTokens matchWithoutComma) =
      .ok matchOneTwo (Parser.ofTokens []) ∧
    parseMatch uninit 5 (Parser.ofTokens matchTrailingComma) =
      .error "Expected primary expression" := by
  refine ⟨?_, ?_, ?_, rfl, rfl, rfl⟩
  · intro n k acc hasDefault p p2 c hentry hd
    exact matchLoop_case uninit n k acc hasDefault (matchCaseParsed_of_entry hentry) hd
  · intro n p p1 q e cs hexpr hbrace hrun hdef hlen hcomma
    obtain ⟨k, hk⟩ : ∃ k, n + 3 = cs.length + (k + 1) := ⟨n + 2 - cs.length, by omega⟩
    have hexpr2 : (parsers uninit (n + 2)).parseExpression p.advance = .ok e p1 := hexpr
    show parseMatchStep (n + 3) (parsers uninit (n + 2)) p = _
    simp only [parseMatchStep, hexpr2, Result.bind_ok, hbrace, ne_eq, not_true_eq_false,
      if_false]
    rw [hk, matchLoop_run uninit (n + 2) hrun (k + 1) [] false (fun h => by simp at h) hdef,
      matchLoop_at_comma uninit n k _ _ q hcomma]
    rfl
  · intro n p p1 q e cs hexpr hbrace hrun hdef hlen hclose
    obtain ⟨k, hk⟩ : ∃ k, n + 1 = cs.length + (k + 1) := ⟨n - cs.length, by omega⟩
    have hexpr2 : (parsers uninit n).parseExpression p.advance = .ok e p1 := hexpr
    show parseMatchStep (n + 1) (parsers uninit n) p = _
    simp only [parseMatchStep, hexpr2, Result.bind_ok, hbrace, ne_eq, not_true_eq_false,
      if_false]
    rw [hk, matchLoop_run uninit n hrun (k + 1) [] false (fun h => by simp at h) hdef,
      matchLoop_at_brace _ k _ _ q hclose]
    simp only [Result.bind_ok, hclose, ne_eq, not_true_eq_false, if_false, List.nil_append]

/-- C40 at `match x { 1 -> print(1); , 2 -> print(2); , }`: after the two cases
the comma before `}` is current, and the match is rejected. -/
theorem parseMatch_comma_between_cases_witness :
    parseMatch .ADD 5 (Parser.ofTokens matchTrailingComma) =
      .error "Expected primary expression" :=
  (parseMatch_comma_between_cases .ADD).2.1 2 (Parser.ofTokens matchTrailingComma)
    (Parser.ofTokens (matchTrailingComma.drop 2))
    (Parser.ofTokens (matchTrailingComma.drop 18)) (.VarRefNode "x")
    [(some (.IntLiteral 1), .PrintNode (.IntLiteral 1)),
     (some (.IntLiteral 2), .PrintNode (.IntLiteral 2))] rfl rfl
    (.cons (q := Parser.ofTokens (matchTrailingComma.drop 11))
      ⟨by decide, by decide, Parser.ofTokens (matchTrailingComma.drop 4),
        Parser.ofTokens (matchTrailingComma.drop 10),
        .inr ⟨by decide, _, rfl, rfl⟩, rfl, .inr ⟨by decide, rfl⟩, rfl⟩
      (.cons (q := Parser.ofTokens (matchTrailingComma.drop 18))
        ⟨by decide, by decide, Parser.ofTokens (matchTrailingComma.drop 12),
          Parser.ofTokens (matchTrailingComma.drop 18),
          .inr ⟨by decide, _, rfl, rfl⟩, rfl, .inr ⟨by decide, rfl⟩, rfl⟩
        (.nil _)))
    (by decide) (by decide) rfl

/-! ## Progress and termination of the parser -/

theorem rem_advance_le (p : Parser) : p.advance.rem ≤ p.rem := by
  obtain ⟨⟨pending⟩, cur, peek⟩ := p
  cases pending with
  | nil =>
    simp only [Parser.rem, Parser.advance, Lexer.nextToken, eofToken, List.length_nil]
    split <;> split <;> simp_all
  | cons t ts =>
    simp only [Parser.rem, Parser.advance, Lexer.nextToken, List.length_cons]
    split <;> split <;> split <;> omega

theorem rem_advance_lt {p : Parser} {t : TokenType} (h : p.currentToken.type = t)
    (ht : t ≠ .Eof) : p.advance.rem < p.rem := by
  have hc : p.currentToken.type ≠ .Eof := h ▸ ht
  obtain ⟨⟨pending⟩, cur, peek⟩ := p
  cases pending with
  | nil =>
    simp only [Parser.rem, Parser.advance, Lexer.nextToken, eofToken, List.length_nil]
    simp only at hc
    simp [hc]
  | cons t ts =>
    simp only [Parser.rem, Parser.advance, Lexer.nextToken, List.length_cons]
    simp only at hc
    simp only [hc, if_false]
    split <;> split <;> omega

theorem good_error {α : Type} (enough : Prop) (bound : Nat) (m : String) :
    Good enough bound (.error m : Result α) := by
  unfold Good
  exact ⟨fun _ h => (by cases h), fun _ _ h => (by cases h)⟩

theorem good_ok {α : Type} {enough : Prop} {bound : Nat} {a : α} {q : Parser}
    (h : q.rem < bound) : Good enough bound (.ok a q) := by
  unfold Good
  exact ⟨fun _ h => (by cases h), fun _ _ h => (by cases h; exact h)⟩

theorem good_weaken {α : Type} {enough enough1 : Prop} {bound bound1 : Nat} {r : Result α}
    (hr : Good enough1 bound1 r) (he : enough → enough1) (hb : bound1 ≤ bound) :
    Good enough bound r := by
  unfold Good at hr ⊢
  exact ⟨fun h => hr.1 (he h), fun a q h => Nat.lt_of_lt_of_le (hr.2 a q h) hb⟩

theorem good_bind {α β : Type} {enough enough1 : Prop} {bound b : Nat} {r : Result α}
    {f : α → Parser → Result β} (hr : Good enough1 b r) (he : enough → enough1)
    (hf : ∀ a q, q.rem < b → Good enough bound (f a q)) :
    Good enough bound (r.bind f) := by
  cases r with
  | ok a q => exact hf a q (hr.2 a q rfl)
  | error m => exact good_error _ _ m
  | outOfFuel =>
    unfold Good
    exact ⟨fun h => absurd rfl (hr.1 (he h)), fun _ _ h => by cases h⟩

theorem unaryBuiltin_good {rec : Parsers} {n : Nat} (hrec : ParsersGood rec n) (op : UnaryOp)
    (opName : String) (p : Parser) {t : TokenType} (h : p.currentToken.type = t)
    (ht : t ≠ .Eof) :
    Good (6 * p.rem + 1 ≤ n + 1) p.rem (unaryBuiltin rec op opName p) := by
  have s := rem_advance_lt h ht
  have a2 := rem_advance_le p.advance
  unfold unaryBuiltin
  dsimp only
  split
  · exact good_error _ _ _
  · refine good_bind (hrec.parseExpression _) (fun _ => by omega) ?_
    intro operand q hq
    have b1 := rem_advance_le q
    split
    · exact good_error _ _ _
    · split
      · exact good_error _ _ _
      · exact good_ok (by omega)

theorem arrayBuiltin_good {rec : Parsers} {n : Nat} (hrec : ParsersGood rec n) (op : BinaryOp)
    (opName : String) (p : Parser) {t : TokenType} (h : p.currentToken.type = t)
    (ht : t ≠ .Eof) :
    Good (6 * p.rem + 1 ≤ n + 1) p.rem (arrayBuiltin rec op opName p) := by
  have s := rem_advance_lt h ht
  have a2 := rem_advance_le p.advance
  unfold arrayBuiltin
  dsimp only
  split
  · exact good_error _ _ _
  · refine good_bind (hrec.parseExpression _) (fun _ => by omega) ?_
    intro arr1 q hq
    have b1 := rem_advance_le q
    split
    · exact good_error _ _ _
    · split
      · exact good_error _ _ _
      · refine good_bind (hrec.parseExpression _) (fun _ => by omega) ?_
        intro arr2 q2 hq2
        have c1 := rem_advance_le q2
        split
        · exact good_error _ _ _
        · split
          · exact good_error _ _ _
          · exact good_ok (by omega)

theorem arrayLoop_good {rec : Parsers} {n : Nat} (hrec : ParsersGood rec n) :
    ∀ (k : Nat) (elements : List ASTNode) (p : Parser),
      Good (6 * p.rem + 2 ≤ n ∧ p.rem < k) p.rem (arrayLoop rec k elements p) := by
  intro k
  induction k with
  | zero =>
    intro elements p
    unfold Good
    exact ⟨fun h => absurd h.2 (Nat.not_lt_zero _), fun _ _ h => by simp [arrayLoop] at h⟩
  | succ k ih =>
    intro elements p
    rw [arrayLoop]
    refine good_bind (hrec.parseExpression _) (fun h => h.1) ?_
    intro expr q hq
    have b1 := rem_advance_le q
    split
    · exact good_error _ _ _
    · dsimp only
      split
      · split
        · exact good_weaken (ih _ q.advance) (fun h => by omega) (by omega)
        · exact good_ok (by omega)
      · exact good_ok (by omega)

theorem parsePrimaryStep_good {rec : Parsers} {n : Nat} (hrec : ParsersGood rec n)
    (p : Parser) : Good (6 * p.rem + 1 ≤ n + 1) p.rem (parsePrimaryStep (n + 1) rec p) := by
  have a1 := rem_advance_le p
  have a2 := rem_advance_le p.advance
  have a3 := rem_advance_le p.advance.advance
  have a4 := rem_advance_le p.advance.advance.advance
  unfold parsePrimaryStep
  dsimp only
  by_cases h1 : p.currentToken.type = .LeftParen
  · rw [if_pos h1]
    have s := rem_advance_lt h1 (by decide)
    refine good_bind (hrec.parseExpression _) (fun _ => by omega) ?_
    intro expr q hq
    have b1 := rem_advance_le q
    split
    · exact good_error _ _ _
    · exact good_ok (by omega)
  rw [if_neg h1]
  by_cases h2 : p.currentToken.type = .IntLiteral ∨ p.currentToken.type = .SignedIntLiteral
  · rw [if_pos h2]
    have s : p.advance.rem < p.rem := by
      rcases h2 with h | h
      · exact rem_advance_lt h (by decide)
      · exact rem_advance_lt h (by decide)
    split
    · exact good_error _ _ _
    · exact good_ok s
  rw [if_neg h2]
  by_cases h3 : p.currentToken.type = .StrLiteral
  · rw [if_pos h3]
    exact good_ok (rem_advance_lt h3 (by decide))
  rw [if_neg h3]
  by_cases h4 : p.currentToken.type = .BoolLiteral
  · rw [if_pos h4]
    exact good_ok (rem_advance_lt h4 (by decide))
  rw [if_neg h4]
  by_cases h5 : p.currentToken.type = .FloatLiteral
  · rw [if_pos h5]
    split
    · exact good_error _ _ _
    · exact good_ok (rem_advance_lt h5 (by decide))
  rw [if_neg h5]
  by_cases h6 : p.currentToken.type = .CharLiteral
  · rw [if_pos h6]
    exact good_ok (rem_advance_lt h6 (by decide))
  rw [if_neg h6]
  by_cases h7 : p.currentToken.type = .Ident
  · rw [if_pos h7]
    have s := rem_advance_lt h7 (by decide)
    split
    · refine good_bind (hrec.parseExpression _) (fun _ => by omega) ?_
      intro index q hq
      have b1 := rem_advance_le q
      split
      · exact good_error _ _ _
      · split
        · exact good_error _ _ _
        · exact good_ok (by omega)
    · split
      · split
        · exact good_error _ _ _
        · split
          · exact good_error _ _ _
          · split
            · exact good_error _ _ _
            · have a5 := rem_advance_le p.advance.advance.advance.advance
              exact good_ok (by omega)
      · exact good_ok s
  rw [if_neg h7]
  by_cases h8 : p.currentToken.type = .LeftBracket
  · rw [if_pos h8]
    have s := rem_advance_lt h8 (by decide)
    refine good_bind (b := p.rem) ?_ (fun h => h) ?_
    · split
      · exact good_weaken (arrayLoop_good hrec (n + 1) [] p.advance) (fun _ => by omega)
          (by omega)
      · exact good_ok s
    · intro elements q hq
      have b1 := rem_advance_le q
      split
      · exact good_error _ _ _
      · exact good_ok (by omega)
  rw [if_neg h8]
  by_cases h9 : p.currentToken.type = .Concat
  · rw [if_pos h9]
    have s := rem_advance_lt h9 (by decide)
    split
    · exact good_error _ _ _
    · refine good_bind (hrec.parseExpression _) (fun _ => by omega) ?_
      intro left q hq
      have b1 := rem_advance_le q
      split
      · exact good_error _ _ _
      · refine good_bind (hrec.parseExpression _) (fun _ => by omega) ?_
        intro right q2 hq2
        have c1 := rem_advance_le q2
        split
        · exact good_error _ _ _
        · exact good_ok (by omega)
  rw [if_neg h9]
  by_cases h10 : p.currentToken.type = .Abs
  · rw [if_pos h10]
    have s := rem_advance_lt h10 (by decide)
    split
    · exact good_error _ _ _
    · refine good_bind (hrec.parseExpression _) (fun _ => by omega) ?_
      intro expr q hq
      have b1 := rem_advance_le q
      split
      · exact good_error _ _ _
      · split
        · exact good_error _ _ _
        · exact good_ok (by omega)
  rw [if_neg h10]
  by_cases h11 : p.currentToken.type = .Pow
  · rw [if_pos h11]
    have s := rem_advance_lt h11 (by decide)
    split
    · exact good_error _ _ _
    · refine good_bind (hrec.parseExpression _) (fun _ => by omega) ?_
      intro base q hq
      have b1 := rem_advance_le q
      split
      · exact good_error _ _ _
      · split
        · exact good_error _ _ _
        · refine good_bind (hrec.parseExpression _) (fun _ => by omega) ?_
          intro exp q2 hq2
          have c1 := rem_advance_le q2
          split
          · exact good_error _ _ _
          · split
            · exact good_error _ _ _
            · exact good_ok (by omega)
  rw [if_neg h11]
  by_cases h12 : p.currentToken.type = .Length
  · rw [if_pos h12]
    exact unaryBuiltin_good hrec _ _ p h12 (by decide)
  rw [if_neg h12]
  by_cases h13 : p.currentToken.type = .Min
  · rw [if_pos h13]
    exact unaryBuiltin_good hrec _ _ p h13 (by decide)
  rw [if_neg h13]
  by_cases h14 : p.currentToken.type = .Max
  · rw [if_pos h14]
    exact unaryBuiltin_good hrec _ _ p h14 (by decide)
  rw [if_neg h14]
  by_cases h15 : p.currentToken.type = .Index
  · rw [if_pos h15]
    have s := rem_advance_lt h15 (by decide)
    split
    · exact good_error _ _ _
    · refine good_bind (hrec.parseExpression _) (fun _ => by omega) ?_
      intro arr q hq
      have b1 := rem_advance_le q
      split
      · exact good_error _ _ _
      · split
        · exact good_error _ _ _
        · refine good_bind (hrec.parseExpression _) (fun _ => by omega) ?_
          intro idx q2 hq2
          have c1 := rem_advance_le q2
          split
          · exact good_error _ _ _
          · split
            · exact good_error _ _ _
            · exact good_ok (by omega)
  rw [if_neg h15]
  by_cases h16 : p.currentToken.type = .Multiply
  · rw [if_pos h16]
    exact arrayBuiltin_good hrec _ _ p h16 (by decide)
  rw [if_neg h16]
  by_cases h17 : p.currentToken.type = .Add
  · rw [if_pos h17]
    exact arrayBuiltin_good hrec _ _ p h17 (by decide)
  rw [if_neg h17]
  by_cases h18 : p.currentToken.type = .Subtract
  · rw [if_pos h18]
    exact arrayBuiltin_good hrec _ _ p h18 (by decide)
  rw [if_neg h18]
  by_cases h19 : p.currentToken.type = .Divide
  · rw [if_pos h19]
    exact arrayBuiltin_good hrec _ _ p h19 (by decide)
  rw [if_neg h19]
  exact good_error _ _ _

theorem rem_advance_lt_ne {p : Parser} (h : p.currentToken.type ≠ .Eof) :
    p.advance.rem < p.rem :=
  rem_advance_lt rfl h

theorem exprLoop_good (uninit : BinaryOp) {rec : Parsers} {n : Nat} (hrec : ParsersGood rec n) :
    ∀ (k : Nat) (left : ASTNode) (p : Parser),
      Good (6 * p.rem + 1 ≤ n ∧ p.rem < k) (p.rem + 1) (exprLoop uninit rec k left p) := by
  intro k
  induction k with
  | zero =>
    intro left p
    unfold Good
    exact ⟨fun h => absurd h.2 (Nat.not_lt_zero _), fun _ _ h => (by simp [exprLoop] at h)⟩
  | succ k ih =>
    intro left p
    rw [exprLoop]
    dsimp only
    split
    next hchain =>
      have s : p.advance.rem < p.rem := by
        apply rem_advance_lt_ne
        intro heof
        rw [heof] at hchain
        exact absurd hchain (by decide)
      split
      · refine good_bind (hrec.parsePrimary _) (fun h => by omega) ?_
        intro right q hq
        split
        · exact good_error _ _ _
        · split
          · exact good_weaken (ih _ q) (fun h => by omega) (by omega)
          · exact good_weaken (ih _ q) (fun h => by omega) (by omega)
      · split
        · split
          · exact good_error _ _ _
          · refine good_bind (hrec.parsePrimary _) (fun h => by omega) ?_
            intro right q hq
            split
            · split
              · exact good_weaken (ih _ q) (fun h => by omega) (by omega)
              · exact good_weaken (ih _ q) (fun h => by omega) (by omega)
            · exact good_weaken (ih _ q) (fun h => by omega) (by omega)
        · split
          · exact good_error _ _ _
          · exact good_weaken (ih _ p.advance) (fun h => by omega) (by omega)
    next => exact good_ok (by omega)

theorem exprPostfix_good (enough : Prop) (left : ASTNode) (p : Parser) :
    Good enough (p.rem + 1) (exprPostfix left p) := by
  have a1 := rem_advance_le p
  unfold exprPostfix
  dsimp only
  split
  · split
    · exact good_error _ _ _
    · split
      · split
        · exact good_error _ _ _
        · exact good_ok (by omega)
      · exact good_ok (by omega)
  · exact good_ok (by omega)

theorem exprTail_good (uninit : BinaryOp) {rec : Parsers} {n : Nat} (hrec : ParsersGood rec n)
    (p0 : Parser) (left : ASTNode) (q : Parser) (hq : q.rem < p0.rem) :
    Good (6 * p0.rem + 2 ≤ n + 1) p0.rem
      ((exprLoop uninit rec (n + 1) left q).bind fun left p =>
        (exprPostfix left p).bind fun left p => rec.parseTernary left p) := by
  refine good_bind (exprLoop_good uninit hrec (n + 1) left q) (fun h => by omega) ?_
  intro left2 q2 hq2
  refine good_bind (exprPostfix_good (6 * p0.rem + 2 ≤ n + 1) left2 q2) (fun h => h) ?_
  intro left3 q3 hq3
  exact good_weaken (hrec.parseTernary left3 q3) (fun h => by omega) (by omega)

theorem parseExpressionStep_good (uninit : BinaryOp) {rec : Parsers} {n : Nat}
    (hrec : ParsersGood rec n) (p : Parser) :
    Good (6 * p.rem + 2 ≤ n + 1) p.rem (parseExpressionStep uninit (n + 1) rec p) := by
  have a1 := rem_advance_le p
  unfold parseExpressionStep
  dsimp only
  split
  next hparen =>
    have s : p.advance.rem < p.rem := by
      rcases hparen with h | h
      · exact rem_advance_lt h (by decide)
      · exact rem_advance_lt h (by decide)
    refine good_bind (hrec.parseExpression _) (fun _ => by omega) ?_
    intro left q hq
    have b1 := rem_advance_le q
    split
    · exact good_error _ _ _
    · split
      · exact exprTail_good uninit hrec p left q.advance (by omega)
      · split
        · exact good_ok (by omega)
        · exact good_ok (by omega)
  next =>
    refine good_bind (hrec.parsePrimary _) (fun _ => by omega) ?_
    intro left q hq
    exact exprTail_good uninit hrec p left q hq

theorem parseTernaryStep_good {rec : Parsers} {n : Nat} (hrec : ParsersGood rec n)
    (condition : ASTNode) (p : Parser) :
    Good (6 * p.rem + 1 ≤ n + 1) (p.rem + 1) (parseTernaryStep rec condition p) := by
  unfold parseTernaryStep
  dsimp only
  split
  next hq =>
    have s := rem_advance_lt hq (by decide)
    refine good_bind (hrec.parseExpression _) (fun _ => by omega) ?_
    intro trueBranch q hq
    have b1 := rem_advance_le q
    split
    · exact good_error _ _ _
    · refine good_bind (hrec.parseExpression _) (fun _ => by omega) ?_
      intro falseBranch q2 hq2
      split
      · exact good_ok (by omega)
      · exact good_error _ _ _
  next => exact good_ok (by omega)

theorem identLoop_good (enough : Prop) :
    ∀ (k : Nat) (identNames : List String) (p : Parser),
      Good (enough ∧ p.rem < k) (p.rem + 1) (identLoop k identNames p) := by
  intro k
  induction k with
  | zero =>
    intro identNames p
    unfold Good
    exact ⟨fun h => absurd h.2 (Nat.not_lt_zero _), fun _ _ h => (by simp [identLoop] at h)⟩
  | succ k ih =>
    intro identNames p
    have a1 := rem_advance_le p
    rw [identLoop]
    dsimp only
    split
    · exact good_error _ _ _
    next hident =>
      have s := rem_advance_lt (of_not_not hident) (by decide)
      split
      · exact good_ok (by omega)
      · split
        · exact good_error _ _ _
        · exact good_weaken (ih _ p.advance.advance) (fun h => ⟨h.1, by omega⟩) (by omega)

theorem multiVariableTail_good {rec : Parsers} {n : Nat} (hrec : ParsersGood rec n)
    (type : VarType) (value : ASTNode) (identNames : List String) (p : Parser) :
    Good (6 * p.rem + 2 ≤ n) (p.rem + 1) (multiVariableTail rec type value identNames p) := by
  have a1 := rem_advance_le p
  unfold multiVariableTail
  split
  · exact hrec.parseVarDeclMultiBoth _ _ _ _
  · split
    · exact good_error _ _ _
    · split
      · exact good_error _ _ _
      · exact good_ok (by omega)

theorem parseVarDeclMultiVariableStep_good {rec : Parsers} {n : Nat} (hrec : ParsersGood rec n)
    (type : VarType) (name : String) (p : Parser) :
    Good (6 * p.rem + 3 ≤ n + 1) (p.rem + 1)
      (parseVarDeclMultiVariableStep (n + 1) rec type name p) := by
  unfold parseVarDeclMultiVariableStep
  refine good_bind (identLoop_good (6 * p.rem + 3 ≤ n + 1) (n + 1) [name] p)
    (fun h => ⟨h, by omega⟩) ?_
  intro identNames q hq
  have b1 := rem_advance_le q
  have b2 := rem_advance_le q.advance
  dsimp only
  split
  · split
    · exact good_error _ _ _
    · exact good_weaken (multiVariableTail_good hrec _ _ _ _) (fun h => by omega) (by omega)
  · split
    · exact good_weaken (multiVariableTail_good hrec _ _ _ _) (fun h => by omega) (by omega)
    · split
      · refine good_bind (hrec.parsePrimary _) (fun _ => by omega) ?_
        intro value q2 hq2
        have c1 := rem_advance_le q2
        split
        · exact good_error _ _ _
        · exact good_weaken (multiVariableTail_good hrec _ _ _ _) (fun h => by omega) (by omega)
      · split
        · split
          · exact good_error _ _ _
          · exact good_weaken (multiVariableTail_good hrec _ _ _ _) (fun h => by omega)
              (by omega)
        · split
          · exact good_weaken (multiVariableTail_good hrec _ _ _ _) (fun h => by omega)
              (by omega)
          · split
            · exact good_weaken (multiVariableTail_good hrec _ _ _ _) (fun h => by omega)
                (by omega)
            · exact good_error _ _ _

theorem multiBothLoop_good {rec : Parsers} {n : Nat} (hrec : ParsersGood rec n)
    (type : VarType) :
    ∀ (names : List String) (declarations : List (VarType × String × Option ASTNode))
      (p : Parser),
      Good (6 * p.rem + 1 ≤ n) (p.rem + 1) (multiBothLoop rec type names declarations p) := by
  intro names
  induction names with
  | nil =>
    intro declarations p
    rw [multiBothLoop]
    exact good_ok (by omega)
  | cons name rest ih =>
    intro declarations p
    have a1 := rem_advance_le p
    rw [multiBothLoop]
    dsimp only
    split
    · exact good_error _ _ _
    · refine good_bind (b := p.rem + 1) ?_ (fun h => h) ?_
      · split
        · split
          · exact good_error _ _ _
          · exact good_ok (by omega)
        · split
          · exact good_ok (by omega)
          · split
            · refine good_bind (hrec.parsePrimary _) (fun _ => by omega) ?_
              intro value q hq
              split
              · exact good_error _ _ _
              · exact good_ok (by omega)
            · split
              · split
                · exact good_error _ _ _
                · exact good_ok (by omega)
              · split
                · exact good_ok (by omega)
                · split
                  · exact good_ok (by omega)
                  · exact good_error _ _ _
      · intro value q hq
        have b1 := rem_advance_le q
        exact good_weaken (ih _ q.advance) (fun h => by omega) (by omega)

theorem parseVarDeclMultiBothStep_good {rec : Parsers} {n : Nat} (hrec : ParsersGood rec n)
    (type : VarType) (value : ASTNode) (identNames : List String) (p : Parser) :
    Good (6 * p.rem + 2 ≤ n + 1) (p.rem + 1)
      (parseVarDeclMultiBothStep rec type value identNames p) := by
  unfold parseVarDeclMultiBothStep
  split
  · exact good_error _ _ _
  · refine good_bind (multiBothLoop_good hrec type _ _ p) (fun h => by omega) ?_
    intro declarations q hq
    have b1 := rem_advance_le q
    split
    · exact good_error _ _ _
    · exact good_ok (by omega)

theorem parseVarDeclStep_good {rec : Parsers} {n : Nat} (hrec : ParsersGood rec n)
    (p : Parser) : Good (6 * p.rem + 4 ≤ n + 1) p.rem (parseVarDeclStep rec p) := by
  have a2 := rem_advance_le p.advance
  have a3 := rem_advance_le p.advance.advance
  have a4 := rem_advance_le p.advance.advance.advance
  unfold parseVarDeclStep
  split
  · exact good_error _ _ _
  next type htype =>
    have s : p.advance.rem < p.rem := by
      apply rem_advance_lt_ne
      intro heof
      rw [heof] at htype
      cases htype
    dsimp only
    split
    · exact good_error _ _ _
    · split
      · exact good_weaken (hrec.parseVarDeclMultiVariable _ _ _) (fun h => by omega) (by omega)
      · split
        · exact good_ok (by omega)
        · split
          · exact good_error _ _ _
          · refine good_bind (hrec.parseExpression _) (fun _ => by omega) ?_
            intro value q hq
            have b1 := rem_advance_le q
            split
            · exact good_error _ _ _
            · exact good_ok (by omega)

theorem assignmentTail_good {rec : Parsers} {n : Nat} (hrec : ParsersGood rec n)
    (name : String) (left : ASTNode) (p : Parser) :
    Good (6 * p.rem + 2 ≤ n) p.rem (assignmentTail rec name left p) := by
  unfold assignmentTail
  dsimp only
  split
  next hpost =>
    have s : p.advance.rem < p.rem := by
      rcases hpost with h | h
      · exact rem_advance_lt h (by decide)
      · exact rem_advance_lt h (by decide)
    exact good_ok s
  next =>
    split
    · exact good_error _ _ _
    next compound hc =>
      have s : p.advance.rem < p.rem := by
        apply rem_advance_lt_ne
        intro heof
        rw [heof] at hc
        cases hc
      refine good_bind (hrec.parseExpression _) (fun _ => by omega) ?_
      intro value q hq
      split
      · split
        · exact good_error _ _ _
        · exact good_ok (by omega)
      · exact good_ok (by omega)

theorem parseAssignmentStep_good {rec : Parsers} {n : Nat} (hrec : ParsersGood rec n)
    (p : Parser) : Good (6 * p.rem + 3 ≤ n + 1) p.rem (parseAssignmentStep rec p) := by
  have a1 := rem_advance_le p
  have a2 := rem_advance_le p.advance
  unfold parseAssignmentStep
  dsimp only
  split
  · refine good_bind (hrec.parseExpression _) (fun _ => by omega) ?_
    intro index q hq
    have b1 := rem_advance_le q
    split
    · exact good_error _ _ _
    · split
      · exact good_error _ _ _
      · exact good_weaken (assignmentTail_good hrec _ _ _) (fun h => by omega) (by omega)
  · exact good_weaken (assignmentTail_good hrec _ _ _) (fun h => by omega) (by omega)

theorem blockLoop_good {rec : Parsers} {n : Nat} (hrec : ParsersGood rec n) :
    ∀ (k : Nat) (statements : List ASTNode) (p : Parser),
      Good (6 * p.rem + 6 ≤ n ∧ p.rem < k) (p.rem + 1) (blockLoop rec k statements p) := by
  intro k
  induction k with
  | zero =>
    intro statements p
    unfold Good
    exact ⟨fun h => absurd h.2 (Nat.not_lt_zero _), fun _ _ h => (by simp [blockLoop] at h)⟩
  | succ k ih =>
    intro statements p
    rw [blockLoop]
    split
    · refine good_bind (hrec.parseStatement _) (fun h => h.1) ?_
      intro stmt q hq
      exact good_weaken (ih _ q) (fun h => by omega) (by omega)
    · exact good_ok (by omega)

theorem parseBlockStep_good {rec : Parsers} {n : Nat} (hrec : ParsersGood rec n)
    (p : Parser) : Good (6 * p.rem + 1 ≤ n + 1) p.rem (parseBlockStep (n + 1) rec p) := by
  unfold parseBlockStep
  split
  · exact good_error _ _ _
  next hbrace =>
    have s := rem_advance_lt (of_not_not hbrace) (by decide)
    refine good_bind (blockLoop_good hrec (n + 1) [] p.advance) (fun h => by omega) ?_
    intro statements q hq
    have b1 := rem_advance_le q
    exact good_ok (by omega)

theorem parseIfStatementStep_good {rec : Parsers} {n : Nat} (hrec : ParsersGood rec n)
    (p : Parser) : Good (6 * p.rem + 3 ≤ n + 1) p.rem (parseIfStatementStep rec p) := by
  have a1 := rem_advance_le p
  unfold parseIfStatementStep
  dsimp only
  split
  · exact good_error _ _ _
  next hparen =>
    have s := rem_advance_lt (of_not_not hparen) (by decide)
    refine good_bind (hrec.parseExpression _) (fun _ => by omega) ?_
    intro condition q hq
    have b1 := rem_advance_le q
    split
    · exact good_error _ _ _
    · split
      · exact good_error _ _ _
      · refine good_bind (hrec.parseBlock _) (fun _ => by omega) ?_
        intro thenBlock q2 hq2
        have c1 := rem_advance_le q2
        split
        · split
          · refine good_bind (hrec.parseIfStatement _) (fun _ => by omega) ?_
            intro elseBlock q3 hq3
            exact good_ok (by omega)
          · split
            · refine good_bind (hrec.parseBlock _) (fun _ => by omega) ?_
              intro elseBlock q3 hq3
              exact good_ok (by omega)
            · exact good_error _ _ _
        · exact good_ok (by omega)

theorem parseLoopStep_good {rec : Parsers} {n : Nat} (hrec : ParsersGood rec n)
    (p : Parser) : Good (6 * p.rem + 5 ≤ n + 1) p.rem (parseLoopStep rec p) := by
  have a1 := rem_advance_le p
  have a3 := rem_advance_le p.advance.advance
  have a4 := rem_advance_le p.advance.advance.advance
  unfold parseLoopStep
  dsimp only
  split
  · exact good_error _ _ _
  next hparen =>
    have s := rem_advance_lt (of_not_not hparen) (by decide)
    split
    · split
      · exact good_error _ _ _
      · split
        · exact good_error _ _ _
        · refine good_bind (hrec.parseExpression _) (fun _ => by omega) ?_
          intro collection q hq
          have b1 := rem_advance_le q
          split
          · exact good_error _ _ _
          · refine good_bind (hrec.parseBlock _) (fun _ => by omega) ?_
            intro body q2 hq2
            exact good_ok (by omega)
    · refine good_bind (b := p.advance.advance.rem + 1) ?_ (fun h => h) ?_
      · split
        · refine good_bind (hrec.parseVarDecl _) (fun _ => by omega) ?_
          intro d q hq
          exact good_ok (by omega)
        · split
          · refine good_bind (hrec.parseAssignment _) (fun _ => by omega) ?_
            intro a q hq
            exact good_ok (by omega)
          · exact good_ok (by omega)
      · intro init q hq
        have b1 := rem_advance_le q
        refine good_bind (b := q.rem + 1) ?_ (fun h => h) ?_
        · split
          · exact good_ok (by omega)
          · refine good_bind (hrec.parseExpression _) (fun _ => by omega) ?_
            intro c q2 hq2
            exact good_ok (by omega)
        · intro condition q2 hq2
          have c1 := rem_advance_le q2
          split
          · exact good_error _ _ _
          · refine good_bind (b := q2.advance.rem + 1) ?_ (fun h => h) ?_
            · split
              · exact good_ok (by omega)
              · refine good_bind (hrec.parseAssignment _) (fun _ => by omega) ?_
                intro a q3 hq3
                exact good_ok (by omega)
            · intro update q3 hq3
              have d1 := rem_advance_le q3
              split
              · exact good_error _ _ _
              · refine good_bind (hrec.parseBlock _) (fun _ => by omega) ?_
                intro body q4 hq4
                exact good_ok (by omega)

theorem catchHeader_good (enough : Prop) (braceMsg : String) (p : Parser) :
    Good enough (p.rem + 1) (catchHeader braceMsg p) := by
  have a1 := rem_advance_le p
  have a2 := rem_advance_le p.advance
  have a3 := rem_advance_le p.advance.advance
  have a4 := rem_advance_le p.advance.advance.advance
  have a5 := rem_advance_le p.advance.advance.advance.advance
  unfold catchHeader
  dsimp only
  split
  · exact good_error _ _ _
  · split
    · exact good_error _ _ _
    · split
      · exact good_error _ _ _
      · split
        · exact good_error _ _ _
        · split
          · exact good_error _ _ _
          · split
            · exact good_error _ _ _
            · exact good_ok (by omega)

theorem parseTryCatchStep_good {rec : Parsers} {n : Nat} (hrec : ParsersGood rec n)
    (p : Parser) : Good (6 * p.rem + 2 ≤ n + 1) (p.rem + 1) (parseTryCatchStep rec p) := by
  have a1 := rem_advance_le p
  unfold parseTryCatchStep
  dsimp only
  split
  · exact good_error _ _ _
  · refine good_bind (hrec.parseBlock _) (fun _ => by omega) ?_
    intro tryBlock q hq
    refine good_bind (catchHeader_good _ _ q) (fun h => h) ?_
    intro errorVar q2 hq2
    refine good_bind (hrec.parseBlock _) (fun _ => by omega) ?_
    intro catchBlock q3 hq3
    exact good_ok (by omega)

theorem matchLoop_good {rec : Parsers} {n : Nat} (hrec : ParsersGood rec n) :
    ∀ (k : Nat) (cases : List (Option ASTNode × ASTNode)) (hasDefault : Bool) (p : Parser),
      Good (6 * p.rem + 2 ≤ n ∧ p.rem < k) (p.rem + 1)
        (matchLoop rec k cases hasDefault p) := by
  intro k
  induction k with
  | zero =>
    intro cases hasDefault p
    unfold Good
    exact ⟨fun h => absurd h.2 (Nat.not_lt_zero _), fun _ _ h => (by simp [matchLoop] at h)⟩
  | succ k ih =>
    intro cases hasDefault p
    rw [matchLoop]
    dsimp only
    split
    · refine good_bind (b := p.rem) ?_ (fun h => h) ?_
      · split
        next hu =>
          split
          · exact good_error _ _ _
          · exact good_ok (rem_advance_lt hu (by decide))
        next =>
          refine good_bind (hrec.parseExpression _) (fun h => h.1) ?_
          intro v q hq
          exact good_ok hq
      · intro vh q hq
        have b1 := rem_advance_le q
        split
        · exact good_error _ _ _
        · refine good_bind (b := q.advance.rem) ?_ (fun h => h) ?_
          · split
            · refine good_bind (hrec.parseBlock _) (fun h => by omega) ?_
              intro block q2 hq2
              exact good_ok hq2
            · exact good_weaken (hrec.parseStatement _) (fun h => by omega) (le_refl _)
          · intro body q2 hq2
            have c1 := rem_advance_le q2
            split
            · exact good_weaken (ih _ _ q2.advance) (fun h => by omega) (by omega)
            · exact good_weaken (ih _ _ q2) (fun h => by omega) (by omega)
    · exact good_ok (by omega)

theorem parseMatchStep_good {rec : Parsers} {n : Nat} (hrec : ParsersGood rec n)
    (p : Parser) : Good (6 * p.rem + 3 ≤ n + 1) p.rem (parseMatchStep (n + 1) rec p) := by
  have a1 := rem_advance_le p
  unfold parseMatchStep
  dsimp only
  refine good_bind (hrec.parseExpression _) (fun _ => by omega) ?_
  intro expr q hq
  have b1 := rem_advance_le q
  split
  · exact good_error _ _ _
  · refine good_bind (matchLoop_good hrec (n + 1) [] false q.advance) (fun h => by omega) ?_
    intro cases q2 hq2
    have c1 := rem_advance_le q2
    split
    · exact good_error _ _ _
    · exact good_ok (by omega)

theorem parseStatementStep_good {rec : Parsers} {n : Nat} (hrec : ParsersGood rec n)
    (p : Parser) : Good (6 * p.rem + 6 ≤ n + 1) p.rem (parseStatementStep rec p) := by
  have a2 := rem_advance_le p.advance
  unfold parseStatementStep
  dsimp only
  split
  · exact good_weaken (hrec.parseVarDecl p) (fun h => by omega) (le_refl _)
  · split
    · refine good_bind (hrec.parseAssignment p) (fun h => by omega) ?_
      intro tempreturn q hq
      have b1 := rem_advance_le q
      split
      · exact good_error _ _ _
      · exact good_ok (by omega)
    · split
      · exact good_weaken (hrec.parseIfStatement p) (fun h => by omega) (le_refl _)
      · split
        next hprint =>
          have s := rem_advance_lt hprint (by decide)
          split
          · exact good_error _ _ _
          · refine good_bind (hrec.parseExpression _) (fun h => by omega) ?_
            intro expr q hq
            have b1 := rem_advance_le q
            have b2 := rem_advance_le q.advance
            split
            · exact good_error _ _ _
            · split
              · exact good_error _ _ _
              · exact good_ok (by omega)
        next =>
          split
          · exact good_weaken (hrec.parseLoop p) (fun h => by omega) (le_refl _)
          · split
            next htry =>
              have s := rem_advance_lt htry (by decide)
              split
              · exact good_error _ _ _
              · refine good_bind (hrec.parseBlock _) (fun _ => by omega) ?_
                intro tryBlock q hq
                refine good_bind (catchHeader_good _ _ q) (fun h => h) ?_
                intro errorVar q2 hq2
                refine good_bind (hrec.parseBlock _) (fun _ => by omega) ?_
                intro catchBlock q3 hq3
                exact good_ok (by omega)
            next =>
              split
              · exact good_weaken (hrec.parseMatch p) (fun h => by omega) (le_refl _)
              · exact good_error _ _ _

theorem good_outOfFuel {α : Type} {enough : Prop} (bound : Nat) (h : ¬ enough) :
    Good enough bound (.outOfFuel : Result α) := by
  unfold Good
  exact ⟨fun he => absurd he h, fun _ _ hr => (by cases hr)⟩

/-- Every parsing function, at every fuel, satisfies `Good`. -/
theorem parsers_good (uninit : BinaryOp) : ∀ n : Nat, ParsersGood (parsers uninit n) n := by
  intro n
  induction n with
  | zero =>
    exact
      { parseStatement := fun _ => good_outOfFuel _ (by omega)
        parseVarDecl := fun _ => good_outOfFuel _ (by omega)
        parseExpression := fun _ => good_outOfFuel _ (by omega)
        parsePrimary := fun _ => good_outOfFuel _ (by omega)
        parseVarDeclMultiVariable := fun _ _ _ => good_outOfFuel _ (by omega)
        parseVarDeclMultiBoth := fun _ _ _ _ => good_outOfFuel _ (by omega)
        parseAssignment := fun _ => good_outOfFuel _ (by omega)
        parseIfStatement := fun _ => good_outOfFuel _ (by omega)
        parseBlock := fun _ => good_outOfFuel _ (by omega)
        parseLoop := fun _ => good_outOfFuel _ (by omega)
        parseTryCatch := fun _ => good_outOfFuel _ (by omega)
        parseTernary := fun _ _ => good_outOfFuel _ (by omega)
        parseMatch := fun _ => good_outOfFuel _ (by omega) }
  | succ n ih =>
    exact
      { parseStatement := parseStatementStep_good ih
        parseVarDecl := parseVarDeclStep_good ih
        parseExpression := parseExpressionStep_good uninit ih
        parsePrimary := parsePrimaryStep_good ih
        parseVarDeclMultiVariable := parseVarDeclMultiVariableStep_good ih
        parseVarDeclMultiBoth := parseVarDeclMultiBothStep_good ih
        parseAssignment := parseAssignmentStep_good ih
        parseIfStatement := parseIfStatementStep_good ih
        parseBlock := parseBlockStep_good ih
        parseLoop := parseLoopStep_good ih
        parseTryCatch := parseTryCatchStep_good ih
        parseTernary := parseTernaryStep_good ih
        parseMatch := parseMatchStep_good ih }

theorem programLoop_good (uninit : BinaryOp) (n : Nat) :
    ∀ (k : Nat) (statements : List ASTNode) (p : Parser),
      Good (6 * p.rem + 6 ≤ n ∧ p.rem < k) (p.rem + 1)
        (programLoop (parseStatement uninit n) k statements p) := by
  intro k
  induction k with
  | zero =>
    intro statements p
    exact good_outOfFuel _ (fun h => Nat.not_lt_zero _ h.2)
  | succ k ih =>
    intro statements p
    rw [programLoop]
    split
    · refine good_bind ((parsers_good uninit n).parseStatement p) (fun h => h.1) ?_
      intro stmt q hq
      exact good_weaken (ih _ q) (fun h => by omega) (by omega)
    · exact good_ok (by omega)

theorem parseProgram_good (uninit : BinaryOp) (fuel : Nat) (p : Parser) :
    Good (6 * p.rem + 7 ≤ fuel) (p.rem + 1) (parseProgram uninit fuel p) := by
  cases fuel with
  | zero => exact good_outOfFuel _ (by omega)
  | succ n =>
    rw [parseProgram]
    refine good_bind (programLoop_good uninit n (n + 1) [] p) (fun h => by omega) ?_
    intro statements q hq
    exact good_ok hq

theorem rem_ofTokens_le (ts : List Token) : (Parser.ofTokens ts).rem ≤ ts.length := by
  cases ts with
  | nil => decide
  | cons a rest =>
    cases rest with
    | nil =>
      by_cases h : a.type = .Eof <;>
        simp [Parser.ofTokens, Parser.new, Parser.rem, Lexer.nextToken, eofToken, h]
    | cons b rest =>
      simp only [Parser.ofTokens, Parser.new, Parser.rem, Lexer.nextToken, List.length_cons]
      split <;> split <;> omega

theorem blockLoop_at_end (uninit : BinaryOp) (n k : Nat) (statements : List ASTNode)
    (p : Parser) (h : p.currentToken.type = .Eof) :
    blockLoop (parsers uninit (n + 1)) (k + 1) statements p =
      .error "Unexpected token in statement" := by
  have hs : (parsers uninit (n + 1)).parseStatement p = .error "Unexpected token in statement" := by
    show parseStatementStep (parsers uninit n) p = _
    simp [parseStatementStep, h]
  rw [blockLoop]
  simp [h, hs]

theorem matchLoop_at_end (rec : Parsers) (k : Nat) (acc : List (Option ASTNode × ASTNode))
    (hasDefault : Bool) (p : Parser) (h : p.currentToken.type = .Eof) :
    matchLoop rec (k + 1) acc hasDefault p = .ok acc p := by
  rw [matchLoop]
  simp [h]

/-- C38. Progress and termination of the parser.  Whenever `parseStatement`,
`parseExpression` or `parsePrimary` returns a node, fewer tokens are left to be
consumed than before the call.  `parseProgram` therefore terminates: on every
parser state, and so on every list of tokens followed by the end marker, it
does not run out of fuel once the fuel is seven more than six times the number
of tokens, but returns a program or fails.  The statement loop of a block that
reaches the end marker fails, the case loop of a `match` that reaches it stops,
and `parseMatch` then fails for the missing `}`: `if ( c ) { x = 1 ;` and
`match x { 1 -> print(1);` are rejected. -/
theorem parser_progress_and_termination (uninit : BinaryOp) :
    (∀ (n : Nat) (p q : Parser) (node : ASTNode),
      parseStatement uninit n p = .ok node q ∨ parseExpression uninit n p = .ok node q ∨
        parsePrimary uninit n p = .ok node q →
      q.rem < p.rem) ∧
    (∀ (fuel : Nat) (p : Parser), 6 * p.rem + 7 ≤ fuel →
      (∃ program q, parseProgram uninit fuel p = .ok program q) ∨
        ∃ msg, parseProgram uninit fuel p = .error msg) ∧
    (∀ (fuel : Nat) (ts : List Token), 6 * ts.length + 7 ≤ fuel →
      parseProgram uninit fuel (Parser.ofTokens ts) ≠ .outOfFuel) ∧
    (∀ (n k : Nat) (statements : List ASTNode) (p : Parser), p.currentToken.type = .Eof →
      blockLoop (parsers uninit (n + 1)) (k + 1) statements p =
        .error "Unexpected token in statement") ∧
    (∀ (rec : Parsers) (k : Nat) (acc : List (Option ASTNode × ASTNode)) (hasDefault : Bool)
      (p : Parser), p.currentToken.type = .Eof →
      matchLoop rec (k + 1) acc hasDefault p = .ok acc p) ∧
    parseProgram uninit 8 (Parser.ofTokens unclosedBlock) =
      .error "Unexpected token in statement" ∧
    parseProgram uninit 8 (Parser.ofTokens unclosedMatch) =
      .error (atLine "Expected '\x7d' to close match at line " (Parser.ofTokens [])) := by
  have hterm : ∀ (fuel : Nat) (p : Parser), 6 * p.rem + 7 ≤ fuel →
      parseProgram uninit fuel p ≠ .outOfFuel :=
    fun fuel p h => (parseProgram_good uninit fuel p).1 h
  refine ⟨?_, ?_, ?_, blockLoop_at_end uninit, matchLoop_at_end, rfl, rfl⟩
  · intro n p q node h
    rcases h with h | h | h
    · exact ((parsers_good uninit n).parseStatement p).2 node q h
    · exact ((parsers_good uninit n).parseExpression p).2 node q h
    · exact ((parsers_good uninit n).parsePrimary p).2 node q h
  · intro fuel p h
    cases hr : parseProgram uninit fuel p with
    | ok program q => exact .inl ⟨program, q, rfl⟩
    | error msg => exact .inr ⟨msg, rfl⟩
    | outOfFuel => exact absurd hr (hterm fuel p h)
  · intro fuel ts h
    exact hterm fuel _ (by have := rem_ofTokens_le ts; omega)

/-- C38 at `int x ; x = 1 ;`: the first statement leaves fewer tokens than the
seven it found, and with fuel 49 `parseProgram` does not run out of fuel. -/
theorem parser_progress_and_termination_witness :
    (Parser.ofTokens (declThenAssignTokens.drop 3)).rem <
      (Parser.ofTokens declThenAssignTokens).rem ∧
    parseProgram .ADD 49 (Parser.ofTokens declThenAssignTokens) ≠ .outOfFuel :=
  ⟨(parser_progress_and_termination .ADD).1 3 (Parser.ofTokens declThenAssignTokens)
      (Parser.ofTokens (declThenAssignTokens.drop 3)) (.VarDeclNode .INT "x" none) (.inl rfl),
    (parser_progress_and_termination .ADD).2.2.1 49 declThenAssignTokens
      (by unfold declThenAssignTokens; decide)⟩

end Compiler
